import Mathlib

/-!
# Omni simulator: topology, routing algorithms and the cycle engine

A shallow embedding of the C++ sources (`network/`, `routing/`, `simulator/`).

Conventions of the embedding:
* a `Node*` is modelled by the node value itself: inside one topology every node has
  its own coordinates, so pointer equality is equality of values;
* a `Link*` is modelled by the index of the link in the `links` vector of the topology;
  the `links` vector of every node (filled by `Node::addLink`) is a list of such indices;
* `int` values are unbounded integers; hypercube node ids are natural numbers.
-/

namespace OmniSim

/-! ## Nodes and links -/

/-- The `enum class Direction` of `link.h`. -/
inductive Direction where
  | POSITIVE_X
  | NEGATIVE_X
  | POSITIVE_Y
  | NEGATIVE_Y
  | POSITIVE_Z
  | NEGATIVE_Z
deriving DecidableEq

/-- Modelled from the spec: `network/virtual_channel.h` is not among the sources. The spec
names two channel classes, adaptive and deterministic. -/
inductive VirtualChannel where
  | ADAPTIVE
  | DETERMINISTIC
deriving DecidableEq

/-- The data members `id`, `x`, `y` of class `Node`. -/
structure Node where
  id : Int
  x : Int
  y : Int
deriving DecidableEq

/-- Constructor `Node::Node(int id)`. -/
def Node.ofId (id : Int) : Node := ⟨id, 0, 0⟩

/-- Constructor `Node::Node(int x, int y)`. -/
def Node.ofXY (x y : Int) : Node := ⟨x * 100 + y, x, y⟩

/-- The data members of class `Link`; `N` is the type of node references. -/
structure Link (N : Type) where
  sourceNode : N
  destinationNode : N
  direction : Direction
  adaptiveChannelOccupied : Bool
  deterministicChannelOccupied : Bool
deriving DecidableEq

/-- Constructor `Link::Link(source, destination, direction)`: both channels start free. -/
def Link.new {N : Type} (source destination : N) (direction : Direction) : Link N :=
  ⟨source, destination, direction, false, false⟩

/-- `Link::getNodeA`. -/
def Link.getNodeA {N : Type} (l : Link N) : N := l.sourceNode

/-- `Link::getNodeB`. -/
def Link.getNodeB {N : Type} (l : Link N) : N := l.destinationNode

/-- `Link::canTransmit`. -/
def Link.canTransmit {N : Type} (l : Link N) : VirtualChannel → Bool
  | VirtualChannel.ADAPTIVE => !l.adaptiveChannelOccupied
  | VirtualChannel.DETERMINISTIC => !l.deterministicChannelOccupied

/-- `Link::isVirtualChannelFree`, called with `static_cast<int>(vc)`. -/
def Link.isVirtualChannelFree {N : Type} (l : Link N) (vc : VirtualChannel) : Bool :=
  l.canTransmit vc

/-- The `links` vector of a topology together with the `links` vector of every node.
A link reference is an index into `links`. -/
structure LinkTable (N : Type) where
  links : List (Link N)
  nodeLinks : N → List Nat

/-- A table without links. -/
def LinkTable.empty {N : Type} : LinkTable N := ⟨[], fun _ => []⟩

/-- `Node::addLink` on node `n`. -/
def LinkTable.addLink {N : Type} [DecidableEq N] (nodeLinks : N → List Nat) (n : N)
    (idx : Nat) : N → List Nat :=
  fun m => if m = n then nodeLinks m ++ [idx] else nodeLinks m

/-- The statement group shared by both topology builders:
`link = new Link(a, b, dir); links.push_back(link); a->addLink(link); b->addLink(link);`. -/
def LinkTable.pushLink {N : Type} [DecidableEq N] (t : LinkTable N) (a b : N)
    (dir : Direction) : LinkTable N :=
  { links := t.links ++ [Link.new a b dir],
    nodeLinks := LinkTable.addLink (LinkTable.addLink t.nodeLinks a t.links.length) b
      t.links.length }

/-- Overwrite the occupancy flags of every link: link `i` gets the flags `occ i`
(adaptive flag first). Endpoints, directions and the node link vectors are unchanged. -/
def LinkTable.withOccupancy {N : Type} (t : LinkTable N) (occ : Nat → Bool × Bool) :
    LinkTable N :=
  { links := t.links.mapIdx (fun i l =>
      { l with adaptiveChannelOccupied := (occ i).1,
               deterministicChannelOccupied := (occ i).2 }),
    nodeLinks := t.nodeLinks }

/-! ## Hypercube topology -/

/-- Class `HypercubeNode`: a `Node` built by `Node(int id)` with its coordinate vector. -/
structure HypercubeNode extends Node where
  coordinates : List Nat
  dimension : Nat
deriving DecidableEq

/-- Class `HypercubeNetwork` (the mesh part of its base class is built with size 0 x 0). -/
structure HypercubeNetwork where
  dimension : Nat
  totalNodes : Nat
  hypercubeNodes : List HypercubeNode
  table : LinkTable HypercubeNode

/-- `HypercubeNetwork::getCoordinates`. -/
def HypercubeNetwork.getCoordinates (dimension nodeId : Nat) : List Nat :=
  (List.range dimension).map (fun i => (nodeId >>> i) &&& 1)

/-- Constructor `HypercubeNetwork::HypercubeNetwork(int dimension)`. -/
def HypercubeNetwork.new (dimension : Nat) : HypercubeNetwork :=
  { dimension := dimension, totalNodes := 2 ^ dimension, hypercubeNodes := [],
    table := LinkTable.empty }

/-- The node object `new HypercubeNode(nodeId, coordinates, dimension)`. -/
def HypercubeNetwork.newNode (dimension nodeId : Nat) : HypercubeNode :=
  { toNode := Node.ofId (nodeId : Int),
    coordinates := HypercubeNetwork.getCoordinates dimension nodeId,
    dimension := dimension }

/-- `HypercubeNetwork::createHypercubeNodes`. -/
def HypercubeNetwork.createHypercubeNodes (net : HypercubeNetwork) : HypercubeNetwork :=
  { net with hypercubeNodes :=
      (List.range net.totalNodes).map (HypercubeNetwork.newNode net.dimension) }

/-- The `switch (dim % 4)` of `createHypercubeLinks`. -/
def HypercubeNetwork.linkDirection (dim : Nat) : Direction :=
  match dim % 4 with
  | 0 => Direction.POSITIVE_X
  | 1 => Direction.POSITIVE_Y
  | 2 => Direction.NEGATIVE_X
  | 3 => Direction.NEGATIVE_Y
  | _ => Direction.POSITIVE_X

/-- Body of the inner loop of `createHypercubeLinks` for one `(nodeId, dim)`. -/
def HypercubeNetwork.linkStep (nodes : List HypercubeNode) (t : LinkTable HypercubeNode)
    (nodeId dim : Nat) : LinkTable HypercubeNode :=
  let neighborId := nodeId ^^^ (1 <<< dim)
  if neighborId > nodeId then
    match nodes[nodeId]?, nodes[neighborId]? with
    | some currentNode, some neighborNode =>
        t.pushLink currentNode neighborNode (HypercubeNetwork.linkDirection dim)
    | _, _ => t
  else t

/-- `HypercubeNetwork::createHypercubeLinks`. -/
def HypercubeNetwork.createHypercubeLinks (net : HypercubeNetwork) : HypercubeNetwork :=
  let table := (List.range net.totalNodes).foldl
    (fun t nodeId =>
      (List.range net.dimension).foldl
        (fun t dim => HypercubeNetwork.linkStep net.hypercubeNodes t nodeId dim) t)
    net.table
  { net with table := table }

/-- `HypercubeNetwork::initializeTopology`. -/
def HypercubeNetwork.initializeTopology (net : HypercubeNetwork) : HypercubeNetwork :=
  net.createHypercubeNodes.createHypercubeLinks

/-- `HypercubeNetwork::getHypercubeNode`. -/
def HypercubeNetwork.getHypercubeNode (net : HypercubeNetwork) (nodeId : Int) :
    Option HypercubeNode :=
  if nodeId ≥ 0 ∧ nodeId < (net.totalNodes : Int) then net.hypercubeNodes[nodeId.toNat]?
  else none

/-- `HypercubeNode::isNeighborInDimension`. -/
def HypercubeNode.isNeighborInDimension (self other : HypercubeNode) (dim : Int) : Bool :=
  if dim < 0 ∨ dim ≥ (self.dimension : Int) then false
  else if self.coordinates.length ≠ other.coordinates.length then false
  else (List.range self.dimension).all (fun i =>
    if (i : Int) = dim then decide (self.coordinates.getD i 0 ≠ other.coordinates.getD i 0)
    else decide (self.coordinates.getD i 0 = other.coordinates.getD i 0))

/-- The body of the loop of `getNeighborInDimension` for one link: the node at the other
end when it is the neighbour in dimension `dim`. -/
def HypercubeNode.neighborVia (self : HypercubeNode) (dim : Int)
    (link : Link HypercubeNode) : Option HypercubeNode :=
  let otherNode : Option HypercubeNode :=
    if link.sourceNode = self then some link.destinationNode
    else if link.destinationNode = self then some link.sourceNode
    else none
  match otherNode with
  | none => none
  | some otherHyperNode =>
      if self.isNeighborInDimension otherHyperNode dim then some otherHyperNode else none

/-- `HypercubeNode::getNeighborInDimension`, the links of the node being read from the
table of the topology. -/
def HypercubeNode.getNeighborInDimension (t : LinkTable HypercubeNode) (self : HypercubeNode)
    (dim : Int) : Option HypercubeNode :=
  if dim < 0 ∨ dim ≥ (self.dimension : Int) then none
  else (t.nodeLinks self).findSome? (fun idx =>
    match t.links[idx]? with
    | none => none
    | some link => self.neighborVia dim link)

/-! ## Routing results -/

/-- The `struct RoutingResult`; the two delay fields are held as exact rationals. -/
structure RoutingResult (N : Type) where
  success : Bool
  path : List N
  hopCount : Int
  delay : ℚ
  totalDelay : ℚ

/-- Constructor `RoutingResult()`. -/
def RoutingResult.new {N : Type} : RoutingResult N :=
  { success := false, path := [], hopCount := 0, delay := 0, totalDelay := 0 }

/-! ## E-cube routing on the hypercube -/

/-- `EcubeRouting::calculateRouteDelay`. -/
def EcubeRouting.calculateRouteDelay {N : Type} (path : List N) : ℚ :=
  if path.length < 2 then 0
  else ((path.length - 1 : Nat) : ℚ) * 1 + ((path.length - 1 : Nat) : ℚ) * (1 / 2)

/-- The `for` loop inside the `while` of `calculatePath`: the neighbour along the first
dimension in which the two coordinate vectors differ. -/
def EcubeRouting.nextOnPath (t : LinkTable HypercubeNode) (currentHyper : HypercubeNode)
    (destCoords : List Nat) : Option HypercubeNode :=
  let currentCoords := currentHyper.coordinates
  match (List.range currentCoords.length).find?
      (fun dim => decide (currentCoords.getD dim 0 ≠ destCoords.getD dim 0)) with
  | none => none
  | some dim => currentHyper.getNeighborInDimension t (dim : Int)

/-- The `while (current != destination)` loop of `calculatePath`. The first argument bounds
the number of iterations; `none` means the bound was reached before the loop ended. -/
def EcubeRouting.calculatePathLoop (t : LinkTable HypercubeNode)
    (destination : HypercubeNode) :
    Nat → HypercubeNode → List HypercubeNode → Option (List HypercubeNode)
  | 0, current, path => if current = destination then some path else none
  | fuel + 1, current, path =>
      if current = destination then some path
      else
        match EcubeRouting.nextOnPath t current destination.coordinates with
        | none => some path
        | some next =>
            if next = current then some path
            else EcubeRouting.calculatePathLoop t destination fuel next (path ++ [next])

/-- `EcubeRouting::calculatePath` for two hypercube nodes. -/
def EcubeRouting.calculatePath (net : HypercubeNetwork) (fuel : Nat)
    (source destination : HypercubeNode) : Option (List HypercubeNode) :=
  EcubeRouting.calculatePathLoop net.table destination fuel source [source]

/-- `EcubeRouting::routeMessageWithStats` for two hypercube nodes. -/
def EcubeRouting.routeMessageWithStats (net : HypercubeNetwork) (fuel : Nat)
    (source destination : HypercubeNode) : Option (RoutingResult HypercubeNode) :=
  match EcubeRouting.calculatePath net fuel source destination with
  | none => none
  | some path =>
      some { success := !path.isEmpty,
             path := path,
             hopCount := (path.length : Int) - 1,
             delay := (((path.length : Int) - 1 : Int) : ℚ),
             totalDelay := EcubeRouting.calculateRouteDelay path }

/-! ## Duato protocol on the hypercube -/

/-- The part of class `Config` read by the routing algorithms. -/
structure Config where
  dimensionPriorities : List Nat
  linkLatency : ℚ

/-- `DuatoHypercubeProtocol::needsRoutingInDimension`. -/
def DuatoHypercubeProtocol.needsRoutingInDimension (current destination : HypercubeNode)
    (dimension : Nat) : Bool :=
  if dimension ≥ current.coordinates.length ∨ dimension ≥ destination.coordinates.length then
    false
  else decide (current.coordinates.getD dimension 0 ≠ destination.coordinates.getD dimension 0)

/-- `DuatoHypercubeProtocol::wouldCreateCycle`. -/
def DuatoHypercubeProtocol.wouldCreateCycle (_current : HypercubeNode) (_dimension : Int)
    (vc : VirtualChannel) : Bool :=
  if vc = VirtualChannel.DETERMINISTIC then false else false

/-- `DuatoHypercubeProtocol::canUseAdaptiveChannel`. -/
def DuatoHypercubeProtocol.canUseAdaptiveChannel (current : HypercubeNode) (targetDim : Int)
    (destination : HypercubeNode) : Bool :=
  if targetDim ≥ 0 ∧
      !DuatoHypercubeProtocol.needsRoutingInDimension current destination targetDim.toNat then
    false
  else !DuatoHypercubeProtocol.wouldCreateCycle current targetDim VirtualChannel.ADAPTIVE

/-- `DuatoHypercubeProtocol::getDeterministicDimensionOrder`. -/
def DuatoHypercubeProtocol.getDeterministicDimensionOrder (net : HypercubeNetwork)
    (config : Option Config) : List Nat :=
  let order : List Nat :=
    match config with
    | some c => c.dimensionPriorities
    | none => []
  if order.isEmpty then List.range net.dimension else order

/-- `DuatoHypercubeProtocol::selectAdaptiveDimension`. -/
def DuatoHypercubeProtocol.selectAdaptiveDimension (net : HypercubeNetwork)
    (current destination : HypercubeNode) : Int :=
  let validDimensions := (List.range net.dimension).filter
    (fun dim => DuatoHypercubeProtocol.needsRoutingInDimension current destination dim)
  match validDimensions with
  | [] => -1
  | dim :: _ => (dim : Int)

/-- `DuatoHypercubeProtocol::selectNextDimension`. -/
def DuatoHypercubeProtocol.selectNextDimension (net : HypercubeNetwork)
    (config : Option Config) (current destination : HypercubeNode) : Int :=
  let dimensionPriorities := DuatoHypercubeProtocol.getDeterministicDimensionOrder net config
  if DuatoHypercubeProtocol.canUseAdaptiveChannel current (-1) destination then
    DuatoHypercubeProtocol.selectAdaptiveDimension net current destination
  else
    match dimensionPriorities.find?
        (fun dim => DuatoHypercubeProtocol.needsRoutingInDimension current destination dim) with
    | some dim => (dim : Int)
    | none => -1

/-- `DuatoHypercubeProtocol::selectVirtualChannel`. -/
def DuatoHypercubeProtocol.selectVirtualChannel (current : HypercubeNode) (dimension : Int)
    (destination : HypercubeNode) : VirtualChannel :=
  if DuatoHypercubeProtocol.canUseAdaptiveChannel current dimension destination then
    VirtualChannel.ADAPTIVE
  else VirtualChannel.DETERMINISTIC

/-- `DuatoHypercubeProtocol::isVirtualChannelAvailable`. -/
def DuatoHypercubeProtocol.isVirtualChannelAvailable (_source _target : HypercubeNode)
    (_vc : VirtualChannel) : Bool := true

/-- The statements after the `while` loop of `routeMessageWithStats`. -/
def DuatoHypercubeProtocol.finish (currentNode destNode : HypercubeNode)
    (result : RoutingResult HypercubeNode) : RoutingResult HypercubeNode :=
  if currentNode = destNode then
    { result with success := true, totalDelay := EcubeRouting.calculateRouteDelay result.path }
  else result

/-- The `while (currentNode != destNode)` loop of `routeMessageWithStats` followed by the
statements after it. The first argument bounds the number of iterations; `none` means the
bound was reached before the loop ended. -/
def DuatoHypercubeProtocol.routeLoop (net : HypercubeNetwork) (config : Option Config)
    (destNode : HypercubeNode) :
    Nat → HypercubeNode → RoutingResult HypercubeNode → Option (RoutingResult HypercubeNode)
  | 0, currentNode, result =>
      if currentNode = destNode then
        some (DuatoHypercubeProtocol.finish currentNode destNode result)
      else none
  | fuel + 1, currentNode, result =>
      if currentNode = destNode then
        some (DuatoHypercubeProtocol.finish currentNode destNode result)
      else
        let nextDim := DuatoHypercubeProtocol.selectNextDimension net config currentNode destNode
        if nextDim = -1 then some (DuatoHypercubeProtocol.finish currentNode destNode result)
        else
          let vc := DuatoHypercubeProtocol.selectVirtualChannel currentNode nextDim destNode
          match currentNode.getNeighborInDimension net.table nextDim with
          | none => some result
          | some nextNode =>
              if !DuatoHypercubeProtocol.isVirtualChannelAvailable currentNode nextNode vc
                  && (vc ≠ VirtualChannel.ADAPTIVE
                    || !DuatoHypercubeProtocol.isVirtualChannelAvailable currentNode nextNode
                        VirtualChannel.DETERMINISTIC) then
                some result
              else
                let result := { result with path := result.path ++ [nextNode],
                                            hopCount := result.hopCount + 1 }
                if result.hopCount > (net.dimension : Int) then some result
                else DuatoHypercubeProtocol.routeLoop net config destNode fuel nextNode result

/-- `DuatoHypercubeProtocol::routeMessageWithStats` for two hypercube nodes. -/
def DuatoHypercubeProtocol.routeMessageWithStats (net : HypercubeNetwork)
    (config : Option Config) (fuel : Nat) (source destination : HypercubeNode) :
    Option (RoutingResult HypercubeNode) :=
  DuatoHypercubeProtocol.routeLoop net config destination fuel source
    { (RoutingResult.new : RoutingResult HypercubeNode) with path := [source] }

/-! ## Bit counting -/

/-- Number of bit positions at which `x` has a one. Every such position is below `x`
itself, because `x < 2 ^ x`. -/
def popcount (x : Nat) : Nat :=
  ((List.range x).filter (fun i => x.testBit i)).length

/-! ## Mesh topology -/

/-- Class `Network` (2D mesh). -/
structure Network where
  width : Nat
  height : Nat
  nodes : List (List Node)
  table : LinkTable Node

/-- `Network::createNodes`: row `y` holds the nodes `Node(x, y)`. -/
def Network.createNodes (net : Network) : Network :=
  { net with nodes := (List.range net.height).map (fun (y : Nat) =>
      (List.range net.width).map (fun (x : Nat) => Node.ofXY (x : Int) (y : Int))) }

/-- `Network::getNode`. -/
def Network.getNode (net : Network) (x y : Int) : Option Node :=
  if x ≥ 0 ∧ x < (net.width : Int) ∧ y ≥ 0 ∧ y < (net.height : Int) then
    match net.nodes[y.toNat]? with
    | some row => row[x.toNat]?
    | none => none
  else none

/-- Body of the inner loop of `Network::createLinks` for the cell `(i, j)`. -/
def Network.linkStep (net : Network) (t : LinkTable Node) (i j : Nat) : LinkTable Node :=
  match net.getNode (i : Int) (j : Int) with
  | none => t
  | some currentNode =>
      let t1 :=
        if (i : Int) < (net.width : Int) - 1 then
          match net.getNode ((i : Int) + 1) (j : Int) with
          | some rightNode => t.pushLink currentNode rightNode Direction.POSITIVE_X
          | none => t
        else t
      if (j : Int) < (net.height : Int) - 1 then
        match net.getNode (i : Int) ((j : Int) + 1) with
        | some downNode => t1.pushLink currentNode downNode Direction.POSITIVE_Y
        | none => t1
      else t1

/-- `Network::createLinks`. -/
def Network.createLinks (net : Network) : Network :=
  let table := (List.range net.width).foldl
    (fun t i => (List.range net.height).foldl (fun t j => net.linkStep t i j) t)
    net.table
  { net with table := table }

/-- The member initializers of `Network::Network(int width, int height)`. -/
def Network.blank (width height : Nat) : Network :=
  { width := width, height := height, nodes := [], table := LinkTable.empty }

/-- Constructor `Network::Network(int width, int height)`. -/
def Network.new (width height : Nat) : Network :=
  (Network.blank width height).createNodes.createLinks

/-- The same mesh with the occupancy flags of link `i` set to `occ i`. -/
def Network.withOccupancy (net : Network) (occ : Nat → Bool × Bool) : Network :=
  { net with table := net.table.withOccupancy occ }

/-! ## Duato protocol on the mesh -/

/-- `INT_MAX` of `<climits>` for a 32 bit `int`. -/
def INT_MAX : Int := 2147483647

/-- `DuatoProtocol::calculateManhattanDistance`. -/
def DuatoProtocol.calculateManhattanDistance (source target : Node) : Int :=
  ((source.x - target.x).natAbs : Int) + ((source.y - target.y).natAbs : Int)

/-- `DuatoProtocol::isMinimalRoute`. -/
def DuatoProtocol.isMinimalRoute (current next destination : Node) : Bool :=
  let currentDistance := DuatoProtocol.calculateManhattanDistance current destination
  let nextDistance := DuatoProtocol.calculateManhattanDistance next destination
  decide (nextDistance < currentDistance)

/-- The expression `(link->getNodeA() == current) ? link->getNodeB() : link->getNodeA()`. -/
def Link.otherEnd (link : Link Node) (current : Node) : Node :=
  if link.getNodeA = current then link.getNodeB else link.getNodeA

/-- `DuatoProtocol::getPossibleRoutes`; the result lists link references. -/
def DuatoProtocol.getPossibleRoutes (net : Network) (current destination : Node) : List Nat :=
  (net.table.nodeLinks current).filter (fun idx =>
    match net.table.links[idx]? with
    | none => false
    | some link =>
        decide (DuatoProtocol.calculateManhattanDistance (link.otherEnd current) destination ≤
          DuatoProtocol.calculateManhattanDistance current destination))

/-- Body of the loop of `selectAdaptiveRoute`; the state is `(bestLink, minDistance)`. -/
def DuatoProtocol.adaptiveStep (net : Network) (current destination : Node)
    (state : Option Nat × Int) (idx : Nat) : Option Nat × Int :=
  match net.table.links[idx]? with
  | none => state
  | some link =>
      let next := link.otherEnd current
      if DuatoProtocol.isMinimalRoute current next destination then
        let distance := DuatoProtocol.calculateManhattanDistance next destination
        if distance < state.2 then (some idx, distance) else state
      else state

/-- `DuatoProtocol::selectAdaptiveRoute`. -/
def DuatoProtocol.selectAdaptiveRoute (net : Network) (current destination : Node) :
    Option Nat :=
  let possibleRoutes := DuatoProtocol.getPossibleRoutes net current destination
  (possibleRoutes.foldl (DuatoProtocol.adaptiveStep net current destination)
    (none, INT_MAX)).1

/-- The loop `for (Link* link : current->getLinks()) if (link->getDirection() == targetDir)
return link;` of `getDeterministicRoute`. -/
def DuatoProtocol.firstLinkWithDirection (net : Network) (current : Node)
    (targetDir : Direction) : Option Nat :=
  (net.table.nodeLinks current).find? (fun idx =>
    match net.table.links[idx]? with
    | none => false
    | some link => decide (link.direction = targetDir))

/-- `DuatoProtocol::getDeterministicRoute`. -/
def DuatoProtocol.getDeterministicRoute (net : Network) (current destination : Node) :
    Option Nat :=
  let deltaX := destination.x - current.x
  let deltaY := destination.y - current.y
  let viaX : Option Nat :=
    if deltaX ≠ 0 then
      DuatoProtocol.firstLinkWithDirection net current
        (if deltaX > 0 then Direction.POSITIVE_X else Direction.NEGATIVE_X)
    else none
  match viaX with
  | some link => some link
  | none =>
      if deltaY ≠ 0 then
        DuatoProtocol.firstLinkWithDirection net current
          (if deltaY > 0 then Direction.POSITIVE_Y else Direction.NEGATIVE_Y)
      else none

/-- `DuatoProtocol::canUseAdaptiveChannel`; a null `next` is `none`. -/
def DuatoProtocol.canUseAdaptiveChannel (current : Node) (next : Option Node)
    (destination : Node) : Bool :=
  match next with
  | none => true
  | some next => DuatoProtocol.isMinimalRoute current next destination

/-- `DuatoProtocol::isChannelFree` on a link reference. -/
def DuatoProtocol.isChannelFree (net : Network) (idx : Nat) (vc : VirtualChannel) : Bool :=
  match net.table.links[idx]? with
  | none => false
  | some link => link.isVirtualChannelFree vc

/-- The link chosen by one iteration of the loop of `findPath`: `none` when the iteration
returns the empty path. -/
def DuatoProtocol.chooseLink (net : Network) (current destination : Node) : Option Nat :=
  let adaptive : Option Nat :=
    if DuatoProtocol.canUseAdaptiveChannel current none destination then
      match DuatoProtocol.selectAdaptiveRoute net current destination with
      | some link =>
          if !DuatoProtocol.isChannelFree net link VirtualChannel.ADAPTIVE then none
          else some link
      | none => none
    else none
  match adaptive with
  | some link => some link
  | none =>
      match DuatoProtocol.getDeterministicRoute net current destination with
      | some link =>
          if !DuatoProtocol.isChannelFree net link VirtualChannel.DETERMINISTIC then none
          else some link
      | none => none

/-- The `while (current != destination)` loop of `findPath`. The first argument bounds the
number of iterations (`none`: bound reached); the empty list is the failure value of the
source. -/
def DuatoProtocol.findPathLoop (net : Network) (destination : Node) :
    Nat → Node → List Node → Option (List Node)
  | 0, current, path => if current = destination then some path else none
  | fuel + 1, current, path =>
      if current = destination then some path
      else
        match DuatoProtocol.chooseLink net current destination with
        | none => some []
        | some nextLink =>
            match net.table.links[nextLink]? with
            | none => some []
            | some link =>
                let next := link.otherEnd current
                let path := path ++ [next]
                if path.length > 100 then some []
                else DuatoProtocol.findPathLoop net destination fuel next path

/-- `DuatoProtocol::findPath`. Every iteration adds one node and the loop returns as soon
as the path holds more than 100 nodes, so 100 iterations are all the loop can make. -/
def DuatoProtocol.findPath (net : Network) (source destination : Node) :
    Option (List Node) :=
  DuatoProtocol.findPathLoop net destination 100 source [source]

/-- `DuatoProtocol::calculatePathDelay`. -/
def DuatoProtocol.calculatePathDelay (config : Option Config) (path : List Node) : ℚ :=
  if path.length < 2 then 0
  else
    let linkLatency : ℚ :=
      match config with
      | some c => c.linkLatency
      | none => 1
    ((path.length - 1 : Nat) : ℚ) * linkLatency + ((path.length - 1 : Nat) : ℚ) * (1 / 2)

/-- `DuatoProtocol::routeMessageWithStats`. -/
def DuatoProtocol.routeMessageWithStats (net : Network) (config : Option Config)
    (source destination : Node) : Option (RoutingResult Node) :=
  match DuatoProtocol.findPath net source destination with
  | none => none
  | some path =>
      if path.isEmpty then
        some { (RoutingResult.new : RoutingResult Node) with
          success := false, hopCount := 0, totalDelay := 0 }
      else
        some { (RoutingResult.new : RoutingResult Node) with
          path := path,
          hopCount := (path.length : Int) - 1,
          totalDelay := DuatoProtocol.calculatePathDelay config path,
          success := true }

/-! ## Simulation engine -/

/-- A `Node*` held by the engine: it points at a mesh `Node` or at a `HypercubeNode`
(`dynamic_cast<HypercubeNode*>` succeeds on the second kind only). -/
inductive NodeRef where
  | mesh (n : Node)
  | cube (n : HypercubeNode)
deriving DecidableEq

/-- `dynamic_cast<HypercubeNode*>`. -/
def NodeRef.asHypercube : NodeRef → Option HypercubeNode
  | NodeRef.mesh _ => none
  | NodeRef.cube n => some n

/-- `Node::getX` through a `Node*`. -/
def NodeRef.getX : NodeRef → Int
  | NodeRef.mesh n => n.x
  | NodeRef.cube n => n.x

/-- `Node::getY` through a `Node*`. -/
def NodeRef.getY : NodeRef → Int
  | NodeRef.mesh n => n.y
  | NodeRef.cube n => n.y

/-- The data members of class `Packet`; a null node pointer is `none`. -/
structure Packet where
  sourceId : Int
  destinationId : Int
  injectionTime : Int
  hopCount : Int
  sourceNode : Option NodeRef
  destinationNode : Option NodeRef
  currentNode : Option NodeRef
deriving DecidableEq

/-- The packet built by `injectPackets`: `Message(nodeId, destinationId, currentCycle)`,
`Packet(*message)` and the four setters. -/
def Packet.inject (nodeId destinationId currentCycle : Int) (node destNode : NodeRef) : Packet :=
  { sourceId := nodeId, destinationId := destinationId, injectionTime := currentCycle,
    hopCount := 0, sourceNode := some node, destinationNode := some destNode,
    currentNode := some node }

/-- A `std::map<K, int>` as an association list; a missing key reads as 0. -/
abbrev CountMap (K : Type) : Type := List (K × Int)

/-- The value stored for `k` (0 when the key is missing). -/
def CountMap.get {K : Type} [DecidableEq K] : CountMap K → K → Int
  | [], _ => 0
  | (k1, v) :: m, k => if k1 = k then v else CountMap.get m k

/-- `operator[]` used for reading: a missing key is inserted with value 0. -/
def CountMap.touch {K : Type} [DecidableEq K] : CountMap K → K → CountMap K
  | [], k => [(k, 0)]
  | (k1, v) :: m, k => if k1 = k then (k1, v) :: m else (k1, v) :: CountMap.touch m k

/-- The statement `m[k]++`. -/
def CountMap.incr {K : Type} [DecidableEq K] : CountMap K → K → CountMap K
  | [], k => [(k, 1)]
  | (k1, v) :: m, k => if k1 = k then (k1, v + 1) :: m else (k1, v) :: CountMap.incr m k

/-! ## Metrics -/

/-- The data members of class `Metrics`; every `double` is an exact rational. -/
structure Metrics where
  totalLatency : ℚ
  totalThroughput : ℚ
  count : Int
  totalPackets : Int
  totalFlits : ℚ
  measurementCycles : Int
  currentInjectionRate : ℚ
  isWarmupPhase : Bool
  isMeasurementPhase : Bool
  currentCycle : Int
  saturated : Bool
  packetLatencies : List ℚ
  latencies : List ℚ
  flitThroughputs : List ℚ
  throughputs : List ℚ
  injectionRates : List ℚ
  throughputSamples : List ℚ
  networkUtilizations : List ℚ
  historyLatencyThroughput : List (ℚ × ℚ)
  hopCounts : List Int
  totalHops : Int
  congestionEvents : Int
deriving DecidableEq

/-- Constructor `Metrics::Metrics()`. -/
def Metrics.new : Metrics :=
  { totalLatency := 0, totalThroughput := 0, count := 0, totalPackets := 0, totalFlits := 0,
    measurementCycles := 0, currentInjectionRate := 0, isWarmupPhase := false,
    isMeasurementPhase := false, currentCycle := 0, saturated := false,
    packetLatencies := [], latencies := [], flitThroughputs := [], throughputs := [],
    injectionRates := [], throughputSamples := [], networkUtilizations := [],
    historyLatencyThroughput := [], hopCounts := [], totalHops := 0, congestionEvents := 0 }

/-- `Metrics::recordLatency`. -/
def Metrics.recordLatency (m : Metrics) (latency : ℚ) : Metrics :=
  { m with latencies := m.latencies ++ [latency],
           totalLatency := m.totalLatency + latency,
           count := m.count + 1 }

/-- `Metrics::recordThroughput`. -/
def Metrics.recordThroughput (m : Metrics) (throughput : ℚ) : Metrics :=
  { m with throughputs := m.throughputs ++ [throughput],
           throughputSamples := m.throughputSamples ++ [throughput],
           totalThroughput := m.totalThroughput + throughput }

/-- `Metrics::recordPacketLatency`. -/
def Metrics.recordPacketLatency (m : Metrics) (latencyCycles : ℚ) : Metrics :=
  Metrics.recordLatency { m with packetLatencies := m.packetLatencies ++ [latencyCycles] }
    latencyCycles

/-- `Metrics::recordFlitThroughput`. -/
def Metrics.recordFlitThroughput (m : Metrics) (flitsPerCyclePerNode : ℚ) : Metrics :=
  Metrics.recordThroughput
    { m with flitThroughputs := m.flitThroughputs ++ [flitsPerCyclePerNode],
             throughputSamples := m.throughputSamples ++ [flitsPerCyclePerNode],
             totalFlits := m.totalFlits + flitsPerCyclePerNode }
    flitsPerCyclePerNode

/-- `Metrics::recordHopCount`. -/
def Metrics.recordHopCount (m : Metrics) (hops : Int) : Metrics :=
  { m with hopCounts := m.hopCounts ++ [hops], totalHops := m.totalHops + hops }

/-- `Metrics::recordCongestionEvent`. -/
def Metrics.recordCongestionEvent (m : Metrics) : Metrics :=
  { m with congestionEvents := m.congestionEvents + 1 }

/-- `Metrics::calculateAverageLatency`. -/
def Metrics.calculateAverageLatency (m : Metrics) : ℚ :=
  if m.count > 0 then m.totalLatency / (m.count : ℚ) else 0

/-- `Metrics::calculateThroughput`. -/
def Metrics.calculateThroughput (m : Metrics) : ℚ :=
  if m.throughputs.isEmpty then 0 else m.totalThroughput / (m.throughputs.length : ℚ)

/-- `Metrics::getAverageLatency`. -/
def Metrics.getAverageLatency (m : Metrics) : ℚ :=
  m.calculateAverageLatency

/-- `Metrics::getThroughput`. -/
def Metrics.getThroughput (m : Metrics) : ℚ :=
  if !m.flitThroughputs.isEmpty then
    m.flitThroughputs.foldl (fun sum throughput => sum + throughput) 0 /
      (m.flitThroughputs.length : ℚ)
  else m.calculateThroughput

/-- `Metrics::getAveragePacketDelay`. -/
def Metrics.getAveragePacketDelay (m : Metrics) : ℚ :=
  if m.packetLatencies.isEmpty then
    if m.isMeasurementPhase then -1
    else if !m.latencies.isEmpty then m.getAverageLatency
    else 0
  else
    m.packetLatencies.foldl (fun sum latency => sum + latency) 0 /
      (m.packetLatencies.length : ℚ)

/-- `Metrics::getAverageHopCount`. -/
def Metrics.getAverageHopCount (m : Metrics) : ℚ :=
  if m.hopCounts.isEmpty then 0 else (m.totalHops : ℚ) / (m.hopCounts.length : ℚ)

/-- `Metrics::getCongestionEvents`. -/
def Metrics.getCongestionEvents (m : Metrics) : Int :=
  m.congestionEvents

/-- `Metrics::getPacketCount`. -/
def Metrics.getPacketCount (m : Metrics) : Nat :=
  m.packetLatencies.length

/-- `Metrics::startWarmup`. -/
def Metrics.startWarmup (m : Metrics) : Metrics :=
  { m with isWarmupPhase := true, isMeasurementPhase := false, currentCycle := 0 }

/-- `Metrics::startMeasurement`. -/
def Metrics.startMeasurement (m : Metrics) : Metrics :=
  { m with isMeasurementPhase := true, isWarmupPhase := false, packetLatencies := [],
           flitThroughputs := [], throughputSamples := [] }

/-- `Metrics::endMeasurement`. -/
def Metrics.endMeasurement (m : Metrics) : Metrics :=
  { m with isMeasurementPhase := false }

/-- `Metrics::isSaturated(double latencyThreshold, double throughputDropThreshold)`. -/
def Metrics.isSaturatedWith (m : Metrics) (latencyThreshold throughputDropThreshold : ℚ) :
    Bool :=
  if m.saturated then true
  else if m.getAverageLatency > latencyThreshold then true
  else if m.throughputSamples.length < 2 then false
  else
    let n := m.throughputSamples.length
    let currentThroughput := m.throughputSamples.getD (n - 1) 0
    let previousThroughput := m.throughputSamples.getD (n - 2) 0
    if currentThroughput = 0 then true
    else if previousThroughput > 0 ∧
        (previousThroughput - currentThroughput) / previousThroughput >
          throughputDropThreshold then true
    else false

/-- `Metrics::isSaturated()`. -/
def Metrics.isSaturated (m : Metrics) : Bool :=
  m.isSaturatedWith 50 (1 / 10)

/-- `Metrics::setSaturated`. -/
def Metrics.setSaturated (m : Metrics) (saturated : Bool) : Metrics :=
  { m with saturated := saturated }

/-- `Metrics::reset`. -/
def Metrics.reset (m : Metrics) : Metrics :=
  { m with latencies := [], throughputs := [], packetLatencies := [], flitThroughputs := [],
           injectionRates := [], historyLatencyThroughput := [], throughputSamples := [],
           hopCounts := [], networkUtilizations := [], totalLatency := 0,
           totalThroughput := 0, totalFlits := 0, totalPackets := 0, totalHops := 0,
           count := 0, measurementCycles := 0, currentInjectionRate := 0, currentCycle := 0,
           congestionEvents := 0, isWarmupPhase := false, isMeasurementPhase := false,
           saturated := false }

/-- The state of class `Simulator` that injection and routing read and write; `metrics`
is the object behind the pointer of that name. The fields `retired` and `congestionEvents`
keep a log beside it: the packets retired, one per pair of calls `recordPacketLatency` /
`recordHopCount`, and the number of calls of `recordCongestionEvent`. Of `hypercubeNet` and `network` the pointer that is null in the current mode is
held as an empty topology; the code of that mode never reads it. -/
structure Simulator where
  networkSizeX : Nat
  networkSizeY : Nat
  currentCycle : Int
  maxBufferSize : Int
  isHypercubeMode : Bool
  hypercubeNet : HypercubeNetwork
  network : Network
  nodeBuffers : NodeRef → List Packet
  linkUtilization : CountMap (NodeRef × NodeRef)
  currentInjectionRate : ℚ
  retired : List Packet
  congestionEvents : Nat
  metrics : Metrics

/-- Constructor `Simulator::Simulator(HypercubeNetwork*)`. -/
def Simulator.ofHypercube (hypercubeNetwork : HypercubeNetwork) : Simulator :=
  { networkSizeX := 0, networkSizeY := 0, currentCycle := 0, maxBufferSize := 8,
    isHypercubeMode := true, hypercubeNet := hypercubeNetwork, network := Network.blank 0 0,
    nodeBuffers := fun _ => [], linkUtilization := [], currentInjectionRate := 0,
    retired := [], congestionEvents := 0, metrics := Metrics.new }

/-- Constructor `Simulator::Simulator(int networkSizeX, int networkSizeY)`. -/
def Simulator.ofMesh (networkSizeX networkSizeY : Nat) : Simulator :=
  { networkSizeX := networkSizeX, networkSizeY := networkSizeY, currentCycle := 0,
    maxBufferSize := 8, isHypercubeMode := false, hypercubeNet := HypercubeNetwork.new 0,
    network := Network.new networkSizeX networkSizeY,
    nodeBuffers := fun _ => [], linkUtilization := [], currentInjectionRate := 0,
    retired := [], congestionEvents := 0, metrics := Metrics.new }

/-- `Simulator::reset`. -/
def Simulator.reset (sim : Simulator) : Simulator :=
  { sim with currentCycle := 0, nodeBuffers := fun _ => [], linkUtilization := [],
             retired := [], congestionEvents := 0, metrics := sim.metrics.reset }

/-- `Simulator::updateCurrentCycle`. -/
def Simulator.updateCurrentCycle (sim : Simulator) (cycle : Int) : Simulator :=
  { sim with currentCycle := cycle }

/-- `nodeBuffers[node].push(packet)`. -/
def Simulator.pushPacket (buffers : NodeRef → List Packet) (node : NodeRef) (packet : Packet) :
    NodeRef → List Packet :=
  fun n => if n = node then buffers n ++ [packet] else buffers n

/-- Replace the queue of `node`. -/
def Simulator.setBuffer (buffers : NodeRef → List Packet) (node : NodeRef)
    (queue : List Packet) : NodeRef → List Packet :=
  fun n => if n = node then queue else buffers n

/-- The outcomes of the pseudo-random generator used for one node by `injectPackets`:
the uniform draw that is compared with the injection rate, and the successive draws of a
destination id. -/
structure InjectionDraw where
  random : ℚ
  destinations : List Int

/-- The loop `do destinationId = draw(); while (destinationId == nodeId);` over the given
draws; `none` when every draw equals `nodeId` (the loop has not ended). -/
def Simulator.drawDestination (nodeId : Int) (destinations : List Int) : Option Int :=
  destinations.find? (fun destinationId => decide (destinationId ≠ nodeId))

/-- Body of the loop of `injectPackets` in hypercube mode, for the node id `nodeId`. The
state is the simulator and `totalInjected`; `none` means a destination loop has not ended. -/
def Simulator.injectHypercubeNode (injectionRate : ℚ) (draws : Nat → InjectionDraw)
    (state : Option (Simulator × Int)) (nodeId : Nat) : Option (Simulator × Int) :=
  match state with
  | none => none
  | some (sim, totalInjected) =>
      let totalNodes := sim.hypercubeNet.totalNodes
      match sim.hypercubeNet.getHypercubeNode (nodeId : Int) with
      | none => some (sim, totalInjected)
      | some node =>
          if (draws nodeId).random < injectionRate then
            match Simulator.drawDestination (nodeId : Int) (draws nodeId).destinations with
            | none => none
            | some destinationId =>
                if destinationId ≥ 0 ∧ destinationId < (totalNodes : Int) then
                  match sim.hypercubeNet.getHypercubeNode destinationId with
                  | none => some (sim, totalInjected)
                  | some destNode =>
                      let packet := Packet.inject (nodeId : Int) destinationId sim.currentCycle
                        (NodeRef.cube node) (NodeRef.cube destNode)
                      some ({ sim with nodeBuffers :=
                                Simulator.pushPacket sim.nodeBuffers (NodeRef.cube node) packet },
                            totalInjected + 1)
                else some (sim, totalInjected)
          else some (sim, totalInjected)

/-- Body of the loops of `injectPackets` in mesh mode, for the cell `(x, y)`;
the draws are indexed by `x * networkSizeY + y`. -/
def Simulator.injectMeshNode (injectionRate : ℚ) (draws : Nat → InjectionDraw)
    (state : Option (Simulator × Int)) (x y : Nat) : Option (Simulator × Int) :=
  match state with
  | none => none
  | some (sim, totalInjected) =>
      match sim.network.getNode (x : Int) (y : Int) with
      | none => some (sim, totalInjected)
      | some node =>
          let nodeId : Int := (x : Int) * (sim.networkSizeY : Int) + (y : Int)
          if (draws (x * sim.networkSizeY + y)).random < injectionRate then
            match Simulator.drawDestination nodeId
                (draws (x * sim.networkSizeY + y)).destinations with
            | none => none
            | some destinationId =>
                let destX := Int.tdiv destinationId (sim.networkSizeY : Int)
                let destY := Int.tmod destinationId (sim.networkSizeY : Int)
                match sim.network.getNode destX destY with
                | none => some (sim, totalInjected)
                | some destNode =>
                    let packet := Packet.inject nodeId destinationId sim.currentCycle
                      (NodeRef.mesh node) (NodeRef.mesh destNode)
                    some ({ sim with nodeBuffers :=
                              Simulator.pushPacket sim.nodeBuffers (NodeRef.mesh node) packet },
                          totalInjected + 1)
          else some (sim, totalInjected)

/-- `Simulator::injectPackets`: the new state and the number of injected packets. The
outcomes of the random generator are the argument `draws`. -/
def Simulator.injectPackets (sim : Simulator) (injectionRate : ℚ)
    (draws : Nat → InjectionDraw) : Option (Simulator × Int) :=
  if sim.isHypercubeMode then
    (List.range sim.hypercubeNet.totalNodes).foldl
      (Simulator.injectHypercubeNode injectionRate draws) (some (sim, 0))
  else
    (List.range sim.networkSizeX).foldl
      (fun state x => (List.range sim.networkSizeY).foldl
        (fun state y => Simulator.injectMeshNode injectionRate draws state x y) state)
      (some (sim, 0))

/-- `static_cast<int>` of a real value: truncation toward zero. -/
def truncToInt (q : ℚ) : Int :=
  if q ≥ 0 then ⌊q⌋ else ⌈q⌉

/-- The value `dynamicLinkCapacity` computed at the start of `routePackets`; the `double`
arithmetic is carried out exactly on rationals. -/
def Simulator.dynamicLinkCapacity (currentInjectionRate : ℚ) : Int :=
  let baseLinkCapacity : Int := 3
  if currentInjectionRate > 15 / 100 then
    let overload := (currentInjectionRate - 15 / 100) / (8 / 100)
    max 1 (truncToInt ((baseLinkCapacity : ℚ) * (1 - overload * (7 / 10))))
  else baseLinkCapacity

/-- The value `baseGlobalCapacity` of `routePackets`. -/
def Simulator.baseGlobalCapacity (sim : Simulator) : Int :=
  if sim.isHypercubeMode then Int.tdiv (sim.hypercubeNet.totalNodes : Int) 2
  else Int.tdiv ((sim.networkSizeX : Int) * (sim.networkSizeY : Int)) 2

/-- The value `maxGlobalPacketsPerCycle` of `routePackets`. -/
def Simulator.maxGlobalPacketsPerCycle (sim : Simulator) : Int :=
  let baseGlobalCapacity := sim.baseGlobalCapacity
  if sim.currentInjectionRate > 16 / 100 then
    let overload := (sim.currentInjectionRate - 16 / 100) / (6 / 100)
    max (Int.tdiv baseGlobalCapacity 6)
      (truncToInt ((baseGlobalCapacity : ℚ) * (1 - overload * (8 / 10))))
  else baseGlobalCapacity

/-- The value `routingRounds` of the hypercube branch of `routePackets`. -/
def Simulator.routingRounds (currentInjectionRate : ℚ) : Nat :=
  if currentInjectionRate > 18 / 100 then 1
  else if currentInjectionRate > 15 / 100 then 2
  else 3

/-- `Simulator::calculateNextHopHypercube` (for a non-null `current`). -/
def Simulator.calculateNextHopHypercube (sim : Simulator) (current : NodeRef)
    (destination : Option NodeRef) : Option NodeRef :=
  match destination with
  | none => none
  | some destination =>
      if !sim.isHypercubeMode then none
      else
        match current.asHypercube, destination.asHypercube with
        | some currentHC, some destHC =>
            let currentCoords := currentHC.coordinates
            let destCoords := destHC.coordinates
            match (List.range (min currentCoords.length destCoords.length)).findSome?
                (fun dim =>
                  if currentCoords.getD dim 0 ≠ destCoords.getD dim 0 then
                    currentHC.getNeighborInDimension sim.hypercubeNet.table (dim : Int)
                  else none) with
            | some neighbor => some (NodeRef.cube neighbor)
            | none => if current = destination then none else some destination
        | _, _ => none

/-- `Simulator::calculateNextHop` (for a non-null `current`). -/
def Simulator.calculateNextHop (sim : Simulator) (current : NodeRef)
    (destination : Option NodeRef) : Option NodeRef :=
  match destination with
  | none => none
  | some destination =>
      if sim.isHypercubeMode then none
      else
        let currentX := current.getX
        let currentY := current.getY
        let destX := destination.getX
        let destY := destination.getY
        let viaX : Option Node :=
          if currentX ≠ destX then
            sim.network.getNode (if currentX < destX then currentX + 1 else currentX - 1) currentY
          else none
        match viaX with
        | some nextNode => some (NodeRef.mesh nextNode)
        | none =>
            let viaY : Option Node :=
              if currentY ≠ destY then
                sim.network.getNode currentX
                  (if currentY < destY then currentY + 1 else currentY - 1)
              else none
            match viaY with
            | some nextNode => some (NodeRef.mesh nextNode)
            | none => if current = destination then none else some destination

/-- `Simulator::calculateNetworkUtilization`. The two members that `routePackets` changes
while it runs, `nodeBuffers` and `linkUtilization`, are arguments: the function is called
from the middle of `routePackets`. -/
def Simulator.calculateNetworkUtilization (sim : Simulator)
    (nodeBuffers : NodeRef → List Packet) (linkUtilization : CountMap (NodeRef × NodeRef)) :
    ℚ :=
  let totalBufferUtilization : ℚ :=
    if sim.isHypercubeMode then
      (List.range sim.hypercubeNet.totalNodes).foldl
        (fun (total : ℚ) (nodeId : Nat) =>
          match sim.hypercubeNet.getHypercubeNode (nodeId : Int) with
          | none => total
          | some node =>
              total + ((nodeBuffers (NodeRef.cube node)).length : ℚ) / (sim.maxBufferSize : ℚ))
        0
    else
      (List.range sim.networkSizeX).foldl
        (fun (total : ℚ) (x : Nat) => (List.range sim.networkSizeY).foldl
          (fun (total : ℚ) (y : Nat) =>
            match sim.network.getNode (x : Int) (y : Int) with
            | none => total
            | some node =>
                total +
                  ((nodeBuffers (NodeRef.mesh node)).length : ℚ) / (sim.maxBufferSize : ℚ))
          total)
        0
  let totalNodes : Int :=
    if sim.isHypercubeMode then (sim.hypercubeNet.totalNodes : Int)
    else (sim.networkSizeX : Int) * (sim.networkSizeY : Int)
  let totalLinkUtilization : ℚ :=
    linkUtilization.foldl (fun (total : ℚ) pair => total + (pair.2 : ℚ) / 3) 0
  let totalLinks : Int := (linkUtilization.length : Int)
  let avgBufferUtil : ℚ :=
    if totalNodes > 0 then totalBufferUtilization / (totalNodes : ℚ) else 0
  let avgLinkUtil : ℚ := if totalLinks > 0 then totalLinkUtilization / (totalLinks : ℚ) else 0
  let combinedUtil := 8 / 10 * avgBufferUtil + 2 / 10 * avgLinkUtil
  let injectionFactor := sim.currentInjectionRate / (15 / 100)
  let injectionPressure := injectionFactor * injectionFactor * injectionFactor * (2 / 10)
  min (combinedUtil + injectionPressure) 1

/-- `Simulator::calculateBufferDelay`, on the buffers of the moment. -/
def Simulator.calculateBufferDelay (sim : Simulator) (nodeBuffers : NodeRef → List Packet)
    (packet : Packet) : ℚ :=
  match packet.currentNode with
  | none => 0
  | some currentNode =>
      let bufferUtilization : ℚ :=
        ((nodeBuffers currentNode).length : ℚ) / (sim.maxBufferSize : ℚ)
      if bufferUtilization > 85 / 100 then
        (bufferUtilization - 85 / 100) * (bufferUtilization - 85 / 100) * 1200
      else if bufferUtilization > 7 / 10 then
        (bufferUtilization - 7 / 10) * (bufferUtilization - 7 / 10) * 500
      else if bufferUtilization > 5 / 10 then
        (bufferUtilization - 5 / 10) * (bufferUtilization - 5 / 10) * 200
      else if bufferUtilization > 3 / 10 then (bufferUtilization - 3 / 10) * 100
      else if bufferUtilization > 15 / 100 then (bufferUtilization - 15 / 100) * 30
      else bufferUtilization * 15

/-- The value `systemDelay` of `calculateQueuingDelay`. -/
def Simulator.systemDelay (currentInjectionRate : ℚ) : ℚ :=
  let injectionPressure := currentInjectionRate / (8 / 100)
  if injectionPressure > 22 / 10 then
    let excess := injectionPressure - 22 / 10
    300 + excess * excess * excess * excess * excess * 400
  else if injectionPressure > 18 / 10 then
    let excess := injectionPressure - 18 / 10
    150 + excess * excess * excess * excess * 375
  else if injectionPressure > 14 / 10 then
    let excess := injectionPressure - 14 / 10
    60 + excess * excess * excess * 225
  else if injectionPressure > 125 / 100 then
    let excess := injectionPressure - 125 / 100
    30 + excess * excess * excess * 200
  else if injectionPressure > 1 then
    let excess := injectionPressure - 1
    15 + excess * excess * 60
  else if injectionPressure > 6 / 10 then
    let excess := injectionPressure - 6 / 10
    5 + excess * 25
  else injectionPressure * (833 / 100)

/-- The value `congestionDelay` of `calculateQueuingDelay`. -/
def Simulator.congestionDelay (networkUtil : ℚ) : ℚ :=
  if networkUtil > 6 / 10 then
    let excess := (networkUtil - 6 / 10) / (4 / 10)
    excess * excess * excess * excess * excess * 200
  else if networkUtil > 4 / 10 then
    let excess := (networkUtil - 4 / 10) / (2 / 10)
    excess * excess * excess * excess * 100
  else if networkUtil > 25 / 100 then
    let excess := (networkUtil - 25 / 100) / (15 / 100)
    excess * excess * excess * 50
  else if networkUtil > 1 / 10 then
    let excess := (networkUtil - 1 / 10) / (15 / 100)
    excess * excess * 25
  else 0

/-- The value `thresholdEffect` of `calculateQueuingDelay`. -/
def Simulator.thresholdEffect (currentInjectionRate : ℚ) : ℚ :=
  if currentInjectionRate > 10 / 100 then
    let ratio := (currentInjectionRate - 10 / 100) / (5 / 100)
    ratio * ratio * ratio * ratio * ratio * 120
  else 0

/-- `Simulator::calculateQueuingDelay`, on the buffers and link counters of the moment. -/
def Simulator.calculateQueuingDelay (sim : Simulator) (nodeBuffers : NodeRef → List Packet)
    (linkUtilization : CountMap (NodeRef × NodeRef)) (packet : Packet) : ℚ :=
  let hops := packet.hopCount
  let networkUtil := sim.calculateNetworkUtilization nodeBuffers linkUtilization
  let baseQueuingDelay : ℚ := 4 + (hops : ℚ) * 2
  let systemDelay := Simulator.systemDelay sim.currentInjectionRate
  let congestionDelay := Simulator.congestionDelay networkUtil
  let bufferDelay := sim.calculateBufferDelay nodeBuffers packet
  let hopPenalty : ℚ := (hops : ℚ) * (3 + networkUtil * networkUtil * networkUtil * 15)
  let thresholdEffect := Simulator.thresholdEffect sim.currentInjectionRate
  baseQueuingDelay + systemDelay + congestionDelay + bufferDelay + hopPenalty + thresholdEffect

/-- The value `systemOverhead` of the hypercube branch of `routePackets`. -/
def Simulator.systemOverhead (currentInjectionRate : ℚ) : ℚ :=
  if currentInjectionRate > 12 / 100 then
    let pressure := (currentInjectionRate - 12 / 100) / (12 / 100)
    pressure * pressure * pressure * pressure * 50
  else 0

/-- The value `totalLatency` recorded by the hypercube branch of `routePackets` for a
packet found at its destination; `nodeBuffers` is the buffer map after the packet was
popped. -/
def Simulator.retireLatencyHypercube (sim : Simulator) (nodeBuffers : NodeRef → List Packet)
    (linkUtilization : CountMap (NodeRef × NodeRef)) (packet : Packet) : ℚ :=
  let networkLatency : ℚ := ((sim.currentCycle - packet.injectionTime : Int) : ℚ)
  let baseTransmissionDelay : ℚ := (packet.hopCount : ℚ) * 4
  let queuingDelay := sim.calculateQueuingDelay nodeBuffers linkUtilization packet
  let networkUtil := sim.calculateNetworkUtilization nodeBuffers linkUtilization
  let congestionMultiplier := 1 + networkUtil * networkUtil * networkUtil * 8
  let systemOverhead := Simulator.systemOverhead sim.currentInjectionRate
  let totalLatency :=
    (networkLatency + baseTransmissionDelay) * congestionMultiplier + queuingDelay +
      systemOverhead
  let minLatency : ℚ := 18 + (packet.hopCount : ℚ) * 3
  if totalLatency < minLatency then minLatency else totalLatency

/-- The value `totalLatency` recorded by the mesh branch of `routePackets` for a packet
found at its destination; `nodeBuffers` is the buffer map after the packet was popped. -/
def Simulator.retireLatencyMesh (sim : Simulator) (nodeBuffers : NodeRef → List Packet)
    (linkUtilization : CountMap (NodeRef × NodeRef)) (packet : Packet) : ℚ :=
  let networkLatency : ℚ := ((sim.currentCycle - packet.injectionTime : Int) : ℚ)
  let baseLatency : ℚ := (packet.hopCount : ℚ) * 5
  let queuingDelay := sim.calculateQueuingDelay nodeBuffers linkUtilization packet
  let totalLatency := networkLatency + baseLatency + queuingDelay
  if totalLatency < 15 then 15 + (packet.hopCount : ℚ) * 5 else totalLatency

/-- The variables of one call of `routePackets`. `moves` lists, in order, the pair
`(current, next)` of every packet moved by the call (one entry at each execution of the
statements `nodeBuffers[currentNode].pop(); nodeBuffers[nextHop].push(packet);`). -/
structure RouteState where
  nodeBuffers : NodeRef → List Packet
  linkBandwidthUsed : CountMap (NodeRef × NodeRef)
  linkUtilization : CountMap (NodeRef × NodeRef)
  globalPacketsMoved : Int
  retired : List Packet
  congestionEvents : Nat
  metrics : Metrics
  moves : List (NodeRef × NodeRef)

/-- Body of the node loop of the hypercube branch of `routePackets`, with the loop
condition `globalPacketsMoved < maxGlobalPacketsPerCycle` tested first: once it is false
the state no longer changes, as after leaving the loop. -/
def Simulator.routeHypercubeNode (sim : Simulator) (dynamicLinkCapacity : Int)
    (maxGlobalPacketsPerCycle : Int) (st : RouteState) (nodeId : Nat) : RouteState :=
  if ¬ (st.globalPacketsMoved < maxGlobalPacketsPerCycle) then st
  else
    match sim.hypercubeNet.getHypercubeNode (nodeId : Int) with
    | none => st
    | some currentHC =>
        let currentNode := NodeRef.cube currentHC
        match st.nodeBuffers currentNode with
        | [] => st
        | front :: rest =>
            let packet := { front with currentNode := some currentNode }
            let st := { st with nodeBuffers :=
              Simulator.setBuffer st.nodeBuffers currentNode (packet :: rest) }
            let destNode := packet.destinationNode
            if some currentNode = destNode then
              let st := { st with nodeBuffers :=
                Simulator.setBuffer st.nodeBuffers currentNode rest }
              let totalLatency :=
                sim.retireLatencyHypercube st.nodeBuffers st.linkUtilization packet
              { st with retired := st.retired ++ [packet],
                        metrics := (st.metrics.recordPacketLatency totalLatency).recordHopCount
                          packet.hopCount,
                        globalPacketsMoved := st.globalPacketsMoved + 1 }
            else
              match sim.calculateNextHopHypercube currentNode destNode with
              | none => st
              | some nextHop =>
                  if ((st.nodeBuffers nextHop).length : Int) ≥ sim.maxBufferSize then
                    { st with congestionEvents := st.congestionEvents + 1,
                              metrics := st.metrics.recordCongestionEvent }
                  else
                    let linkKey := (currentNode, nextHop)
                    let st := { st with linkBandwidthUsed := st.linkBandwidthUsed.touch linkKey }
                    if st.linkBandwidthUsed.get linkKey ≥ dynamicLinkCapacity then
                      { st with congestionEvents := st.congestionEvents + 1,
                                metrics := st.metrics.recordCongestionEvent }
                    else
                      let moved := { packet with hopCount := packet.hopCount + 1,
                                                 currentNode := some nextHop }
                      { st with
                        nodeBuffers := Simulator.pushPacket
                          (Simulator.setBuffer st.nodeBuffers currentNode rest) nextHop moved,
                        linkBandwidthUsed := st.linkBandwidthUsed.incr linkKey,
                        linkUtilization := st.linkUtilization.incr linkKey,
                        globalPacketsMoved := st.globalPacketsMoved + 1,
                        moves := st.moves ++ [linkKey] }

/-- Body of the innermost loop of the mesh branch of `routePackets`, for the cell
`(x, y)`. -/
def Simulator.routeMeshNode (sim : Simulator) (st : RouteState) (x y : Nat) : RouteState :=
  match sim.network.getNode (x : Int) (y : Int) with
  | none => st
  | some currentMesh =>
      let currentNode := NodeRef.mesh currentMesh
      match st.nodeBuffers currentNode with
      | [] => st
      | front :: rest =>
          let packet := { front with currentNode := some currentNode }
          let st := { st with nodeBuffers :=
            Simulator.setBuffer st.nodeBuffers currentNode (packet :: rest) }
          let destNode := packet.destinationNode
          if some currentNode = destNode then
            let st := { st with nodeBuffers :=
              Simulator.setBuffer st.nodeBuffers currentNode rest }
            let totalLatency := sim.retireLatencyMesh st.nodeBuffers st.linkUtilization packet
            { st with retired := st.retired ++ [packet],
                      metrics := (st.metrics.recordPacketLatency totalLatency).recordHopCount
                        packet.hopCount }
          else
            match sim.calculateNextHop currentNode destNode with
            | none => st
            | some nextHop =>
                if ((st.nodeBuffers nextHop).length : Int) ≥ sim.maxBufferSize then st
                else
                  let linkKey := (currentNode, nextHop)
                  let st := { st with linkUtilization := st.linkUtilization.touch linkKey }
                  if st.linkUtilization.get linkKey ≥ 2 then st
                  else
                    let moved := { packet with hopCount := packet.hopCount + 1,
                                               currentNode := some nextHop }
                    { st with
                      nodeBuffers := Simulator.pushPacket
                        (Simulator.setBuffer st.nodeBuffers currentNode rest) nextHop moved,
                      linkUtilization := st.linkUtilization.incr linkKey,
                      moves := st.moves ++ [linkKey] }

/-- The variables of `routePackets` after `linkUtilization.clear()` and the declaration of
the empty `linkBandwidthUsed`. -/
def Simulator.routeStart (sim : Simulator) : RouteState :=
  { nodeBuffers := sim.nodeBuffers, linkBandwidthUsed := [], linkUtilization := [],
    globalPacketsMoved := 0, retired := sim.retired, congestionEvents := sim.congestionEvents,
    metrics := sim.metrics, moves := [] }

/-- The loops of `Simulator::routePackets`, returning all variables of the call. -/
def Simulator.routePacketsTrace (sim : Simulator) : RouteState :=
  if sim.isHypercubeMode then
    (List.range (Simulator.routingRounds sim.currentInjectionRate)).foldl
      (fun st _round => (List.range sim.hypercubeNet.totalNodes).foldl
        (Simulator.routeHypercubeNode sim
          (Simulator.dynamicLinkCapacity sim.currentInjectionRate)
          sim.maxGlobalPacketsPerCycle) st)
      sim.routeStart
  else
    (List.range 2).foldl
      (fun st _round => (List.range sim.networkSizeX).foldl
        (fun st x => (List.range sim.networkSizeY).foldl
          (fun st y => Simulator.routeMeshNode sim st x y) st) st)
      sim.routeStart

/-- `Simulator::routePackets`. -/
def Simulator.routePackets (sim : Simulator) : Simulator :=
  let st := sim.routePacketsTrace
  { sim with nodeBuffers := st.nodeBuffers, linkUtilization := st.linkUtilization,
             retired := st.retired, congestionEvents := st.congestionEvents,
             metrics := st.metrics }

/-- One cycle of the loops of `runSimulation`: `updateCurrentCycle(cycle)`,
`injectPackets(injectionRate)`, `routePackets()`. -/
def Simulator.runCycle (injectionRate : ℚ) (draws : Int → Nat → InjectionDraw)
    (state : Option Simulator) (cycle : Nat) : Option Simulator :=
  match state with
  | none => none
  | some sim =>
      match (sim.updateCurrentCycle (cycle : Int)).injectPackets injectionRate
          (draws (cycle : Int)) with
      | none => none
      | some (sim, _) => some sim.routePackets

/-- The start of `runSimulation(injectionRate, config)`: `reset()`, the assignment of
`currentInjectionRate`, then the first `cycles` cycles `0, 1, ...` of the warm-up loop
(`cycles` at most `warmupCycles`). The generator of `injectPackets` is seeded again in
every cycle, so the draws are given per cycle. -/
def Simulator.runCycles (sim : Simulator) (injectionRate : ℚ)
    (draws : Int → Nat → InjectionDraw) (cycles : Nat) : Option Simulator :=
  (List.range cycles).foldl (Simulator.runCycle injectionRate draws)
    (some { sim.reset with currentInjectionRate := injectionRate })

/-- The part of class `Config` read by `runSimulation`. -/
structure RunConfig where
  warmupCycles : Int
  measurementCycles : Int
  packetSizeFlits : Int

/-- The local variables of the measurement loop of `runSimulation`, with the simulator;
`stopped` is set when the loop was left by `break`. -/
structure MeasureState where
  sim : Simulator
  totalPacketsInjected : Int
  consecutiveZeroReceived : Int
  lowThroughputCycles : Int
  stopped : Bool

/-- The number of nodes as `runSimulation` computes it. -/
def Simulator.totalNodes (sim : Simulator) : Int :=
  if sim.isHypercubeMode then (sim.hypercubeNet.totalNodes : Int)
  else (sim.networkSizeX : Int) * (sim.networkSizeY : Int)

/-- Body of the measurement loop of `runSimulation`; after `break` the state no longer
changes. -/
def Simulator.measureCycle (injectionRate : ℚ) (config : RunConfig)
    (draws : Int → Nat → InjectionDraw) (state : Option MeasureState) (cycle : Nat) :
    Option MeasureState :=
  match state with
  | none => none
  | some ms =>
      if ms.stopped then some ms
      else
        let sim := ms.sim.updateCurrentCycle (config.warmupCycles + (cycle : Int))
        match sim.injectPackets injectionRate (draws (config.warmupCycles + (cycle : Int))) with
        | none => none
        | some (sim, injectedThisCycle) =>
            let packetsBeforeRouting : Int := (sim.metrics.getPacketCount : Int)
            let sim := sim.routePackets
            let packetsAfterRouting : Int := (sim.metrics.getPacketCount : Int)
            let receivedThisCycle := packetsAfterRouting - packetsBeforeRouting
            let consecutiveZeroReceived :=
              if receivedThisCycle = 0 then ms.consecutiveZeroReceived + 1 else 0
            let expectedPacketsPerCycle : ℚ := injectionRate * (sim.totalNodes : ℚ)
            let lowThroughputCycles :=
              if (receivedThisCycle : ℚ) < expectedPacketsPerCycle * (6 / 10) then
                ms.lowThroughputCycles + 1
              else 0
            some { sim := sim,
                   totalPacketsInjected := ms.totalPacketsInjected + injectedThisCycle,
                   consecutiveZeroReceived := consecutiveZeroReceived,
                   lowThroughputCycles := lowThroughputCycles,
                   stopped := decide ((consecutiveZeroReceived : ℚ) >
                     (config.measurementCycles : ℚ) * (2 / 10)) }

/-- The value `actualThroughput` of `runSimulation` before the capacity limit is applied. -/
def Simulator.rawThroughput (totalPacketsReceived flitsPerPacket measurementCycles : Int)
    (totalNodes : ℚ) : ℚ :=
  ((totalPacketsReceived * flitsPerPacket : Int) : ℚ) /
    ((measurementCycles : ℚ) * totalNodes)

/-- The value `maxNetworkCapacity` of `runSimulation`. -/
def Simulator.maxNetworkCapacity (currentInjectionRate : ℚ) : ℚ :=
  if currentInjectionRate > 16 / 100 then
    let overload := (currentInjectionRate - 16 / 100) / (6 / 100)
    75 / 100 * (1 - overload * (6 / 10))
  else 75 / 100

/-- The local variable `isSaturated` of `runSimulation`. -/
def Simulator.saturationVerdict (totalPacketsReceived : Int) (avgLatency actualThroughput
    injectionRate : ℚ) (flitsPerPacket lowThroughputCycles consecutiveZeroReceived
    measurementCycles : Int) : Bool :=
  if totalPacketsReceived = 0 then true
  else if avgLatency > 300 then true
  else if actualThroughput < injectionRate * (flitsPerPacket : ℚ) * (7 / 10) ∧
      avgLatency > 60 then true
  else if (lowThroughputCycles : ℚ) > (measurementCycles : ℚ) * (2 / 10) then true
  else if (consecutiveZeroReceived : ℚ) > (measurementCycles : ℚ) * (15 / 100) then true
  else false

/-- The part of `runSimulation` after the measurement loop. -/
def Simulator.finishRun (ms : MeasureState) (injectionRate : ℚ) (config : RunConfig) :
    Simulator :=
  let sim := ms.sim
  let measurementCycles := config.measurementCycles
  let totalPacketsReceived : Int := (sim.metrics.getPacketCount : Int)
  let totalNodes : ℚ := (sim.totalNodes : ℚ)
  let flitsPerPacket := config.packetSizeFlits
  let actualThroughput :=
    Simulator.rawThroughput totalPacketsReceived flitsPerPacket measurementCycles totalNodes
  let maxNetworkCapacity := Simulator.maxNetworkCapacity sim.currentInjectionRate
  let actualThroughput := max 0 (min actualThroughput maxNetworkCapacity)
  let metrics := sim.metrics.recordFlitThroughput actualThroughput
  let avgLatency := metrics.getAveragePacketDelay
  let isSaturated := Simulator.saturationVerdict totalPacketsReceived avgLatency
    actualThroughput injectionRate flitsPerPacket ms.lowThroughputCycles
    ms.consecutiveZeroReceived measurementCycles
  { sim with metrics := (metrics.setSaturated isSaturated).endMeasurement }

/-- `Simulator::runSimulation`. The outcomes of the random generator are given per cycle
number: in hypercube mode `injectPackets` seeds its generator from the cycle number and the
rate at every call. `none` means that a destination loop of `injectPackets` has not
ended. The quotient `actualThroughput` is exact, so it is meaningful for
`measurementCycles` and the node count both nonzero. -/
def Simulator.runSimulation (sim : Simulator) (injectionRate : ℚ) (config : RunConfig)
    (draws : Int → Nat → InjectionDraw) : Option Simulator :=
  match sim.runCycles injectionRate draws config.warmupCycles.toNat with
  | none => none
  | some sim =>
      let sim := { sim with metrics := sim.metrics.startMeasurement }
      match (List.range config.measurementCycles.toNat).foldl
          (Simulator.measureCycle injectionRate config draws)
          (some { sim := sim, totalPacketsInjected := 0, consecutiveZeroReceived := 0,
                  lowThroughputCycles := 0, stopped := false }) with
      | none => none
      | some ms => some (Simulator.finishRun ms injectionRate config)

/-! ## Predicates used in the statements and proofs -/

/-- Every link reference held by a node points at a link of the table that satisfies `Q`
and has the node as one of its ends. -/
def LinkTable.Sound {N : Type} (Q : Link N → Prop) (t : LinkTable N) : Prop :=
  ∀ v idx, idx ∈ t.nodeLinks v →
    ∃ l, t.links[idx]? = some l ∧ Q l ∧ (l.sourceNode = v ∨ l.destinationNode = v)

/-- Both `a` and `b` hold a reference to a link from `a` to `b` with direction `d`. -/
def LinkTable.Joined {N : Type} (t : LinkTable N) (a b : N) (d : Direction) : Prop :=
  ∃ idx l, idx ∈ t.nodeLinks a ∧ idx ∈ t.nodeLinks b ∧ t.links[idx]? = some l ∧
    l.sourceNode = a ∧ l.destinationNode = b ∧ l.direction = d


/-- The dimensions below `n` in which the ids `a` and `b` differ, in ascending order. -/
def diffDims (n a b : Nat) : List Nat :=
  (List.range n).filter (fun i => a.testBit i != b.testBit i)

/-- The ids visited when the bits listed in `ks` are flipped one after the other, starting
from `a`. -/
def flipPath (a : Nat) : List Nat → List Nat
  | [] => [a]
  | k :: ks => a :: flipPath (a ^^^ 2 ^ k) ks

/-- The routing result after the nodes `nodes` have been appended to the path, one hop
each. -/
def RoutingResult.extend {N : Type} (result : RoutingResult N) (nodes : List N) :
    RoutingResult N :=
  { result with path := result.path ++ nodes,
                hopCount := result.hopCount + (nodes.length : Int) }

/-- The link `l` joins the cell `(i, j)` of the `w` x `h` mesh to its right neighbour with
tag `POSITIVE_X`, or to the neighbour below it with tag `POSITIVE_Y`. -/
def MeshLink (w h : Nat) (l : Link Node) : Prop :=
  ∃ i j : Nat, l.sourceNode = Node.ofXY (i : Int) (j : Int) ∧ i < w ∧ j < h ∧
    ((l.destinationNode = Node.ofXY ((i : Int) + 1) (j : Int) ∧ i + 1 < w ∧
        l.direction = Direction.POSITIVE_X) ∨
     (l.destinationNode = Node.ofXY (i : Int) ((j : Int) + 1) ∧ j + 1 < h ∧
        l.direction = Direction.POSITIVE_Y))

/-- A mesh link with both channels free. -/
def FreeMeshLink (w h : Nat) (l : Link Node) : Prop :=
  MeshLink w h l ∧ l.adaptiveChannelOccupied = false ∧ l.deterministicChannelOccupied = false

/-- The nodes `u` and `v` are the two ends of a link held by `u`. -/
def LinkTable.Linked {N : Type} (t : LinkTable N) (u v : N) : Prop :=
  ∃ idx l, idx ∈ t.nodeLinks u ∧ t.links[idx]? = some l ∧
    ((l.sourceNode = u ∧ l.destinationNode = v) ∨ (l.sourceNode = v ∧ l.destinationNode = u))

/-- Every pair of horizontally or vertically adjacent cells of the `w` x `h` mesh is joined
by a link held by both cells. -/
def MeshComplete (w h : Nat) (t : LinkTable Node) : Prop :=
  (∀ i j : Nat, i + 1 < w → j < h →
    t.Joined (Node.ofXY (i : Int) (j : Int)) (Node.ofXY ((i : Int) + 1) (j : Int))
      Direction.POSITIVE_X) ∧
  (∀ i j : Nat, i < w → j + 1 < h →
    t.Joined (Node.ofXY (i : Int) (j : Int)) (Node.ofXY (i : Int) ((j : Int) + 1))
      Direction.POSITIVE_Y)

/-- The calls that a client makes on a `Simulator` between two calls of `reset`. -/
inductive SimCall where
  | inject (injectionRate : ℚ) (draws : Nat → InjectionDraw)
  | route
  | cycle (cycle : Int)

/-- One call on the simulator; the second component counts the packets that the calls of
`injectPackets` have returned so far. -/
def Simulator.applyCall (state : Option (Simulator × Int)) (call : SimCall) :
    Option (Simulator × Int) :=
  match state with
  | none => none
  | some (sim, injected) =>
      match call with
      | SimCall.inject injectionRate draws =>
          match sim.injectPackets injectionRate draws with
          | none => none
          | some (sim, totalInjected) => some (sim, injected + totalInjected)
      | SimCall.route => some (sim.routePackets, injected)
      | SimCall.cycle cycle => some (sim.updateCurrentCycle cycle, injected)

/-- A sequence of calls made after `reset()`. -/
def Simulator.applyCalls (sim : Simulator) (calls : List SimCall) : Option (Simulator × Int) :=
  calls.foldl Simulator.applyCall (some (sim.reset, 0))

/-- The sum of the lengths of the buffers of the nodes listed in `keys`. -/
def bufferTotal (keys : List NodeRef) (nodeBuffers : NodeRef → List Packet) : Nat :=
  (keys.map (fun node => (nodeBuffers node).length)).sum

/-- The list `keys` names every node with a non-empty buffer, each node once; it plays the
part of the key set of the map `nodeBuffers`. -/
def Covers (keys : List NodeRef) (nodeBuffers : NodeRef → List Packet) : Prop :=
  keys.Nodup ∧ ∀ node, node ∉ keys → nodeBuffers node = []

/-- What one execution of the body of a node loop of `routePackets` does to the buffers,
the log of retired packets, the metrics and the link counters. `latency` is the latency
formula of the mode. Four shapes: nothing happens; the head packet of `current` is blocked
and stays where it is (only its `currentNode` field is written); the head packet of
`current` is at its destination and is retired; the head packet of `current` is moved to
the tail of the buffer of `next` with one more hop. -/
def StepShape (latency : (NodeRef → List Packet) → CountMap (NodeRef × NodeRef) → Packet → ℚ)
    (st st2 : RouteState) : Prop :=
  st2 = st ∨
  (∃ current front rest, st.nodeBuffers current = front :: rest ∧
    st2.nodeBuffers = Simulator.setBuffer st.nodeBuffers current
      ({ front with currentNode := some current } :: rest) ∧
    st2.retired = st.retired ∧
    (st2.metrics = st.metrics ∨ st2.metrics = st.metrics.recordCongestionEvent) ∧
    (st2.linkUtilization = st.linkUtilization ∨
      ∃ key, st2.linkUtilization = st.linkUtilization.touch key)) ∨
  (∃ current front rest, st.nodeBuffers current = front :: rest ∧
    front.destinationNode = some current ∧
    st2.nodeBuffers = Simulator.setBuffer st.nodeBuffers current rest ∧
    st2.retired = st.retired ++ [{ front with currentNode := some current }] ∧
    st2.metrics = (st.metrics.recordPacketLatency
      (latency (Simulator.setBuffer st.nodeBuffers current rest) st.linkUtilization
        { front with currentNode := some current })).recordHopCount front.hopCount ∧
    st2.linkUtilization = st.linkUtilization) ∨
  (∃ current next front rest, st.nodeBuffers current = front :: rest ∧
    front.destinationNode ≠ some current ∧
    st2.nodeBuffers = Simulator.pushPacket
      (Simulator.setBuffer st.nodeBuffers current rest) next
      { front with hopCount := front.hopCount + 1, currentNode := some next } ∧
    st2.retired = st.retired ∧
    st2.metrics = st.metrics ∧
    (st2.linkUtilization = st.linkUtilization.incr (current, next) ∨
      st2.linkUtilization = (st.linkUtilization.touch (current, next)).incr (current, next)))

/-- Every buffered packet has a non-negative hop count and was injected in cycle `bound` or
earlier. -/
def PacketsSane (bound : Int) (nodeBuffers : NodeRef → List Packet) : Prop :=
  ∀ node packet, packet ∈ nodeBuffers node →
    0 ≤ packet.hopCount ∧ packet.injectionTime ≤ bound

/-- Every destination loop of `injectPackets` ends on the given draws: the draws of the
node with index `n` contain an id other than `n`. -/
def DrawsEnd (draws : Int → Nat → InjectionDraw) : Prop :=
  ∀ (cycle : Int) (n : Nat),
    (Simulator.drawDestination (n : Int) (draws cycle n).destinations).isSome = true

/-- The simulators `a` and `b` agree on the members that `reset` and the simulation loop
never write: the sizes, the mode and the topology. -/
def Simulator.SameSetup (a b : Simulator) : Prop :=
  a.networkSizeX = b.networkSizeX ∧ a.networkSizeY = b.networkSizeY ∧
  a.maxBufferSize = b.maxBufferSize ∧ a.isHypercubeMode = b.isHypercubeMode ∧
  a.hypercubeNet = b.hypercubeNet ∧ a.network = b.network

/-- The balance of packets of a simulator that has injected `injected` packets since
`reset`: they are the retired ones plus the buffered ones, every retired packet was
retired at its destination, and the metrics hold one latency per retired packet. -/
def Simulator.Balanced (sim : Simulator) (injected : Int) : Prop :=
  (∃ keys, Covers keys sim.nodeBuffers ∧
    injected = (sim.retired.length : Int) + (bufferTotal keys sim.nodeBuffers : Int)) ∧
  sim.metrics.latencies.length = sim.retired.length ∧
  ∀ p ∈ sim.retired, p.currentNode = p.destinationNode


/-! ## Further members of `HypercubeNetwork` and `Metrics` -/

/-- `HypercubeNetwork::areNeighbors`; `^` and `&` are `Int.xor` and `Int.land`. -/
def HypercubeNetwork.areNeighbors (node1 node2 : Int) : Bool :=
  let xorResult := Int.xor node1 node2
  decide (xorResult ≠ 0) && !decide (Int.land xorResult (xorResult - 1) ≠ 0)

/-- The `while (xorResult)` loop of `getHammingDistance`. The first argument bounds the
number of executions of the body; `none` means the bound was reached before the loop
ended. -/
def HypercubeNetwork.hammingLoop : Nat → Int → Int → Option Int
  | 0, xorResult, distance => if xorResult = 0 then some distance else none
  | fuel + 1, xorResult, distance =>
      if xorResult = 0 then some distance
      else HypercubeNetwork.hammingLoop fuel (xorResult >>> 1)
        (distance + Int.land xorResult 1)

/-- `HypercubeNetwork::getHammingDistance`, with a bound on the iterations of its loop. -/
def HypercubeNetwork.getHammingDistance (fuel : Nat) (node1 node2 : Int) : Option Int :=
  HypercubeNetwork.hammingLoop fuel (Int.xor node1 node2) 0

/-- `Metrics::recordInjectionRate`. -/
def Metrics.recordInjectionRate (m : Metrics) (packetsPerCyclePerNode : ℚ) : Metrics :=
  { m with injectionRates := m.injectionRates ++ [packetsPerCyclePerNode],
           currentInjectionRate := packetsPerCyclePerNode }

/-- `Metrics::recordNetworkUtilization`. -/
def Metrics.recordNetworkUtilization (m : Metrics) (utilization : ℚ) : Metrics :=
  { m with networkUtilizations := m.networkUtilizations ++ [utilization] }

/-- `Metrics::getAverageNetworkUtilization`. -/
def Metrics.getAverageNetworkUtilization (m : Metrics) : ℚ :=
  if m.networkUtilizations.isEmpty then 0
  else m.networkUtilizations.foldl (fun sum util => sum + util) 0 /
    (m.networkUtilizations.length : ℚ)

/-- `Metrics::getCurrentInjectionRate`. -/
def Metrics.getCurrentInjectionRate (m : Metrics) : ℚ :=
  m.currentInjectionRate

/-- A call of one of the recording members of `Metrics` (the members that neither start
nor end a phase and do not reset). -/
inductive MetricsCall where
  | recordPacketLatency (latencyCycles : ℚ)
  | recordFlitThroughput (flitsPerCyclePerNode : ℚ)
  | recordInjectionRate (packetsPerCyclePerNode : ℚ)
  | recordLatency (latency : ℚ)
  | recordThroughput (throughput : ℚ)
  | recordHopCount (hops : Int)
  | recordNetworkUtilization (utilization : ℚ)
  | recordCongestionEvent
  | setSaturated (saturated : Bool)

/-- The metrics after the call. -/
def Metrics.call (m : Metrics) : MetricsCall → Metrics
  | MetricsCall.recordPacketLatency latencyCycles => m.recordPacketLatency latencyCycles
  | MetricsCall.recordFlitThroughput flitsPerCyclePerNode =>
      m.recordFlitThroughput flitsPerCyclePerNode
  | MetricsCall.recordInjectionRate packetsPerCyclePerNode =>
      m.recordInjectionRate packetsPerCyclePerNode
  | MetricsCall.recordLatency latency => m.recordLatency latency
  | MetricsCall.recordThroughput throughput => m.recordThroughput throughput
  | MetricsCall.recordHopCount hops => m.recordHopCount hops
  | MetricsCall.recordNetworkUtilization utilization => m.recordNetworkUtilization utilization
  | MetricsCall.recordCongestionEvent => m.recordCongestionEvent
  | MetricsCall.setSaturated saturated => m.setSaturated saturated

/-- The argument of the call when it is a call of `recordPacketLatency`. -/
def MetricsCall.packetLatency : MetricsCall → Option ℚ
  | MetricsCall.recordPacketLatency latencyCycles => some latencyCycles
  | _ => none

/-! ## Views of the simulation loop used in the statements -/

/-- The simulator and the local variables of `runSimulation` at the entry of the
measurement loop, `sim` being the simulator at the end of the warm-up loop. -/
def Simulator.measureStart (sim : Simulator) : MeasureState :=
  { sim := { sim with metrics := sim.metrics.startMeasurement },
    totalPacketsInjected := 0, consecutiveZeroReceived := 0, lowThroughputCycles := 0,
    stopped := false }

/-- The first `cycles` iterations of the measurement loop of `runSimulation`. -/
def Simulator.measureLoop (injectionRate : ℚ) (config : RunConfig)
    (draws : Int → Nat → InjectionDraw) (ms : MeasureState) (cycles : Nat) :
    Option MeasureState :=
  (List.range cycles).foldl (Simulator.measureCycle injectionRate config draws) (some ms)

/-- The nodes visited by the buffer loops of `calculateNetworkUtilization`, in order. -/
def Simulator.nodeRefs (sim : Simulator) : List NodeRef :=
  if sim.isHypercubeMode then
    (List.range sim.hypercubeNet.totalNodes).filterMap
      (fun (nodeId : Nat) =>
        (sim.hypercubeNet.getHypercubeNode (nodeId : Int)).map NodeRef.cube)
  else
    (List.range sim.networkSizeX).flatMap
      (fun (x : Nat) => (List.range sim.networkSizeY).filterMap
        (fun (y : Nat) => (sim.network.getNode (x : Int) (y : Int)).map NodeRef.mesh))


/-! ## Predicates on the links of the hypercube -/

/-- The link `l` joins the nodes `u` and `v`, in either orientation. -/
def Link.joins {N : Type} [DecidableEq N] (l : Link N) (u v : N) : Bool :=
  decide ((l.sourceNode = u ∧ l.destinationNode = v) ∨
    (l.sourceNode = v ∧ l.destinationNode = u))

/-- The node `v` is one of the two ends of the link `l`. -/
def Link.touches {N : Type} [DecidableEq N] (l : Link N) (v : N) : Bool :=
  decide (l.sourceNode = v ∨ l.destinationNode = v)

/-- The link vector of every node lists, without repetition, exactly the positions of the
links of the table that have the node as one of their ends. -/
def LinkTable.Indexed {N : Type} [DecidableEq N] (t : LinkTable N) : Prop :=
  ∀ m, (t.nodeLinks m).Nodup ∧
    (∀ i, i ∈ t.nodeLinks m ↔ ∃ l, t.links[i]? = some l ∧ l.touches m = true) ∧
    (t.nodeLinks m).length = t.links.countP (fun l => l.touches m)

/-- The pairs `(nodeId, dim)` visited by the two loops of `createHypercubeLinks` for which
the test `neighborId > nodeId` holds, in the order of the loops. -/
def hypercubeEdges (n : Nat) : List (Nat × Nat) :=
  (List.product (List.range (2 ^ n)) (List.range n)).filter
    (fun p => decide (p.1 < p.1 ^^^ 2 ^ p.2))

/-- The link `new Link(currentNode, neighborNode, linkDirection)` made for the pair
`(nodeId, dim)`. -/
def hypercubeLink (n : Nat) (p : Nat × Nat) : Link HypercubeNode :=
  Link.new (HypercubeNetwork.newNode n p.1) (HypercubeNetwork.newNode n (p.1 ^^^ 2 ^ p.2))
    (HypercubeNetwork.linkDirection p.2)

/-! ## Further members of `Link` and `HypercubeNetwork` -/

/-- `Link::transmit`. -/
def Link.transmit {N : Type} (l : Link N) : VirtualChannel → Link N
  | VirtualChannel.ADAPTIVE => { l with adaptiveChannelOccupied := true }
  | VirtualChannel.DETERMINISTIC => { l with deterministicChannelOccupied := true }

/-- `Link::isOccupied`. -/
def Link.isOccupied {N : Type} (l : Link N) (vc : VirtualChannel) : Bool :=
  !l.canTransmit vc

/-- `HypercubeNetwork::getNodeId`; an entry is read as in `if (coordinates[i])`. -/
def HypercubeNetwork.getNodeId (dimension : Nat) (coordinates : List Nat) : Nat :=
  (List.range dimension).foldl
    (fun (nodeId : Nat) (i : Nat) =>
      if coordinates.getD i 0 ≠ 0 then nodeId ||| (1 <<< i) else nodeId)
    0

/-- `HypercubeNetwork::getNode(int x, int y)`. The result `Except.ok none` is the null
pointer. The expression `hypercubeNodes[nodeId]` is an unchecked access to the node table:
`Except.error nodeId` records that the table was indexed at `nodeId` outside its bounds. -/
def HypercubeNetwork.getNode (net : HypercubeNetwork) (x y : Int) :
    Except Int (Option HypercubeNode) :=
  if net.dimension ≥ 2 then
    let nodeId : Int := x + y * (((1 <<< (net.dimension / 2) : Nat)) : Int)
    if nodeId < (net.totalNodes : Int) then
      if 0 ≤ nodeId then
        match net.hypercubeNodes[nodeId.toNat]? with
        | some node => Except.ok (some node)
        | none => Except.error nodeId
      else Except.error nodeId
    else Except.ok none
  else Except.ok none

/-! ## The links of the mesh -/

/-- The links made by `Network::createLinks`, in the order of creation: the cells `(i, j)`
in loop order, for each the link to the right neighbour (marked `true`, made when
`i < width - 1`) and then the link to the neighbour below (marked `false`, made when
`j < height - 1`). -/
def meshEdges (w h : Nat) : List ((Nat × Nat) × Bool) :=
  (List.product (List.range w) (List.range h)).flatMap (fun p =>
    (if p.1 + 1 < w then [(p, true)] else []) ++ (if p.2 + 1 < h then [(p, false)] else []))

/-- The link `new Link(currentNode, rightNode, POSITIVE_X)` or
`new Link(currentNode, downNode, POSITIVE_Y)` made for an entry of `meshEdges`. -/
def meshLink (e : (Nat × Nat) × Bool) : Link Node :=
  if e.2 = true then
    Link.new (Node.ofXY (e.1.1 : Int) (e.1.2 : Int))
      (Node.ofXY ((e.1.1 : Int) + 1) (e.1.2 : Int)) Direction.POSITIVE_X
  else
    Link.new (Node.ofXY (e.1.1 : Int) (e.1.2 : Int))
      (Node.ofXY (e.1.1 : Int) ((e.1.2 : Int) + 1)) Direction.POSITIVE_Y

/-! ## Hop counts and distances -/

/-- The distance between two nodes held by the engine: the Hamming distance of the ids of
two hypercube nodes, the Manhattan distance of two mesh nodes. -/
def NodeRef.distance : NodeRef → NodeRef → Int
  | NodeRef.cube a, NodeRef.cube b => (popcount (a.id.toNat ^^^ b.id.toNat) : Int)
  | NodeRef.mesh a, NodeRef.mesh b => DuatoProtocol.calculateManhattanDistance a b
  | _, _ => 0

/-- What one execution of the body of a node loop of `routePackets` does to the buffers,
the log of retired packets and the recorded hop counts, with the next hop named. `hop` is
the next-hop function of the mode and `known` holds of the nodes that the loop visits.
Four shapes: none of the three changes; the head packet of `current` stays where it is
(only its `currentNode` field is written); the head packet of `current` is at its
destination and is retired, its hop count being recorded; the head packet of `current` is
moved to the tail of the buffer of `hop current destination` with one more hop. -/
def HopShape (hop : NodeRef → Option NodeRef → Option NodeRef) (known : NodeRef → Prop)
    (st st2 : RouteState) : Prop :=
  (st2.nodeBuffers = st.nodeBuffers ∧ st2.retired = st.retired ∧
    st2.metrics.hopCounts = st.metrics.hopCounts) ∨
  (∃ current front rest, known current ∧ st.nodeBuffers current = front :: rest ∧
    st2.nodeBuffers = Simulator.setBuffer st.nodeBuffers current
      ({ front with currentNode := some current } :: rest) ∧
    st2.retired = st.retired ∧ st2.metrics.hopCounts = st.metrics.hopCounts) ∨
  (∃ current front rest, known current ∧ st.nodeBuffers current = front :: rest ∧
    front.destinationNode = some current ∧
    st2.nodeBuffers = Simulator.setBuffer st.nodeBuffers current rest ∧
    st2.retired = st.retired ++ [{ front with currentNode := some current }] ∧
    st2.metrics.hopCounts = st.metrics.hopCounts ++ [front.hopCount]) ∨
  (∃ current next front rest, known current ∧ st.nodeBuffers current = front :: rest ∧
    front.destinationNode ≠ some current ∧
    hop current front.destinationNode = some next ∧
    st2.nodeBuffers = Simulator.pushPacket
      (Simulator.setBuffer st.nodeBuffers current rest) next
      { front with hopCount := front.hopCount + 1, currentNode := some next } ∧
    st2.retired = st.retired ∧ st2.metrics.hopCounts = st.metrics.hopCounts)

/-- Every buffered packet sits in the buffer of a known node, was injected at a known node
for a known destination, and its hop count plus the distance from the node of the buffer
to the destination is the distance from the source to the destination. -/
def HopsConsistent (known : NodeRef → Prop) (nodeBuffers : NodeRef → List Packet) : Prop :=
  ∀ node packet, packet ∈ nodeBuffers node →
    known node ∧ packet.currentNode = some node ∧
    ∃ source destination, packet.sourceNode = some source ∧
      packet.destinationNode = some destination ∧ known source ∧ known destination ∧
      packet.hopCount + node.distance destination = source.distance destination

/-- The recorded hop counts are those of the retired packets, in order, and the hop count
of every retired packet is the distance between its source and its destination. -/
def RetiredConsistent (retired : List Packet) (hopCounts : List Int) : Prop :=
  hopCounts = retired.map (fun packet => packet.hopCount) ∧
  ∀ packet ∈ retired, ∃ source destination, packet.sourceNode = some source ∧
    packet.destinationNode = some destination ∧
    packet.hopCount = source.distance destination

/-- The nodes of the topology of the simulator, as the node loops reach them. -/
def Simulator.known (sim : Simulator) (node : NodeRef) : Prop :=
  if sim.isHypercubeMode then
    ∃ (nodeId : Int) (v : HypercubeNode),
      sim.hypercubeNet.getHypercubeNode nodeId = some v ∧ node = NodeRef.cube v
  else
    ∃ (x y : Int) (v : Node), sim.network.getNode x y = some v ∧ node = NodeRef.mesh v

/-- The next-hop function of the mode of the simulator. -/
def Simulator.nextHop (sim : Simulator) (current : NodeRef) (destination : Option NodeRef) :
    Option NodeRef :=
  if sim.isHypercubeMode then sim.calculateNextHopHypercube current destination
  else sim.calculateNextHop current destination

/-! # Theorems -/

/-! ## Generic facts about folds and searches -/

theorem foldl_inv {α σ : Type} (f : σ → α → σ) (I : σ → Prop) :
    ∀ (xs : List α) (s : σ), (∀ s, ∀ x ∈ xs, I s → I (f s x)) → I s → I (xs.foldl f s) := by
  intro xs
  induction xs with
  | nil => intro s _ h; exact h
  | cons x xs ih =>
      intro s hstep h
      simp only [List.foldl_cons]
      apply ih
      · intro s y hy hs
        exact hstep s y (List.mem_cons_of_mem _ hy) hs
      · exact hstep s x (List.mem_cons_self _ _) h

theorem foldl_reach {α σ : Type} (f : σ → α → σ) (P : σ → Prop) (x : α)
    (hstep : ∀ s, P (f s x)) (hmono : ∀ s y, P s → P (f s y)) :
    ∀ (xs : List α) (s : σ), x ∈ xs → P (xs.foldl f s) := by
  intro xs
  induction xs with
  | nil => intro s h; cases h
  | cons y ys ih =>
      intro s h
      simp only [List.foldl_cons]
      rcases List.mem_cons.mp h with rfl | h
      · exact foldl_inv f P ys _ (fun s y _ hs => hmono s y hs) (hstep s)
      · exact ih _ h

theorem findSome?_eq_some_of {α β : Type} (f : α → Option β) (b : β) :
    ∀ (l : List α), (∀ x ∈ l, f x = none ∨ f x = some b) → (∃ x ∈ l, f x = some b) →
      l.findSome? f = some b := by
  intro l
  induction l with
  | nil => intro _ h; rcases h with ⟨x, hx, _⟩; cases hx
  | cons a l ih =>
      intro h1 h2
      rw [List.findSome?_cons]
      rcases h1 a (List.mem_cons_self _ _) with ha | ha
      · rw [ha]
        apply ih
        · intro x hx; exact h1 x (List.mem_cons_of_mem _ hx)
        · rcases h2 with ⟨x, hx, hfx⟩
          rcases List.mem_cons.mp hx with rfl | hx
          · rw [ha] at hfx; cases hfx
          · exact ⟨x, hx, hfx⟩
      · rw [ha]

/-! ## Link tables -/

theorem LinkTable.sound_empty {N : Type} (Q : Link N → Prop) :
    (LinkTable.empty : LinkTable N).Sound Q := by
  intro v idx h
  simp [LinkTable.empty] at h

theorem LinkTable.mem_addLink {N : Type} [DecidableEq N] (f : N → List Nat) (n : N)
    (idx : Nat) (m : N) (i : Nat) :
    i ∈ LinkTable.addLink f n idx m ↔ i ∈ f m ∨ (m = n ∧ i = idx) := by
  unfold LinkTable.addLink
  by_cases h : m = n
  · simp [h]
  · simp [h]

theorem LinkTable.mem_pushLink {N : Type} [DecidableEq N] (t : LinkTable N) (a b : N)
    (d : Direction) (m : N) (i : Nat) :
    i ∈ (t.pushLink a b d).nodeLinks m ↔
      i ∈ t.nodeLinks m ∨ (i = t.links.length ∧ (m = a ∨ m = b)) := by
  simp only [LinkTable.pushLink, LinkTable.mem_addLink]
  tauto

theorem LinkTable.pushLink_get_old {N : Type} [DecidableEq N] (t : LinkTable N) (a b : N)
    (d : Direction) (i : Nat) (l : Link N) (h : t.links[i]? = some l) :
    (t.pushLink a b d).links[i]? = some l := by
  have hi : i < t.links.length := by
    rcases List.getElem?_eq_some.mp h with ⟨hi, _⟩
    exact hi
  simp only [LinkTable.pushLink]
  rw [List.getElem?_append_left hi]
  exact h

theorem LinkTable.pushLink_get_new {N : Type} [DecidableEq N] (t : LinkTable N) (a b : N)
    (d : Direction) :
    (t.pushLink a b d).links[t.links.length]? = some (Link.new a b d) := by
  simp [LinkTable.pushLink]

theorem LinkTable.sound_pushLink {N : Type} [DecidableEq N] (Q : Link N → Prop)
    (t : LinkTable N) (a b : N) (d : Direction) (ht : t.Sound Q) (hq : Q (Link.new a b d)) :
    (t.pushLink a b d).Sound Q := by
  intro v idx h
  rcases (LinkTable.mem_pushLink t a b d v idx).mp h with h | ⟨rfl, hv⟩
  · rcases ht v idx h with ⟨l, hl, hq, hv⟩
    exact ⟨l, LinkTable.pushLink_get_old t a b d idx l hl, hq, hv⟩
  · refine ⟨Link.new a b d, LinkTable.pushLink_get_new t a b d, hq, ?_⟩
    rcases hv with rfl | rfl
    · left; rfl
    · right; rfl

theorem LinkTable.joined_pushLink_self {N : Type} [DecidableEq N] (t : LinkTable N) (a b : N)
    (d : Direction) : (t.pushLink a b d).Joined a b d := by
  refine ⟨t.links.length, Link.new a b d, ?_, ?_, LinkTable.pushLink_get_new t a b d,
    rfl, rfl, rfl⟩
  · exact (LinkTable.mem_pushLink t a b d a _).mpr (Or.inr ⟨rfl, Or.inl rfl⟩)
  · exact (LinkTable.mem_pushLink t a b d b _).mpr (Or.inr ⟨rfl, Or.inr rfl⟩)

theorem LinkTable.joined_pushLink_mono {N : Type} [DecidableEq N] (t : LinkTable N)
    (a b x y : N) (d e : Direction) (h : t.Joined x y e) : (t.pushLink a b d).Joined x y e := by
  rcases h with ⟨idx, l, hx, hy, hl, hrest⟩
  refine ⟨idx, l, ?_, ?_, LinkTable.pushLink_get_old t a b d idx _ hl, hrest⟩
  · exact (LinkTable.mem_pushLink t a b d x _).mpr (Or.inl hx)
  · exact (LinkTable.mem_pushLink t a b d y _).mpr (Or.inl hy)

/-! ## The hypercube topology -/

theorem newNode_inj (n a b : Nat) (h : HypercubeNetwork.newNode n a = HypercubeNetwork.newNode n b) :
    a = b := by
  have h1 : (HypercubeNetwork.newNode n a).id = (HypercubeNetwork.newNode n b).id := by rw [h]
  simp only [HypercubeNetwork.newNode, Node.ofId] at h1
  exact Int.ofNat.inj h1

theorem getCoordinates_length (n a : Nat) : (HypercubeNetwork.getCoordinates n a).length = n := by
  simp [HypercubeNetwork.getCoordinates]

theorem getCoordinates_getD (n a i : Nat) (hi : i < n) :
    (HypercubeNetwork.getCoordinates n a).getD i 0 = (a.testBit i).toNat := by
  unfold HypercubeNetwork.getCoordinates
  rw [List.getD_eq_getElem?_getD, List.getElem?_map, List.getElem?_range hi]
  simp only [Option.map_some', Option.getD_some]
  rw [Nat.and_one_is_mod, Nat.shiftRight_eq_div_pow, Nat.testBit_to_div_mod]
  rcases Nat.mod_two_eq_zero_or_one (a / 2 ^ i) with h | h <;> simp [h]

theorem coord_ne_iff (n a b i : Nat) (hi : i < n) :
    (HypercubeNetwork.getCoordinates n a).getD i 0 ≠ (HypercubeNetwork.getCoordinates n b).getD i 0
      ↔ a.testBit i ≠ b.testBit i := by
  rw [getCoordinates_getD n a i hi, getCoordinates_getD n b i hi]
  cases a.testBit i <;> cases b.testBit i <;> simp

theorem nodes_lookup (n i : Nat) :
    (HypercubeNetwork.new n).createHypercubeNodes.hypercubeNodes[i]? =
      if i < 2 ^ n then some (HypercubeNetwork.newNode n i) else none := by
  simp only [HypercubeNetwork.createHypercubeNodes, HypercubeNetwork.new]
  rw [List.getElem?_map]
  by_cases h : i < 2 ^ n
  · rw [List.getElem?_range h]; simp [h]
  · rw [List.getElem?_eq_none (by simpa using h)]; simp [h]

theorem flip_lt (n a k : Nat) (ha : a < 2 ^ n) (hk : k < n) : a ^^^ 2 ^ k < 2 ^ n :=
  Nat.xor_lt_two_pow ha (Nat.pow_lt_pow_right (by decide) hk)

theorem flip_flip (a k : Nat) : (a ^^^ 2 ^ k) ^^^ 2 ^ k = a := by
  rw [Nat.xor_assoc, Nat.xor_self, Nat.xor_zero]

theorem flip_ne (a k : Nat) : a ^^^ 2 ^ k ≠ a := by
  intro h
  have h1 := congrArg (fun x => x.testBit k) h
  simp only [Nat.testBit_xor, Nat.testBit_two_pow_self] at h1
  cases hb : a.testBit k <;> simp [hb] at h1

/-- Both ends of the link are nodes of the hypercube of dimension `n`. -/
theorem linkStep_sound (n : Nat) (t : LinkTable HypercubeNode) (nodeId dim : Nat)
    (ht : t.Sound (fun l => ∃ i j, i < 2 ^ n ∧ j < 2 ^ n ∧
      l.sourceNode = HypercubeNetwork.newNode n i ∧
      l.destinationNode = HypercubeNetwork.newNode n j)) :
    (HypercubeNetwork.linkStep (HypercubeNetwork.new n).createHypercubeNodes.hypercubeNodes
      t nodeId dim).Sound (fun l => ∃ i j, i < 2 ^ n ∧ j < 2 ^ n ∧
      l.sourceNode = HypercubeNetwork.newNode n i ∧
      l.destinationNode = HypercubeNetwork.newNode n j) := by
  unfold HypercubeNetwork.linkStep
  simp only [nodes_lookup]
  split
  · split
    · rename_i c d hc hd
      split at hc
      · split at hd
        · cases hc; cases hd
          apply LinkTable.sound_pushLink _ _ _ _ _ ht
          exact ⟨_, _, ‹_›, ‹_›, rfl, rfl⟩
        · cases hd
      · cases hc
    · exact ht
  · exact ht

theorem linkStep_joined_mono (nodes : List HypercubeNode) (t : LinkTable HypercubeNode)
    (nodeId dim : Nat) (x y : HypercubeNode) (e : Direction) (h : t.Joined x y e) :
    (HypercubeNetwork.linkStep nodes t nodeId dim).Joined x y e := by
  unfold HypercubeNetwork.linkStep
  simp only
  split
  · split
    · exact LinkTable.joined_pushLink_mono _ _ _ _ _ _ _ h
    · exact h
  · exact h

theorem linkStep_joined_self (n : Nat) (t : LinkTable HypercubeNode) (a k : Nat)
    (ha : a < 2 ^ n) (hk : k < n) (hlt : a < a ^^^ 2 ^ k) :
    (HypercubeNetwork.linkStep (HypercubeNetwork.new n).createHypercubeNodes.hypercubeNodes
      t a k).Joined (HypercubeNetwork.newNode n a) (HypercubeNetwork.newNode n (a ^^^ 2 ^ k))
      (HypercubeNetwork.linkDirection k) := by
  unfold HypercubeNetwork.linkStep
  simp only [nodes_lookup, Nat.one_shiftLeft, gt_iff_lt, hlt, if_true, ha, flip_lt n a k ha hk]
  exact LinkTable.joined_pushLink_self _ _ _ _

theorem hypercube_table_eq (n : Nat) :
    (HypercubeNetwork.new n).initializeTopology.table =
      (List.range (2 ^ n)).foldl
        (fun t nodeId => (List.range n).foldl
          (fun t dim => HypercubeNetwork.linkStep
            (HypercubeNetwork.new n).createHypercubeNodes.hypercubeNodes t nodeId dim) t)
        LinkTable.empty := rfl

theorem hypercube_sound (n : Nat) :
    (HypercubeNetwork.new n).initializeTopology.table.Sound (fun l => ∃ i j, i < 2 ^ n ∧
      j < 2 ^ n ∧ l.sourceNode = HypercubeNetwork.newNode n i ∧
      l.destinationNode = HypercubeNetwork.newNode n j) := by
  rw [hypercube_table_eq]
  apply foldl_inv
  · intro s nodeId _ hs
    apply foldl_inv
    · intro s dim _ hs
      exact linkStep_sound n s nodeId dim hs
    · exact hs
  · exact LinkTable.sound_empty _

theorem hypercube_joined (n a k : Nat) (ha : a < 2 ^ n) (hk : k < n) (hlt : a < a ^^^ 2 ^ k) :
    (HypercubeNetwork.new n).initializeTopology.table.Joined (HypercubeNetwork.newNode n a)
      (HypercubeNetwork.newNode n (a ^^^ 2 ^ k)) (HypercubeNetwork.linkDirection k) := by
  rw [hypercube_table_eq]
  apply foldl_reach _ (fun (t : LinkTable HypercubeNode) => t.Joined (HypercubeNetwork.newNode n a)
      (HypercubeNetwork.newNode n (a ^^^ 2 ^ k)) (HypercubeNetwork.linkDirection k)) a
  · intro s
    apply foldl_reach _ (fun (t : LinkTable HypercubeNode) => t.Joined (HypercubeNetwork.newNode n a)
      (HypercubeNetwork.newNode n (a ^^^ 2 ^ k)) (HypercubeNetwork.linkDirection k)) k
    · intro s
      exact linkStep_joined_self n s a k ha hk hlt
    · intro s y hs
      exact linkStep_joined_mono _ _ _ _ _ _ _ hs
    · exact List.mem_range.mpr hk
  · intro s y hs
    apply foldl_inv _ (fun (t : LinkTable HypercubeNode) => t.Joined
      (HypercubeNetwork.newNode n a) (HypercubeNetwork.newNode n (a ^^^ 2 ^ k))
      (HypercubeNetwork.linkDirection k))
    · intro s dim _ hs
      exact linkStep_joined_mono _ _ _ _ _ _ _ hs
    · exact hs
  · exact List.mem_range.mpr ha

/-- On nodes of the hypercube, `isNeighborInDimension` holds exactly for the node whose id
has bit `k` flipped. -/
theorem isNeighborInDimension_iff (n a j k : Nat) (ha : a < 2 ^ n) (hj : j < 2 ^ n)
    (hk : k < n) :
    (HypercubeNetwork.newNode n a).isNeighborInDimension (HypercubeNetwork.newNode n j)
      (k : Int) = true ↔ j = a ^^^ 2 ^ k := by
  unfold HypercubeNode.isNeighborInDimension
  have h1 : ¬ ((k : Int) < 0 ∨ (k : Int) ≥ ((HypercubeNetwork.newNode n a).dimension : Int)) := by
    simp only [HypercubeNetwork.newNode]; omega
  simp only [h1, if_false]
  simp only [HypercubeNetwork.newNode, getCoordinates_length, ne_eq, not_true_eq_false,
    if_false, List.all_eq_true, List.mem_range, Nat.cast_inj]
  constructor
  · intro h
    apply Nat.eq_of_testBit_eq
    intro i
    by_cases hi : i < n
    · have h2 := h i hi
      rw [Nat.testBit_xor, Nat.testBit_two_pow]
      by_cases hik : i = k
      · subst hik
        simp only [if_true, decide_eq_true_eq] at h2
        have h3 := (coord_ne_iff n a j i hi).mp h2
        cases hx : a.testBit i <;> cases hy : j.testBit i <;> simp [hx, hy] at h3 ⊢
      · simp only [hik, if_false, decide_eq_true_eq] at h2
        rw [getCoordinates_getD n a i hi, getCoordinates_getD n j i hi] at h2
        have hki : ¬ k = i := fun h => hik h.symm
        cases hx : a.testBit i <;> cases hy : j.testBit i <;> simp [hx, hy, hki] at h2 ⊢
    · have hn : 2 ^ n ≤ 2 ^ i := Nat.pow_le_pow_right (by decide) (by omega)
      rw [Nat.testBit_lt_two_pow (by omega), Nat.testBit_lt_two_pow
        (lt_of_lt_of_le (flip_lt n a k ha hk) hn)]
  · intro h i hi
    subst h
    by_cases hik : i = k
    · subst hik
      simp only [if_true, decide_eq_true_eq]
      apply (coord_ne_iff n a _ i hi).mpr
      rw [Nat.testBit_xor, Nat.testBit_two_pow_self]
      cases a.testBit i <;> simp
    · simp only [hik, if_false, decide_eq_true_eq]
      rw [getCoordinates_getD n a i hi, getCoordinates_getD n _ i hi, Nat.testBit_xor,
        Nat.testBit_two_pow]
      have hki : ¬ k = i := fun h => hik h.symm
      simp [hki]

theorem neighborVia_sound (n a k : Nat) (ha : a < 2 ^ n) (hk : k < n) (l : Link HypercubeNode)
    (hl : ∃ i j, i < 2 ^ n ∧ j < 2 ^ n ∧ l.sourceNode = HypercubeNetwork.newNode n i ∧
      l.destinationNode = HypercubeNetwork.newNode n j) :
    (HypercubeNetwork.newNode n a).neighborVia (k : Int) l = none ∨
    (HypercubeNetwork.newNode n a).neighborVia (k : Int) l =
      some (HypercubeNetwork.newNode n (a ^^^ 2 ^ k)) := by
  rcases hl with ⟨i, j, hi, hj, hs, hd⟩
  unfold HypercubeNode.neighborVia
  simp only [hs, hd]
  by_cases h1 : HypercubeNetwork.newNode n i = HypercubeNetwork.newNode n a
  · simp only [h1, if_true]
    by_cases h2 : (HypercubeNetwork.newNode n a).isNeighborInDimension
        (HypercubeNetwork.newNode n j) (k : Int) = true
    · right
      simp only [h2, if_true]
      rw [(isNeighborInDimension_iff n a j k ha hj hk).mp h2]
    · left
      simp only [h2]
      rfl
  · simp only [h1, if_false]
    by_cases h3 : HypercubeNetwork.newNode n j = HypercubeNetwork.newNode n a
    · simp only [h3, if_true]
      by_cases h2 : (HypercubeNetwork.newNode n a).isNeighborInDimension
          (HypercubeNetwork.newNode n i) (k : Int) = true
      · right
        simp only [h2, if_true]
        rw [(isNeighborInDimension_iff n a i k ha hi hk).mp h2]
      · left
        simp only [h2]
        rfl
    · left
      simp only [h3, if_false]

theorem neighborVia_forward (n a k : Nat) (ha : a < 2 ^ n) (hk : k < n)
    (l : Link HypercubeNode) (hs : l.sourceNode = HypercubeNetwork.newNode n a)
    (hd : l.destinationNode = HypercubeNetwork.newNode n (a ^^^ 2 ^ k)) :
    (HypercubeNetwork.newNode n a).neighborVia (k : Int) l =
      some (HypercubeNetwork.newNode n (a ^^^ 2 ^ k)) := by
  unfold HypercubeNode.neighborVia
  simp only [hs, hd, if_true]
  rw [(isNeighborInDimension_iff n a _ k ha (flip_lt n a k ha hk) hk).mpr rfl]
  simp

theorem neighborVia_backward (n a k : Nat) (ha : a < 2 ^ n) (hk : k < n)
    (l : Link HypercubeNode) (hs : l.sourceNode = HypercubeNetwork.newNode n (a ^^^ 2 ^ k))
    (hd : l.destinationNode = HypercubeNetwork.newNode n a) :
    (HypercubeNetwork.newNode n a).neighborVia (k : Int) l =
      some (HypercubeNetwork.newNode n (a ^^^ 2 ^ k)) := by
  unfold HypercubeNode.neighborVia
  have hne : ¬ HypercubeNetwork.newNode n (a ^^^ 2 ^ k) = HypercubeNetwork.newNode n a :=
    fun h => flip_ne a k (newNode_inj n _ _ h)
  simp only [hs, hd, hne, if_false, if_true]
  rw [(isNeighborInDimension_iff n a _ k ha (flip_lt n a k ha hk) hk).mpr rfl]
  simp

/-- On an initialized hypercube the neighbour of node `a` in dimension `k` is the node
with id `a xor 2^k`. -/
theorem getNeighborInDimension_hypercube (n a k : Nat) (ha : a < 2 ^ n) (hk : k < n) :
    (HypercubeNetwork.newNode n a).getNeighborInDimension
      (HypercubeNetwork.new n).initializeTopology.table (k : Int) =
      some (HypercubeNetwork.newNode n (a ^^^ 2 ^ k)) := by
  unfold HypercubeNode.getNeighborInDimension
  have h1 : ¬ ((k : Int) < 0 ∨ (k : Int) ≥ ((HypercubeNetwork.newNode n a).dimension : Int)) := by
    simp only [HypercubeNetwork.newNode]; omega
  simp only [h1, if_false]
  apply findSome?_eq_some_of
  · intro idx hidx
    rcases hypercube_sound n _ idx hidx with ⟨l, hl, hq, _⟩
    simp only [hl]
    exact neighborVia_sound n a k ha hk l hq
  · rcases Nat.lt_or_gt_of_ne (flip_ne a k).symm with hlt | hgt
    · rcases hypercube_joined n a k ha hk hlt with ⟨idx, l, h1, _, h3, h4, h5, _⟩
      refine ⟨idx, h1, ?_⟩
      simp only [h3]
      exact neighborVia_forward n a k ha hk l h4 h5
    · have hb := flip_lt n a k ha hk
      have hlt : a ^^^ 2 ^ k < (a ^^^ 2 ^ k) ^^^ 2 ^ k := by rw [flip_flip]; exact hgt
      rcases hypercube_joined n (a ^^^ 2 ^ k) k hb hk hlt with ⟨idx, l, _, h2, h3, h4, h5, _⟩
      rw [flip_flip] at h2 h5
      refine ⟨idx, h2, ?_⟩
      simp only [h3]
      exact neighborVia_backward n a k ha hk l h4 h5

/-! ## E-cube routing -/

theorem find?_eq_filter_head {α : Type} (p : α → Bool) :
    ∀ l : List α, l.find? p = (l.filter p).head? := by
  intro l
  induction l with
  | nil => rfl
  | cons a l ih =>
      by_cases h : p a = true
      · rw [List.find?_cons, List.filter_cons, h]
        rfl
      · simp only [Bool.not_eq_true] at h
        rw [List.find?_cons, List.filter_cons, h, ih]
        rfl

theorem diffDims_mem (n a b i : Nat) :
    i ∈ diffDims n a b ↔ i < n ∧ a.testBit i ≠ b.testBit i := by
  simp [diffDims, List.mem_filter]

theorem diffDims_sorted (n a b : Nat) : List.Pairwise (fun x y => x < y) (diffDims n a b) :=
  List.Pairwise.filter _ (List.pairwise_lt_range n)

theorem diffDims_nil_iff (n a b : Nat) (ha : a < 2 ^ n) (hb : b < 2 ^ n) :
    diffDims n a b = [] ↔ a = b := by
  constructor
  · intro h
    apply Nat.eq_of_testBit_eq
    intro i
    by_cases hi : i < n
    · by_contra hne
      have : i ∈ diffDims n a b := (diffDims_mem n a b i).mpr ⟨hi, hne⟩
      rw [h] at this
      cases this
    · have hn : 2 ^ n ≤ 2 ^ i := Nat.pow_le_pow_right (by decide) (by omega)
      rw [Nat.testBit_lt_two_pow (by omega), Nat.testBit_lt_two_pow (by omega)]
  · intro h
    subst h
    simp [diffDims]

theorem diffDims_head (n a b k : Nat) (ks : List Nat) (h : diffDims n a b = k :: ks) :
    k < n ∧ a.testBit k ≠ b.testBit k ∧ ∀ j, j < k → a.testBit j = b.testBit j := by
  have hk : k ∈ diffDims n a b := by rw [h]; exact List.mem_cons_self _ _
  have hk2 := (diffDims_mem n a b k).mp hk
  refine ⟨hk2.1, hk2.2, ?_⟩
  intro j hj
  by_contra hne
  have hjm : j ∈ diffDims n a b := (diffDims_mem n a b j).mpr ⟨by omega, hne⟩
  have hs := diffDims_sorted n a b
  rw [h] at hjm hs
  rcases List.mem_cons.mp hjm with rfl | hjm
  · omega
  · have := (List.pairwise_cons.mp hs).1 j hjm
    omega

theorem diffDims_flip (n a b k : Nat) (ks : List Nat) (h : diffDims n a b = k :: ks) :
    diffDims n (a ^^^ 2 ^ k) b = ks := by
  have hs := diffDims_sorted n a b
  rw [h] at hs
  have hnot : ∀ x ∈ ks, k < x := (List.pairwise_cons.mp hs).1
  have hk := diffDims_head n a b k ks h
  have h1 : diffDims n (a ^^^ 2 ^ k) b =
      (diffDims n a b).filter (fun i => decide (i ≠ k)) := by
    unfold diffDims
    rw [List.filter_filter]
    apply List.filter_congr
    intro i _
    rw [Nat.testBit_xor, Nat.testBit_two_pow]
    by_cases hik : i = k
    · subst hik
      have := hk.2.1
      cases hx : a.testBit i <;> cases hy : b.testBit i <;> simp [hx, hy] at this ⊢
    · have hki : ¬ k = i := fun h => hik h.symm
      simp [hik, hki]
  rw [h1, h, List.filter_cons]
  simp only [ne_eq, not_true_eq_false, decide_False, Bool.false_eq_true, if_false]
  apply List.filter_eq_self.mpr
  intro x hx
  have := hnot x hx
  simp only [decide_eq_true_eq]
  omega

theorem nextOnPath_hypercube (n a b : Nat) (ha : a < 2 ^ n) :
    EcubeRouting.nextOnPath (HypercubeNetwork.new n).initializeTopology.table
      (HypercubeNetwork.newNode n a) (HypercubeNetwork.newNode n b).coordinates =
      match diffDims n a b with
      | [] => none
      | k :: _ => some (HypercubeNetwork.newNode n (a ^^^ 2 ^ k)) := by
  unfold EcubeRouting.nextOnPath
  simp only [HypercubeNetwork.newNode, getCoordinates_length]
  rw [find?_eq_filter_head]
  have hf : (List.range n).filter (fun dim =>
      decide ((HypercubeNetwork.getCoordinates n a).getD dim 0 ≠
        (HypercubeNetwork.getCoordinates n b).getD dim 0)) = diffDims n a b := by
    unfold diffDims
    apply List.filter_congr
    intro i hi
    have hi2 := List.mem_range.mp hi
    have := coord_ne_iff n a b i hi2
    cases hx : a.testBit i <;> cases hy : b.testBit i <;> simp [hx, hy] at this ⊢ <;>
      simpa using this
  rw [hf]
  cases hd : diffDims n a b with
  | nil => rfl
  | cons k ks =>
      have hk := diffDims_head n a b k ks hd
      simp only [List.head?_cons]
      exact getNeighborInDimension_hypercube n a k ha hk.1

theorem flipPath_eq_cons (a : Nat) (ks : List Nat) :
    flipPath a ks = a :: (flipPath a ks).tail := by
  cases ks <;> rfl

theorem flipPath_length (a : Nat) (ks : List Nat) : (flipPath a ks).length = ks.length + 1 := by
  induction ks generalizing a with
  | nil => rfl
  | cons k ks ih => simp [flipPath, ih]

theorem flipPath_getLast (n b : Nat) (hb : b < 2 ^ n) :
    ∀ (ks : List Nat) (a : Nat), a < 2 ^ n → diffDims n a b = ks →
      (flipPath a ks).getLast? = some b := by
  intro ks
  induction ks with
  | nil =>
      intro a ha h
      rw [(diffDims_nil_iff n a b ha hb).mp h]
      rfl
  | cons k ks ih =>
      intro a ha h
      have hk := diffDims_head n a b k ks h
      have := ih (a ^^^ 2 ^ k) (flip_lt n a k ha hk.1) (diffDims_flip n a b k ks h)
      rw [flipPath, flipPath_eq_cons (a ^^^ 2 ^ k) ks, List.getLast?_cons_cons,
        ← flipPath_eq_cons]
      exact this

/-- Every step of `flipPath` along the differing dimensions flips the lowest bit in which
the current id differs from `b`. -/
theorem flipPath_steps (n b : Nat) :
    ∀ (ks : List Nat) (a : Nat), a < 2 ^ n → diffDims n a b = ks → ∀ i, i < ks.length →
      ∃ u k, u < 2 ^ n ∧ (flipPath a ks)[i]? = some u ∧ ks[i]? = some k ∧
        (flipPath a ks)[i + 1]? = some (u ^^^ 2 ^ k) ∧
        u.testBit k ≠ b.testBit k ∧ ∀ j, j < k → u.testBit j = b.testBit j := by
  intro ks
  induction ks with
  | nil => intro a _ _ i hi; cases hi
  | cons k ks ih =>
      intro a ha h i hi
      have hk := diffDims_head n a b k ks h
      cases i with
      | zero =>
          refine ⟨a, k, ha, by simp [flipPath], by simp, ?_, hk.2.1, hk.2.2⟩
          rw [flipPath, flipPath_eq_cons (a ^^^ 2 ^ k) ks]
          simp
      | succ i =>
          have hi2 : i < ks.length := by simpa using hi
          rcases ih (a ^^^ 2 ^ k) (flip_lt n a k ha hk.1) (diffDims_flip n a b k ks h) i hi2 with
            ⟨u, k2, hu, h1, h2, h3, h4, h5⟩
          refine ⟨u, k2, hu, ?_, ?_, ?_, h4, h5⟩
          · rw [flipPath]; simpa using h1
          · simpa using h2
          · rw [flipPath]; simpa using h3

theorem calculatePathLoop_hypercube (n b : Nat) (hb : b < 2 ^ n) :
    ∀ (fuel a : Nat) (path : List HypercubeNode), a < 2 ^ n →
      (diffDims n a b).length ≤ fuel →
      EcubeRouting.calculatePathLoop (HypercubeNetwork.new n).initializeTopology.table
        (HypercubeNetwork.newNode n b) fuel (HypercubeNetwork.newNode n a) path =
      some (path ++ ((flipPath a (diffDims n a b)).tail.map (HypercubeNetwork.newNode n))) := by
  intro fuel
  induction fuel with
  | zero =>
      intro a path ha hlen
      have hnil : diffDims n a b = [] := List.length_eq_zero.mp (Nat.le_zero.mp hlen)
      have hab := (diffDims_nil_iff n a b ha hb).mp hnil
      subst hab
      simp [EcubeRouting.calculatePathLoop, hnil, flipPath]
  | succ fuel ih =>
      intro a path ha hlen
      by_cases hab : a = b
      · subst hab
        have hnil := (diffDims_nil_iff n a a ha ha).mpr rfl
        simp [EcubeRouting.calculatePathLoop, hnil, flipPath]
      · have hne : ¬ HypercubeNetwork.newNode n a = HypercubeNetwork.newNode n b :=
          fun h => hab (newNode_inj n a b h)
        have hnn : diffDims n a b ≠ [] := fun h => hab ((diffDims_nil_iff n a b ha hb).mp h)
        obtain ⟨k, ks, hd⟩ := List.exists_cons_of_ne_nil hnn
        have hk := diffDims_head n a b k ks hd
        have hflip := diffDims_flip n a b k ks hd
        have hnext : ¬ HypercubeNetwork.newNode n (a ^^^ 2 ^ k) =
            HypercubeNetwork.newNode n a :=
          fun h => flip_ne a k (newNode_inj n _ _ h)
        have hlen2 : (diffDims n (a ^^^ 2 ^ k) b).length ≤ fuel := by
          rw [hflip]
          rw [hd] at hlen
          simpa using hlen
        rw [EcubeRouting.calculatePathLoop]
        simp only [hne, if_false, nextOnPath_hypercube n a b ha, hd, hnext]
        rw [ih (a ^^^ 2 ^ k) _ (flip_lt n a k ha hk.1) hlen2, hflip]
        rw [flipPath, List.tail_cons, flipPath_eq_cons (a ^^^ 2 ^ k) ks]
        simp

theorem filter_testBit_range (x n : Nat) (hx : x < 2 ^ n) :
    ∀ m, n ≤ m → (List.range m).filter (fun i => x.testBit i) =
      (List.range n).filter (fun i => x.testBit i) := by
  intro m hm
  induction m with
  | zero =>
      have : n = 0 := by omega
      subst this
      rfl
  | succ m ih =>
      by_cases h : n = m + 1
      · subst h; rfl
      · have hnm : n ≤ m := by omega
        have hpow : 2 ^ n ≤ 2 ^ m := Nat.pow_le_pow_right (by decide) hnm
        rw [List.range_succ, List.filter_append, ih hnm]
        simp [Nat.testBit_lt_two_pow (lt_of_lt_of_le hx hpow)]

theorem popcount_eq (x n : Nat) (hx : x < 2 ^ n) :
    popcount x = ((List.range n).filter (fun i => x.testBit i)).length := by
  unfold popcount
  rcases Nat.le_total n x with h | h
  · rw [filter_testBit_range x n hx x h]
  · rw [filter_testBit_range x x (Nat.lt_two_pow x) n h]

theorem diffDims_eq_xor (n a b : Nat) :
    diffDims n a b = (List.range n).filter (fun i => (a ^^^ b).testBit i) := by
  unfold diffDims
  apply List.filter_congr
  intro i _
  rw [Nat.testBit_xor]

theorem diffDims_length (n a b : Nat) (ha : a < 2 ^ n) (hb : b < 2 ^ n) :
    (diffDims n a b).length = popcount (a ^^^ b) := by
  rw [popcount_eq (a ^^^ b) n (Nat.xor_lt_two_pow ha hb), diffDims_eq_xor]

theorem getHypercubeNode_eq (n a : Nat) (v : HypercubeNode)
    (h : (HypercubeNetwork.new n).initializeTopology.getHypercubeNode (a : Int) = some v) :
    a < 2 ^ n ∧ v = HypercubeNetwork.newNode n a := by
  unfold HypercubeNetwork.getHypercubeNode at h
  have hn : (HypercubeNetwork.new n).initializeTopology.hypercubeNodes =
      (HypercubeNetwork.new n).createHypercubeNodes.hypercubeNodes := rfl
  have ht : (HypercubeNetwork.new n).initializeTopology.totalNodes = 2 ^ n := rfl
  rw [hn, ht] at h
  simp only [Int.toNat_ofNat, nodes_lookup] at h
  by_cases ha : a < 2 ^ n
  · refine ⟨ha, ?_⟩
    have h2 : ((a : Int) ≥ 0 ∧ (a : Int) < ((2 ^ n : Nat) : Int)) := by
      constructor
      · omega
      · exact_mod_cast ha
    simp only [h2, ha, if_true] at h
    cases h
    rfl
  · exfalso
    by_cases h2 : ((a : Int) ≥ 0 ∧ (a : Int) < ((2 ^ n : Nat) : Int))
    · simp [h2, ha] at h
    · simp [h2] at h
      exact ha h.2.1

theorem calculatePath_hypercube (n a b fuel : Nat) (ha : a < 2 ^ n) (hb : b < 2 ^ n)
    (hfuel : popcount (a ^^^ b) ≤ fuel) :
    EcubeRouting.calculatePath (HypercubeNetwork.new n).initializeTopology fuel
      (HypercubeNetwork.newNode n a) (HypercubeNetwork.newNode n b) =
      some ((flipPath a (diffDims n a b)).map (HypercubeNetwork.newNode n)) := by
  unfold EcubeRouting.calculatePath
  rw [calculatePathLoop_hypercube n b hb fuel a _ ha (by rw [diffDims_length n a b ha hb]; exact hfuel)]
  conv_rhs => rw [flipPath_eq_cons]
  simp

/-- C1: on the hypercube built by `HypercubeNetwork(dimension)` and `initializeTopology`,
for every pair of nodes `a`, `b`, `EcubeRouting::routeMessageWithStats` returns (once the
loop bound is at least `popcount (a xor b)`), reports success, and its path starts at `a`,
ends at `b`, has `popcount (a xor b)` hops and `popcount (a xor b) + 1` nodes. -/
theorem ecube_route_hops_eq_popcount (dimension a b fuel : Nat)
    (source destination : HypercubeNode)
    (hs : (HypercubeNetwork.new dimension).initializeTopology.getHypercubeNode (a : Int) =
      some source)
    (hd : (HypercubeNetwork.new dimension).initializeTopology.getHypercubeNode (b : Int) =
      some destination)
    (hfuel : popcount (a ^^^ b) ≤ fuel) :
    ∃ r, EcubeRouting.routeMessageWithStats (HypercubeNetwork.new dimension).initializeTopology
          fuel source destination = some r ∧
      r.success = true ∧ r.path.head? = some source ∧ r.path.getLast? = some destination ∧
      r.hopCount = (popcount (a ^^^ b) : Int) ∧ r.path.length = popcount (a ^^^ b) + 1 := by
  obtain ⟨ha, rfl⟩ := getHypercubeNode_eq dimension a source hs
  obtain ⟨hb, rfl⟩ := getHypercubeNode_eq dimension b destination hd
  have hlen : ((flipPath a (diffDims dimension a b)).map
      (HypercubeNetwork.newNode dimension)).length = popcount (a ^^^ b) + 1 := by
    rw [List.length_map, flipPath_length, diffDims_length dimension a b ha hb]
  unfold EcubeRouting.routeMessageWithStats
  rw [calculatePath_hypercube dimension a b fuel ha hb hfuel]
  refine ⟨_, rfl, ?_, ?_, ?_, ?_, ?_⟩
  · rw [flipPath_eq_cons]
    rfl
  · rw [flipPath_eq_cons]
    rfl
  · simp only [List.getLast?_map, flipPath_getLast dimension b hb _ a ha rfl, Option.map_some']
  · simp only [hlen]
    push_cast
    omega
  · exact hlen

theorem ecube_route_hops_eq_popcount_witness :
    (HypercubeNetwork.new 3).initializeTopology.getHypercubeNode ((1 : Nat) : Int) =
      some (HypercubeNetwork.newNode 3 1) ∧
    (HypercubeNetwork.new 3).initializeTopology.getHypercubeNode ((6 : Nat) : Int) =
      some (HypercubeNetwork.newNode 3 6) ∧
    popcount (1 ^^^ 6) ≤ 3 ∧
    ∃ r, EcubeRouting.routeMessageWithStats (HypercubeNetwork.new 3).initializeTopology
          3 (HypercubeNetwork.newNode 3 1) (HypercubeNetwork.newNode 3 6) = some r ∧
      r.success = true ∧ r.path.head? = some (HypercubeNetwork.newNode 3 1) ∧
      r.path.getLast? = some (HypercubeNetwork.newNode 3 6) ∧
      r.hopCount = (popcount (1 ^^^ 6) : Int) ∧ r.path.length = popcount (1 ^^^ 6) + 1 :=
  ⟨by decide, by decide, by decide,
    ecube_route_hops_eq_popcount 3 1 6 3 _ _ (by decide) (by decide) (by decide)⟩

/-- C2: in the path returned by `EcubeRouting::calculatePath(a, b)` on a hypercube, every
node and its successor differ in exactly one bit (the successor has id `u xor 2^k`), that
bit `k` is the lowest bit in which the earlier node `u` differs from `b`, and the list of
flipped dimensions is strictly increasing and is the list of set bits of `a xor b` in
ascending order. -/
theorem ecube_path_flips_lowest_differing_bit (dimension a b fuel : Nat)
    (source destination : HypercubeNode)
    (hs : (HypercubeNetwork.new dimension).initializeTopology.getHypercubeNode (a : Int) =
      some source)
    (hd : (HypercubeNetwork.new dimension).initializeTopology.getHypercubeNode (b : Int) =
      some destination)
    (hfuel : popcount (a ^^^ b) ≤ fuel) :
    ∃ path dims, EcubeRouting.calculatePath (HypercubeNetwork.new dimension).initializeTopology
          fuel source destination = some path ∧
      dims = (List.range dimension).filter (fun i => (a ^^^ b).testBit i) ∧
      List.Pairwise (fun k1 k2 => k1 < k2) dims ∧
      path.length = dims.length + 1 ∧
      ∀ i, i < dims.length → ∃ u k, u < 2 ^ dimension ∧
        path[i]? = some (HypercubeNetwork.newNode dimension u) ∧
        dims[i]? = some k ∧
        path[i + 1]? = some (HypercubeNetwork.newNode dimension (u ^^^ 2 ^ k)) ∧
        (u ^^^ b).testBit k = true ∧ ∀ j, j < k → (u ^^^ b).testBit j = false := by
  obtain ⟨ha, rfl⟩ := getHypercubeNode_eq dimension a source hs
  obtain ⟨hb, rfl⟩ := getHypercubeNode_eq dimension b destination hd
  refine ⟨_, diffDims dimension a b, calculatePath_hypercube dimension a b fuel ha hb hfuel,
    diffDims_eq_xor dimension a b, diffDims_sorted dimension a b, ?_, ?_⟩
  · rw [List.length_map, flipPath_length]
  · intro i hi
    obtain ⟨u, k, hu, h1, h2, h3, h4, h5⟩ := flipPath_steps dimension b _ a ha rfl i hi
    refine ⟨u, k, hu, ?_, h2, ?_, ?_, ?_⟩
    · rw [List.getElem?_map, h1]; rfl
    · rw [List.getElem?_map, h3]; rfl
    · rw [Nat.testBit_xor]
      cases hx : u.testBit k <;> cases hy : b.testBit k <;> simp [hx, hy] at h4 ⊢
    · intro j hj
      rw [Nat.testBit_xor, h5 j hj]
      simp

theorem ecube_path_flips_lowest_differing_bit_witness :
    (HypercubeNetwork.new 3).initializeTopology.getHypercubeNode ((1 : Nat) : Int) =
      some (HypercubeNetwork.newNode 3 1) ∧
    (HypercubeNetwork.new 3).initializeTopology.getHypercubeNode ((6 : Nat) : Int) =
      some (HypercubeNetwork.newNode 3 6) ∧
    popcount (1 ^^^ 6) ≤ 3 ∧
    ∃ path dims, EcubeRouting.calculatePath (HypercubeNetwork.new 3).initializeTopology
          3 (HypercubeNetwork.newNode 3 1) (HypercubeNetwork.newNode 3 6) = some path ∧
      dims = (List.range 3).filter (fun i => (1 ^^^ 6).testBit i) ∧
      List.Pairwise (fun k1 k2 => k1 < k2) dims ∧
      path.length = dims.length + 1 ∧
      ∀ i, i < dims.length → ∃ u k, u < 2 ^ 3 ∧
        path[i]? = some (HypercubeNetwork.newNode 3 u) ∧
        dims[i]? = some k ∧
        path[i + 1]? = some (HypercubeNetwork.newNode 3 (u ^^^ 2 ^ k)) ∧
        (u ^^^ 6).testBit k = true ∧ ∀ j, j < k → (u ^^^ 6).testBit j = false :=
  ⟨by decide, by decide, by decide,
    ecube_path_flips_lowest_differing_bit 3 1 6 3 _ _ (by decide) (by decide) (by decide)⟩

/-! ## Duato protocol on the hypercube -/

theorem needsRouting_hypercube (n a b i : Nat) (hi : i < n) :
    DuatoHypercubeProtocol.needsRoutingInDimension (HypercubeNetwork.newNode n a)
      (HypercubeNetwork.newNode n b) i = (a.testBit i != b.testBit i) := by
  unfold DuatoHypercubeProtocol.needsRoutingInDimension
  simp only [HypercubeNetwork.newNode, getCoordinates_length]
  have h1 : ¬ (i ≥ n ∨ i ≥ n) := by omega
  simp only [h1, if_false]
  have := coord_ne_iff n a b i hi
  cases hx : a.testBit i <;> cases hy : b.testBit i <;> simp [hx, hy] at this ⊢ <;>
    simpa using this

theorem selectAdaptiveDimension_hypercube (n a b : Nat) :
    DuatoHypercubeProtocol.selectAdaptiveDimension (HypercubeNetwork.new n).initializeTopology
      (HypercubeNetwork.newNode n a) (HypercubeNetwork.newNode n b) =
      match diffDims n a b with
      | [] => -1
      | k :: _ => (k : Int) := by
  unfold DuatoHypercubeProtocol.selectAdaptiveDimension
  have hdim : (HypercubeNetwork.new n).initializeTopology.dimension = n := rfl
  have hf : (List.range n).filter (fun dim =>
      DuatoHypercubeProtocol.needsRoutingInDimension (HypercubeNetwork.newNode n a)
        (HypercubeNetwork.newNode n b) dim) = diffDims n a b := by
    unfold diffDims
    apply List.filter_congr
    intro i hi
    exact needsRouting_hypercube n a b i (List.mem_range.mp hi)
  simp only [hdim, hf]

theorem selectNextDimension_eq_adaptive (net : HypercubeNetwork) (config : Option Config)
    (current destination : HypercubeNode) :
    DuatoHypercubeProtocol.selectNextDimension net config current destination =
      DuatoHypercubeProtocol.selectAdaptiveDimension net current destination := by
  unfold DuatoHypercubeProtocol.selectNextDimension
    DuatoHypercubeProtocol.canUseAdaptiveChannel DuatoHypercubeProtocol.wouldCreateCycle
  simp

theorem RoutingResult.extend_extend {N : Type} (r : RoutingResult N) (x : N) (xs : List N) :
    (r.extend [x]).extend xs = r.extend (x :: xs) := by
  simp only [RoutingResult.extend, List.append_assoc, List.singleton_append, List.length_cons,
    List.length_nil, List.length_singleton]
  congr 1
  push_cast
  ring

theorem routeLoop_hypercube (n b : Nat) (config : Option Config) (hb : b < 2 ^ n) :
    ∀ (fuel a : Nat) (result : RoutingResult HypercubeNode), a < 2 ^ n →
      (diffDims n a b).length ≤ fuel →
      result.hopCount + ((diffDims n a b).length : Int) ≤ (n : Int) →
      DuatoHypercubeProtocol.routeLoop (HypercubeNetwork.new n).initializeTopology config
        (HypercubeNetwork.newNode n b) fuel (HypercubeNetwork.newNode n a) result =
      some (DuatoHypercubeProtocol.finish (HypercubeNetwork.newNode n b)
        (HypercubeNetwork.newNode n b)
        (result.extend ((flipPath a (diffDims n a b)).tail.map (HypercubeNetwork.newNode n)))) := by
  intro fuel
  induction fuel with
  | zero =>
      intro a result ha hlen _
      have hnil : diffDims n a b = [] := List.length_eq_zero.mp (Nat.le_zero.mp hlen)
      have hab := (diffDims_nil_iff n a b ha hb).mp hnil
      subst hab
      simp [DuatoHypercubeProtocol.routeLoop, hnil, flipPath, RoutingResult.extend]
  | succ fuel ih =>
      intro a result ha hlen hhop
      by_cases hab : a = b
      · subst hab
        have hnil := (diffDims_nil_iff n a a ha ha).mpr rfl
        simp [DuatoHypercubeProtocol.routeLoop, hnil, flipPath, RoutingResult.extend]
      · have hne : ¬ HypercubeNetwork.newNode n a = HypercubeNetwork.newNode n b :=
          fun h => hab (newNode_inj n a b h)
        have hnn : diffDims n a b ≠ [] := fun h => hab ((diffDims_nil_iff n a b ha hb).mp h)
        obtain ⟨k, ks, hd⟩ := List.exists_cons_of_ne_nil hnn
        have hk := diffDims_head n a b k ks hd
        have hflip := diffDims_flip n a b k ks hd
        rw [hd] at hlen hhop
        simp only [List.length_cons] at hlen hhop
        push_cast at hhop
        have hlen2 : (diffDims n (a ^^^ 2 ^ k) b).length ≤ fuel := by
          rw [hflip]; omega
        have hsel : DuatoHypercubeProtocol.selectNextDimension
            (HypercubeNetwork.new n).initializeTopology config (HypercubeNetwork.newNode n a)
            (HypercubeNetwork.newNode n b) = (k : Int) := by
          rw [selectNextDimension_eq_adaptive, selectAdaptiveDimension_hypercube, hd]
        have hk1 : ¬ ((k : Int) = -1) := by omega
        have hdim : (HypercubeNetwork.new n).initializeTopology.dimension = n := rfl
        have hguard : ¬ (result.hopCount + 1 > (n : Int)) := by omega
        rw [DuatoHypercubeProtocol.routeLoop]
        simp only [hne, if_false, hsel, hk1, getNeighborInDimension_hypercube n a k ha hk.1,
          DuatoHypercubeProtocol.isVirtualChannelAvailable, Bool.not_true, Bool.false_and,
          Bool.false_eq_true, hdim, hguard]
        have hext : ({ result with
              path := result.path ++ [HypercubeNetwork.newNode n (a ^^^ 2 ^ k)],
              hopCount := result.hopCount + 1 } : RoutingResult HypercubeNode) =
            result.extend [HypercubeNetwork.newNode n (a ^^^ 2 ^ k)] := by
          simp [RoutingResult.extend]
        rw [hext, ih (a ^^^ 2 ^ k) _ (flip_lt n a k ha hk.1) hlen2
          (by rw [hflip]; simp only [RoutingResult.extend, List.length_singleton]; push_cast; omega),
          hflip, RoutingResult.extend_extend, hd]
        rw [flipPath, List.tail_cons, flipPath_eq_cons (a ^^^ 2 ^ k) ks]
        simp

/-- C7: on every hypercube and for every pair of nodes `a`, `b` (and every configuration),
`DuatoHypercubeProtocol::routeMessageWithStats` returns once the loop bound is at least
`popcount (a xor b)`, with `success == true`; each step moves from a node `u` to
`u xor 2^k` where `k` is the lowest dimension in which `u` and `b` differ; the hop count is
the Hamming distance `popcount (a xor b)`, which is at most `dimension`. The guard
`hopCount > dimension` returns with `success == false`, so it is never triggered. -/
theorem duato_hypercube_route_succeeds (dimension a b fuel : Nat) (config : Option Config)
    (source destination : HypercubeNode)
    (hs : (HypercubeNetwork.new dimension).initializeTopology.getHypercubeNode (a : Int) =
      some source)
    (hd : (HypercubeNetwork.new dimension).initializeTopology.getHypercubeNode (b : Int) =
      some destination)
    (hfuel : popcount (a ^^^ b) ≤ fuel) :
    ∃ r, DuatoHypercubeProtocol.routeMessageWithStats
          (HypercubeNetwork.new dimension).initializeTopology config fuel source destination =
          some r ∧
      r.success = true ∧
      r.hopCount = (popcount (a ^^^ b) : Int) ∧ popcount (a ^^^ b) ≤ dimension ∧
      r.path.length = popcount (a ^^^ b) + 1 ∧
      r.path.head? = some source ∧ r.path.getLast? = some destination ∧
      ∀ i, i < popcount (a ^^^ b) → ∃ u k, u < 2 ^ dimension ∧
        r.path[i]? = some (HypercubeNetwork.newNode dimension u) ∧
        r.path[i + 1]? = some (HypercubeNetwork.newNode dimension (u ^^^ 2 ^ k)) ∧
        (u ^^^ b).testBit k = true ∧ ∀ j, j < k → (u ^^^ b).testBit j = false := by
  obtain ⟨ha, rfl⟩ := getHypercubeNode_eq dimension a source hs
  obtain ⟨hb, rfl⟩ := getHypercubeNode_eq dimension b destination hd
  have hlen := diffDims_length dimension a b ha hb
  have hle : (diffDims dimension a b).length ≤ dimension := by
    unfold diffDims
    calc ((List.range dimension).filter _).length ≤ (List.range dimension).length :=
          List.length_filter_le _ _
      _ = dimension := List.length_range dimension
  have hpath : [HypercubeNetwork.newNode dimension a] ++
      (flipPath a (diffDims dimension a b)).tail.map (HypercubeNetwork.newNode dimension) =
      (flipPath a (diffDims dimension a b)).map (HypercubeNetwork.newNode dimension) := by
    conv_rhs => rw [flipPath_eq_cons]
    simp
  unfold DuatoHypercubeProtocol.routeMessageWithStats
  rw [routeLoop_hypercube dimension b config hb fuel a _ ha (by omega)
    (by simp only [RoutingResult.new]; omega)]
  refine ⟨_, rfl, ?_, ?_, ?_, ?_, ?_, ?_, ?_⟩
  · simp [DuatoHypercubeProtocol.finish]
  · simp only [DuatoHypercubeProtocol.finish, if_true, RoutingResult.extend, RoutingResult.new,
      List.length_map, List.length_tail, flipPath_length, hlen]
    push_cast
    omega
  · omega
  · simp only [DuatoHypercubeProtocol.finish, if_true, RoutingResult.extend, RoutingResult.new,
      hpath, List.length_map, flipPath_length, hlen]
  · simp only [DuatoHypercubeProtocol.finish, if_true, RoutingResult.extend, RoutingResult.new,
      hpath]
    rw [flipPath_eq_cons]
    rfl
  · simp only [DuatoHypercubeProtocol.finish, if_true, RoutingResult.extend, RoutingResult.new,
      hpath, List.getLast?_map, flipPath_getLast dimension b hb _ a ha rfl, Option.map_some']
  · intro i hi
    obtain ⟨u, k, hu, h1, _, h3, h4, h5⟩ :=
      flipPath_steps dimension b _ a ha rfl i (by omega)
    refine ⟨u, k, hu, ?_, ?_, ?_, ?_⟩
    · simp only [DuatoHypercubeProtocol.finish, if_true, RoutingResult.extend,
        RoutingResult.new, hpath]
      rw [List.getElem?_map, h1]; rfl
    · simp only [DuatoHypercubeProtocol.finish, if_true, RoutingResult.extend,
        RoutingResult.new, hpath]
      rw [List.getElem?_map, h3]; rfl
    · rw [Nat.testBit_xor]
      cases hx : u.testBit k <;> cases hy : b.testBit k <;> simp [hx, hy] at h4 ⊢
    · intro j hj
      rw [Nat.testBit_xor, h5 j hj]
      simp

theorem duato_hypercube_route_succeeds_witness :
    (HypercubeNetwork.new 3).initializeTopology.getHypercubeNode ((5 : Nat) : Int) =
      some (HypercubeNetwork.newNode 3 5) ∧
    (HypercubeNetwork.new 3).initializeTopology.getHypercubeNode ((2 : Nat) : Int) =
      some (HypercubeNetwork.newNode 3 2) ∧
    popcount (5 ^^^ 2) ≤ 3 ∧
    ∃ r, DuatoHypercubeProtocol.routeMessageWithStats
          (HypercubeNetwork.new 3).initializeTopology (some ⟨[2, 1, 0], 1⟩) 3
          (HypercubeNetwork.newNode 3 5) (HypercubeNetwork.newNode 3 2) = some r ∧
      r.success = true ∧
      r.hopCount = (popcount (5 ^^^ 2) : Int) ∧ popcount (5 ^^^ 2) ≤ 3 ∧
      r.path.length = popcount (5 ^^^ 2) + 1 ∧
      r.path.head? = some (HypercubeNetwork.newNode 3 5) ∧
      r.path.getLast? = some (HypercubeNetwork.newNode 3 2) ∧
      ∀ i, i < popcount (5 ^^^ 2) → ∃ u k, u < 2 ^ 3 ∧
        r.path[i]? = some (HypercubeNetwork.newNode 3 u) ∧
        r.path[i + 1]? = some (HypercubeNetwork.newNode 3 (u ^^^ 2 ^ k)) ∧
        (u ^^^ 2).testBit k = true ∧ ∀ j, j < k → (u ^^^ 2).testBit j = false :=
  ⟨by decide, by decide, by decide,
    duato_hypercube_route_succeeds 3 5 2 3 (some ⟨[2, 1, 0], 1⟩) _ _ (by decide) (by decide)
      (by decide)⟩

/-- C8 fails as stated: with the configured priority list `[1, 0]` on the hypercube of
dimension 2, for current node 0 and destination 3 the first dimension of the list in which
the two nodes differ is 1, but `selectNextDimension` returns 0. -/
theorem selectNextDimension_priority_counterexample :
    List.Perm [1, 0] (List.range 2) ∧
    HypercubeNetwork.newNode 2 0 ≠ HypercubeNetwork.newNode 2 3 ∧
    ([1, 0].find? (fun d => DuatoHypercubeProtocol.needsRoutingInDimension
        (HypercubeNetwork.newNode 2 0) (HypercubeNetwork.newNode 2 3) d)) = some 1 ∧
    DuatoHypercubeProtocol.selectNextDimension (HypercubeNetwork.new 2).initializeTopology
      (some ⟨[1, 0], 1⟩) (HypercubeNetwork.newNode 2 0) (HypercubeNetwork.newNode 2 3) = 0 := by
  refine ⟨?_, by decide, by decide, by decide⟩
  exact List.Perm.swap 0 1 []

/-- C8 as amended: whatever priority list is configured (or none), for two distinct nodes
of the hypercube `selectNextDimension` returns the lowest dimension in which the current
node and the destination differ. -/
theorem selectNextDimension_returns_lowest_differing (dimension a b : Nat)
    (config : Option Config) (current destination : HypercubeNode)
    (hs : (HypercubeNetwork.new dimension).initializeTopology.getHypercubeNode (a : Int) =
      some current)
    (hd : (HypercubeNetwork.new dimension).initializeTopology.getHypercubeNode (b : Int) =
      some destination)
    (hne : current ≠ destination) :
    ∃ k : Nat, DuatoHypercubeProtocol.selectNextDimension
        (HypercubeNetwork.new dimension).initializeTopology config current destination =
        (k : Int) ∧
      k < dimension ∧ a.testBit k ≠ b.testBit k ∧ ∀ j, j < k → a.testBit j = b.testBit j := by
  obtain ⟨ha, rfl⟩ := getHypercubeNode_eq dimension a current hs
  obtain ⟨hb, rfl⟩ := getHypercubeNode_eq dimension b destination hd
  have hab : a ≠ b := fun h => hne (by rw [h])
  have hnn : diffDims dimension a b ≠ [] :=
    fun h => hab ((diffDims_nil_iff dimension a b ha hb).mp h)
  obtain ⟨k, ks, hdd⟩ := List.exists_cons_of_ne_nil hnn
  have hk := diffDims_head dimension a b k ks hdd
  refine ⟨k, ?_, hk.1, hk.2.1, hk.2.2⟩
  rw [selectNextDimension_eq_adaptive, selectAdaptiveDimension_hypercube, hdd]

theorem selectNextDimension_returns_lowest_differing_witness :
    (HypercubeNetwork.new 2).initializeTopology.getHypercubeNode ((0 : Nat) : Int) =
      some (HypercubeNetwork.newNode 2 0) ∧
    (HypercubeNetwork.new 2).initializeTopology.getHypercubeNode ((3 : Nat) : Int) =
      some (HypercubeNetwork.newNode 2 3) ∧
    HypercubeNetwork.newNode 2 0 ≠ HypercubeNetwork.newNode 2 3 ∧
    ∃ k : Nat, DuatoHypercubeProtocol.selectNextDimension
        (HypercubeNetwork.new 2).initializeTopology (some ⟨[1, 0], 1⟩)
        (HypercubeNetwork.newNode 2 0) (HypercubeNetwork.newNode 2 3) = (k : Int) ∧
      k < 2 ∧ (0 : Nat).testBit k ≠ (3 : Nat).testBit k ∧
      ∀ j, j < k → (0 : Nat).testBit j = (3 : Nat).testBit j :=
  ⟨by decide, by decide, by decide,
    selectNextDimension_returns_lowest_differing 2 0 3 (some ⟨[1, 0], 1⟩) _ _ (by decide)
      (by decide) (by decide)⟩

/-! ## The mesh topology -/

theorem ofXY_inj (a b c d : Int) (h : Node.ofXY a b = Node.ofXY c d) : a = c ∧ b = d := by
  simp only [Node.ofXY, Node.mk.injEq] at h
  exact ⟨h.2.1, h.2.2⟩

theorem mesh_getNode (w h i j : Nat) :
    (Network.blank w h).createNodes.getNode (i : Int) (j : Int) =
      if i < w ∧ j < h then some (Node.ofXY (i : Int) (j : Int)) else none := by
  unfold Network.getNode
  simp only [Network.createNodes, Network.blank, Int.toNat_ofNat]
  by_cases hc : i < w ∧ j < h
  · have h1 : ((i : Int) ≥ 0 ∧ (i : Int) < (w : Int) ∧ (j : Int) ≥ 0 ∧ (j : Int) < (h : Int)) := by
      omega
    simp only [h1, hc, and_self, if_true]
    rw [List.getElem?_map, List.getElem?_range hc.2]
    simp only [Option.map_some']
    rw [List.getElem?_map, List.getElem?_range hc.1]
    rfl
  · have h1 : ¬ ((i : Int) ≥ 0 ∧ (i : Int) < (w : Int) ∧ (j : Int) ≥ 0 ∧ (j : Int) < (h : Int)) := by
      omega
    simp only [h1, hc, if_false]

theorem mesh_getNode_succ_x (w h i j : Nat) :
    (Network.blank w h).createNodes.getNode ((i : Int) + 1) (j : Int) =
      if i + 1 < w ∧ j < h then some (Node.ofXY ((i : Int) + 1) (j : Int)) else none := by
  have := mesh_getNode w h (i + 1) j
  simpa using this

theorem mesh_getNode_succ_y (w h i j : Nat) :
    (Network.blank w h).createNodes.getNode (i : Int) ((j : Int) + 1) =
      if i < w ∧ j + 1 < h then some (Node.ofXY (i : Int) ((j : Int) + 1)) else none := by
  have := mesh_getNode w h i (j + 1)
  simpa using this

theorem mesh_linkStep_eq (w h : Nat) (t : LinkTable Node) (i j : Nat) (hi : i < w) (hj : j < h) :
    (Network.blank w h).createNodes.linkStep t i j =
      let t1 := if i + 1 < w then
        t.pushLink (Node.ofXY (i : Int) (j : Int)) (Node.ofXY ((i : Int) + 1) (j : Int))
          Direction.POSITIVE_X else t
      if j + 1 < h then
        t1.pushLink (Node.ofXY (i : Int) (j : Int)) (Node.ofXY (i : Int) ((j : Int) + 1))
          Direction.POSITIVE_Y else t1 := by
  unfold Network.linkStep
  rw [mesh_getNode, mesh_getNode_succ_x, mesh_getNode_succ_y]
  have hw : (Network.blank w h).createNodes.width = w := rfl
  have hh : (Network.blank w h).createNodes.height = h := rfl
  simp only [hw, hh, hi, hj, and_self, if_true, and_true, true_and]
  by_cases h1 : i + 1 < w <;> by_cases h2 : j + 1 < h
  · have h3 : (i : Int) < (w : Int) - 1 := by omega
    have h4 : (j : Int) < (h : Int) - 1 := by omega
    simp only [h1, h2, h3, h4, if_true]
  · have h3 : (i : Int) < (w : Int) - 1 := by omega
    have h4 : ¬ (j : Int) < (h : Int) - 1 := by omega
    simp only [h1, h2, h3, h4, if_true, if_false]
  · have h3 : ¬ (i : Int) < (w : Int) - 1 := by omega
    have h4 : (j : Int) < (h : Int) - 1 := by omega
    simp only [h1, h2, h3, h4, if_true, if_false]
  · have h3 : ¬ (i : Int) < (w : Int) - 1 := by omega
    have h4 : ¬ (j : Int) < (h : Int) - 1 := by omega
    simp only [h1, h2, h3, h4, if_false]

theorem mesh_linkStep_sound (w h : Nat) (t : LinkTable Node) (i j : Nat) (hi : i < w)
    (hj : j < h) (ht : t.Sound (FreeMeshLink w h)) :
    ((Network.blank w h).createNodes.linkStep t i j).Sound (FreeMeshLink w h) := by
  rw [mesh_linkStep_eq w h t i j hi hj]
  have hx : i + 1 < w → FreeMeshLink w h (Link.new (Node.ofXY (i : Int) (j : Int))
      (Node.ofXY ((i : Int) + 1) (j : Int)) Direction.POSITIVE_X) :=
    fun h1 => ⟨⟨i, j, rfl, hi, hj, Or.inl ⟨rfl, h1, rfl⟩⟩, rfl, rfl⟩
  have hy : j + 1 < h → FreeMeshLink w h (Link.new (Node.ofXY (i : Int) (j : Int))
      (Node.ofXY (i : Int) ((j : Int) + 1)) Direction.POSITIVE_Y) :=
    fun h1 => ⟨⟨i, j, rfl, hi, hj, Or.inr ⟨rfl, h1, rfl⟩⟩, rfl, rfl⟩
  simp only
  by_cases h1 : i + 1 < w <;> by_cases h2 : j + 1 < h <;> simp only [h1, h2, if_true, if_false]
  · exact LinkTable.sound_pushLink _ _ _ _ _
      (LinkTable.sound_pushLink _ _ _ _ _ ht (hx h1)) (hy h2)
  · exact LinkTable.sound_pushLink _ _ _ _ _ ht (hx h1)
  · exact LinkTable.sound_pushLink _ _ _ _ _ ht (hy h2)
  · exact ht

theorem mesh_linkStep_joined_mono (net : Network) (t : LinkTable Node) (i j : Nat)
    (x y : Node) (e : Direction) (hxy : t.Joined x y e) : (net.linkStep t i j).Joined x y e := by
  unfold Network.linkStep
  cases net.getNode (i : Int) (j : Int) with
  | none => exact hxy
  | some c =>
      simp only
      have h1 : (if (i : Int) < (net.width : Int) - 1 then
          match net.getNode ((i : Int) + 1) (j : Int) with
          | some rightNode => t.pushLink c rightNode Direction.POSITIVE_X
          | none => t
        else t).Joined x y e := by
        split
        · split
          · exact LinkTable.joined_pushLink_mono _ _ _ _ _ _ _ hxy
          · exact hxy
        · exact hxy
      split
      · split
        · exact LinkTable.joined_pushLink_mono _ _ _ _ _ _ _ h1
        · exact h1
      · exact h1

theorem mesh_linkStep_joined_right (w h : Nat) (t : LinkTable Node) (i j : Nat)
    (hi : i + 1 < w) (hj : j < h) :
    ((Network.blank w h).createNodes.linkStep t i j).Joined (Node.ofXY (i : Int) (j : Int))
      (Node.ofXY ((i : Int) + 1) (j : Int)) Direction.POSITIVE_X := by
  rw [mesh_linkStep_eq w h t i j (by omega) hj]
  simp only [hi, if_true]
  split
  · exact LinkTable.joined_pushLink_mono _ _ _ _ _ _ _ (LinkTable.joined_pushLink_self _ _ _ _)
  · exact LinkTable.joined_pushLink_self _ _ _ _

theorem mesh_linkStep_joined_down (w h : Nat) (t : LinkTable Node) (i j : Nat)
    (hi : i < w) (hj : j + 1 < h) :
    ((Network.blank w h).createNodes.linkStep t i j).Joined (Node.ofXY (i : Int) (j : Int))
      (Node.ofXY (i : Int) ((j : Int) + 1)) Direction.POSITIVE_Y := by
  rw [mesh_linkStep_eq w h t i j hi (by omega)]
  simp only [hj, if_true]
  exact LinkTable.joined_pushLink_self _ _ _ _

theorem mesh_table_eq (w h : Nat) :
    (Network.new w h).table =
      (List.range w).foldl
        (fun t i => (List.range h).foldl
          (fun t j => (Network.blank w h).createNodes.linkStep t i j) t)
        LinkTable.empty := rfl

theorem mesh_sound (w h : Nat) : (Network.new w h).table.Sound (FreeMeshLink w h) := by
  rw [mesh_table_eq]
  apply foldl_inv
  · intro s i hi hs
    apply foldl_inv
    · intro s j hj hs
      exact mesh_linkStep_sound w h s i j (List.mem_range.mp hi) (List.mem_range.mp hj) hs
    · exact hs
  · exact LinkTable.sound_empty _

theorem mesh_joined_of_step (w h i j : Nat) (hi : i < w) (hj : j < h) (x y : Node)
    (e : Direction)
    (hstep : ∀ t, ((Network.blank w h).createNodes.linkStep t i j).Joined x y e) :
    (Network.new w h).table.Joined x y e := by
  rw [mesh_table_eq]
  apply foldl_reach _ (fun (t : LinkTable Node) => t.Joined x y e) i
  · intro s
    apply foldl_reach _ (fun (t : LinkTable Node) => t.Joined x y e) j
    · exact hstep
    · intro s y hs
      exact mesh_linkStep_joined_mono _ _ _ _ _ _ _ hs
    · exact List.mem_range.mpr hj
  · intro s y hs
    apply foldl_inv _ (fun (t : LinkTable Node) => t.Joined x _ e)
    · intro s j _ hs
      exact mesh_linkStep_joined_mono _ _ _ _ _ _ _ hs
    · exact hs
  · exact List.mem_range.mpr hi

theorem mesh_joined_right (w h i j : Nat) (hi : i + 1 < w) (hj : j < h) :
    (Network.new w h).table.Joined (Node.ofXY (i : Int) (j : Int))
      (Node.ofXY ((i : Int) + 1) (j : Int)) Direction.POSITIVE_X :=
  mesh_joined_of_step w h i j (by omega) hj _ _ _
    (fun t => mesh_linkStep_joined_right w h t i j hi hj)

theorem mesh_joined_down (w h i j : Nat) (hi : i < w) (hj : j + 1 < h) :
    (Network.new w h).table.Joined (Node.ofXY (i : Int) (j : Int))
      (Node.ofXY (i : Int) ((j : Int) + 1)) Direction.POSITIVE_Y :=
  mesh_joined_of_step w h i j hi (by omega) _ _ _
    (fun t => mesh_linkStep_joined_down w h t i j hi hj)

theorem withOccupancy_get {N : Type} (t : LinkTable N) (occ : Nat → Bool × Bool) (idx : Nat) :
    (t.withOccupancy occ).links[idx]? =
      (t.links[idx]?).map (fun l =>
        { l with adaptiveChannelOccupied := (occ idx).1,
                 deterministicChannelOccupied := (occ idx).2 }) := by
  simp only [LinkTable.withOccupancy, List.getElem?_mapIdx]

theorem mesh_sound_occ (w h : Nat) (occ : Nat → Bool × Bool) :
    ((Network.new w h).withOccupancy occ).table.Sound (MeshLink w h) := by
  intro v idx hidx
  have hidx2 : idx ∈ (Network.new w h).table.nodeLinks v := hidx
  obtain ⟨l, hl, hq, hv⟩ := mesh_sound w h v idx hidx2
  refine ⟨{ l with adaptiveChannelOccupied := (occ idx).1,
                   deterministicChannelOccupied := (occ idx).2 }, ?_, hq.1, hv⟩
  simp only [Network.withOccupancy]
  rw [withOccupancy_get, hl]
  rfl

/-! ## Duato protocol on the mesh -/

theorem otherEnd_cases (l : Link Node) (cur : Node)
    (hv : l.sourceNode = cur ∨ l.destinationNode = cur) :
    (l.sourceNode = cur ∧ l.destinationNode = l.otherEnd cur) ∨
    (l.sourceNode = l.otherEnd cur ∧ l.destinationNode = cur) := by
  unfold Link.otherEnd Link.getNodeA Link.getNodeB
  by_cases h : l.sourceNode = cur
  · left; simp [h]
  · right
    rcases hv with hv | hv
    · exact absurd hv h
    · simp [h, hv]

theorem meshLink_adjacent (w h : Nat) (l : Link Node) (hl : MeshLink w h l) :
    (l.destinationNode.x = l.sourceNode.x + 1 ∧ l.destinationNode.y = l.sourceNode.y) ∨
    (l.destinationNode.x = l.sourceNode.x ∧ l.destinationNode.y = l.sourceNode.y + 1) := by
  obtain ⟨i, j, hs, _, _, hd | hd⟩ := hl
  · left; rw [hs, hd.1]; simp [Node.ofXY]
  · right; rw [hs, hd.1]; simp [Node.ofXY]

/-- One hop over a mesh link changes the Manhattan distance to any node by exactly one. -/
theorem otherEnd_distance (w h : Nat) (l : Link Node) (cur dest : Node) (hl : MeshLink w h l)
    (hv : l.sourceNode = cur ∨ l.destinationNode = cur) :
    DuatoProtocol.calculateManhattanDistance (l.otherEnd cur) dest + 1 =
      DuatoProtocol.calculateManhattanDistance cur dest ∨
    DuatoProtocol.calculateManhattanDistance (l.otherEnd cur) dest =
      DuatoProtocol.calculateManhattanDistance cur dest + 1 := by
  have hadj := meshLink_adjacent w h l hl
  unfold DuatoProtocol.calculateManhattanDistance
  rcases otherEnd_cases l cur hv with ⟨h1, h2⟩ | ⟨h1, h2⟩
  · rw [← h2, ← h1]
    rcases hadj with ⟨hx, hy⟩ | ⟨hx, hy⟩ <;> rw [hx, hy] <;> omega
  · rw [← h1, ← h2]
    rcases hadj with ⟨hx, hy⟩ | ⟨hx, hy⟩ <;> rw [hx, hy] <;> omega

theorem adaptiveStep_inv (net : Network) (cur dest : Node) (xs : List Nat) :
    ∀ s : Option Nat × Int, (∀ i, s.1 = some i → i ∈ xs) →
      ∀ i, (xs.foldl (DuatoProtocol.adaptiveStep net cur dest) s).1 = some i → i ∈ xs := by
  intro s hs
  have key : ∀ (ys : List Nat) (s : Option Nat × Int), (∀ y ∈ ys, y ∈ xs) →
      (∀ i, s.1 = some i → i ∈ xs) →
      ∀ i, (ys.foldl (DuatoProtocol.adaptiveStep net cur dest) s).1 = some i → i ∈ xs := by
    intro ys
    induction ys with
    | nil => intro s _ hs i hi; exact hs i hi
    | cons y ys ih =>
        intro s hys hs
        simp only [List.foldl_cons]
        apply ih
        · intro z hz; exact hys z (List.mem_cons_of_mem _ hz)
        · intro i hi
          unfold DuatoProtocol.adaptiveStep at hi
          split at hi
          · exact hs i hi
          · simp only at hi
            split at hi
            · split at hi
              · simp only [Option.some.injEq] at hi
                rw [← hi]
                exact hys y (List.mem_cons_self _ _)
              · exact hs i hi
            · exact hs i hi
  exact key xs s (fun y hy => hy) hs

theorem selectAdaptiveRoute_mem (net : Network) (cur dest : Node) (idx : Nat)
    (h : DuatoProtocol.selectAdaptiveRoute net cur dest = some idx) :
    idx ∈ net.table.nodeLinks cur := by
  unfold DuatoProtocol.selectAdaptiveRoute at h
  have := adaptiveStep_inv net cur dest _ (none, INT_MAX) (by intro i hi; cases hi) idx h
  unfold DuatoProtocol.getPossibleRoutes at this
  exact (List.mem_filter.mp this).1

theorem getDeterministicRoute_mem (net : Network) (cur dest : Node) (idx : Nat)
    (h : DuatoProtocol.getDeterministicRoute net cur dest = some idx) :
    idx ∈ net.table.nodeLinks cur := by
  unfold DuatoProtocol.getDeterministicRoute at h
  simp only at h
  split at h
  · rename_i l hl
    simp only [Option.some.injEq] at h
    subst h
    split at hl
    · exact List.mem_of_find?_eq_some hl
    · cases hl
  · split at h
    · exact List.mem_of_find?_eq_some h
    · cases h

theorem chooseLink_mem (net : Network) (cur dest : Node) (idx : Nat)
    (h : DuatoProtocol.chooseLink net cur dest = some idx) :
    idx ∈ net.table.nodeLinks cur := by
  unfold DuatoProtocol.chooseLink at h
  simp only at h
  split at h
  · rename_i l hl
    simp only [Option.some.injEq] at h
    subst h
    split at hl
    · split at hl
      · rename_i l2 hl2
        split at hl
        · cases hl
        · simp only [Option.some.injEq] at hl
          subst hl
          exact selectAdaptiveRoute_mem net cur dest _ hl2
      · cases hl
    · cases hl
  · split at h
    · rename_i l2 hl2
      split at h
      · cases h
      · simp only [Option.some.injEq] at h
        subst h
        exact getDeterministicRoute_mem net cur dest _ hl2
    · cases h

theorem manhattan_self (v : Node) : DuatoProtocol.calculateManhattanDistance v v = 0 := by
  unfold DuatoProtocol.calculateManhattanDistance
  omega

theorem linked_of_chosen (w h : Nat) (net : Network) (hS : net.table.Sound (MeshLink w h))
    (cur : Node) (idx : Nat) (link : Link Node) (hidx : idx ∈ net.table.nodeLinks cur)
    (hlink : net.table.links[idx]? = some link) :
    MeshLink w h link ∧ (link.sourceNode = cur ∨ link.destinationNode = cur) ∧
      net.table.Linked cur (link.otherEnd cur) := by
  obtain ⟨l, hl, hq, hv⟩ := hS cur idx hidx
  rw [hlink] at hl
  cases hl
  refine ⟨hq, hv, idx, link, hidx, hlink, ?_⟩
  exact otherEnd_cases link cur hv

theorem findPathLoop_sound (w h : Nat) (net : Network) (hS : net.table.Sound (MeshLink w h))
    (source dest : Node) :
    ∀ (fuel : Nat) (cur : Node) (path r : List Node),
      path.head? = some source → path.getLast? = some cur →
      List.Chain' net.table.Linked path →
      DuatoProtocol.calculateManhattanDistance source dest ≤
        (path.length : Int) - 1 + DuatoProtocol.calculateManhattanDistance cur dest →
      DuatoProtocol.findPathLoop net dest fuel cur path = some r → r ≠ [] →
      r.head? = some source ∧ r.getLast? = some dest ∧ List.Chain' net.table.Linked r ∧
        DuatoProtocol.calculateManhattanDistance source dest ≤ (r.length : Int) - 1 := by
  intro fuel
  induction fuel with
  | zero =>
      intro cur path r hhead hlast hchain hdist hr hne
      unfold DuatoProtocol.findPathLoop at hr
      split at hr
      · rename_i hcd
        cases hr
        subst hcd
        rw [manhattan_self] at hdist
        exact ⟨hhead, hlast, hchain, by omega⟩
      · cases hr
  | succ fuel ih =>
      intro cur path r hhead hlast hchain hdist hr hne
      unfold DuatoProtocol.findPathLoop at hr
      split at hr
      · rename_i hcd
        cases hr
        subst hcd
        rw [manhattan_self] at hdist
        exact ⟨hhead, hlast, hchain, by omega⟩
      · split at hr
        · cases hr; exact absurd rfl hne
        · rename_i idx hidx
          split at hr
          · cases hr; exact absurd rfl hne
          · rename_i link hlink
            simp only at hr
            split at hr
            · cases hr; exact absurd rfl hne
            · obtain ⟨hq, hv, hlinked⟩ := linked_of_chosen w h net hS cur idx link
                (chooseLink_mem net cur dest idx hidx) hlink
              have hpne : path ≠ [] := by
                intro hp; rw [hp] at hhead; cases hhead
              apply ih (link.otherEnd cur) (path ++ [link.otherEnd cur]) r _ _ _ _ hr hne
              · rw [List.head?_append_of_ne_nil _ hpne]; exact hhead
              · exact List.getLast?_concat _
              · rw [List.chain'_append]
                refine ⟨hchain, List.chain'_singleton _, ?_⟩
                intro x hx y hy
                rw [hlast] at hx
                simp only [Option.mem_def, Option.some.injEq, List.head?_cons] at hx hy
                subst hx; subst hy
                exact hlinked
              · have := otherEnd_distance w h link cur dest hq hv
                simp only [List.length_append, List.length_singleton]
                push_cast
                omega

/-- The loop of `findPath` always ends within the 100 iterations it is given: the path
grows by one node per iteration and the loop returns once it holds more than 100. -/
theorem findPathLoop_isSome (net : Network) (dest : Node) :
    ∀ (fuel : Nat) (cur : Node) (path : List Node), path.length ≤ 100 →
      101 ≤ fuel + path.length →
      ∃ r, DuatoProtocol.findPathLoop net dest fuel cur path = some r := by
  intro fuel
  induction fuel with
  | zero =>
      intro cur path h1 h2
      omega
  | succ fuel ih =>
      intro cur path h1 h2
      unfold DuatoProtocol.findPathLoop
      split
      · exact ⟨_, rfl⟩
      · split
        · exact ⟨_, rfl⟩
        · split
          · exact ⟨_, rfl⟩
          · dsimp only
            split
            · exact ⟨_, rfl⟩
            · rename_i hlen
              apply ih
              · simp only [List.length_append, List.length_singleton] at hlen ⊢
                omega
              · simp only [List.length_append, List.length_singleton]
                omega

/-- C3: for every mesh `Network(width, height)`, every state `occ` of the link occupancy
flags and every source and destination, `DuatoProtocol::routeMessageWithStats` returns a
result, and if that result reports success then its hop count is at least the Manhattan
distance between source and destination, the returned path starts at the source, ends at
the destination, and every node of it is joined to the next one by a link of the mesh. -/
theorem duato_mesh_success_hops_ge_manhattan (width height : Nat) (occ : Nat → Bool × Bool)
    (config : Option Config) (source destination : Node) :
    ∃ r, DuatoProtocol.routeMessageWithStats ((Network.new width height).withOccupancy occ)
        config source destination = some r ∧
      (r.success = true →
        r.hopCount ≥ DuatoProtocol.calculateManhattanDistance source destination ∧
        r.path.head? = some source ∧ r.path.getLast? = some destination ∧
        List.Chain' ((Network.new width height).withOccupancy occ).table.Linked r.path) := by
  obtain ⟨path, hpath⟩ := findPathLoop_isSome ((Network.new width height).withOccupancy occ)
    destination 100 source [source] (by simp) (by simp)
  unfold DuatoProtocol.routeMessageWithStats DuatoProtocol.findPath
  rw [hpath]
  dsimp only
  split
  · refine ⟨_, rfl, ?_⟩
    intro hsuccess
    simp [RoutingResult.new] at hsuccess
  · rename_i hne
    refine ⟨_, rfl, ?_⟩
    intro _
    have hne2 : path ≠ [] := by
      intro hp; rw [hp] at hne; simp at hne
    obtain ⟨h1, h2, h3, h4⟩ := findPathLoop_sound width height _
      (mesh_sound_occ width height occ) source destination 100 source [source] path
      rfl rfl (List.chain'_singleton _) (by simp) hpath hne2
    exact ⟨by simp only [ge_iff_le]; exact h4, h1, h2, h3⟩

theorem duato_mesh_success_hops_ge_manhattan_witness :
    ∃ r, DuatoProtocol.routeMessageWithStats
        ((Network.new 3 3).withOccupancy (fun i => (decide (i % 2 = 0), false))) none
        (Node.ofXY 1 1) (Node.ofXY 2 2) = some r ∧
      r.success = true ∧
      r.hopCount ≥ DuatoProtocol.calculateManhattanDistance (Node.ofXY 1 1) (Node.ofXY 2 2) ∧
      r.path.head? = some (Node.ofXY 1 1) ∧ r.path.getLast? = some (Node.ofXY 2 2) ∧
      List.Chain' ((Network.new 3 3).withOccupancy
        (fun i => (decide (i % 2 = 0), false))).table.Linked r.path := by
  have hpath : DuatoProtocol.findPath
      ((Network.new 3 3).withOccupancy (fun i => (decide (i % 2 = 0), false)))
      (Node.ofXY 1 1) (Node.ofXY 2 2) = some [Node.ofXY 1 1, Node.ofXY 2 1, Node.ofXY 2 2] := by
    decide!
  have hr : DuatoProtocol.routeMessageWithStats
      ((Network.new 3 3).withOccupancy (fun i => (decide (i % 2 = 0), false))) none
      (Node.ofXY 1 1) (Node.ofXY 2 2) =
      some { (RoutingResult.new : RoutingResult Node) with
        path := [Node.ofXY 1 1, Node.ofXY 2 1, Node.ofXY 2 2],
        hopCount := (([Node.ofXY 1 1, Node.ofXY 2 1, Node.ofXY 2 2] : List Node).length : Int) - 1,
        totalDelay := DuatoProtocol.calculatePathDelay none
          [Node.ofXY 1 1, Node.ofXY 2 1, Node.ofXY 2 2],
        success := true } := by
    unfold DuatoProtocol.routeMessageWithStats
    rw [hpath]
    rfl
  obtain ⟨r, h1, h2⟩ := duato_mesh_success_hops_ge_manhattan 3 3
    (fun i => (decide (i % 2 = 0), false)) none (Node.ofXY 1 1) (Node.ofXY 2 2)
  have hsucc : r.success = true := by
    rw [hr] at h1
    cases h1
    rfl
  exact ⟨r, h1, hsucc, h2 hsucc⟩

theorem foldl_reach_inv {α σ : Type} (f : σ → α → σ) (I P : σ → Prop) (x : α) :
    ∀ (xs : List α) (s : σ), (∀ s, ∀ y ∈ xs, I s → I (f s y)) → (∀ s, I s → P (f s x)) →
      (∀ s y, P s → P (f s y)) → I s → x ∈ xs → P (xs.foldl f s) := by
  intro xs
  induction xs with
  | nil => intro s _ _ _ _ h; cases h
  | cons y ys ih =>
      intro s hI hstep hmono hs h
      simp only [List.foldl_cons]
      rcases List.mem_cons.mp h with rfl | h
      · exact foldl_inv f P ys _ (fun s y _ hs => hmono s y hs) (hstep s hs)
      · exact ih _ (fun s z hz hs => hI s z (List.mem_cons_of_mem _ hz) hs) hstep hmono
          (hI s y (List.mem_cons_self _ _) hs) h

theorem joined_withOccupancy {N : Type} (t : LinkTable N) (occ : Nat → Bool × Bool) (a b : N)
    (d : Direction) (h : t.Joined a b d) : (t.withOccupancy occ).Joined a b d := by
  obtain ⟨idx, l, h1, h2, h3, h4, h5, h6⟩ := h
  refine ⟨idx, { l with adaptiveChannelOccupied := (occ idx).1,
                        deterministicChannelOccupied := (occ idx).2 }, h1, h2, ?_, h4, h5, h6⟩
  rw [withOccupancy_get, h3]
  rfl

theorem mesh_getNode_new (w h : Nat) (x y : Int) :
    (Network.new w h).getNode x y = (Network.blank w h).createNodes.getNode x y := rfl

theorem mesh_getNode_some (w h : Nat) (x y : Int) (v : Node)
    (hv : (Network.new w h).getNode x y = some v) :
    ∃ i j : Nat, i < w ∧ j < h ∧ x = (i : Int) ∧ y = (j : Int) ∧
      v = Node.ofXY (i : Int) (j : Int) := by
  have hnew : (Network.new w h).getNode x y = (Network.blank w h).createNodes.getNode x y := rfl
  rw [hnew] at hv
  by_cases hx : 0 ≤ x
  · by_cases hy : 0 ≤ y
    · obtain ⟨i, rfl⟩ := Int.eq_ofNat_of_zero_le hx
      obtain ⟨j, rfl⟩ := Int.eq_ofNat_of_zero_le hy
      rw [mesh_getNode] at hv
      split at hv
      · rename_i hc
        cases hv
        exact ⟨i, j, hc.1, hc.2, rfl, rfl, rfl⟩
      · cases hv
    · unfold Network.getNode at hv
      have : ¬ (x ≥ 0 ∧ x < ((Network.blank w h).createNodes.width : Int) ∧ y ≥ 0 ∧
          y < ((Network.blank w h).createNodes.height : Int)) := by omega
      simp only [this, if_false] at hv
      cases hv
  · unfold Network.getNode at hv
    have : ¬ (x ≥ 0 ∧ x < ((Network.blank w h).createNodes.width : Int) ∧ y ≥ 0 ∧
        y < ((Network.blank w h).createNodes.height : Int)) := by omega
    simp only [this, if_false] at hv
    cases hv

theorem mesh_complete (w h : Nat) : MeshComplete w h (Network.new w h).table :=
  ⟨fun i j hi hj => mesh_joined_right w h i j hi hj,
   fun i j hi hj => mesh_joined_down w h i j hi hj⟩

theorem mesh_complete_occ (w h : Nat) (occ : Nat → Bool × Bool) :
    MeshComplete w h ((Network.new w h).withOccupancy occ).table :=
  ⟨fun i j hi hj => joined_withOccupancy _ occ _ _ _ (mesh_joined_right w h i j hi hj),
   fun i j hi hj => joined_withOccupancy _ occ _ _ _ (mesh_joined_down w h i j hi hj)⟩

/-- From a mesh cell other than the destination some link held by the cell leads to a
cell that is one step closer to the destination. -/
theorem mesh_productive_link (w h : Nat) (t : LinkTable Node) (hC : MeshComplete w h t)
    (cx cy dx dy : Nat)
    (hcx : cx < w) (hcy : cy < h) (hdx : dx < w) (hdy : dy < h)
    (hne : ¬ (cx = dx ∧ cy = dy)) :
    ∃ idx l, idx ∈ t.nodeLinks
        (Node.ofXY (cx : Int) (cy : Int)) ∧
      t.links[idx]? = some l ∧
      DuatoProtocol.calculateManhattanDistance
        (l.otherEnd (Node.ofXY (cx : Int) (cy : Int))) (Node.ofXY (dx : Int) (dy : Int)) + 1 =
      DuatoProtocol.calculateManhattanDistance (Node.ofXY (cx : Int) (cy : Int))
        (Node.ofXY (dx : Int) (dy : Int)) := by
  have fwd : ∀ (nb : Node) (d : Direction),
      t.Joined (Node.ofXY (cx : Int) (cy : Int)) nb d →
      ∃ idx l, idx ∈ t.nodeLinks
          (Node.ofXY (cx : Int) (cy : Int)) ∧
        t.links[idx]? = some l ∧
        l.otherEnd (Node.ofXY (cx : Int) (cy : Int)) = nb := by
    intro nb d hj
    obtain ⟨idx, l, h1, _, h3, h4, h5, _⟩ := hj
    refine ⟨idx, l, h1, h3, ?_⟩
    unfold Link.otherEnd Link.getNodeA Link.getNodeB
    simp [h4, h5]
  have bwd : ∀ (nb : Node) (d : Direction), nb ≠ Node.ofXY (cx : Int) (cy : Int) →
      t.Joined nb (Node.ofXY (cx : Int) (cy : Int)) d →
      ∃ idx l, idx ∈ t.nodeLinks
          (Node.ofXY (cx : Int) (cy : Int)) ∧
        t.links[idx]? = some l ∧
        l.otherEnd (Node.ofXY (cx : Int) (cy : Int)) = nb := by
    intro nb d hnb hj
    obtain ⟨idx, l, _, h2, h3, h4, h5, _⟩ := hj
    refine ⟨idx, l, h2, h3, ?_⟩
    unfold Link.otherEnd Link.getNodeA Link.getNodeB
    simp [h4, hnb]
  by_cases hx : cx = dx
  · have hy : cy ≠ dy := fun hy => hne ⟨hx, hy⟩
    rcases Nat.lt_or_gt_of_ne hy with hlt | hgt
    · obtain ⟨idx, l, h1, h2, h3⟩ := fwd _ _ (hC.2 cx cy hcx (by omega))
      refine ⟨idx, l, h1, h2, ?_⟩
      rw [h3]
      simp only [DuatoProtocol.calculateManhattanDistance, Node.ofXY]
      omega
    · obtain ⟨cy', rfl⟩ : ∃ k, cy = k + 1 := ⟨cy - 1, by omega⟩
      have hj := hC.2 cx cy' hcx hcy
      have hcast : ((cy' : Int) + 1) = ((cy' + 1 : Nat) : Int) := by push_cast; rfl
      rw [hcast] at hj
      obtain ⟨idx, l, h1, h2, h3⟩ := bwd _ _ (by
        intro hcon
        have := (ofXY_inj _ _ _ _ hcon).2
        omega) hj
      refine ⟨idx, l, h1, h2, ?_⟩
      rw [h3]
      simp only [DuatoProtocol.calculateManhattanDistance, Node.ofXY]
      omega
  · rcases Nat.lt_or_gt_of_ne hx with hlt | hgt
    · obtain ⟨idx, l, h1, h2, h3⟩ := fwd _ _ (hC.1 cx cy (by omega) hcy)
      refine ⟨idx, l, h1, h2, ?_⟩
      rw [h3]
      simp only [DuatoProtocol.calculateManhattanDistance, Node.ofXY]
      omega
    · obtain ⟨cx', rfl⟩ : ∃ k, cx = k + 1 := ⟨cx - 1, by omega⟩
      have hj := hC.1 cx' cy hcx hcy
      have hcast : ((cx' : Int) + 1) = ((cx' + 1 : Nat) : Int) := by push_cast; rfl
      rw [hcast] at hj
      obtain ⟨idx, l, h1, h2, h3⟩ := bwd _ _ (by
        intro hcon
        have := (ofXY_inj _ _ _ _ hcon).1
        omega) hj
      refine ⟨idx, l, h1, h2, ?_⟩
      rw [h3]
      simp only [DuatoProtocol.calculateManhattanDistance, Node.ofXY]
      omega

theorem adaptiveStep_some_mono (net : Network) (cur dest : Node) (s : Option Nat × Int)
    (y : Nat) (hs : ∃ i, s.1 = some i) :
    ∃ i, (DuatoProtocol.adaptiveStep net cur dest s y).1 = some i := by
  unfold DuatoProtocol.adaptiveStep
  split
  · exact hs
  · simp only
    split
    · split
      · exact ⟨y, rfl⟩
      · exact hs
    · exact hs

theorem selectAdaptiveRoute_some (w h : Nat) (net : Network)
    (hS : net.table.Sound (MeshLink w h)) (cur dest : Node)
    (hD : DuatoProtocol.calculateManhattanDistance cur dest - 1 < INT_MAX)
    (hex : ∃ idx l, idx ∈ net.table.nodeLinks cur ∧ net.table.links[idx]? = some l ∧
      DuatoProtocol.calculateManhattanDistance (l.otherEnd cur) dest + 1 =
        DuatoProtocol.calculateManhattanDistance cur dest) :
    ∃ idx l, DuatoProtocol.selectAdaptiveRoute net cur dest = some idx ∧
      net.table.links[idx]? = some l ∧
      DuatoProtocol.calculateManhattanDistance (l.otherEnd cur) dest + 1 =
        DuatoProtocol.calculateManhattanDistance cur dest := by
  obtain ⟨x, lx, hxmem, hxl, hxd⟩ := hex
  have hxposs : x ∈ DuatoProtocol.getPossibleRoutes net cur dest := by
    unfold DuatoProtocol.getPossibleRoutes
    refine List.mem_filter.mpr ⟨hxmem, ?_⟩
    simp only [hxl, decide_eq_true_eq]
    omega
  have hQstep : ∀ (s : Option Nat × Int),
      ∀ y ∈ DuatoProtocol.getPossibleRoutes net cur dest,
      (s = (none, INT_MAX) ∨ ∃ i l, s = (some i,
          DuatoProtocol.calculateManhattanDistance cur dest - 1) ∧
        net.table.links[i]? = some l ∧
        DuatoProtocol.calculateManhattanDistance (l.otherEnd cur) dest + 1 =
          DuatoProtocol.calculateManhattanDistance cur dest) →
      (DuatoProtocol.adaptiveStep net cur dest s y = (none, INT_MAX) ∨ ∃ i l,
        DuatoProtocol.adaptiveStep net cur dest s y = (some i,
          DuatoProtocol.calculateManhattanDistance cur dest - 1) ∧
        net.table.links[i]? = some l ∧
        DuatoProtocol.calculateManhattanDistance (l.otherEnd cur) dest + 1 =
          DuatoProtocol.calculateManhattanDistance cur dest) := by
    intro s y hy hs
    have hymem : y ∈ net.table.nodeLinks cur := by
      unfold DuatoProtocol.getPossibleRoutes at hy
      exact (List.mem_filter.mp hy).1
    obtain ⟨l, hl, hq, hv⟩ := hS cur y hymem
    have hdist := otherEnd_distance w h l cur dest hq hv
    unfold DuatoProtocol.adaptiveStep
    simp only [hl, DuatoProtocol.isMinimalRoute, decide_eq_true_eq]
    split
    · rename_i hmin
      split
      · right
        refine ⟨y, l, ?_, hl, by omega⟩
        have : DuatoProtocol.calculateManhattanDistance (l.otherEnd cur) dest =
            DuatoProtocol.calculateManhattanDistance cur dest - 1 := by omega
        rw [this]
      · exact hs
    · exact hs
  have hPstep : ∀ (s : Option Nat × Int),
      (s = (none, INT_MAX) ∨ ∃ i l, s = (some i,
          DuatoProtocol.calculateManhattanDistance cur dest - 1) ∧
        net.table.links[i]? = some l ∧
        DuatoProtocol.calculateManhattanDistance (l.otherEnd cur) dest + 1 =
          DuatoProtocol.calculateManhattanDistance cur dest) →
      ∃ i, (DuatoProtocol.adaptiveStep net cur dest s x).1 = some i := by
    intro s hs
    rcases hs with hs | ⟨i, l, hs, _, _⟩
    · subst hs
      unfold DuatoProtocol.adaptiveStep
      have hmin : DuatoProtocol.calculateManhattanDistance (lx.otherEnd cur) dest <
          DuatoProtocol.calculateManhattanDistance cur dest := by omega
      have hlt : DuatoProtocol.calculateManhattanDistance (lx.otherEnd cur) dest < INT_MAX := by
        omega
      simp only [hxl, DuatoProtocol.isMinimalRoute, decide_eq_true_eq, hmin, hlt, if_true]
      exact ⟨x, rfl⟩
    · exact adaptiveStep_some_mono net cur dest s x ⟨i, by rw [hs]⟩
  have hP := foldl_reach_inv (DuatoProtocol.adaptiveStep net cur dest) _
    (fun (s : Option Nat × Int) => ∃ i, s.1 = some i) x
    (DuatoProtocol.getPossibleRoutes net cur dest) (none, INT_MAX) hQstep hPstep
    (fun s y hs => adaptiveStep_some_mono net cur dest s y hs) (Or.inl rfl) hxposs
  have hQ := foldl_inv (DuatoProtocol.adaptiveStep net cur dest) _
    (DuatoProtocol.getPossibleRoutes net cur dest) (none, INT_MAX) hQstep (Or.inl rfl)
  obtain ⟨i, hi⟩ := hP
  rcases hQ with hQ | ⟨j, l, hj, hl, hd⟩
  · rw [hQ] at hi; cases hi
  · refine ⟨j, l, ?_, hl, hd⟩
    unfold DuatoProtocol.selectAdaptiveRoute
    simp only [hj]

/-- C4: for every mesh `Network(width, height)`, every state `occ` of the occupancy flags
and every two distinct nodes `current`, `destination` of the mesh,
`DuatoProtocol::selectAdaptiveRoute` returns a link held by `current` (never none) whose
other end is at Manhattan distance exactly one less from the destination; so a step of
`findPath` along that link strictly decreases the Manhattan distance. The mesh is assumed
small enough for its distances to be `int` values. -/
theorem selectAdaptiveRoute_decreases_distance (width height : Nat)
    (occ : Nat → Bool × Bool) (cx cy dx dy : Int) (current destination : Node)
    (hsize : (width : Int) + (height : Int) ≤ INT_MAX)
    (hc : (Network.new width height).getNode cx cy = some current)
    (hd : (Network.new width height).getNode dx dy = some destination)
    (hne : current ≠ destination) :
    ∃ idx link,
      DuatoProtocol.selectAdaptiveRoute ((Network.new width height).withOccupancy occ)
        current destination = some idx ∧
      idx ∈ ((Network.new width height).withOccupancy occ).table.nodeLinks current ∧
      ((Network.new width height).withOccupancy occ).table.links[idx]? = some link ∧
      DuatoProtocol.calculateManhattanDistance (link.otherEnd current) destination + 1 =
        DuatoProtocol.calculateManhattanDistance current destination := by
  obtain ⟨i, j, hi, hj, rfl, rfl, rfl⟩ := mesh_getNode_some width height cx cy current hc
  obtain ⟨k, m, hk, hm, rfl, rfl, rfl⟩ := mesh_getNode_some width height dx dy destination hd
  have hne2 : ¬ (i = k ∧ j = m) := by
    rintro ⟨rfl, rfl⟩
    exact hne rfl
  have hD : DuatoProtocol.calculateManhattanDistance (Node.ofXY (i : Int) (j : Int))
      (Node.ofXY (k : Int) (m : Int)) - 1 < INT_MAX := by
    simp only [DuatoProtocol.calculateManhattanDistance, Node.ofXY]
    omega
  obtain ⟨idx, l, h1, h2, h3⟩ := selectAdaptiveRoute_some width height _
    (mesh_sound_occ width height occ) _ _ hD
    (mesh_productive_link width height _ (mesh_complete_occ width height occ) i j k m hi hj hk
      hm hne2)
  exact ⟨idx, l, h1, selectAdaptiveRoute_mem _ _ _ _ h1, h2, h3⟩

theorem selectAdaptiveRoute_decreases_distance_witness :
    ((3 : Nat) : Int) + ((3 : Nat) : Int) ≤ INT_MAX ∧
    (Network.new 3 3).getNode 1 1 = some (Node.ofXY 1 1) ∧
    (Network.new 3 3).getNode 0 2 = some (Node.ofXY 0 2) ∧
    Node.ofXY 1 1 ≠ Node.ofXY 0 2 ∧
    ∃ idx link,
      DuatoProtocol.selectAdaptiveRoute ((Network.new 3 3).withOccupancy (fun _ => (true, true)))
        (Node.ofXY 1 1) (Node.ofXY 0 2) = some idx ∧
      idx ∈ ((Network.new 3 3).withOccupancy (fun _ => (true, true))).table.nodeLinks
        (Node.ofXY 1 1) ∧
      ((Network.new 3 3).withOccupancy (fun _ => (true, true))).table.links[idx]? = some link ∧
      DuatoProtocol.calculateManhattanDistance (link.otherEnd (Node.ofXY 1 1)) (Node.ofXY 0 2)
        + 1 = DuatoProtocol.calculateManhattanDistance (Node.ofXY 1 1) (Node.ofXY 0 2) :=
  ⟨by decide, by decide, by decide, by decide,
    selectAdaptiveRoute_decreases_distance 3 3 (fun _ => (true, true)) 1 1 0 2 _ _
      (by decide) (by decide) (by decide) (by decide)⟩

/-- C5 fails on the code: on the mesh `Network(3, 1)`, for current node `(1, 0)` and
destination `(2, 0)`, `getDeterministicRoute` returns link 0, the first link of the node
tagged `POSITIVE_X`, whose other end is `(0, 0)`: one step further from the destination.
On `Network(2, 1)`, for current `(1, 0)` and destination `(0, 0)`, it returns no link,
because no link is ever tagged `NEGATIVE_X`. -/
theorem getDeterministicRoute_wrong_neighbour :
    (Network.new 3 1).getNode 1 0 = some (Node.ofXY 1 0) ∧
    (Network.new 3 1).getNode 2 0 = some (Node.ofXY 2 0) ∧
    DuatoProtocol.getDeterministicRoute (Network.new 3 1) (Node.ofXY 1 0) (Node.ofXY 2 0) =
      some 0 ∧
    ((Network.new 3 1).table.links[0]?).map (fun link => link.otherEnd (Node.ofXY 1 0)) =
      some (Node.ofXY 0 0) ∧
    (Network.new 2 1).getNode 1 0 = some (Node.ofXY 1 0) ∧
    (Network.new 2 1).getNode 0 0 = some (Node.ofXY 0 0) ∧
    DuatoProtocol.getDeterministicRoute (Network.new 2 1) (Node.ofXY 1 0) (Node.ofXY 0 0) =
      none := by
  decide

theorem sound_weaken {N : Type} (P Q : Link N → Prop) (t : LinkTable N)
    (hPQ : ∀ l, P l → Q l) (h : t.Sound P) : t.Sound Q := by
  intro v idx hidx
  obtain ⟨l, hl, hp, hv⟩ := h v idx hidx
  exact ⟨l, hl, hPQ l hp, hv⟩

theorem meshLink_otherEnd_in_mesh (w h : Nat) (l : Link Node) (cur : Node)
    (hl : MeshLink w h l) (hv : l.sourceNode = cur ∨ l.destinationNode = cur) :
    ∃ i j : Nat, i < w ∧ j < h ∧ l.otherEnd cur = Node.ofXY (i : Int) (j : Int) := by
  obtain ⟨i, j, hs, hi, hj, hd⟩ := hl
  rcases otherEnd_cases l cur hv with ⟨_, h2⟩ | ⟨h1, _⟩
  · rcases hd with ⟨hd, hi2, _⟩ | ⟨hd, hj2, _⟩
    · exact ⟨i + 1, j, hi2, hj, by rw [← h2, hd]; push_cast; rfl⟩
    · exact ⟨i, j + 1, hi, hj2, by rw [← h2, hd]; push_cast; rfl⟩
  · exact ⟨i, j, hi, hj, by rw [← h1, hs]⟩

/-- With all channels free, one iteration of `findPath` from a mesh cell other than the
destination takes a link to a mesh cell that is one step closer. -/
theorem chooseLink_free (w h : Nat) (hsize : (w : Int) + (h : Int) ≤ INT_MAX)
    (i j k m : Nat) (hi : i < w) (hj : j < h) (hk : k < w) (hm : m < h)
    (hne : ¬ (i = k ∧ j = m)) :
    ∃ idx l, DuatoProtocol.chooseLink (Network.new w h) (Node.ofXY (i : Int) (j : Int))
        (Node.ofXY (k : Int) (m : Int)) = some idx ∧
      (Network.new w h).table.links[idx]? = some l ∧
      DuatoProtocol.calculateManhattanDistance (l.otherEnd (Node.ofXY (i : Int) (j : Int)))
        (Node.ofXY (k : Int) (m : Int)) + 1 =
        DuatoProtocol.calculateManhattanDistance (Node.ofXY (i : Int) (j : Int))
          (Node.ofXY (k : Int) (m : Int)) ∧
      ∃ i2 j2 : Nat, i2 < w ∧ j2 < h ∧
        l.otherEnd (Node.ofXY (i : Int) (j : Int)) = Node.ofXY (i2 : Int) (j2 : Int) := by
  have hS : (Network.new w h).table.Sound (MeshLink w h) :=
    sound_weaken _ _ _ (fun l hl => hl.1) (mesh_sound w h)
  have hD : DuatoProtocol.calculateManhattanDistance (Node.ofXY (i : Int) (j : Int))
      (Node.ofXY (k : Int) (m : Int)) - 1 < INT_MAX := by
    simp only [DuatoProtocol.calculateManhattanDistance, Node.ofXY]
    omega
  obtain ⟨idx, l, h1, h2, h3⟩ := selectAdaptiveRoute_some w h _ hS _ _ hD
    (mesh_productive_link w h _ (mesh_complete w h) i j k m hi hj hk hm hne)
  have hmem := selectAdaptiveRoute_mem _ _ _ _ h1
  obtain ⟨l2, hl2, hfree, hv⟩ := mesh_sound w h _ idx hmem
  rw [h2] at hl2
  cases hl2
  refine ⟨idx, l, ?_, h2, h3, meshLink_otherEnd_in_mesh w h l _ hfree.1 hv⟩
  unfold DuatoProtocol.chooseLink
  simp only [DuatoProtocol.canUseAdaptiveChannel, if_true, h1, DuatoProtocol.isChannelFree, h2,
    Link.isVirtualChannelFree, Link.canTransmit, hfree.2.1, Bool.not_false, Bool.not_true,
    Bool.false_eq_true, if_false]

theorem findPathLoop_free (w h : Nat) (hsize : (w : Int) + (h : Int) ≤ INT_MAX) (k m : Nat)
    (hk : k < w) (hm : m < h) :
    ∀ (fuel i j : Nat) (path : List Node) (D : Nat), i < w → j < h →
      DuatoProtocol.calculateManhattanDistance (Node.ofXY (i : Int) (j : Int))
        (Node.ofXY (k : Int) (m : Int)) = (D : Int) →
      path.length ≤ 100 → (D ≤ fuel ∨ 101 ≤ fuel + path.length) →
      (path.length + D ≤ 100 →
        ∃ p, DuatoProtocol.findPathLoop (Network.new w h) (Node.ofXY (k : Int) (m : Int)) fuel
          (Node.ofXY (i : Int) (j : Int)) path = some p ∧ p.length = path.length + D) ∧
      (100 < path.length + D →
        DuatoProtocol.findPathLoop (Network.new w h) (Node.ofXY (k : Int) (m : Int)) fuel
          (Node.ofXY (i : Int) (j : Int)) path = some []) := by
  intro fuel
  induction fuel with
  | zero =>
      intro i j path D hi hj hD hlen hfuel
      have hD0 : D = 0 := by omega
      subst hD0
      have heq : i = k ∧ j = m := by
        simp only [DuatoProtocol.calculateManhattanDistance, Node.ofXY] at hD
        omega
      obtain ⟨rfl, rfl⟩ := heq
      refine ⟨fun _ => ⟨path, by simp [DuatoProtocol.findPathLoop], rfl⟩, fun hcon => ?_⟩
      omega
  | succ fuel ih =>
      intro i j path D hi hj hD hlen hfuel
      by_cases heq : i = k ∧ j = m
      · obtain ⟨rfl, rfl⟩ := heq
        have hD0 : D = 0 := by
          rw [manhattan_self] at hD
          omega
        subst hD0
        refine ⟨fun _ => ⟨path, by simp [DuatoProtocol.findPathLoop], rfl⟩, fun hcon => ?_⟩
        omega
      · have hne : ¬ Node.ofXY (i : Int) (j : Int) = Node.ofXY (k : Int) (m : Int) := by
          intro hcon
          have := ofXY_inj _ _ _ _ hcon
          omega
        obtain ⟨idx, l, h1, h2, h3, i2, j2, hi2, hj2, h4⟩ :=
          chooseLink_free w h hsize i j k m hi hj hk hm heq
        have hnonneg : 0 ≤ DuatoProtocol.calculateManhattanDistance
            (l.otherEnd (Node.ofXY (i : Int) (j : Int))) (Node.ofXY (k : Int) (m : Int)) := by
          unfold DuatoProtocol.calculateManhattanDistance
          omega
        have hDpos : 1 ≤ D := by omega
        have hD2 : DuatoProtocol.calculateManhattanDistance (Node.ofXY (i2 : Int) (j2 : Int))
            (Node.ofXY (k : Int) (m : Int)) = ((D - 1 : Nat) : Int) := by
          rw [← h4]
          omega
        unfold DuatoProtocol.findPathLoop
        simp only [hne, if_false, h1, h2, h4, List.length_append, List.length_singleton]
        by_cases hover : path.length + 1 > 100
        · rw [if_pos hover]
          refine ⟨fun hcon => ?_, fun _ => rfl⟩
          omega
        · rw [if_neg hover]
          have e1 : path.length + 1 + (D - 1) = path.length + D := by omega
          have e2 : path.length + 1 ≤ 100 := by omega
          have e3 : D - 1 ≤ fuel ∨ 101 ≤ fuel + (path.length + 1) := by omega
          have hrec := ih i2 j2 (path ++ [Node.ofXY (i2 : Int) (j2 : Int)]) (D - 1)
            hi2 hj2 hD2 (by simp only [List.length_append, List.length_singleton]; exact e2)
            (by simp only [List.length_append, List.length_singleton]; exact e3)
          simp only [List.length_append, List.length_singleton, e1] at hrec
          exact hrec

theorem manhattan_nonneg (a b : Node) : 0 ≤ DuatoProtocol.calculateManhattanDistance a b := by
  unfold DuatoProtocol.calculateManhattanDistance
  omega

/-- With all channels free `findPath` returns a path of `d + 1` nodes when the Manhattan
distance `d` is at most 99, and the empty path when `d` is 100 or more. -/
theorem findPath_free (w h : Nat) (hsize : (w : Int) + (h : Int) ≤ INT_MAX) (i j k m : Nat)
    (hi : i < w) (hj : j < h) (hk : k < w) (hm : m < h) :
    (DuatoProtocol.calculateManhattanDistance (Node.ofXY (i : Int) (j : Int))
        (Node.ofXY (k : Int) (m : Int)) ≤ 99 →
      ∃ p, DuatoProtocol.findPath (Network.new w h) (Node.ofXY (i : Int) (j : Int))
          (Node.ofXY (k : Int) (m : Int)) = some p ∧
        (p.length : Int) = 1 + DuatoProtocol.calculateManhattanDistance
          (Node.ofXY (i : Int) (j : Int)) (Node.ofXY (k : Int) (m : Int))) ∧
    (100 ≤ DuatoProtocol.calculateManhattanDistance (Node.ofXY (i : Int) (j : Int))
        (Node.ofXY (k : Int) (m : Int)) →
      DuatoProtocol.findPath (Network.new w h) (Node.ofXY (i : Int) (j : Int))
        (Node.ofXY (k : Int) (m : Int)) = some []) := by
  obtain ⟨D, hD⟩ := Int.eq_ofNat_of_zero_le
    (manhattan_nonneg (Node.ofXY (i : Int) (j : Int)) (Node.ofXY (k : Int) (m : Int)))
  have hloop := findPathLoop_free w h hsize k m hk hm 100 i j [Node.ofXY (i : Int) (j : Int)] D
    hi hj hD (by simp) (by simp)
  simp only [List.length_singleton] at hloop
  unfold DuatoProtocol.findPath
  rw [hD]
  constructor
  · intro hle
    obtain ⟨p, hp, hpl⟩ := hloop.1 (by omega)
    exact ⟨p, hp, by rw [hpl]; push_cast; ring⟩
  · intro hge
    exact hloop.2 (by omega)

/-- C6 fails as stated at Manhattan distance 100: on the mesh `Network(101, 1)` with all
channels free, from `(0, 0)` to `(100, 0)`, `routeMessageWithStats` reports failure,
because `findPath` gives up as soon as the path holds more than 100 nodes. -/
theorem duato_mesh_distance_100_fails :
    DuatoProtocol.calculateManhattanDistance (Node.ofXY 0 0) (Node.ofXY 100 0) = 100 ∧
    (Network.new 101 1).getNode 0 0 = some (Node.ofXY 0 0) ∧
    (Network.new 101 1).getNode 100 0 = some (Node.ofXY 100 0) ∧
    ∃ r, DuatoProtocol.routeMessageWithStats (Network.new 101 1) none (Node.ofXY 0 0)
        (Node.ofXY 100 0) = some r ∧ r.success = false := by
  have hd : DuatoProtocol.calculateManhattanDistance (Node.ofXY 0 0) (Node.ofXY 100 0) = 100 := by
    decide
  have hg := mesh_getNode 101 1
  have hnew : ∀ x y, (Network.new 101 1).getNode x y =
      (Network.blank 101 1).createNodes.getNode x y := fun x y => mesh_getNode_new 101 1 x y
  refine ⟨hd, ?_, ?_, ?_⟩
  · rw [hnew]
    have := hg 0 0
    simpa using this
  · rw [hnew]
    have := hg 100 0
    simpa using this
  · have hfail := (findPath_free 101 1 (by decide) 0 0 100 0 (by omega) (by omega) (by omega)
      (by omega)).2 (by rw [show (((0 : Nat) : Int)) = 0 from rfl,
        show (((100 : Nat) : Int)) = 100 from rfl, hd])
    have hfail2 : DuatoProtocol.findPath (Network.new 101 1) (Node.ofXY 0 0)
        (Node.ofXY 100 0) = some [] := hfail
    unfold DuatoProtocol.routeMessageWithStats
    rw [hfail2]
    exact ⟨_, rfl, rfl⟩

/-- C6 as amended: with all channels free (the state `Network(width, height)` is built
in), for every mesh and every pair of its nodes whose Manhattan distance `d` is at most 99,
`DuatoProtocol::routeMessageWithStats` succeeds with `hopCount == d` (in particular for
`d == 99`): the path-length guard of `findPath` fires when the path holds more than 100
nodes, that is at 100 hops. The mesh is assumed small enough for its distances to be `int`
values. -/
theorem duato_mesh_free_route_succeeds (width height : Nat) (config : Option Config)
    (sx sy dx dy : Int) (source destination : Node)
    (hsize : (width : Int) + (height : Int) ≤ INT_MAX)
    (hs : (Network.new width height).getNode sx sy = some source)
    (hd : (Network.new width height).getNode dx dy = some destination)
    (hdist : DuatoProtocol.calculateManhattanDistance source destination ≤ 99) :
    ∃ r, DuatoProtocol.routeMessageWithStats (Network.new width height) config source
        destination = some r ∧
      r.success = true ∧
      r.hopCount = DuatoProtocol.calculateManhattanDistance source destination := by
  obtain ⟨i, j, hi, hj, rfl, rfl, rfl⟩ := mesh_getNode_some width height sx sy source hs
  obtain ⟨k, m, hk, hm, rfl, rfl, rfl⟩ := mesh_getNode_some width height dx dy destination hd
  obtain ⟨p, hp, hpl⟩ := (findPath_free width height hsize i j k m hi hj hk hm).1 hdist
  have hnn := manhattan_nonneg (Node.ofXY (i : Int) (j : Int)) (Node.ofXY (k : Int) (m : Int))
  have hpe : p.isEmpty = false := by
    cases p with
    | nil => simp at hpl; omega
    | cons a p => rfl
  unfold DuatoProtocol.routeMessageWithStats
  rw [hp]
  simp only [hpe, Bool.false_eq_true, if_false]
  refine ⟨_, rfl, rfl, ?_⟩
  simp only [hpl]
  ring

theorem duato_mesh_free_route_succeeds_witness :
    ((4 : Nat) : Int) + ((4 : Nat) : Int) ≤ INT_MAX ∧
    (Network.new 4 4).getNode 0 3 = some (Node.ofXY 0 3) ∧
    (Network.new 4 4).getNode 3 0 = some (Node.ofXY 3 0) ∧
    DuatoProtocol.calculateManhattanDistance (Node.ofXY 0 3) (Node.ofXY 3 0) ≤ 99 ∧
    ∃ r, DuatoProtocol.routeMessageWithStats (Network.new 4 4) none (Node.ofXY 0 3)
        (Node.ofXY 3 0) = some r ∧
      r.success = true ∧
      r.hopCount = DuatoProtocol.calculateManhattanDistance (Node.ofXY 0 3) (Node.ofXY 3 0) :=
  ⟨by decide, by decide, by decide, by decide,
    duato_mesh_free_route_succeeds 4 4 none 0 3 3 0 _ _ (by decide) (by decide) (by decide)
      (by decide)⟩

/-! ## Simulation engine -/

/-- C9 fails on the code: hypercube of dimension 3 (8 nodes), injection rate 0.3, and in
each of the cycles 0..8 the uniform draw of node 0 is 0.1 (a packet for node 5 is
injected) while the draws of the other nodes are 0.5 (nothing injected). At this rate
`maxGlobalPacketsPerCycle` is 0, `routePackets` moves nothing, and `injectPackets` pushes
without looking at `maxBufferSize`: after 9 cycles the buffer of node 0 holds 9 packets,
more than `maxBufferSize == 8`. -/
theorem buffer_exceeds_maxBufferSize :
    ((Simulator.ofHypercube (HypercubeNetwork.new 3).initializeTopology).runCycles (3 / 10)
      (fun _ n => if n = 0 then ⟨1 / 10, [5]⟩ else ⟨1 / 2, []⟩) 9).map
      (fun sim => ((sim.nodeBuffers (NodeRef.cube (HypercubeNetwork.newNode 3 0))).length,
        sim.maxBufferSize)) = some (9, 8) := by
  decide!

theorem CountMap.get_touch {K : Type} [DecidableEq K] (m : CountMap K) (k k2 : K) :
    (m.touch k).get k2 = m.get k2 := by
  induction m with
  | nil =>
      simp only [CountMap.touch, CountMap.get]
      split <;> rfl
  | cons e m ih =>
      obtain ⟨k1, v⟩ := e
      simp only [CountMap.touch]
      split
      · rfl
      · simp only [CountMap.get, ih]

theorem CountMap.get_incr {K : Type} [DecidableEq K] (m : CountMap K) (k k2 : K) :
    (m.incr k).get k2 = if k = k2 then m.get k2 + 1 else m.get k2 := by
  induction m with
  | nil =>
      simp only [CountMap.incr, CountMap.get]
      split <;> simp
  | cons e m ih =>
      obtain ⟨k1, v⟩ := e
      simp only [CountMap.incr]
      by_cases h1 : k1 = k
      · subst h1
        simp only [if_true, CountMap.get]
        split <;> rfl
      · simp only [h1, if_false, CountMap.get, ih]
        by_cases h2 : k1 = k2
        · subst h2
          have : ¬ k = k1 := fun h => h1 h.symm
          simp [this]
        · simp only [h2, if_false]

theorem count_snoc (l : List (NodeRef × NodeRef)) (k k2 : NodeRef × NodeRef) :
    ((l ++ [k]).count k2 : Int) = (l.count k2 : Int) + (if k = k2 then 1 else 0) := by
  rw [List.count_append, List.count_singleton]
  by_cases h : k = k2
  · subst h; simp
  · have : (k == k2) = false := by simpa using h
    simp [h, this]

/-- What one step of the node loop does to the list of moves and to a counter map:
nothing, a read access, or one move over a link whose counter is below the budget. -/
theorem routeHypercubeNode_shape (sim : Simulator) (cap maxGlobal : Int) (st : RouteState)
    (nodeId : Nat) :
    ∃ st2, Simulator.routeHypercubeNode sim cap maxGlobal st nodeId = st2 ∧
      ((st2.moves = st.moves ∧ st2.linkBandwidthUsed = st.linkBandwidthUsed) ∨
       (∃ k, st2.moves = st.moves ∧ st2.linkBandwidthUsed = st.linkBandwidthUsed.touch k) ∨
       (∃ k, st.linkBandwidthUsed.get k < cap ∧ st2.moves = st.moves ++ [k] ∧
          st2.linkBandwidthUsed = (st.linkBandwidthUsed.touch k).incr k)) := by
  unfold Simulator.routeHypercubeNode
  split
  · exact ⟨_, rfl, Or.inl ⟨rfl, rfl⟩⟩
  · split
    · exact ⟨_, rfl, Or.inl ⟨rfl, rfl⟩⟩
    · try dsimp only
      split
      · exact ⟨_, rfl, Or.inl ⟨rfl, rfl⟩⟩
      · try dsimp only
        split
        · exact ⟨_, rfl, Or.inl ⟨rfl, rfl⟩⟩
        · split
          · exact ⟨_, rfl, Or.inl ⟨rfl, rfl⟩⟩
          · try dsimp only
            split
            · exact ⟨_, rfl, Or.inl ⟨rfl, rfl⟩⟩
            · split
              · exact ⟨_, rfl, Or.inr (Or.inl ⟨_, rfl, rfl⟩)⟩
              · rename_i hgate
                simp only [CountMap.get_touch, not_le, ge_iff_le] at hgate
                exact ⟨_, rfl, Or.inr (Or.inr ⟨_, hgate, rfl, rfl⟩)⟩

theorem routeMeshNode_shape (sim : Simulator) (st : RouteState) (x y : Nat) :
    ∃ st2, Simulator.routeMeshNode sim st x y = st2 ∧
      ((st2.moves = st.moves ∧ st2.linkUtilization = st.linkUtilization) ∨
       (∃ k, st2.moves = st.moves ∧ st2.linkUtilization = st.linkUtilization.touch k) ∨
       (∃ k, st.linkUtilization.get k < 2 ∧ st2.moves = st.moves ++ [k] ∧
          st2.linkUtilization = (st.linkUtilization.touch k).incr k)) := by
  unfold Simulator.routeMeshNode
  split
  · exact ⟨_, rfl, Or.inl ⟨rfl, rfl⟩⟩
  · try dsimp only
    split
    · exact ⟨_, rfl, Or.inl ⟨rfl, rfl⟩⟩
    · try dsimp only
      split
      · exact ⟨_, rfl, Or.inl ⟨rfl, rfl⟩⟩
      · split
        · exact ⟨_, rfl, Or.inl ⟨rfl, rfl⟩⟩
        · try dsimp only
          split
          · exact ⟨_, rfl, Or.inl ⟨rfl, rfl⟩⟩
          · split
            · exact ⟨_, rfl, Or.inr (Or.inl ⟨_, rfl, rfl⟩)⟩
            · rename_i hgate
              simp only [CountMap.get_touch, not_le, ge_iff_le] at hgate
              exact ⟨_, rfl, Or.inr (Or.inr ⟨_, hgate, rfl, rfl⟩)⟩

/-- The three shapes of a step keep the number of moves over every link equal to its
counter, and the counter within the budget. -/
theorem budget_step (cap : Int) (moves moves2 : List (NodeRef × NodeRef))
    (m m2 : CountMap (NodeRef × NodeRef))
    (hshape : (moves2 = moves ∧ m2 = m) ∨ (∃ k, moves2 = moves ∧ m2 = m.touch k) ∨
      (∃ k, m.get k < cap ∧ moves2 = moves ++ [k] ∧ m2 = (m.touch k).incr k))
    (hinv : ∀ key, ((moves.count key : Nat) : Int) = m.get key ∧ m.get key ≤ cap) :
    ∀ key, ((moves2.count key : Nat) : Int) = m2.get key ∧ m2.get key ≤ cap := by
  intro key
  have h1 := hinv key
  rcases hshape with ⟨rfl, rfl⟩ | ⟨k, rfl, rfl⟩ | ⟨k, hk, rfl, rfl⟩
  · exact h1
  · rw [CountMap.get_touch]; exact h1
  · rw [CountMap.get_incr, CountMap.get_touch, count_snoc]
    by_cases hkk : k = key
    · subst hkk
      simp only [if_true]
      omega
    · simp only [hkk, if_false]
      omega

theorem routeHypercubeNode_budget (sim : Simulator) (cap maxGlobal : Int) (st : RouteState)
    (nodeId : Nat)
    (hinv : ∀ key, ((st.moves.count key : Nat) : Int) = st.linkBandwidthUsed.get key ∧
      st.linkBandwidthUsed.get key ≤ cap) :
    ∀ key, (((Simulator.routeHypercubeNode sim cap maxGlobal st nodeId).moves.count key : Nat)
        : Int) = (Simulator.routeHypercubeNode sim cap maxGlobal st nodeId).linkBandwidthUsed.get
          key ∧
      (Simulator.routeHypercubeNode sim cap maxGlobal st nodeId).linkBandwidthUsed.get key ≤
        cap := by
  obtain ⟨st2, h2, hshape⟩ := routeHypercubeNode_shape sim cap maxGlobal st nodeId
  rw [h2]
  exact budget_step cap _ _ _ _ hshape hinv

theorem routeMeshNode_budget (sim : Simulator) (st : RouteState) (x y : Nat)
    (hinv : ∀ key, ((st.moves.count key : Nat) : Int) = st.linkUtilization.get key ∧
      st.linkUtilization.get key ≤ 2) :
    ∀ key, (((Simulator.routeMeshNode sim st x y).moves.count key : Nat) : Int) =
        (Simulator.routeMeshNode sim st x y).linkUtilization.get key ∧
      (Simulator.routeMeshNode sim st x y).linkUtilization.get key ≤ 2 := by
  obtain ⟨st2, h2, hshape⟩ := routeMeshNode_shape sim st x y
  rw [h2]
  exact budget_step 2 _ _ _ _ hshape hinv

theorem dynamicLinkCapacity_formula (rate : ℚ) :
    Simulator.dynamicLinkCapacity rate =
      if rate ≤ 15 / 100 then 3
      else max 1 (truncToInt (3 * (1 - 7 / 10 * (rate - 15 / 100) / (8 / 100)))) := by
  unfold Simulator.dynamicLinkCapacity
  by_cases h : rate ≤ 15 / 100
  · have h2 : ¬ rate > 15 / 100 := not_lt.mpr h
    simp only [h, h2, if_true, if_false]
  · have h2 : rate > 15 / 100 := not_le.mp h
    simp only [h, h2, if_true, if_false]
    congr 2
    push_cast
    ring

theorem truncToInt_le_two (x : ℚ) (hx : x < 3) : truncToInt x ≤ 2 := by
  unfold truncToInt
  split
  · have : ⌊x⌋ < 3 := Int.floor_lt.mpr (by exact_mod_cast hx)
    omega
  · rename_i hneg
    have hle : x ≤ ((0 : Int) : ℚ) := by
      push_cast
      exact le_of_lt (not_le.mp hneg)
    have : ⌈x⌉ ≤ 0 := Int.ceil_le.mpr hle
    omega

theorem dynamicLinkCapacity_range (rate : ℚ) :
    Simulator.dynamicLinkCapacity rate = 1 ∨ Simulator.dynamicLinkCapacity rate = 2 ∨
      Simulator.dynamicLinkCapacity rate = 3 := by
  rw [dynamicLinkCapacity_formula]
  split
  · right; right; rfl
  · rename_i h
    have hr : rate > 15 / 100 := not_le.mp h
    have hx : 3 * (1 - 7 / 10 * (rate - 15 / 100) / (8 / 100)) < (3 : ℚ) := by
      have hpos : 0 < 7 / 10 * (rate - 15 / 100) / (8 / 100) := by
        apply div_pos
        · apply mul_pos (by norm_num)
          linarith
        · norm_num
      linarith
    have := truncToInt_le_two _ hx
    omega

theorem routePacketsTrace_hypercube_budget (sim : Simulator) (hmode : sim.isHypercubeMode = true)
    (key : NodeRef × NodeRef) :
    ((sim.routePacketsTrace.moves.count key : Nat) : Int) ≤
      Simulator.dynamicLinkCapacity sim.currentInjectionRate := by
  have hcap : (0 : Int) ≤ Simulator.dynamicLinkCapacity sim.currentInjectionRate := by
    rcases dynamicLinkCapacity_range sim.currentInjectionRate with h | h | h <;> omega
  have hinv : ∀ key, ((sim.routePacketsTrace.moves.count key : Nat) : Int) =
      sim.routePacketsTrace.linkBandwidthUsed.get key ∧
      sim.routePacketsTrace.linkBandwidthUsed.get key ≤
        Simulator.dynamicLinkCapacity sim.currentInjectionRate := by
    unfold Simulator.routePacketsTrace
    simp only [hmode, if_true]
    apply foldl_inv _ (fun (st : RouteState) => ∀ key,
      ((st.moves.count key : Nat) : Int) = st.linkBandwidthUsed.get key ∧
      st.linkBandwidthUsed.get key ≤ Simulator.dynamicLinkCapacity sim.currentInjectionRate)
    · intro st _ _ hst
      apply foldl_inv _ (fun (st : RouteState) => ∀ key,
        ((st.moves.count key : Nat) : Int) = st.linkBandwidthUsed.get key ∧
        st.linkBandwidthUsed.get key ≤ Simulator.dynamicLinkCapacity sim.currentInjectionRate)
      · intro st nodeId _ hst
        exact routeHypercubeNode_budget sim _ _ st nodeId hst
      · exact hst
    · intro key
      simp only [Simulator.routeStart, List.count_nil, CountMap.get]
      exact ⟨rfl, hcap⟩
  have := hinv key
  omega

theorem routePacketsTrace_mesh_budget (sim : Simulator) (hmode : sim.isHypercubeMode = false)
    (key : NodeRef × NodeRef) :
    ((sim.routePacketsTrace.moves.count key : Nat) : Int) ≤ 2 := by
  have hinv : ∀ key, ((sim.routePacketsTrace.moves.count key : Nat) : Int) =
      sim.routePacketsTrace.linkUtilization.get key ∧
      sim.routePacketsTrace.linkUtilization.get key ≤ 2 := by
    unfold Simulator.routePacketsTrace
    simp only [hmode, Bool.false_eq_true, if_false]
    apply foldl_inv _ (fun (st : RouteState) => ∀ key,
      ((st.moves.count key : Nat) : Int) = st.linkUtilization.get key ∧
      st.linkUtilization.get key ≤ 2)
    · intro st _ _ hst
      apply foldl_inv _ (fun (st : RouteState) => ∀ key,
        ((st.moves.count key : Nat) : Int) = st.linkUtilization.get key ∧
        st.linkUtilization.get key ≤ 2)
      · intro st x _ hst
        apply foldl_inv _ (fun (st : RouteState) => ∀ key,
          ((st.moves.count key : Nat) : Int) = st.linkUtilization.get key ∧
          st.linkUtilization.get key ≤ 2)
        · intro st y _ hst
          exact routeMeshNode_budget sim st x y hst
        · exact hst
      · exact hst
    · intro key
      simp only [Simulator.routeStart, List.count_nil, CountMap.get]
      exact ⟨rfl, by decide⟩
  have := hinv key
  omega

/-- C10: within one call of `routePackets`, for every ordered pair `(current, next)` the
number of packets moved from `current` to `next` is at most the budget of the cycle; the
budget is 2 in mesh mode and `dynamicLinkCapacity` in hypercube mode, which is 3 for
`rate <= 0.15` and `max(1, trunc(3 * (1 - 0.7 * (rate - 0.15) / 0.08)))` otherwise, and is
always 1, 2 or 3. The state at the start of the call is arbitrary. -/
theorem link_moves_within_budget (sim : Simulator) (current next : NodeRef) :
    ((sim.routePacketsTrace.moves.count (current, next) : Nat) : Int) ≤
      (if sim.isHypercubeMode then Simulator.dynamicLinkCapacity sim.currentInjectionRate
       else 2) ∧
    Simulator.dynamicLinkCapacity sim.currentInjectionRate =
      (if sim.currentInjectionRate ≤ 15 / 100 then 3
       else max 1 (truncToInt
        (3 * (1 - 7 / 10 * (sim.currentInjectionRate - 15 / 100) / (8 / 100))))) ∧
    (Simulator.dynamicLinkCapacity sim.currentInjectionRate = 1 ∨
      Simulator.dynamicLinkCapacity sim.currentInjectionRate = 2 ∨
      Simulator.dynamicLinkCapacity sim.currentInjectionRate = 3) := by
  refine ⟨?_, dynamicLinkCapacity_formula _, dynamicLinkCapacity_range _⟩
  cases hmode : sim.isHypercubeMode with
  | true =>
      simp only [if_true]
      exact routePacketsTrace_hypercube_budget sim hmode (current, next)
  | false =>
      simp only [Bool.false_eq_true, if_false]
      exact routePacketsTrace_mesh_budget sim hmode (current, next)

/-! ## Injection -/

theorem foldl_range_inv {σ : Type} (f : σ → Nat → σ) (I : Nat → σ → Prop) (n : Nat) (s : σ)
    (h0 : I 0 s) (hstep : ∀ k s, k < n → I k s → I (k + 1) (f s k)) :
    I n ((List.range n).foldl f s) := by
  induction n with
  | zero => exact h0
  | succ n ih =>
      rw [List.range_succ, List.foldl_append]
      simp only [List.foldl_cons, List.foldl_nil]
      apply hstep n _ (Nat.lt_succ_self n)
      exact ih (fun k s hk hI => hstep k s (Nat.lt_succ_of_lt hk) hI)

/-- The effect of `injectPackets`, as an invariant of its loops: only `nodeBuffers`
changes, by appending new packets with hop count 0 and the current cycle as injection
time; the returned number counts them. -/
theorem injectPackets_inv (sim : Simulator) (injectionRate : ℚ) (draws : Nat → InjectionDraw)
    (I : (NodeRef → List Packet) → Int → Prop) (h0 : I sim.nodeBuffers 0)
    (hpush : ∀ b k node packet, I b k → packet.hopCount = 0 →
      packet.injectionTime = sim.currentCycle →
      I (Simulator.pushPacket b node packet) (k + 1)) :
    ∀ s k, sim.injectPackets injectionRate draws = some (s, k) →
      ∃ b, s = { sim with nodeBuffers := b } ∧ I b k := by
  have hJ0 : ∀ s k, (some (sim, (0 : Int)) : Option (Simulator × Int)) = some (s, k) →
      ∃ b, s = { sim with nodeBuffers := b } ∧ I b k := by
    intro s k h
    simp only [Option.some.injEq, Prod.mk.injEq] at h
    obtain ⟨rfl, rfl⟩ := h
    exact ⟨sim.nodeBuffers, rfl, h0⟩
  unfold Simulator.injectPackets
  split
  · apply foldl_inv _ (fun (state : Option (Simulator × Int)) => ∀ s k, state = some (s, k) →
      ∃ b, s = { sim with nodeBuffers := b } ∧ I b k) _ _ _ hJ0
    intro state nodeId _ hstate s k hs
    unfold Simulator.injectHypercubeNode at hs
    split at hs
    · cases hs
    · rename_i s1 k1
      obtain ⟨b1, rfl, hI1⟩ := hstate s1 k1 rfl
      dsimp only at hs
      split at hs
      · exact hstate s k hs
      · split at hs
        · split at hs
          · cases hs
          · split at hs
            · split at hs
              · exact hstate s k hs
              · simp only [Option.some.injEq, Prod.mk.injEq] at hs
                obtain ⟨rfl, rfl⟩ := hs
                exact ⟨_, rfl, hpush _ _ _ _ hI1 rfl rfl⟩
            · exact hstate s k hs
        · exact hstate s k hs
  · apply foldl_inv _ (fun (state : Option (Simulator × Int)) => ∀ s k, state = some (s, k) →
      ∃ b, s = { sim with nodeBuffers := b } ∧ I b k) _ _ _ hJ0
    intro state x _ hstate
    apply foldl_inv _ (fun (state : Option (Simulator × Int)) => ∀ s k, state = some (s, k) →
      ∃ b, s = { sim with nodeBuffers := b } ∧ I b k) _ _ _ hstate
    intro state y _ hstate s k hs
    unfold Simulator.injectMeshNode at hs
    split at hs
    · cases hs
    · rename_i s1 k1
      obtain ⟨b1, rfl, hI1⟩ := hstate s1 k1 rfl
      dsimp only at hs
      split at hs
      · exact hstate s k hs
      · split at hs
        · split at hs
          · cases hs
          · split at hs
            · exact hstate s k hs
            · simp only [Option.some.injEq, Prod.mk.injEq] at hs
              obtain ⟨rfl, rfl⟩ := hs
              exact ⟨_, rfl, hpush _ _ _ _ hI1 rfl rfl⟩
        · exact hstate s k hs

theorem injectPackets_isSome (sim : Simulator) (injectionRate : ℚ)
    (draws : Nat → InjectionDraw)
    (hend : ∀ n : Nat, (Simulator.drawDestination (n : Int) (draws n).destinations).isSome = true) :
    ∃ s k, sim.injectPackets injectionRate draws = some (s, k) := by
  have key : ∀ state : Option (Simulator × Int), state.isSome = true → ∃ s k, state = some (s, k) := by
    intro state h
    cases state with
    | none => cases h
    | some sk => exact ⟨sk.1, sk.2, rfl⟩
  apply key
  unfold Simulator.injectPackets
  split
  · refine foldl_inv _ (fun (state : Option (Simulator × Int)) => state.isSome = true) _ _ ?_
      (rfl : (some (sim, (0 : Int)) : Option (Simulator × Int)).isSome = true)
    intro state nodeId _ hstate
    obtain ⟨s1, k1, rfl⟩ := key state hstate
    unfold Simulator.injectHypercubeNode
    dsimp only
    split
    · rfl
    · split
      · have h := hend nodeId
        split
        · rename_i hnone
          rw [hnone] at h
          cases h
        · split
          · split <;> rfl
          · rfl
      · rfl
  · refine foldl_inv _ (fun (state : Option (Simulator × Int)) => state.isSome = true) _ _ ?_
      (rfl : (some (sim, (0 : Int)) : Option (Simulator × Int)).isSome = true)
    intro state x _ hstate
    apply foldl_inv _ (fun (state : Option (Simulator × Int)) => state.isSome = true) _ _ _ hstate
    intro state y _ hstate
    obtain ⟨s1, k1, rfl⟩ := key state hstate
    unfold Simulator.injectMeshNode
    dsimp only
    split
    · rfl
    · split
      · have h := hend (x * s1.networkSizeY + y)
        push_cast at h
        split
        · rename_i hnone
          rw [hnone] at h
          cases h
        · split <;> rfl
      · rfl

theorem injectPackets_rate_zero (sim : Simulator) (draws : Nat → InjectionDraw)
    (hdraws : ∀ n, 0 ≤ (draws n).random) :
    sim.injectPackets 0 draws = some (sim, 0) := by
  unfold Simulator.injectPackets
  split
  · apply foldl_inv _ (fun (state : Option (Simulator × Int)) => state = some (sim, 0)) _ _ _ rfl
    intro state nodeId _ hstate
    subst hstate
    unfold Simulator.injectHypercubeNode
    dsimp only
    split
    · rfl
    · rw [if_neg (not_lt.mpr (hdraws nodeId))]
  · apply foldl_inv _ (fun (state : Option (Simulator × Int)) => state = some (sim, 0)) _ _ _ rfl
    intro state x _ hstate
    apply foldl_inv _ (fun (state : Option (Simulator × Int)) => state = some (sim, 0)) _ _ _
      hstate
    intro state y _ hstate
    subst hstate
    unfold Simulator.injectMeshNode
    dsimp only
    split
    · rfl
    · rw [if_neg (not_lt.mpr (hdraws _))]

/-! ## Steps of `routePackets` -/

theorem setBuffer_setBuffer (b : NodeRef → List Packet) (node : NodeRef) (q1 q2 : List Packet) :
    Simulator.setBuffer (Simulator.setBuffer b node q1) node q2 = Simulator.setBuffer b node q2 := by
  funext n
  unfold Simulator.setBuffer
  split <;> rfl

theorem routeHypercubeNode_step (sim : Simulator) (cap maxGlobal : Int) (st : RouteState)
    (nodeId : Nat) :
    ∃ st2, Simulator.routeHypercubeNode sim cap maxGlobal st nodeId = st2 ∧
      StepShape sim.retireLatencyHypercube st st2 := by
  unfold Simulator.routeHypercubeNode
  split
  · exact ⟨_, rfl, Or.inl rfl⟩
  · split
    · exact ⟨_, rfl, Or.inl rfl⟩
    · try dsimp only
      split
      · exact ⟨_, rfl, Or.inl rfl⟩
      · rename_i currentHC front rest hbuf
        try dsimp only
        split
        · rename_i hdest
          refine ⟨_, rfl, Or.inr (Or.inr (Or.inl ⟨_, front, rest, hbuf, hdest.symm, ?_, rfl, ?_, rfl⟩))⟩
          · exact setBuffer_setBuffer _ _ _ _
          · dsimp only
            rw [setBuffer_setBuffer]
        · rename_i hdest
          split
          · exact ⟨_, rfl, Or.inr (Or.inl ⟨_, front, rest, hbuf, rfl, rfl, Or.inl rfl, Or.inl rfl⟩)⟩
          · try dsimp only
            split
            · exact ⟨_, rfl, Or.inr (Or.inl ⟨_, front, rest, hbuf, rfl, rfl, Or.inr rfl,
                Or.inl rfl⟩)⟩
            · split
              · exact ⟨_, rfl, Or.inr (Or.inl ⟨_, front, rest, hbuf, rfl, rfl, Or.inr rfl,
                  Or.inl rfl⟩)⟩
              · refine ⟨_, rfl, Or.inr (Or.inr (Or.inr ⟨_, _, front, rest, hbuf, ?_, ?_, rfl, rfl,
                  Or.inl rfl⟩))⟩
                · exact fun h => hdest h.symm
                · dsimp only
                  rw [setBuffer_setBuffer]

theorem routeMeshNode_step (sim : Simulator) (st : RouteState) (x y : Nat) :
    ∃ st2, Simulator.routeMeshNode sim st x y = st2 ∧
      StepShape sim.retireLatencyMesh st st2 := by
  unfold Simulator.routeMeshNode
  split
  · exact ⟨_, rfl, Or.inl rfl⟩
  · try dsimp only
    split
    · exact ⟨_, rfl, Or.inl rfl⟩
    · rename_i currentMesh front rest hbuf
      try dsimp only
      split
      · rename_i hdest
        refine ⟨_, rfl, Or.inr (Or.inr (Or.inl ⟨_, front, rest, hbuf, hdest.symm, ?_, rfl, ?_, rfl⟩))⟩
        · exact setBuffer_setBuffer _ _ _ _
        · dsimp only
          rw [setBuffer_setBuffer]
      · rename_i hdest
        split
        · exact ⟨_, rfl, Or.inr (Or.inl ⟨_, front, rest, hbuf, rfl, rfl, Or.inl rfl, Or.inl rfl⟩)⟩
        · try dsimp only
          split
          · exact ⟨_, rfl, Or.inr (Or.inl ⟨_, front, rest, hbuf, rfl, rfl, Or.inl rfl,
              Or.inl rfl⟩)⟩
          · split
            · exact ⟨_, rfl, Or.inr (Or.inl ⟨_, front, rest, hbuf, rfl, rfl, Or.inl rfl,
                Or.inr ⟨_, rfl⟩⟩)⟩
            · refine ⟨_, rfl, Or.inr (Or.inr (Or.inr ⟨_, _, front, rest, hbuf, ?_, ?_, rfl, rfl,
                Or.inr rfl⟩))⟩
              · exact fun h => hdest h.symm
              · dsimp only
                rw [setBuffer_setBuffer]

/-- An invariant of all steps of both modes holds for the state after `routePackets`. -/
theorem routePacketsTrace_inv (sim : Simulator) (I : RouteState → Prop) (h0 : I sim.routeStart)
    (hH : sim.isHypercubeMode = true → ∀ st st2, I st →
      StepShape sim.retireLatencyHypercube st st2 → I st2)
    (hM : sim.isHypercubeMode = false → ∀ st st2, I st →
      StepShape sim.retireLatencyMesh st st2 → I st2) :
    I sim.routePacketsTrace := by
  unfold Simulator.routePacketsTrace
  cases hmode : sim.isHypercubeMode with
  | true =>
      simp only [if_true]
      apply foldl_inv _ I _ _ _ h0
      intro st _ _ hst
      apply foldl_inv _ I _ _ _ hst
      intro st nodeId _ hst
      obtain ⟨st2, h2, hshape⟩ := routeHypercubeNode_step sim
        (Simulator.dynamicLinkCapacity sim.currentInjectionRate) sim.maxGlobalPacketsPerCycle
        st nodeId
      rw [h2]
      exact hH hmode st st2 hst hshape
  | false =>
      simp only [Bool.false_eq_true, if_false]
      apply foldl_inv _ I _ _ _ h0
      intro st _ _ hst
      apply foldl_inv _ I _ _ _ hst
      intro st x _ hst
      apply foldl_inv _ I _ _ _ hst
      intro st y _ hst
      obtain ⟨st2, h2, hshape⟩ := routeMeshNode_step sim st x y
      rw [h2]
      exact hM hmode st st2 hst hshape

/-! ## Packet conservation -/

theorem bufferTotal_eq_sum (keys : List NodeRef) (b : NodeRef → List Packet)
    (hnodup : keys.Nodup) :
    bufferTotal keys b = keys.toFinset.sum (fun node => (b node).length) := by
  unfold bufferTotal
  rw [List.sum_toFinset _ hnodup]

theorem bufferTotal_cover_indep (keys keys2 : List NodeRef) (b : NodeRef → List Packet)
    (h1 : Covers keys b) (h2 : Covers keys2 b) : bufferTotal keys b = bufferTotal keys2 b := by
  rw [bufferTotal_eq_sum _ _ h1.1, bufferTotal_eq_sum _ _ h2.1]
  have e1 : keys.toFinset.sum (fun node => (b node).length) =
      (keys.toFinset ∪ keys2.toFinset).sum (fun node => (b node).length) := by
    apply Finset.sum_subset Finset.subset_union_left
    intro x _ hx
    have : x ∉ keys := fun h => hx (List.mem_toFinset.mpr h)
    rw [h1.2 x this]
    rfl
  have e2 : keys2.toFinset.sum (fun node => (b node).length) =
      (keys.toFinset ∪ keys2.toFinset).sum (fun node => (b node).length) := by
    apply Finset.sum_subset Finset.subset_union_right
    intro x _ hx
    have : x ∉ keys2 := fun h => hx (List.mem_toFinset.mpr h)
    rw [h2.2 x this]
    rfl
  rw [e1, e2]

theorem covers_setBuffer_same_length (keys : List NodeRef) (b : NodeRef → List Packet)
    (node : NodeRef) (queue : List Packet) (hc : Covers keys b)
    (hlen : queue.length = (b node).length) :
    Covers keys (Simulator.setBuffer b node queue) ∧
      bufferTotal keys (Simulator.setBuffer b node queue) = bufferTotal keys b := by
  constructor
  · refine ⟨hc.1, ?_⟩
    intro n hn
    unfold Simulator.setBuffer
    split
    · rename_i h
      subst h
      have := hc.2 n hn
      rw [this] at hlen
      exact List.length_eq_zero.mp hlen
    · exact hc.2 n hn
  · unfold bufferTotal
    congr 1
    apply List.map_congr_left
    intro n _
    unfold Simulator.setBuffer
    split
    · rename_i h
      subst h
      exact hlen
    · rfl

theorem covers_pop (keys : List NodeRef) (b : NodeRef → List Packet) (node : NodeRef)
    (front : Packet) (rest : List Packet) (hc : Covers keys b) (hbuf : b node = front :: rest) :
    Covers keys (Simulator.setBuffer b node rest) ∧
      bufferTotal keys (Simulator.setBuffer b node rest) + 1 = bufferTotal keys b := by
  have hmem : node ∈ keys := by
    by_contra h
    have := hc.2 node h
    rw [hbuf] at this
    cases this
  constructor
  · refine ⟨hc.1, ?_⟩
    intro n hn
    unfold Simulator.setBuffer
    split
    · rename_i h
      subst h
      exact absurd hmem hn
    · exact hc.2 n hn
  · rw [bufferTotal_eq_sum _ _ hc.1, bufferTotal_eq_sum _ _ hc.1]
    have hm : node ∈ keys.toFinset := List.mem_toFinset.mpr hmem
    rw [← Finset.add_sum_erase _ _ hm, ← Finset.add_sum_erase _ (fun n => (b n).length) hm]
    have e : (keys.toFinset.erase node).sum
          (fun n => (Simulator.setBuffer b node rest n).length) =
        (keys.toFinset.erase node).sum (fun n => (b n).length) := by
      apply Finset.sum_congr rfl
      intro n hn
      have hne : n ≠ node := Finset.ne_of_mem_erase hn
      unfold Simulator.setBuffer
      rw [if_neg hne]
    rw [e]
    have e2 : (Simulator.setBuffer b node rest node).length + 1 = (b node).length := by
      unfold Simulator.setBuffer
      rw [if_pos rfl, hbuf]
      rfl
    omega

theorem covers_push (keys : List NodeRef) (b : NodeRef → List Packet) (node : NodeRef)
    (packet : Packet) (hc : Covers keys b) :
    ∃ keys2, Covers keys2 (Simulator.pushPacket b node packet) ∧
      bufferTotal keys2 (Simulator.pushPacket b node packet) = bufferTotal keys b + 1 := by
  have hgen : ∀ ks : List NodeRef, Covers ks b → node ∈ ks →
      Covers ks (Simulator.pushPacket b node packet) ∧
      bufferTotal ks (Simulator.pushPacket b node packet) = bufferTotal ks b + 1 := by
    intro ks hks hmem
    constructor
    · refine ⟨hks.1, ?_⟩
      intro n hn
      unfold Simulator.pushPacket
      split
      · rename_i h
        subst h
        exact absurd hmem hn
      · exact hks.2 n hn
    · rw [bufferTotal_eq_sum _ _ hks.1, bufferTotal_eq_sum _ _ hks.1]
      have hm : node ∈ ks.toFinset := List.mem_toFinset.mpr hmem
      rw [← Finset.add_sum_erase _ _ hm, ← Finset.add_sum_erase _ (fun n => (b n).length) hm]
      have e : (ks.toFinset.erase node).sum
            (fun n => (Simulator.pushPacket b node packet n).length) =
          (ks.toFinset.erase node).sum (fun n => (b n).length) := by
        apply Finset.sum_congr rfl
        intro n hn
        have hne : n ≠ node := Finset.ne_of_mem_erase hn
        unfold Simulator.pushPacket
        rw [if_neg hne]
      rw [e]
      have e2 : (Simulator.pushPacket b node packet node).length = (b node).length + 1 := by
        unfold Simulator.pushPacket
        rw [if_pos rfl, List.length_append]
        rfl
      omega
  by_cases hmem : node ∈ keys
  · exact ⟨keys, hgen keys hc hmem⟩
  · have hc2 : Covers (node :: keys) b := by
      refine ⟨List.nodup_cons.mpr ⟨hmem, hc.1⟩, ?_⟩
      intro n hn
      exact hc.2 n (fun h => hn (List.mem_cons_of_mem _ h))
    have ht : bufferTotal (node :: keys) b = bufferTotal keys b := by
      unfold bufferTotal
      rw [List.map_cons, List.sum_cons, hc.2 node hmem]
      simp
    obtain ⟨h1, h2⟩ := hgen (node :: keys) hc2 (List.mem_cons_self _ _)
    exact ⟨node :: keys, h1, by rw [h2, ht]⟩

/-- The balance kept by every call: the packets injected so far are the retired ones plus
the buffered ones; every retired packet was retired at its destination and has one entry
in the latency vector of the metrics. -/
theorem conserved_step (latency : (NodeRef → List Packet) → CountMap (NodeRef × NodeRef) →
      Packet → ℚ) (injected : Int) (st st2 : RouteState)
    (hshape : StepShape latency st st2)
    (hinv : (∃ keys, Covers keys st.nodeBuffers ∧
        injected = (st.retired.length : Int) + (bufferTotal keys st.nodeBuffers : Int)) ∧
      st.metrics.latencies.length = st.retired.length ∧
      ∀ p ∈ st.retired, p.currentNode = p.destinationNode) :
    (∃ keys, Covers keys st2.nodeBuffers ∧
        injected = (st2.retired.length : Int) + (bufferTotal keys st2.nodeBuffers : Int)) ∧
      st2.metrics.latencies.length = st2.retired.length ∧
      ∀ p ∈ st2.retired, p.currentNode = p.destinationNode := by
  obtain ⟨⟨keys, hc, hbal⟩, hlat, hret⟩ := hinv
  rcases hshape with rfl | ⟨cur, front, rest, hbuf, hb2, hr2, hm2, _⟩ |
      ⟨cur, front, rest, hbuf, hdest, hb2, hr2, hm2, _⟩ |
      ⟨cur, next, front, rest, hbuf, _, hb2, hr2, hm2, _⟩
  · exact ⟨⟨keys, hc, hbal⟩, hlat, hret⟩
  · have hlen : ({ front with currentNode := some cur } :: rest).length =
        (st.nodeBuffers cur).length := by rw [hbuf]; rfl
    obtain ⟨h1, h2⟩ := covers_setBuffer_same_length keys st.nodeBuffers cur _ hc hlen
    refine ⟨⟨keys, ?_, ?_⟩, ?_, ?_⟩
    · rw [hb2]; exact h1
    · rw [hb2, hr2, h2]; exact hbal
    · rw [hr2]
      rcases hm2 with h | h <;> rw [h] <;> exact hlat
    · rw [hr2]; exact hret
  · obtain ⟨h1, h2⟩ := covers_pop keys st.nodeBuffers cur front rest hc hbuf
    refine ⟨⟨keys, ?_, ?_⟩, ?_, ?_⟩
    · rw [hb2]; exact h1
    · rw [hb2, hr2, List.length_append]
      simp only [List.length_singleton]
      push_cast
      omega
    · rw [hr2, hm2]
      simp only [Metrics.recordHopCount, Metrics.recordPacketLatency, Metrics.recordLatency,
        List.length_append, List.length_singleton, hlat]
    · rw [hr2]
      intro p hp
      rcases List.mem_append.mp hp with h | h
      · exact hret p h
      · rw [List.mem_singleton.mp h]
        exact hdest.symm
  · obtain ⟨h1, h2⟩ := covers_pop keys st.nodeBuffers cur front rest hc hbuf
    obtain ⟨keys2, h3, h4⟩ := covers_push keys (Simulator.setBuffer st.nodeBuffers cur rest) next
      { front with hopCount := front.hopCount + 1, currentNode := some next } h1
    refine ⟨⟨keys2, ?_, ?_⟩, ?_, ?_⟩
    · rw [hb2]; exact h3
    · rw [hb2, hr2, h4]
      push_cast
      omega
    · rw [hr2, hm2]; exact hlat
    · rw [hr2]; exact hret

theorem balanced_reset (sim : Simulator) : sim.reset.Balanced 0 := by
  refine ⟨⟨[], ⟨List.nodup_nil, fun _ _ => rfl⟩, rfl⟩, rfl, ?_⟩
  intro p hp
  cases hp

theorem balanced_routePackets (sim : Simulator) (injected : Int) (h : sim.Balanced injected) :
    sim.routePackets.Balanced injected := by
  have key := routePacketsTrace_inv sim (fun st =>
      (∃ keys, Covers keys st.nodeBuffers ∧
        injected = (st.retired.length : Int) + (bufferTotal keys st.nodeBuffers : Int)) ∧
      st.metrics.latencies.length = st.retired.length ∧
      ∀ p ∈ st.retired, p.currentNode = p.destinationNode) h
    (fun _ st st2 hI hshape => conserved_step _ injected st st2 hshape hI)
    (fun _ st st2 hI hshape => conserved_step _ injected st st2 hshape hI)
  exact key

theorem balanced_injectPackets (sim : Simulator) (injected : Int) (injectionRate : ℚ)
    (draws : Nat → InjectionDraw) (s : Simulator) (k : Int) (h : sim.Balanced injected)
    (hs : sim.injectPackets injectionRate draws = some (s, k)) : s.Balanced (injected + k) := by
  obtain ⟨⟨keys, hc, hbal⟩, hlat, hret⟩ := h
  obtain ⟨b, rfl, keys2, hc2, hbal2⟩ := injectPackets_inv sim injectionRate draws
    (fun b k => ∃ keys, Covers keys b ∧
      injected + k = (sim.retired.length : Int) + (bufferTotal keys b : Int))
    ⟨keys, hc, by omega⟩
    (by
      intro b k node packet hI _ _
      obtain ⟨ks, hks, hb⟩ := hI
      obtain ⟨ks2, h1, h2⟩ := covers_push ks b node packet hks
      refine ⟨ks2, h1, ?_⟩
      rw [h2]
      push_cast
      omega)
    s k hs
  exact ⟨⟨keys2, hc2, hbal2⟩, hlat, hret⟩

theorem balanced_applyCalls (sim : Simulator) (calls : List SimCall) (s : Simulator)
    (injected : Int) (hrun : sim.applyCalls calls = some (s, injected)) :
    s.Balanced injected := by
  have key : ∀ s k, sim.applyCalls calls = some (s, k) → s.Balanced k := by
    unfold Simulator.applyCalls
    apply foldl_inv _ (fun (state : Option (Simulator × Int)) =>
      ∀ s k, state = some (s, k) → s.Balanced k)
    · intro state call _ hstate s k hs
      unfold Simulator.applyCall at hs
      split at hs
      · cases hs
      · rename_i s1 k1
        have h1 := hstate s1 k1 rfl
        split at hs
        · split at hs
          · cases hs
          · rename_i s2 k2 hinj
            simp only [Option.some.injEq, Prod.mk.injEq] at hs
            obtain ⟨rfl, rfl⟩ := hs
            exact balanced_injectPackets s1 k1 _ _ _ _ h1 hinj
        · simp only [Option.some.injEq, Prod.mk.injEq] at hs
          obtain ⟨rfl, rfl⟩ := hs
          exact balanced_routePackets s1 k1 h1
        · simp only [Option.some.injEq, Prod.mk.injEq] at hs
          obtain ⟨rfl, rfl⟩ := hs
          exact h1
    · intro s k hs
      simp only [Option.some.injEq, Prod.mk.injEq] at hs
      obtain ⟨rfl, rfl⟩ := hs
      exact balanced_reset sim
  exact key s injected hrun

/-- C11: packet conservation. After `reset()` followed by any sequence of calls of
`injectPackets`, `routePackets` and `updateCurrentCycle` that have returned, the number of
packets injected equals the number of packets retired plus the sum of the lengths of all
buffers (taken over any list `keys` that names every non-empty buffer once); every retired
packet was retired at its destination and has one recorded latency. Every execution of the
body of a node loop of `routePackets`, in both modes, has one of the shapes of
`StepShape`: nothing happens, the head packet is blocked and stays at the head of its
buffer, the head packet is retired at its destination, or it is appended to the buffer of
the next hop. -/
theorem packet_conservation (sim : Simulator) (calls : List SimCall) (s : Simulator)
    (injected : Int) (keys : List NodeRef)
    (hrun : sim.applyCalls calls = some (s, injected))
    (hkeys : Covers keys s.nodeBuffers) :
    injected = (s.retired.length : Int) + (bufferTotal keys s.nodeBuffers : Int) ∧
    s.metrics.latencies.length = s.retired.length ∧
    (∀ p ∈ s.retired, p.currentNode = p.destinationNode) ∧
    (∀ (sim2 : Simulator) (cap maxGlobal : Int) (st : RouteState) (nodeId : Nat),
      StepShape sim2.retireLatencyHypercube st
        (Simulator.routeHypercubeNode sim2 cap maxGlobal st nodeId)) ∧
    (∀ (sim2 : Simulator) (st : RouteState) (x y : Nat),
      StepShape sim2.retireLatencyMesh st (Simulator.routeMeshNode sim2 st x y)) := by
  obtain ⟨⟨keys2, hc2, hbal⟩, hlat, hret⟩ := balanced_applyCalls sim calls s injected hrun
  refine ⟨?_, hlat, hret, ?_, ?_⟩
  · rw [bufferTotal_cover_indep keys keys2 _ hkeys hc2]
    exact hbal
  · intro sim2 cap maxGlobal st nodeId
    obtain ⟨st2, h2, hshape⟩ := routeHypercubeNode_step sim2 cap maxGlobal st nodeId
    rw [h2]
    exact hshape
  · intro sim2 st x y
    obtain ⟨st2, h2, hshape⟩ := routeMeshNode_step sim2 st x y
    rw [h2]
    exact hshape

theorem packet_conservation_witness :
    ∃ s, (Simulator.ofMesh 2 1).applyCalls
        [SimCall.inject 1 (fun n => if n = 0 then ⟨0, [1]⟩ else ⟨1, []⟩),
         SimCall.cycle 1] = some (s, 1) ∧
      Covers [NodeRef.mesh (Node.ofXY 0 0)] s.nodeBuffers ∧
      (1 : Int) = (s.retired.length : Int) +
        (bufferTotal [NodeRef.mesh (Node.ofXY 0 0)] s.nodeBuffers : Int) := by
  have h1 : (Simulator.ofMesh 2 1).applyCalls
        [SimCall.inject 1 (fun n => if n = 0 then ⟨0, [1]⟩ else ⟨1, []⟩),
         SimCall.cycle 1] =
      some ({ (Simulator.ofMesh 2 1).reset with
        currentCycle := 1,
        nodeBuffers := Simulator.pushPacket (fun _ => []) (NodeRef.mesh (Node.ofXY 0 0))
          (Packet.inject 0 1 0 (NodeRef.mesh (Node.ofXY 0 0))
            (NodeRef.mesh (Node.ofXY 1 0))) }, 1) := by
    rfl
  have h2 : Covers [NodeRef.mesh (Node.ofXY 0 0)]
      (Simulator.pushPacket (fun _ => []) (NodeRef.mesh (Node.ofXY 0 0))
          (Packet.inject 0 1 0 (NodeRef.mesh (Node.ofXY 0 0))
            (NodeRef.mesh (Node.ofXY 1 0)))) := by
    refine ⟨List.nodup_singleton _, ?_⟩
    intro node hnode
    have hne : node ≠ NodeRef.mesh (Node.ofXY 0 0) := fun h => hnode (by rw [h]; simp)
    unfold Simulator.pushPacket
    rw [if_neg hne]
  exact ⟨_, h1, h2, (packet_conservation _ _ _ _ _ h1 h2).1⟩

/-- With all buffers empty `routePackets` changes neither the buffers nor the metrics. -/
theorem routePackets_empty (sim : Simulator) (hempty : ∀ node, sim.nodeBuffers node = []) :
    (∀ node, sim.routePackets.nodeBuffers node = []) ∧ sim.routePackets.retired = sim.retired ∧
      sim.routePackets.metrics = sim.metrics := by
  have hstep : ∀ (latency : (NodeRef → List Packet) → CountMap (NodeRef × NodeRef) →
      Packet → ℚ) (st st2 : RouteState),
      ((∀ node, st.nodeBuffers node = []) ∧ st.retired = sim.retired ∧
        st.metrics = sim.metrics) →
      StepShape latency st st2 →
      ((∀ node, st2.nodeBuffers node = []) ∧ st2.retired = sim.retired ∧
        st2.metrics = sim.metrics) := by
    intro latency st st2 hI hshape
    rcases hshape with rfl | ⟨cur, front, rest, hbuf, _⟩ | ⟨cur, front, rest, hbuf, _⟩ |
      ⟨cur, next, front, rest, hbuf, _⟩
    · exact hI
    · rw [hI.1 cur] at hbuf; cases hbuf
    · rw [hI.1 cur] at hbuf; cases hbuf
    · rw [hI.1 cur] at hbuf; cases hbuf
  exact routePacketsTrace_inv sim (fun st => (∀ node, st.nodeBuffers node = []) ∧
      st.retired = sim.retired ∧ st.metrics = sim.metrics) ⟨hempty, rfl, rfl⟩
    (fun _ st st2 hI hshape => hstep _ st st2 hI hshape)
    (fun _ st st2 hI hshape => hstep _ st st2 hI hshape)

theorem runCycles_rate_zero (sim : Simulator) (draws : Int → Nat → InjectionDraw)
    (hdraws : ∀ c n, 0 ≤ (draws c n).random) (cycles : Nat) :
    ∃ s, sim.runCycles 0 draws cycles = some s ∧ (∀ node, s.nodeBuffers node = []) ∧
      s.retired = [] ∧ s.metrics.latencies = [] := by
  unfold Simulator.runCycles
  apply foldl_inv _ (fun (state : Option Simulator) => ∃ s, state = some s ∧
    (∀ node, s.nodeBuffers node = []) ∧ s.retired = [] ∧ s.metrics.latencies = [])
  · intro state cycle _ hstate
    obtain ⟨s, rfl, hempty, hret, hlat⟩ := hstate
    unfold Simulator.runCycle
    dsimp only
    rw [injectPackets_rate_zero _ _ (hdraws _)]
    dsimp only
    obtain ⟨h1, h2, h3⟩ := routePackets_empty (s.updateCurrentCycle (cycle : Int)) hempty
    exact ⟨_, rfl, h1, by rw [h2]; exact hret, by rw [h3]; exact hlat⟩
  · exact ⟨_, rfl, fun _ => rfl, rfl, rfl⟩

/-- C12: at injection rate 0, in both modes, in every state of the simulator (so for every
cycle number) and for every outcome of the random draws with every uniform draw at least
0, `injectPackets` returns 0 and leaves the simulator, in particular every node buffer,
unchanged; and a run of any number of cycles at rate 0 ends with every buffer empty and no
packet retired: no packet was injected. -/
theorem inject_rate_zero (sim : Simulator) (draws : Int → Nat → InjectionDraw)
    (hdraws : ∀ c n, 0 ≤ (draws c n).random) :
    (∀ c, sim.injectPackets 0 (draws c) = some (sim, 0)) ∧
    ∀ cycles, ∃ s, sim.runCycles 0 draws cycles = some s ∧
      (∀ node, s.nodeBuffers node = []) ∧ s.retired = [] ∧ s.metrics.latencies = [] :=
  ⟨fun c => injectPackets_rate_zero sim (draws c) (hdraws c),
   fun cycles => runCycles_rate_zero sim draws hdraws cycles⟩

theorem inject_rate_zero_witness :
    (∀ (c : Int) (n : Nat), 0 ≤ ((fun _ _ => ⟨0, [1, 0]⟩ : Int → Nat → InjectionDraw) c n).random) ∧
    (Simulator.ofHypercube (HypercubeNetwork.new 3).initializeTopology).injectPackets 0
      ((fun _ _ => ⟨0, [1, 0]⟩ : Int → Nat → InjectionDraw) 7) =
      some (Simulator.ofHypercube (HypercubeNetwork.new 3).initializeTopology, 0) :=
  ⟨fun _ _ => le_refl _,
   (inject_rate_zero (Simulator.ofHypercube (HypercubeNetwork.new 3).initializeTopology)
      (fun _ _ => ⟨0, [1, 0]⟩) (fun _ _ => le_refl _)).1 7⟩

/-! ## The loops of `runSimulation` -/

theorem runCycles_inv (sim : Simulator) (injectionRate : ℚ) (draws : Int → Nat → InjectionDraw)
    (P : Nat → Simulator → Prop)
    (h0 : P 0 { sim.reset with currentInjectionRate := injectionRate })
    (hstep : ∀ (k : Nat) (s s2 : Simulator) (n : Int), P k s →
      (s.updateCurrentCycle (k : Int)).injectPackets injectionRate (draws (k : Int)) =
        some (s2, n) → P (k + 1) s2.routePackets)
    (cycles : Nat) :
    ∀ s, sim.runCycles injectionRate draws cycles = some s → P cycles s := by
  unfold Simulator.runCycles
  apply foldl_range_inv _ (fun k (state : Option Simulator) => ∀ s, state = some s → P k s)
  · intro s hs
    simp only [Option.some.injEq] at hs
    subst hs
    exact h0
  · intro k state _ hstate s hs
    unfold Simulator.runCycle at hs
    split at hs
    · cases hs
    · rename_i s1
      split at hs
      · cases hs
      · rename_i s2 n hinj
        simp only [Option.some.injEq] at hs
        subst hs
        exact hstep k s1 s2 n (hstate s1 rfl) hinj

theorem runCycles_isSome (sim : Simulator) (injectionRate : ℚ)
    (draws : Int → Nat → InjectionDraw) (hend : DrawsEnd draws) (cycles : Nat) :
    ∃ s, sim.runCycles injectionRate draws cycles = some s := by
  unfold Simulator.runCycles
  apply foldl_inv _ (fun (state : Option Simulator) => ∃ s, state = some s)
  · intro state cycle _ hstate
    obtain ⟨s, rfl⟩ := hstate
    unfold Simulator.runCycle
    dsimp only
    obtain ⟨s2, n, h2⟩ := injectPackets_isSome (s.updateCurrentCycle (cycle : Int))
      injectionRate (draws (cycle : Int)) (hend (cycle : Int))
    rw [h2]
    exact ⟨_, rfl⟩
  · exact ⟨_, rfl⟩

/-- The two ways in which the body of the measurement loop produces a state. -/
theorem measureCycle_cases (injectionRate : ℚ) (config : RunConfig)
    (draws : Int → Nat → InjectionDraw) (ms ms2 : MeasureState) (cycle : Nat)
    (h : Simulator.measureCycle injectionRate config draws (some ms) cycle = some ms2) :
    ms2 = ms ∨
    ∃ s2 n, (ms.sim.updateCurrentCycle (config.warmupCycles + (cycle : Int))).injectPackets
        injectionRate (draws (config.warmupCycles + (cycle : Int))) = some (s2, n) ∧
      ms2.sim = s2.routePackets := by
  unfold Simulator.measureCycle at h
  dsimp only at h
  split at h
  · simp only [Option.some.injEq] at h
    exact Or.inl h.symm
  · split at h
    · cases h
    · rename_i s2 n hinj
      simp only [Option.some.injEq] at h
      subst h
      exact Or.inr ⟨s2, n, hinj, rfl⟩

theorem measureLoop_isSome (injectionRate : ℚ) (config : RunConfig)
    (draws : Int → Nat → InjectionDraw) (hend : DrawsEnd draws) (ms : MeasureState)
    (cycles : Nat) :
    ∃ ms2, (List.range cycles).foldl (Simulator.measureCycle injectionRate config draws)
      (some ms) = some ms2 := by
  apply foldl_inv _ (fun (state : Option MeasureState) => ∃ ms2, state = some ms2)
  · intro state cycle _ hstate
    obtain ⟨m, rfl⟩ := hstate
    unfold Simulator.measureCycle
    dsimp only
    split
    · exact ⟨_, rfl⟩
    · obtain ⟨s2, n, h2⟩ := injectPackets_isSome
        (m.sim.updateCurrentCycle (config.warmupCycles + (cycle : Int)))
        injectionRate (draws (config.warmupCycles + (cycle : Int))) (hend _)
      rw [h2]
      exact ⟨_, rfl⟩
  · exact ⟨_, rfl⟩

theorem runSimulation_isSome (sim : Simulator) (injectionRate : ℚ) (config : RunConfig)
    (draws : Int → Nat → InjectionDraw) (hend : DrawsEnd draws) :
    ∃ r, sim.runSimulation injectionRate config draws = some r := by
  unfold Simulator.runSimulation
  obtain ⟨s, hs⟩ := runCycles_isSome sim injectionRate draws hend config.warmupCycles.toNat
  rw [hs]
  dsimp only
  obtain ⟨ms2, h2⟩ := measureLoop_isSome injectionRate config draws hend
    { sim := { s with metrics := s.metrics.startMeasurement }, totalPacketsInjected := 0,
      consecutiveZeroReceived := 0, lowThroughputCycles := 0, stopped := false }
    config.measurementCycles.toNat
  rw [h2]
  exact ⟨_, rfl⟩

/-- An invariant of the cycles of a run holds for the simulator at the end of the
measurement loop. `P c s` reads: `s` is a state in which cycle `c` may start. -/
theorem runSimulation_inv (sim : Simulator) (injectionRate : ℚ) (config : RunConfig)
    (draws : Int → Nat → InjectionDraw) (P : Int → Simulator → Prop)
    (hmono : ∀ c c2 s, c ≤ c2 → P c s → P c2 s)
    (h0 : ∀ c, P c { sim.reset with currentInjectionRate := injectionRate })
    (hstep : ∀ (c : Int) (s s2 : Simulator) (n : Int), P c s →
      (s.updateCurrentCycle c).injectPackets injectionRate (draws c) = some (s2, n) →
      P (c + 1) s2.routePackets)
    (hstart : ∀ c s, P c s → P c { s with metrics := s.metrics.startMeasurement }) :
    ∀ r, sim.runSimulation injectionRate config draws = some r →
      ∃ ms c, r = Simulator.finishRun ms injectionRate config ∧ P c ms.sim := by
  intro r hr
  unfold Simulator.runSimulation at hr
  split at hr
  · cases hr
  · rename_i s hs
    dsimp only at hr
    split at hr
    · cases hr
    · rename_i ms hms
      simp only [Option.some.injEq] at hr
      subst hr
      have h1 : P config.warmupCycles s := by
        by_cases hw : 0 ≤ config.warmupCycles
        · have := runCycles_inv sim injectionRate draws (fun k s => P (k : Int) s)
            (h0 _) (fun k s s2 n hP hinj => hstep (k : Int) s s2 n hP hinj)
            config.warmupCycles.toNat s hs
          dsimp only at this
          rw [Int.toNat_of_nonneg hw] at this
          exact this
        · have hz : config.warmupCycles.toNat = 0 := by omega
          rw [hz] at hs
          simp only [Simulator.runCycles, List.range_zero, List.foldl_nil,
            Option.some.injEq] at hs
          subst hs
          exact h0 _
      have h2 := foldl_range_inv (Simulator.measureCycle injectionRate config draws)
        (fun k (state : Option MeasureState) => ∀ m, state = some m →
          P (config.warmupCycles + (k : Int)) m.sim)
        config.measurementCycles.toNat
        (some { sim := { s with metrics := s.metrics.startMeasurement },
                totalPacketsInjected := 0, consecutiveZeroReceived := 0,
                lowThroughputCycles := 0, stopped := false })
        (by
          intro m hm
          simp only [Option.some.injEq] at hm
          subst hm
          simp only [Nat.cast_zero, add_zero]
          exact hstart _ _ h1)
        (by
          intro k state _ hstate m hm
          cases state with
          | none => simp [Simulator.measureCycle] at hm
          | some m1 =>
              have hP := hstate m1 rfl
              rcases measureCycle_cases _ _ _ _ _ _ hm with rfl | ⟨s2, n, hinj, hsim⟩
              · exact hmono _ _ _ (by push_cast; omega) hP
              · rw [hsim]
                have := hstep _ _ _ _ hP hinj
                have e : config.warmupCycles + ((k + 1 : Nat) : Int) =
                    config.warmupCycles + (k : Int) + 1 := by push_cast; ring
                rw [e]
                exact this)
      exact ⟨ms, _, rfl, h2 ms hms⟩

/-! ## What a run keeps fixed -/

theorem sameSetup_refl (a : Simulator) : a.SameSetup a := ⟨rfl, rfl, rfl, rfl, rfl, rfl⟩

theorem sameSetup_trans (a b c : Simulator) (h1 : a.SameSetup b) (h2 : b.SameSetup c) :
    a.SameSetup c := by
  obtain ⟨p1, p2, p3, p4, p5, p6⟩ := h1
  obtain ⟨q1, q2, q3, q4, q5, q6⟩ := h2
  exact ⟨p1.trans q1, p2.trans q2, p3.trans q3, p4.trans q4, p5.trans q5, p6.trans q6⟩

theorem reset_eq_of_sameSetup (a b : Simulator) (injectionRate : ℚ) (h : a.SameSetup b) :
    ({ a.reset with currentInjectionRate := injectionRate } : Simulator) =
      { b.reset with currentInjectionRate := injectionRate } := by
  obtain ⟨h1, h2, h3, h4, h5, h6⟩ := h
  cases a
  cases b
  simp only at h1 h2 h3 h4 h5 h6
  subst h1 h2 h3 h4 h5 h6
  rfl

theorem runSimulation_congr (a b : Simulator) (injectionRate : ℚ) (config : RunConfig)
    (draws : Int → Nat → InjectionDraw) (h : a.SameSetup b) :
    a.runSimulation injectionRate config draws = b.runSimulation injectionRate config draws := by
  unfold Simulator.runSimulation Simulator.runCycles
  rw [reset_eq_of_sameSetup a b injectionRate h]

/-- The members of the metrics that `routePackets` does not write. -/
theorem routePackets_metrics_frame (sim : Simulator) :
    sim.routePackets.metrics.flitThroughputs = sim.metrics.flitThroughputs ∧
      sim.routePackets.metrics.throughputSamples = sim.metrics.throughputSamples ∧
      sim.routePackets.metrics.saturated = sim.metrics.saturated ∧
      sim.routePackets.metrics.isMeasurementPhase = sim.metrics.isMeasurementPhase := by
  have hstep : ∀ (latency : (NodeRef → List Packet) → CountMap (NodeRef × NodeRef) →
      Packet → ℚ) (st st2 : RouteState),
      (st.metrics.flitThroughputs = sim.metrics.flitThroughputs ∧
        st.metrics.throughputSamples = sim.metrics.throughputSamples ∧
        st.metrics.saturated = sim.metrics.saturated ∧
        st.metrics.isMeasurementPhase = sim.metrics.isMeasurementPhase) →
      StepShape latency st st2 →
      (st2.metrics.flitThroughputs = sim.metrics.flitThroughputs ∧
        st2.metrics.throughputSamples = sim.metrics.throughputSamples ∧
        st2.metrics.saturated = sim.metrics.saturated ∧
        st2.metrics.isMeasurementPhase = sim.metrics.isMeasurementPhase) := by
    intro latency st st2 hI hshape
    rcases hshape with rfl | ⟨_, _, _, _, _, _, hm2, _⟩ | ⟨_, _, _, _, _, _, _, hm2, _⟩ |
      ⟨_, _, _, _, _, _, _, _, hm2, _⟩
    · exact hI
    · rcases hm2 with h | h <;> rw [h] <;> exact hI
    · rw [hm2]; exact hI
    · rw [hm2]; exact hI
  exact routePacketsTrace_inv sim (fun st =>
      st.metrics.flitThroughputs = sim.metrics.flitThroughputs ∧
        st.metrics.throughputSamples = sim.metrics.throughputSamples ∧
        st.metrics.saturated = sim.metrics.saturated ∧
        st.metrics.isMeasurementPhase = sim.metrics.isMeasurementPhase) ⟨rfl, rfl, rfl, rfl⟩
    (fun _ st st2 hI hshape => hstep _ st st2 hI hshape)
    (fun _ st st2 hI hshape => hstep _ st st2 hI hshape)

theorem injectPackets_frame (sim : Simulator) (injectionRate : ℚ) (draws : Nat → InjectionDraw)
    (s : Simulator) (k : Int) (h : sim.injectPackets injectionRate draws = some (s, k)) :
    ∃ b, s = { sim with nodeBuffers := b } := by
  obtain ⟨b, hb, _⟩ := injectPackets_inv sim injectionRate draws (fun _ _ => True) trivial
    (fun _ _ _ _ _ _ _ => trivial) s k h
  exact ⟨b, hb⟩

/-- At the end of the measurement loop the setup is that of the start, the rate is the
rate of the run and no throughput has been recorded yet. -/
theorem runSimulation_frame (sim : Simulator) (injectionRate : ℚ) (config : RunConfig)
    (draws : Int → Nat → InjectionDraw) (r : Simulator)
    (hr : sim.runSimulation injectionRate config draws = some r) :
    ∃ ms, r = Simulator.finishRun ms injectionRate config ∧ ms.sim.SameSetup sim ∧
      ms.sim.currentInjectionRate = injectionRate ∧ ms.sim.metrics.flitThroughputs = [] := by
  obtain ⟨ms, c, h1, h2⟩ := runSimulation_inv sim injectionRate config draws
    (fun _ s => s.SameSetup sim ∧ s.currentInjectionRate = injectionRate ∧
      s.metrics.flitThroughputs = [])
    (fun _ _ _ _ h => h)
    (fun _ => ⟨⟨rfl, rfl, rfl, rfl, rfl, rfl⟩, rfl, rfl⟩)
    (by
      intro c s s2 n hP hinj
      obtain ⟨b, rfl⟩ := injectPackets_frame _ _ _ _ _ hinj
      obtain ⟨hs, hrate, hflit⟩ := hP
      refine ⟨hs, hrate, ?_⟩
      rw [(routePackets_metrics_frame _).1]
      exact hflit)
    (fun _ s h => ⟨h.1, h.2.1, rfl⟩)
    r hr
  exact ⟨ms, h1, h2⟩

theorem runSimulation_sameSetup (sim : Simulator) (injectionRate : ℚ) (config : RunConfig)
    (draws : Int → Nat → InjectionDraw) (r : Simulator)
    (hr : sim.runSimulation injectionRate config draws = some r) : r.SameSetup sim := by
  obtain ⟨ms, rfl, h, _⟩ := runSimulation_frame sim injectionRate config draws r hr
  exact h

theorem drawsEnd_zero_one (random : ℚ) :
    DrawsEnd (fun _ _ => ⟨random, [0, 1]⟩) := by
  intro c n
  unfold Simulator.drawDestination
  by_cases h : (0 : Int) = (n : Int)
  · have h1 : ¬ (1 : Int) = (n : Int) := by omega
    simp [List.find?, h, h1]
  · simp [List.find?, h]

/-- C13: run determinism in hypercube mode. The draws of `injectPackets` are a function
of the cycle number for a given rate (the generator is seeded from the cycle number and
the rate at every call), so the two runs are given the same `draws`. If
`runSimulation(rate, config)` returns the state `first`, then running it again on that
state, whatever the first run left in the buffers, returns the same state `first`: the
same recorded latencies, hop counts, throughput and saturation flag. The same holds for
every simulator `other` with the same sizes, mode and topology: the result is a function
of the rate, the configuration and the topology only. -/
theorem run_deterministic (sim : Simulator) (injectionRate : ℚ) (config : RunConfig)
    (draws : Int → Nat → InjectionDraw) (first : Simulator)
    (hmode : sim.isHypercubeMode = true)
    (hfirst : sim.runSimulation injectionRate config draws = some first) :
    first.runSimulation injectionRate config draws = some first ∧
    first.isHypercubeMode = true ∧
    ∀ other : Simulator, other.SameSetup sim →
      other.runSimulation injectionRate config draws = some first := by
  have hs := runSimulation_sameSetup sim injectionRate config draws first hfirst
  refine ⟨?_, ?_, ?_⟩
  · rw [runSimulation_congr first sim injectionRate config draws hs]
    exact hfirst
  · rw [hs.2.2.2.1]
    exact hmode
  · intro other hother
    rw [runSimulation_congr other sim injectionRate config draws hother]
    exact hfirst

theorem run_deterministic_witness :
    ∃ first, (Simulator.ofHypercube (HypercubeNetwork.new 3).initializeTopology).runSimulation
        (1 / 10) ⟨2, 3, 4⟩ (fun _ _ => ⟨0, [0, 1]⟩) = some first ∧
      first.runSimulation (1 / 10) ⟨2, 3, 4⟩ (fun _ _ => ⟨0, [0, 1]⟩) = some first := by
  obtain ⟨first, h⟩ := runSimulation_isSome
    (Simulator.ofHypercube (HypercubeNetwork.new 3).initializeTopology) (1 / 10) ⟨2, 3, 4⟩
    (fun _ _ => ⟨0, [0, 1]⟩) (drawsEnd_zero_one 0)
  exact ⟨first, h, (run_deterministic _ _ _ _ first rfl h).1⟩

/-! ## The end of a run -/

theorem finishRun_metrics (ms : MeasureState) (injectionRate : ℚ) (config : RunConfig) :
    (Simulator.finishRun ms injectionRate config).metrics.packetLatencies =
        ms.sim.metrics.packetLatencies ∧
    (Simulator.finishRun ms injectionRate config).metrics.flitThroughputs =
        ms.sim.metrics.flitThroughputs ++
          [max 0 (min (Simulator.rawThroughput (ms.sim.metrics.getPacketCount : Int)
              config.packetSizeFlits config.measurementCycles (ms.sim.totalNodes : ℚ))
            (Simulator.maxNetworkCapacity ms.sim.currentInjectionRate))] ∧
    (Simulator.finishRun ms injectionRate config).metrics.saturated =
        Simulator.saturationVerdict (ms.sim.metrics.getPacketCount : Int)
          (ms.sim.metrics.recordFlitThroughput
            (max 0 (min (Simulator.rawThroughput (ms.sim.metrics.getPacketCount : Int)
                config.packetSizeFlits config.measurementCycles (ms.sim.totalNodes : ℚ))
              (Simulator.maxNetworkCapacity ms.sim.currentInjectionRate)))).getAveragePacketDelay
          (max 0 (min (Simulator.rawThroughput (ms.sim.metrics.getPacketCount : Int)
              config.packetSizeFlits config.measurementCycles (ms.sim.totalNodes : ℚ))
            (Simulator.maxNetworkCapacity ms.sim.currentInjectionRate)))
          injectionRate config.packetSizeFlits ms.lowThroughputCycles
          ms.consecutiveZeroReceived config.measurementCycles :=
  ⟨rfl, rfl, rfl⟩

theorem runSimulation_finish (sim : Simulator) (injectionRate : ℚ) (config : RunConfig)
    (draws : Int → Nat → InjectionDraw) (r : Simulator)
    (hr : sim.runSimulation injectionRate config draws = some r) :
    ∃ ms, r = Simulator.finishRun ms injectionRate config := by
  obtain ⟨ms, h, _⟩ := runSimulation_frame sim injectionRate config draws r hr
  exact ⟨ms, h⟩

theorem isSaturated_of_flag (m : Metrics) (h : m.saturated = true) :
    m.isSaturated = true ∧ ∀ latencyThreshold throughputDropThreshold,
      m.isSaturatedWith latencyThreshold throughputDropThreshold = true := by
  have key : ∀ a b, m.isSaturatedWith a b = true := by
    intro a b
    unfold Metrics.isSaturatedWith
    rw [if_pos h]
  exact ⟨key _ _, key⟩

theorem getThroughput_single (m : Metrics) (x : ℚ) (h : m.flitThroughputs = [x]) :
    m.getThroughput = x := by
  unfold Metrics.getThroughput
  rw [h]
  simp

theorem totalNodes_of_sameSetup (a b : Simulator) (h : a.SameSetup b) :
    a.totalNodes = b.totalNodes := by
  obtain ⟨h1, h2, _, h4, h5, _⟩ := h
  unfold Simulator.totalNodes
  rw [h1, h2, h4, h5]

theorem maxGlobal_of_sameSetup (a b : Simulator) (h : a.SameSetup b) :
    a.maxGlobalPacketsPerCycle =
      ({ b with currentInjectionRate := a.currentInjectionRate } :
        Simulator).maxGlobalPacketsPerCycle := by
  obtain ⟨h1, h2, _, h4, h5, _⟩ := h
  unfold Simulator.maxGlobalPacketsPerCycle Simulator.baseGlobalCapacity
  simp only [h1, h2, h4, h5]

/-- In hypercube mode with a global budget of 0 or less `routePackets` changes nothing. -/
theorem routePackets_blocked (sim : Simulator) (hmode : sim.isHypercubeMode = true)
    (hcap : sim.maxGlobalPacketsPerCycle ≤ 0) :
    sim.routePackets.metrics = sim.metrics ∧ sim.routePackets.nodeBuffers = sim.nodeBuffers := by
  have key : sim.routePacketsTrace = sim.routeStart := by
    unfold Simulator.routePacketsTrace
    simp only [hmode, if_true]
    apply foldl_inv _ (fun (st : RouteState) => st = sim.routeStart) _ _ _ rfl
    intro st _ _ hst
    apply foldl_inv _ (fun (st : RouteState) => st = sim.routeStart) _ _ _ hst
    intro st nodeId _ hst
    subst hst
    unfold Simulator.routeHypercubeNode
    have : ¬ (sim.routeStart.globalPacketsMoved < sim.maxGlobalPacketsPerCycle) := by
      simp only [Simulator.routeStart]
      omega
    rw [if_pos this]
  unfold Simulator.routePackets
  rw [key]
  exact ⟨rfl, rfl⟩

theorem runSimulation_blocked (sim : Simulator) (injectionRate : ℚ) (config : RunConfig)
    (draws : Int → Nat → InjectionDraw) (r : Simulator)
    (hmode : sim.isHypercubeMode = true)
    (hcap : ({ sim with currentInjectionRate := injectionRate } :
      Simulator).maxGlobalPacketsPerCycle ≤ 0)
    (hr : sim.runSimulation injectionRate config draws = some r) :
    r.metrics.packetLatencies = [] ∧ r.metrics.flitThroughputs = [0] := by
  obtain ⟨ms, c, h1, h2⟩ := runSimulation_inv sim injectionRate config draws
    (fun _ s => s.SameSetup sim ∧ s.currentInjectionRate = injectionRate ∧
      s.metrics.flitThroughputs = [] ∧ s.metrics.packetLatencies = [])
    (fun _ _ _ _ h => h)
    (fun _ => ⟨⟨rfl, rfl, rfl, rfl, rfl, rfl⟩, rfl, rfl, rfl⟩)
    (by
      intro c s s2 n hP hinj
      obtain ⟨b, rfl⟩ := injectPackets_frame _ _ _ _ _ hinj
      obtain ⟨hs, hrate, hflit, hlat⟩ := hP
      have hs2 : ({ s.updateCurrentCycle c with nodeBuffers := b } : Simulator).SameSetup sim :=
        hs
      have hm : ({ s.updateCurrentCycle c with nodeBuffers := b } :
          Simulator).maxGlobalPacketsPerCycle ≤ 0 := by
        rw [maxGlobal_of_sameSetup _ sim hs2]
        have e : ({ s.updateCurrentCycle c with nodeBuffers := b } :
            Simulator).currentInjectionRate = injectionRate := hrate
        rw [e]
        exact hcap
      have hmode2 : ({ s.updateCurrentCycle c with nodeBuffers := b } :
          Simulator).isHypercubeMode = true := by
        rw [hs2.2.2.2.1]; exact hmode
      obtain ⟨hmet, _⟩ := routePackets_blocked _ hmode2 hm
      refine ⟨hs, hrate, ?_, ?_⟩
      · rw [hmet]; exact hflit
      · rw [hmet]; exact hlat)
    (fun _ s h => ⟨h.1, h.2.1, rfl, rfl⟩)
    r hr
  subst h1
  obtain ⟨_, _, hflit, hlat⟩ := h2
  obtain ⟨e1, e2, _⟩ := finishRun_metrics ms injectionRate config
  refine ⟨by rw [e1]; exact hlat, ?_⟩
  rw [e2, hflit]
  have hz : Simulator.rawThroughput (ms.sim.metrics.getPacketCount : Int)
      config.packetSizeFlits config.measurementCycles (ms.sim.totalNodes : ℚ) = 0 := by
    unfold Simulator.rawThroughput Metrics.getPacketCount
    rw [hlat]
    simp
  rw [hz]
  simp

theorem hypercube3_rate30_blocked :
    ({ Simulator.ofHypercube (HypercubeNetwork.new 3).initializeTopology with
      currentInjectionRate := 3 / 10 } : Simulator).maxGlobalPacketsPerCycle ≤ 0 := by
  decide!

/-- C14: if no packet is retired during the measurement phase of `runSimulation`, that
is, the count `getPacketCount()` of latencies recorded since `startMeasurement()` is 0 at
the end of the run (for every number of measurement cycles, in particular at least 1),
then after the run `isSaturated()` returns true and `isSaturated(latencyThreshold,
throughputDropThreshold)` returns true for every pair of thresholds. -/
theorem no_retirement_saturated (sim : Simulator) (injectionRate : ℚ) (config : RunConfig)
    (draws : Int → Nat → InjectionDraw) (r : Simulator)
    (hrun : sim.runSimulation injectionRate config draws = some r)
    (hnone : r.metrics.getPacketCount = 0) :
    r.metrics.saturated = true ∧ r.metrics.isSaturated = true ∧
    ∀ latencyThreshold throughputDropThreshold : ℚ,
      r.metrics.isSaturatedWith latencyThreshold throughputDropThreshold = true := by
  obtain ⟨ms, rfl⟩ := runSimulation_finish sim injectionRate config draws r hrun
  obtain ⟨e1, _, e3⟩ := finishRun_metrics ms injectionRate config
  have hcount : ms.sim.metrics.getPacketCount = 0 := by
    unfold Metrics.getPacketCount at hnone ⊢
    rw [e1] at hnone
    exact hnone
  have hsat : (Simulator.finishRun ms injectionRate config).metrics.saturated = true := by
    rw [e3, hcount]
    unfold Simulator.saturationVerdict
    simp
  exact ⟨hsat, isSaturated_of_flag _ hsat⟩

theorem no_retirement_saturated_witness :
    ∃ r, (Simulator.ofHypercube (HypercubeNetwork.new 3).initializeTopology).runSimulation
        (3 / 10) ⟨2, 5, 4⟩ (fun _ _ => ⟨0, [0, 1]⟩) = some r ∧
      r.metrics.getPacketCount = 0 ∧ r.metrics.isSaturated = true := by
  obtain ⟨r, h⟩ := runSimulation_isSome
    (Simulator.ofHypercube (HypercubeNetwork.new 3).initializeTopology) (3 / 10) ⟨2, 5, 4⟩
    (fun _ _ => ⟨0, [0, 1]⟩) (drawsEnd_zero_one 0)
  have hnone : r.metrics.getPacketCount = 0 := by
    unfold Metrics.getPacketCount
    rw [(runSimulation_blocked _ _ _ _ r rfl hypercube3_rate30_blocked h).1]
    rfl
  exact ⟨r, h, hnone, (no_retirement_saturated _ _ _ _ r h hnone).2.1⟩

/-! ## The latency model -/

theorem calculateNetworkUtilization_range (sim : Simulator)
    (nodeBuffers : NodeRef → List Packet) (linkUtilization : CountMap (NodeRef × NodeRef))
    (hbuf : 0 ≤ sim.maxBufferSize) (hlink : ∀ e ∈ linkUtilization, 0 ≤ e.2)
    (hrate : 0 ≤ sim.currentInjectionRate) :
    0 ≤ sim.calculateNetworkUtilization nodeBuffers linkUtilization ∧
      sim.calculateNetworkUtilization nodeBuffers linkUtilization ≤ 1 := by
  have hB : (0 : ℚ) ≤ (sim.maxBufferSize : ℚ) := by exact_mod_cast hbuf
  have hterm : ∀ node : NodeRef,
      (0 : ℚ) ≤ ((nodeBuffers node).length : ℚ) / (sim.maxBufferSize : ℚ) :=
    fun node => div_nonneg (Nat.cast_nonneg _) hB
  have hp : 0 ≤ sim.currentInjectionRate / (15 / 100) := div_nonneg hrate (by norm_num)
  have hpress : 0 ≤ sim.currentInjectionRate / (15 / 100) *
      (sim.currentInjectionRate / (15 / 100)) * (sim.currentInjectionRate / (15 / 100)) *
      (2 / 10) := by positivity
  unfold Simulator.calculateNetworkUtilization
  dsimp only
  refine ⟨?_, min_le_right _ _⟩
  apply le_min _ (by norm_num)
  refine add_nonneg (add_nonneg (mul_nonneg (by norm_num) ?_) (mul_nonneg (by norm_num) ?_))
    hpress
  · cases hmode : sim.isHypercubeMode with
    | true =>
        simp only [if_true]
        split
        · rename_i hpos
          apply div_nonneg
          · apply foldl_inv _ (fun (t : ℚ) => 0 ≤ t) _ _ _ (le_refl _)
            intro t nodeId _ ht
            dsimp only
            split
            · exact ht
            · exact add_nonneg ht (hterm _)
          · exact_mod_cast le_of_lt hpos
        · exact le_refl _
    | false =>
        simp only [Bool.false_eq_true, if_false]
        split
        · rename_i hpos
          apply div_nonneg
          · apply foldl_inv _ (fun (t : ℚ) => 0 ≤ t) _ _ _ (le_refl _)
            intro t x _ ht
            apply foldl_inv _ (fun (t : ℚ) => 0 ≤ t) _ _ _ ht
            intro t y _ ht
            dsimp only
            split
            · exact ht
            · exact add_nonneg ht (hterm _)
          · exact_mod_cast le_of_lt hpos
        · exact le_refl _
  · split
    · rename_i hpos
      apply div_nonneg
      · apply foldl_inv _ (fun (t : ℚ) => 0 ≤ t) _ _ _ (le_refl _)
        intro t e he ht
        have : (0 : ℚ) ≤ (e.2 : ℚ) := by exact_mod_cast hlink e he
        exact add_nonneg ht (div_nonneg this (by norm_num))
      · exact_mod_cast le_of_lt hpos
    · exact le_refl _

theorem systemDelay_knee (rate : ℚ) (h : rate / (8 / 100) > 22 / 10) :
    300 ≤ Simulator.systemDelay rate := by
  unfold Simulator.systemDelay
  dsimp only
  rw [if_pos h]
  have : 0 ≤ rate / (8 / 100) - 22 / 10 := by linarith
  have : 0 ≤ (rate / (8 / 100) - 22 / 10) * (rate / (8 / 100) - 22 / 10) *
      (rate / (8 / 100) - 22 / 10) * (rate / (8 / 100) - 22 / 10) *
      (rate / (8 / 100) - 22 / 10) * 400 := by positivity
  linarith

theorem congestionDelay_nonneg (u : ℚ) : 0 ≤ Simulator.congestionDelay u := by
  unfold Simulator.congestionDelay
  dsimp only
  split
  · rename_i h
    have : 0 ≤ (u - 6 / 10) / (4 / 10) := div_nonneg (by linarith) (by norm_num)
    positivity
  · split
    · rename_i h
      have : 0 ≤ (u - 4 / 10) / (2 / 10) := div_nonneg (by linarith) (by norm_num)
      positivity
    · split
      · rename_i h
        have : 0 ≤ (u - 25 / 100) / (15 / 100) := div_nonneg (by linarith) (by norm_num)
        positivity
      · split
        · rename_i h
          have : 0 ≤ (u - 1 / 10) / (15 / 100) := div_nonneg (by linarith) (by norm_num)
          positivity
        · exact le_refl _

theorem thresholdEffect_nonneg (rate : ℚ) : 0 ≤ Simulator.thresholdEffect rate := by
  unfold Simulator.thresholdEffect
  dsimp only
  split
  · rename_i h
    have : 0 ≤ (rate - 10 / 100) / (5 / 100) := div_nonneg (by linarith) (by norm_num)
    positivity
  · exact le_refl _

theorem systemOverhead_nonneg (rate : ℚ) : 0 ≤ Simulator.systemOverhead rate := by
  unfold Simulator.systemOverhead
  dsimp only
  split
  · rename_i h
    have : 0 ≤ (rate - 12 / 100) / (12 / 100) := div_nonneg (by linarith) (by norm_num)
    positivity
  · exact le_refl _

theorem calculateBufferDelay_nonneg (sim : Simulator) (nodeBuffers : NodeRef → List Packet)
    (packet : Packet) (hbuf : 0 ≤ sim.maxBufferSize) :
    0 ≤ sim.calculateBufferDelay nodeBuffers packet := by
  unfold Simulator.calculateBufferDelay
  split
  · exact le_refl _
  · rename_i currentNode _
    dsimp only
    have hB : (0 : ℚ) ≤ (sim.maxBufferSize : ℚ) := by exact_mod_cast hbuf
    have hu : (0 : ℚ) ≤ ((nodeBuffers currentNode).length : ℚ) / (sim.maxBufferSize : ℚ) :=
      div_nonneg (Nat.cast_nonneg _) hB
    split
    · exact mul_nonneg (mul_self_nonneg _) (by norm_num)
    · split
      · exact mul_nonneg (mul_self_nonneg _) (by norm_num)
      · split
        · exact mul_nonneg (mul_self_nonneg _) (by norm_num)
        · split
          · rename_i h
            nlinarith
          · split
            · rename_i h
              nlinarith
            · positivity

/-- Above the pressure knee the queuing delay exceeds 304. -/
theorem calculateQueuingDelay_knee (sim : Simulator) (nodeBuffers : NodeRef → List Packet)
    (linkUtilization : CountMap (NodeRef × NodeRef)) (packet : Packet)
    (hbuf : 0 ≤ sim.maxBufferSize) (hlink : ∀ e ∈ linkUtilization, 0 ≤ e.2)
    (hknee : sim.currentInjectionRate / (8 / 100) > 22 / 10) (hhop : 0 ≤ packet.hopCount) :
    304 ≤ sim.calculateQueuingDelay nodeBuffers linkUtilization packet := by
  have hrate : 0 ≤ sim.currentInjectionRate := by
    by_contra hneg
    have : sim.currentInjectionRate / (8 / 100) ≤ 0 :=
      div_nonpos_of_nonpos_of_nonneg (le_of_lt (not_le.mp hneg)) (by norm_num)
    linarith
  obtain ⟨hu0, _⟩ := calculateNetworkUtilization_range sim nodeBuffers linkUtilization hbuf
    hlink hrate
  unfold Simulator.calculateQueuingDelay
  dsimp only
  have h1 := systemDelay_knee _ hknee
  have h2 := congestionDelay_nonneg (sim.calculateNetworkUtilization nodeBuffers linkUtilization)
  have h3 := calculateBufferDelay_nonneg sim nodeBuffers packet hbuf
  have h4 := thresholdEffect_nonneg sim.currentInjectionRate
  have hh : (0 : ℚ) ≤ (packet.hopCount : ℚ) := by exact_mod_cast hhop
  have h5 : 0 ≤ (packet.hopCount : ℚ) *
      (3 + sim.calculateNetworkUtilization nodeBuffers linkUtilization *
        sim.calculateNetworkUtilization nodeBuffers linkUtilization *
        sim.calculateNetworkUtilization nodeBuffers linkUtilization * 15) := by positivity
  have h6 : 0 ≤ (packet.hopCount : ℚ) * 2 := by positivity
  linarith

theorem retireLatencyHypercube_knee (sim : Simulator) (nodeBuffers : NodeRef → List Packet)
    (linkUtilization : CountMap (NodeRef × NodeRef)) (packet : Packet)
    (hbuf : 0 ≤ sim.maxBufferSize) (hlink : ∀ e ∈ linkUtilization, 0 ≤ e.2)
    (hknee : sim.currentInjectionRate / (8 / 100) > 22 / 10) (hhop : 0 ≤ packet.hopCount)
    (htime : packet.injectionTime ≤ sim.currentCycle) :
    300 < sim.retireLatencyHypercube nodeBuffers linkUtilization packet := by
  have hrate : 0 ≤ sim.currentInjectionRate := by
    by_contra hneg
    have : sim.currentInjectionRate / (8 / 100) ≤ 0 :=
      div_nonpos_of_nonpos_of_nonneg (le_of_lt (not_le.mp hneg)) (by norm_num)
    linarith
  obtain ⟨hu0, _⟩ := calculateNetworkUtilization_range sim nodeBuffers linkUtilization hbuf
    hlink hrate
  have hq := calculateQueuingDelay_knee sim nodeBuffers linkUtilization packet hbuf hlink hknee
    hhop
  have ho := systemOverhead_nonneg sim.currentInjectionRate
  have hh : (0 : ℚ) ≤ (packet.hopCount : ℚ) := by exact_mod_cast hhop
  have hnl : (0 : ℚ) ≤ ((sim.currentCycle - packet.injectionTime : Int) : ℚ) := by
    have : 0 ≤ sim.currentCycle - packet.injectionTime := by omega
    exact_mod_cast this
  have hprod : 0 ≤ (((sim.currentCycle - packet.injectionTime : Int) : ℚ) +
      (packet.hopCount : ℚ) * 4) *
      (1 + sim.calculateNetworkUtilization nodeBuffers linkUtilization *
        sim.calculateNetworkUtilization nodeBuffers linkUtilization *
        sim.calculateNetworkUtilization nodeBuffers linkUtilization * 8) := by positivity
  unfold Simulator.retireLatencyHypercube
  dsimp only
  split
  · rename_i hlt
    linarith
  · linarith

theorem retireLatencyMesh_knee (sim : Simulator) (nodeBuffers : NodeRef → List Packet)
    (linkUtilization : CountMap (NodeRef × NodeRef)) (packet : Packet)
    (hbuf : 0 ≤ sim.maxBufferSize) (hlink : ∀ e ∈ linkUtilization, 0 ≤ e.2)
    (hknee : sim.currentInjectionRate / (8 / 100) > 22 / 10) (hhop : 0 ≤ packet.hopCount)
    (htime : packet.injectionTime ≤ sim.currentCycle) :
    300 < sim.retireLatencyMesh nodeBuffers linkUtilization packet := by
  have hq := calculateQueuingDelay_knee sim nodeBuffers linkUtilization packet hbuf hlink hknee
    hhop
  have hh : (0 : ℚ) ≤ (packet.hopCount : ℚ) := by exact_mod_cast hhop
  have hnl : (0 : ℚ) ≤ ((sim.currentCycle - packet.injectionTime : Int) : ℚ) := by
    have : 0 ≤ sim.currentCycle - packet.injectionTime := by omega
    exact_mod_cast this
  unfold Simulator.retireLatencyMesh
  dsimp only
  split
  · rename_i hlt
    linarith
  · linarith

theorem ite_lt_eq_max (a b : ℚ) : (if b < a then a else b) = max a b := by
  split
  · rename_i hlt
    exact (max_eq_left (le_of_lt hlt)).symm
  · rename_i hlt
    exact (max_eq_right (not_lt.mp hlt)).symm

/-- The latency recorded in hypercube mode, as a maximum. -/
theorem retireLatencyHypercube_formula (sim : Simulator) (nodeBuffers : NodeRef → List Packet)
    (linkUtilization : CountMap (NodeRef × NodeRef)) (packet : Packet) :
    sim.retireLatencyHypercube nodeBuffers linkUtilization packet =
      max (18 + 3 * (packet.hopCount : ℚ))
        ((((sim.currentCycle - packet.injectionTime : Int) : ℚ) + 4 * (packet.hopCount : ℚ)) *
            (1 + 8 * sim.calculateNetworkUtilization nodeBuffers linkUtilization ^ 3) +
          sim.calculateQueuingDelay nodeBuffers linkUtilization packet +
          (if sim.currentInjectionRate > 12 / 100 then
            50 * ((sim.currentInjectionRate - 12 / 100) / (12 / 100)) ^ 4 else 0)) := by
  have hov : Simulator.systemOverhead sim.currentInjectionRate =
      (if sim.currentInjectionRate > 12 / 100 then
        50 * ((sim.currentInjectionRate - 12 / 100) / (12 / 100)) ^ 4 else 0) := by
    unfold Simulator.systemOverhead
    dsimp only
    split
    · ring
    · rfl
  unfold Simulator.retireLatencyHypercube
  dsimp only
  rw [hov]
  have e : (((sim.currentCycle - packet.injectionTime : Int) : ℚ) + (packet.hopCount : ℚ) * 4) *
        (1 + sim.calculateNetworkUtilization nodeBuffers linkUtilization *
          sim.calculateNetworkUtilization nodeBuffers linkUtilization *
          sim.calculateNetworkUtilization nodeBuffers linkUtilization * 8) =
      (((sim.currentCycle - packet.injectionTime : Int) : ℚ) + 4 * (packet.hopCount : ℚ)) *
        (1 + 8 * sim.calculateNetworkUtilization nodeBuffers linkUtilization ^ 3) := by ring
  rw [e]
  have e2 : (18 : ℚ) + (packet.hopCount : ℚ) * 3 = 18 + 3 * (packet.hopCount : ℚ) := by ring
  rw [e2]
  exact ite_lt_eq_max _ _

/-! ## Invariants of the recorded latencies -/

theorem CountMap.touch_nonneg {K : Type} [DecidableEq K] (m : CountMap K) (k : K)
    (h : ∀ e ∈ m, 0 ≤ e.2) : ∀ e ∈ m.touch k, 0 ≤ e.2 := by
  induction m with
  | nil =>
      intro e he
      simp only [CountMap.touch, List.mem_singleton] at he
      subst he
      exact le_refl _
  | cons a m ih =>
      obtain ⟨k1, v⟩ := a
      simp only [CountMap.touch]
      split
      · exact h
      · intro e he
        rcases List.mem_cons.mp he with h1 | h1
        · subst h1
          exact h _ (List.mem_cons_self _ _)
        · exact ih (fun e he => h e (List.mem_cons_of_mem _ he)) e h1

theorem CountMap.incr_nonneg {K : Type} [DecidableEq K] (m : CountMap K) (k : K)
    (h : ∀ e ∈ m, 0 ≤ e.2) : ∀ e ∈ m.incr k, 0 ≤ e.2 := by
  induction m with
  | nil =>
      intro e he
      simp only [CountMap.incr, List.mem_singleton] at he
      subst he
      exact Int.one_nonneg
  | cons a m ih =>
      obtain ⟨k1, v⟩ := a
      simp only [CountMap.incr]
      split
      · intro e he
        rcases List.mem_cons.mp he with h1 | h1
        · subst h1
          have := h (k1, v) (List.mem_cons_self _ _)
          simp only at this ⊢
          omega
        · exact h e (List.mem_cons_of_mem _ h1)
      · intro e he
        rcases List.mem_cons.mp he with h1 | h1
        · subst h1
          exact h _ (List.mem_cons_self _ _)
        · exact ih (fun e he => h e (List.mem_cons_of_mem _ he)) e h1

theorem forall2_snoc {α β : Type} (R : α → β → Prop) (l1 : List α) (l2 : List β) (a : α)
    (b : β) (h : List.Forall₂ R l1 l2) (hab : R a b) :
    List.Forall₂ R (l1 ++ [a]) (l2 ++ [b]) := by
  induction h with
  | nil => exact List.Forall₂.cons hab List.Forall₂.nil
  | cons h1 _ ih => exact List.Forall₂.cons h1 ih

theorem packetsSane_mono (c c2 : Int) (b : NodeRef → List Packet) (hle : c ≤ c2)
    (h : PacketsSane c b) : PacketsSane c2 b := by
  intro node packet hp
  obtain ⟨h1, h2⟩ := h node packet hp
  exact ⟨h1, by omega⟩

theorem packetsSane_setBuffer (c : Int) (b : NodeRef → List Packet) (node : NodeRef)
    (queue : List Packet) (h : PacketsSane c b)
    (hq : ∀ p ∈ queue, 0 ≤ p.hopCount ∧ p.injectionTime ≤ c) :
    PacketsSane c (Simulator.setBuffer b node queue) := by
  intro n p hp
  unfold Simulator.setBuffer at hp
  split at hp
  · exact hq p hp
  · exact h n p hp

theorem packetsSane_push (c : Int) (b : NodeRef → List Packet) (node : NodeRef)
    (packet : Packet) (h : PacketsSane c b)
    (hp : 0 ≤ packet.hopCount ∧ packet.injectionTime ≤ c) :
    PacketsSane c (Simulator.pushPacket b node packet) := by
  intro n p hmem
  unfold Simulator.pushPacket at hmem
  split at hmem
  · rcases List.mem_append.mp hmem with h1 | h1
    · exact h n p h1
    · rw [List.mem_singleton.mp h1]
      exact hp
  · exact h n p hmem

theorem sane_step (c : Int)
    (latency : (NodeRef → List Packet) → CountMap (NodeRef × NodeRef) → Packet → ℚ)
    (st st2 : RouteState) (hshape : StepShape latency st st2)
    (hs : PacketsSane c st.nodeBuffers) : PacketsSane c st2.nodeBuffers := by
  rcases hshape with rfl | ⟨cur, front, rest, hbuf, hb2, _⟩ |
      ⟨cur, front, rest, hbuf, _, hb2, _⟩ | ⟨cur, next, front, rest, hbuf, _, hb2, _⟩
  · exact hs
  · have hfront := hs cur front (by rw [hbuf]; exact List.mem_cons_self _ _)
    have hrest : ∀ p ∈ rest, 0 ≤ p.hopCount ∧ p.injectionTime ≤ c :=
      fun p hp => hs cur p (by rw [hbuf]; exact List.mem_cons_of_mem _ hp)
    rw [hb2]
    apply packetsSane_setBuffer c _ _ _ hs
    intro p hp
    rcases List.mem_cons.mp hp with h1 | h1
    · rw [h1]; exact hfront
    · exact hrest p h1
  · have hrest : ∀ p ∈ rest, 0 ≤ p.hopCount ∧ p.injectionTime ≤ c :=
      fun p hp => hs cur p (by rw [hbuf]; exact List.mem_cons_of_mem _ hp)
    rw [hb2]
    exact packetsSane_setBuffer c _ _ _ hs hrest
  · have hfront := hs cur front (by rw [hbuf]; exact List.mem_cons_self _ _)
    have hrest : ∀ p ∈ rest, 0 ≤ p.hopCount ∧ p.injectionTime ≤ c :=
      fun p hp => hs cur p (by rw [hbuf]; exact List.mem_cons_of_mem _ hp)
    rw [hb2]
    apply packetsSane_push c _ _ _ (packetsSane_setBuffer c _ _ _ hs hrest)
    exact ⟨by have := hfront.1; simp only; omega, hfront.2⟩

/-- One step of `routePackets` keeps the buffered packets sane and the link counters
non-negative, and every latency it records satisfies `Q` together with the hop count
recorded beside it, when `Q` holds for the latency formula on sane packets. -/
theorem latency_step (Q : ℚ → Int → Prop) (c : Int)
    (latency : (NodeRef → List Packet) → CountMap (NodeRef × NodeRef) → Packet → ℚ)
    (st st2 : RouteState) (hshape : StepShape latency st st2)
    (hQ : ∀ buffers lu packet, 0 ≤ packet.hopCount → packet.injectionTime ≤ c →
      (∀ e ∈ lu, 0 ≤ e.2) → Q (latency buffers lu packet) packet.hopCount)
    (hI : PacketsSane c st.nodeBuffers ∧ (∀ e ∈ st.linkUtilization, 0 ≤ e.2) ∧
      List.Forall₂ Q st.metrics.latencies st.metrics.hopCounts ∧
      ∀ L ∈ st.metrics.packetLatencies, ∃ h, Q L h) :
    PacketsSane c st2.nodeBuffers ∧ (∀ e ∈ st2.linkUtilization, 0 ≤ e.2) ∧
      List.Forall₂ Q st2.metrics.latencies st2.metrics.hopCounts ∧
      ∀ L ∈ st2.metrics.packetLatencies, ∃ h, Q L h := by
  obtain ⟨hs, hl, hf, hp⟩ := hI
  rcases hshape with rfl | ⟨cur, front, rest, hbuf, hb2, _, hm2, hl2⟩ |
      ⟨cur, front, rest, hbuf, _, hb2, _, hm2, hl2⟩ |
      ⟨cur, next, front, rest, hbuf, _, hb2, _, hm2, hl2⟩
  · exact ⟨hs, hl, hf, hp⟩
  · have hfront := hs cur front (by rw [hbuf]; exact List.mem_cons_self _ _)
    have hrest : ∀ p ∈ rest, 0 ≤ p.hopCount ∧ p.injectionTime ≤ c :=
      fun p hp => hs cur p (by rw [hbuf]; exact List.mem_cons_of_mem _ hp)
    refine ⟨?_, ?_, ?_, ?_⟩
    · rw [hb2]
      apply packetsSane_setBuffer c _ _ _ hs
      intro p hp
      rcases List.mem_cons.mp hp with h1 | h1
      · rw [h1]; exact hfront
      · exact hrest p h1
    · rcases hl2 with h | ⟨key, h⟩
      · rw [h]; exact hl
      · rw [h]; exact CountMap.touch_nonneg _ _ hl
    · rcases hm2 with h | h <;> rw [h] <;> exact hf
    · rcases hm2 with h | h <;> rw [h] <;> exact hp
  · have hfront := hs cur front (by rw [hbuf]; exact List.mem_cons_self _ _)
    have hrest : ∀ p ∈ rest, 0 ≤ p.hopCount ∧ p.injectionTime ≤ c :=
      fun p hp => hs cur p (by rw [hbuf]; exact List.mem_cons_of_mem _ hp)
    have hq := hQ (Simulator.setBuffer st.nodeBuffers cur rest) st.linkUtilization
      { front with currentNode := some cur } hfront.1 hfront.2 hl
    refine ⟨?_, ?_, ?_, ?_⟩
    · rw [hb2]
      exact packetsSane_setBuffer c _ _ _ hs hrest
    · rw [hl2]; exact hl
    · rw [hm2]
      exact forall2_snoc Q _ _ _ _ hf hq
    · rw [hm2]
      intro L hL
      have hL2 : L ∈ st.metrics.packetLatencies ++
          [latency (Simulator.setBuffer st.nodeBuffers cur rest) st.linkUtilization
            { front with currentNode := some cur }] := hL
      rcases List.mem_append.mp hL2 with h1 | h1
      · exact hp L h1
      · rw [List.mem_singleton.mp h1]
        exact ⟨_, hq⟩
  · have hfront := hs cur front (by rw [hbuf]; exact List.mem_cons_self _ _)
    have hrest : ∀ p ∈ rest, 0 ≤ p.hopCount ∧ p.injectionTime ≤ c :=
      fun p hp => hs cur p (by rw [hbuf]; exact List.mem_cons_of_mem _ hp)
    refine ⟨?_, ?_, ?_, ?_⟩
    · rw [hb2]
      apply packetsSane_push c _ _ _ (packetsSane_setBuffer c _ _ _ hs hrest)
      exact ⟨by have := hfront.1; simp only; omega, hfront.2⟩
    · rcases hl2 with h | h
      · rw [h]; exact CountMap.incr_nonneg _ _ hl
      · rw [h]; exact CountMap.incr_nonneg _ _ (CountMap.touch_nonneg _ _ hl)
    · rw [hm2]; exact hf
    · rw [hm2]; exact hp

theorem routePackets_latency_inv (sim : Simulator) (Q : ℚ → Int → Prop)
    (hQH : sim.isHypercubeMode = true → ∀ buffers lu packet, 0 ≤ packet.hopCount →
      packet.injectionTime ≤ sim.currentCycle → (∀ e ∈ lu, 0 ≤ e.2) →
      Q (sim.retireLatencyHypercube buffers lu packet) packet.hopCount)
    (hQM : sim.isHypercubeMode = false → ∀ buffers lu packet, 0 ≤ packet.hopCount →
      packet.injectionTime ≤ sim.currentCycle → (∀ e ∈ lu, 0 ≤ e.2) →
      Q (sim.retireLatencyMesh buffers lu packet) packet.hopCount)
    (hsane : PacketsSane sim.currentCycle sim.nodeBuffers)
    (h1 : List.Forall₂ Q sim.metrics.latencies sim.metrics.hopCounts)
    (h2 : ∀ L ∈ sim.metrics.packetLatencies, ∃ h, Q L h) :
    PacketsSane sim.currentCycle sim.routePackets.nodeBuffers ∧
      List.Forall₂ Q sim.routePackets.metrics.latencies sim.routePackets.metrics.hopCounts ∧
      ∀ L ∈ sim.routePackets.metrics.packetLatencies, ∃ h, Q L h := by
  have key := routePacketsTrace_inv sim (fun st =>
      PacketsSane sim.currentCycle st.nodeBuffers ∧ (∀ e ∈ st.linkUtilization, 0 ≤ e.2) ∧
      List.Forall₂ Q st.metrics.latencies st.metrics.hopCounts ∧
      ∀ L ∈ st.metrics.packetLatencies, ∃ h, Q L h)
    ⟨hsane, fun e he => absurd he (List.not_mem_nil e), h1, h2⟩
    (fun hmode st st2 hI hshape =>
      latency_step Q sim.currentCycle _ st st2 hshape (hQH hmode) hI)
    (fun hmode st st2 hI hshape =>
      latency_step Q sim.currentCycle _ st st2 hshape (hQM hmode) hI)
  exact ⟨key.1, key.2.2.1, key.2.2.2⟩

theorem injectPackets_sane (sim : Simulator) (injectionRate : ℚ) (draws : Nat → InjectionDraw)
    (s : Simulator) (k : Int) (hsane : PacketsSane sim.currentCycle sim.nodeBuffers)
    (h : sim.injectPackets injectionRate draws = some (s, k)) :
    ∃ b, s = { sim with nodeBuffers := b } ∧ PacketsSane sim.currentCycle b :=
  injectPackets_inv sim injectionRate draws (fun b _ => PacketsSane sim.currentCycle b) hsane
    (fun b _ node packet hI hhop htime =>
      packetsSane_push _ b node packet hI ⟨by omega, by omega⟩) s k h

/-- Every latency recorded since `reset()` by a run satisfies `Q` together with the hop
count recorded beside it, when `Q` holds for the latency formula of the mode on sane
packets in every state with the setup and the rate of the run. -/
theorem runSimulation_latency_inv (sim : Simulator) (injectionRate : ℚ) (config : RunConfig)
    (draws : Int → Nat → InjectionDraw) (Q : ℚ → Int → Prop)
    (hQH : sim.isHypercubeMode = true → ∀ s : Simulator, s.SameSetup sim →
      s.currentInjectionRate = injectionRate → ∀ buffers lu packet, 0 ≤ packet.hopCount →
      packet.injectionTime ≤ s.currentCycle → (∀ e ∈ lu, 0 ≤ e.2) →
      Q (s.retireLatencyHypercube buffers lu packet) packet.hopCount)
    (hQM : sim.isHypercubeMode = false → ∀ s : Simulator, s.SameSetup sim →
      s.currentInjectionRate = injectionRate → ∀ buffers lu packet, 0 ≤ packet.hopCount →
      packet.injectionTime ≤ s.currentCycle → (∀ e ∈ lu, 0 ≤ e.2) →
      Q (s.retireLatencyMesh buffers lu packet) packet.hopCount)
    (r : Simulator) (hr : sim.runSimulation injectionRate config draws = some r) :
    List.Forall₂ Q r.metrics.latencies r.metrics.hopCounts ∧
      ∀ L ∈ r.metrics.packetLatencies, ∃ h, Q L h := by
  obtain ⟨ms, c, h1, h2⟩ := runSimulation_inv sim injectionRate config draws
    (fun c s => s.SameSetup sim ∧ s.currentInjectionRate = injectionRate ∧
      PacketsSane (c - 1) s.nodeBuffers ∧
      List.Forall₂ Q s.metrics.latencies s.metrics.hopCounts ∧
      ∀ L ∈ s.metrics.packetLatencies, ∃ h, Q L h)
    (fun c c2 s hle h => ⟨h.1, h.2.1, packetsSane_mono _ _ _ (by omega) h.2.2.1, h.2.2.2⟩)
    (fun c => ⟨⟨rfl, rfl, rfl, rfl, rfl, rfl⟩, rfl,
      fun _ p hp => absurd hp (List.not_mem_nil p),
      List.Forall₂.nil, fun L hL => absurd hL (List.not_mem_nil L)⟩)
    (by
      intro c s s2 n hP hinj
      obtain ⟨hs, hrate, hsane, hf, hp⟩ := hP
      have hsane1 : PacketsSane (s.updateCurrentCycle c).currentCycle
          (s.updateCurrentCycle c).nodeBuffers :=
        packetsSane_mono (c - 1) c _ (by omega) hsane
      obtain ⟨b, rfl, hb⟩ := injectPackets_sane _ _ _ _ _ hsane1 hinj
      have hs2 : ({ s.updateCurrentCycle c with nodeBuffers := b } : Simulator).SameSetup sim :=
        hs
      have hmodeq : ({ s.updateCurrentCycle c with nodeBuffers := b } :
          Simulator).isHypercubeMode = sim.isHypercubeMode := hs.2.2.2.1
      obtain ⟨k1, k2, k3⟩ := routePackets_latency_inv
        ({ s.updateCurrentCycle c with nodeBuffers := b } : Simulator) Q
        (fun hm => hQH (by rw [← hmodeq]; exact hm) _ hs2 hrate)
        (fun hm => hQM (by rw [← hmodeq]; exact hm) _ hs2 hrate)
        hb hf hp
      refine ⟨hs, hrate, ?_, k2, k3⟩
      have e : c + 1 - 1 = c := by omega
      rw [e]
      exact k1)
    (fun c s h => ⟨h.1, h.2.1, h.2.2.1, h.2.2.2.1,
      fun L hL => absurd hL (List.not_mem_nil L)⟩)
    r hr
  subst h1
  exact ⟨h2.2.2.2.1, h2.2.2.2.2⟩

theorem mean_gt (l : List ℚ) (c : ℚ) (hne : l ≠ []) (h : ∀ x ∈ l, c < x) :
    c < l.foldl (fun sum latency => sum + latency) 0 / (l.length : ℚ) := by
  have hsum : ∀ (l : List ℚ) (a : ℚ), (∀ x ∈ l, c < x) →
      a + c * (l.length : ℚ) ≤ l.foldl (fun sum latency => sum + latency) a := by
    intro l
    induction l with
    | nil => intro a _; simp
    | cons x xs ih =>
        intro a hx
        simp only [List.foldl_cons, List.length_cons]
        have h1 := ih (a + x) (fun y hy => hx y (List.mem_cons_of_mem _ hy))
        have h2 := hx x (List.mem_cons_self _ _)
        push_cast
        linarith
  obtain ⟨x, xs, rfl⟩ := List.exists_cons_of_ne_nil hne
  have hpos : (0 : ℚ) < ((x :: xs).length : ℚ) := by
    simp only [List.length_cons]
    push_cast
    positivity
  rw [lt_div_iff₀ hpos]
  simp only [List.foldl_cons, List.length_cons]
  have h1 := hsum xs (0 + x) (fun y hy => h y (List.mem_cons_of_mem _ hy))
  have h2 := h x (List.mem_cons_self _ _)
  push_cast
  linarith

theorem knee_run_saturated (sim : Simulator) (injectionRate : ℚ) (config : RunConfig)
    (draws : Int → Nat → InjectionDraw) (hbuf : 0 < sim.maxBufferSize)
    (hknee : injectionRate / (8 / 100) > 22 / 10) (r : Simulator)
    (hr : sim.runSimulation injectionRate config draws = some r) :
    r.metrics.saturated = true ∧ (∀ L ∈ r.metrics.packetLatencies, 300 < L) := by
  have hbufs : ∀ s : Simulator, s.SameSetup sim → 0 ≤ s.maxBufferSize := by
    intro s hs
    rw [hs.2.2.1]
    omega
  obtain ⟨_, hall⟩ := runSimulation_latency_inv sim injectionRate config draws
    (fun L _ => 300 < L)
    (fun _ s hs hrate buffers lu packet hhop htime hlink =>
      retireLatencyHypercube_knee s buffers lu packet (hbufs s hs) hlink
        (by rw [hrate]; exact hknee) hhop htime)
    (fun _ s hs hrate buffers lu packet hhop htime hlink =>
      retireLatencyMesh_knee s buffers lu packet (hbufs s hs) hlink
        (by rw [hrate]; exact hknee) hhop htime)
    r hr
  have hall2 : ∀ L ∈ r.metrics.packetLatencies, 300 < L := by
    intro L hL
    obtain ⟨_, h⟩ := hall L hL
    exact h
  refine ⟨?_, hall2⟩
  obtain ⟨ms, rfl⟩ := runSimulation_finish sim injectionRate config draws r hr
  obtain ⟨e1, _, e3⟩ := finishRun_metrics ms injectionRate config
  rw [e3]
  rw [e1] at hall2
  unfold Simulator.saturationVerdict
  by_cases hzero : (ms.sim.metrics.getPacketCount : Int) = 0
  · rw [if_pos hzero]
  · rw [if_neg hzero]
    have hne : ms.sim.metrics.packetLatencies ≠ [] := by
      intro hnil
      apply hzero
      unfold Metrics.getPacketCount
      rw [hnil]
      rfl
    have havg : 300 < (ms.sim.metrics.recordFlitThroughput
        (max 0 (min (Simulator.rawThroughput (ms.sim.metrics.getPacketCount : Int)
            config.packetSizeFlits config.measurementCycles (ms.sim.totalNodes : ℚ))
          (Simulator.maxNetworkCapacity ms.sim.currentInjectionRate)))).getAveragePacketDelay := by
      unfold Metrics.getAveragePacketDelay
      have e : (ms.sim.metrics.recordFlitThroughput
        (max 0 (min (Simulator.rawThroughput (ms.sim.metrics.getPacketCount : Int)
            config.packetSizeFlits config.measurementCycles (ms.sim.totalNodes : ℚ))
          (Simulator.maxNetworkCapacity ms.sim.currentInjectionRate)))).packetLatencies =
          ms.sim.metrics.packetLatencies := rfl
      rw [e]
      have hemp : ms.sim.metrics.packetLatencies.isEmpty = false := by
        cases hl : ms.sim.metrics.packetLatencies with
        | nil => exact absurd hl hne
        | cons _ _ => rfl
      rw [hemp]
      simp only [Bool.false_eq_true, if_false]
      exact mean_gt _ 300 hne hall2
    rw [if_pos havg]

/-- C15: saturation above the pressure knee. For every simulator (any mesh, any
hypercube; `maxBufferSize` positive, it is 8), every warm-up and measurement cycle count,
all draws and every injection rate `r` with `r / 0.08 > 2.2`, a run that returns ends with
the saturation flag set and `isSaturated()` true: either no packet was retired in the
measurement phase or every latency recorded in it exceeds 300. On draws on which the
destination loops end the run does return. -/
theorem saturation_above_knee (sim : Simulator) (injectionRate : ℚ) (config : RunConfig)
    (draws : Int → Nat → InjectionDraw) (hbuf : 0 < sim.maxBufferSize)
    (hknee : injectionRate / (8 / 100) > 22 / 10) :
    (∀ r, sim.runSimulation injectionRate config draws = some r →
      r.metrics.saturated = true ∧ r.metrics.isSaturated = true ∧
      (r.metrics.getPacketCount = 0 ∨ ∀ L ∈ r.metrics.packetLatencies, 300 < L)) ∧
    (DrawsEnd draws → ∃ r, sim.runSimulation injectionRate config draws = some r ∧
      r.metrics.saturated = true ∧ r.metrics.isSaturated = true) := by
  have key : ∀ r, sim.runSimulation injectionRate config draws = some r →
      r.metrics.saturated = true ∧ r.metrics.isSaturated = true ∧
      (r.metrics.getPacketCount = 0 ∨ ∀ L ∈ r.metrics.packetLatencies, 300 < L) := by
    intro r hr
    obtain ⟨h1, h2⟩ := knee_run_saturated sim injectionRate config draws hbuf hknee r hr
    exact ⟨h1, (isSaturated_of_flag _ h1).1, Or.inr h2⟩
  refine ⟨key, ?_⟩
  intro hend
  obtain ⟨r, hr⟩ := runSimulation_isSome sim injectionRate config draws hend
  exact ⟨r, hr, (key r hr).1, (key r hr).2.1⟩

theorem saturation_above_knee_witness :
    (0 : Int) < (Simulator.ofMesh 2 2).maxBufferSize ∧
    ((3 / 10 : ℚ) / (8 / 100) > 22 / 10) ∧
    ∃ r, (Simulator.ofMesh 2 2).runSimulation (3 / 10) ⟨2, 3, 4⟩
        (fun _ _ => ⟨0, [0, 1]⟩) = some r ∧
      r.metrics.saturated = true ∧ r.metrics.isSaturated = true :=
  ⟨by decide, by norm_num,
   (saturation_above_knee (Simulator.ofMesh 2 2) (3 / 10) ⟨2, 3, 4⟩ (fun _ _ => ⟨0, [0, 1]⟩)
     (by decide) (by norm_num)).2 (drawsEnd_zero_one 0)⟩

theorem hypercube3_rate30_run (packetSizeFlits : Int) (draws : Int → Nat → InjectionDraw)
    (r : Simulator)
    (hr : (Simulator.ofHypercube (HypercubeNetwork.new 3).initializeTopology).runSimulation
      (3 / 10) ⟨100, 1000, packetSizeFlits⟩ draws = some r) :
    r.metrics.getPacketCount = 0 ∧ r.metrics.flitThroughputs = [0] ∧
      r.metrics.getThroughput = 0 ∧
      Simulator.rawThroughput (r.metrics.getPacketCount : Int) packetSizeFlits 1000 8 = 0 := by
  obtain ⟨h1, h2⟩ := runSimulation_blocked _ _ _ _ r rfl hypercube3_rate30_blocked hr
  have hc : r.metrics.getPacketCount = 0 := by
    unfold Metrics.getPacketCount
    rw [h1]
    rfl
  refine ⟨hc, h2, getThroughput_single _ _ h2, ?_⟩
  rw [hc]
  unfold Simulator.rawThroughput
  simp

/-- C16 fails as stated: for the hypercube of dimension 3 at rate 0.3 with 100 warm-up
and 1000 measurement cycles, 4 flits per packet, and the draws that make every node
inject in every cycle (node 0 towards node 1, the others towards node 0), the run returns
and its reported throughput is not less than the raw throughput
`packets_retired * 4 / (1000 * 8)`: both are 0. -/
theorem reported_throughput_not_below_raw :
    ∃ r, (Simulator.ofHypercube (HypercubeNetwork.new 3).initializeTopology).runSimulation
        (3 / 10) ⟨100, 1000, 4⟩ (fun _ _ => ⟨0, [0, 1]⟩) = some r ∧
      ¬ (r.metrics.getThroughput <
          Simulator.rawThroughput (r.metrics.getPacketCount : Int) 4 1000 8) := by
  obtain ⟨r, h⟩ := runSimulation_isSome
    (Simulator.ofHypercube (HypercubeNetwork.new 3).initializeTopology) (3 / 10)
    ⟨100, 1000, 4⟩ (fun _ _ => ⟨0, [0, 1]⟩) (drawsEnd_zero_one 0)
  obtain ⟨_, _, h3, h4⟩ := hypercube3_rate30_run 4 _ r h
  refine ⟨r, h, ?_⟩
  rw [h3, h4]
  exact lt_irrefl 0

/-- C16 as amended: for the hypercube of dimension 3 (8 nodes) at rate 0.3 with 100
warm-up and 1000 measurement cycles, for every packet size and all draws on which the
destination loops end, `runSimulation` returns; `maxGlobalPacketsPerCycle` is
`max(4 / 6, trunc(4 * (1 - 2.33 * 0.8))) = 0`, so no packet is ever moved or retired, and
the reported throughput equals the raw throughput: both are 0. -/
theorem reported_throughput_eq_raw_zero (packetSizeFlits : Int)
    (draws : Int → Nat → InjectionDraw) (hend : DrawsEnd draws) :
    ({ Simulator.ofHypercube (HypercubeNetwork.new 3).initializeTopology with
      currentInjectionRate := 3 / 10 } : Simulator).maxGlobalPacketsPerCycle = 0 ∧
    ∃ r, (Simulator.ofHypercube (HypercubeNetwork.new 3).initializeTopology).runSimulation
        (3 / 10) ⟨100, 1000, packetSizeFlits⟩ draws = some r ∧
      r.metrics.getPacketCount = 0 ∧
      r.metrics.flitThroughputs = [0] ∧
      r.metrics.getThroughput = 0 ∧
      Simulator.rawThroughput (r.metrics.getPacketCount : Int) packetSizeFlits 1000 8 = 0 := by
  refine ⟨by decide!, ?_⟩
  obtain ⟨r, h⟩ := runSimulation_isSome
    (Simulator.ofHypercube (HypercubeNetwork.new 3).initializeTopology) (3 / 10)
    ⟨100, 1000, packetSizeFlits⟩ draws hend
  exact ⟨r, h, hypercube3_rate30_run packetSizeFlits draws r h⟩

theorem reported_throughput_eq_raw_zero_witness :
    DrawsEnd (fun _ _ => ⟨1 / 4, [0, 1]⟩) ∧
    ∃ r, (Simulator.ofHypercube (HypercubeNetwork.new 3).initializeTopology).runSimulation
        (3 / 10) ⟨100, 1000, 4⟩ (fun _ _ => ⟨1 / 4, [0, 1]⟩) = some r ∧
      r.metrics.getPacketCount = 0 ∧
      r.metrics.flitThroughputs = [0] ∧
      r.metrics.getThroughput = 0 ∧
      Simulator.rawThroughput (r.metrics.getPacketCount : Int) 4 1000 8 = 0 :=
  ⟨drawsEnd_zero_one (1 / 4),
   (reported_throughput_eq_raw_zero 4 (fun _ _ => ⟨1 / 4, [0, 1]⟩)
     (drawsEnd_zero_one (1 / 4))).2⟩

theorem baseGlobalCapacity_nonneg (sim : Simulator) : 0 ≤ sim.baseGlobalCapacity := by
  unfold Simulator.baseGlobalCapacity
  split
  · exact Int.tdiv_nonneg (Int.natCast_nonneg _) (by decide)
  · exact Int.tdiv_nonneg (mul_nonneg (Int.natCast_nonneg _) (Int.natCast_nonneg _))
      (by decide)

theorem truncToInt_nonpos (q : ℚ) (h : q ≤ 0) : truncToInt q ≤ 0 := by
  unfold truncToInt
  split
  · rename_i h0
    have : q = 0 := le_antisymm h h0
    subst this
    simp
  · exact Int.ceil_le.mpr (by exact_mod_cast h)

/-- C17 fails as stated: for the hypercube of dimension 5 (32 nodes, `base = 16`) at rate
0.3 the code gives `maxGlobalPacketsPerCycle = 2`, while the clamped schedule
`max(base / 6, trunc(base * (1 - min(1, (rate - 0.16) / 0.06) * 0.8)))` gives 3. -/
theorem maxGlobalPacketsPerCycle_not_clamped :
    ({ Simulator.ofHypercube (HypercubeNetwork.new 5).initializeTopology with
      currentInjectionRate := 3 / 10 } : Simulator).baseGlobalCapacity = 16 ∧
    ({ Simulator.ofHypercube (HypercubeNetwork.new 5).initializeTopology with
      currentInjectionRate := 3 / 10 } : Simulator).maxGlobalPacketsPerCycle = 2 ∧
    max (Int.tdiv 16 6)
      (truncToInt ((16 : ℚ) * (1 - min 1 ((3 / 10 - 16 / 100) / (6 / 100)) * (8 / 10)))) = 3 := by
  decide!

/-- C17 as amended: with `base = totalNodes / 2` (integer division),
`maxGlobalPacketsPerCycle` equals `base` for `rate <= 0.16` and, for `rate > 0.16`, equals
`max(base / 6, trunc(base * (1 - ((rate - 0.16) / 0.06) * 0.8)))`: the overload is not
clamped at 1. The value agrees with the clamped schedule for every rate up to 0.22, and
it is `base / 6` for every rate from 0.235 on. -/
theorem maxGlobalPacketsPerCycle_schedule (sim : Simulator) :
    sim.baseGlobalCapacity = Int.tdiv sim.totalNodes 2 ∧
    sim.maxGlobalPacketsPerCycle =
      (if sim.currentInjectionRate ≤ 16 / 100 then sim.baseGlobalCapacity
       else max (Int.tdiv sim.baseGlobalCapacity 6)
         (truncToInt ((sim.baseGlobalCapacity : ℚ) *
           (1 - (sim.currentInjectionRate - 16 / 100) / (6 / 100) * (8 / 10))))) ∧
    (sim.currentInjectionRate ≤ 22 / 100 →
      sim.maxGlobalPacketsPerCycle =
        (if sim.currentInjectionRate ≤ 16 / 100 then sim.baseGlobalCapacity
         else max (Int.tdiv sim.baseGlobalCapacity 6)
           (truncToInt ((sim.baseGlobalCapacity : ℚ) *
             (1 - min 1 ((sim.currentInjectionRate - 16 / 100) / (6 / 100)) * (8 / 10)))))) ∧
    (235 / 1000 ≤ sim.currentInjectionRate →
      sim.maxGlobalPacketsPerCycle = Int.tdiv sim.baseGlobalCapacity 6) := by
  have hform : sim.maxGlobalPacketsPerCycle =
      (if sim.currentInjectionRate ≤ 16 / 100 then sim.baseGlobalCapacity
       else max (Int.tdiv sim.baseGlobalCapacity 6)
         (truncToInt ((sim.baseGlobalCapacity : ℚ) *
           (1 - (sim.currentInjectionRate - 16 / 100) / (6 / 100) * (8 / 10))))) := by
    unfold Simulator.maxGlobalPacketsPerCycle
    by_cases h : sim.currentInjectionRate ≤ 16 / 100
    · have h2 : ¬ sim.currentInjectionRate > 16 / 100 := not_lt.mpr h
      simp only [h, h2, if_true, if_false]
    · have h2 : sim.currentInjectionRate > 16 / 100 := not_le.mp h
      simp only [h, h2, if_true, if_false]
  refine ⟨?_, hform, ?_, ?_⟩
  · unfold Simulator.baseGlobalCapacity Simulator.totalNodes
    split <;> rfl
  · intro hle
    rw [hform]
    by_cases h : sim.currentInjectionRate ≤ 16 / 100
    · simp only [h, if_true]
    · simp only [h, if_false]
      have hov : (sim.currentInjectionRate - 16 / 100) / (6 / 100) ≤ 1 := by
        rw [div_le_iff₀ (by norm_num)]
        linarith
      rw [min_eq_right hov]
  · intro hge
    rw [hform]
    have h : ¬ sim.currentInjectionRate ≤ 16 / 100 := by
      intro h
      linarith
    simp only [h, if_false]
    apply max_eq_left
    have hb := baseGlobalCapacity_nonneg sim
    have h6 : 0 ≤ Int.tdiv sim.baseGlobalCapacity 6 := Int.tdiv_nonneg hb (by decide)
    have hneg : (sim.baseGlobalCapacity : ℚ) *
        (1 - (sim.currentInjectionRate - 16 / 100) / (6 / 100) * (8 / 10)) ≤ 0 := by
      apply mul_nonpos_of_nonneg_of_nonpos
      · exact_mod_cast hb
      · have : (sim.currentInjectionRate - 16 / 100) / (6 / 100) ≥ 125 / 100 := by
          rw [ge_iff_le, le_div_iff₀ (by norm_num)]
          linarith
        linarith
    have := truncToInt_nonpos _ hneg
    omega

theorem maxGlobalPacketsPerCycle_schedule_witness :
    (({ Simulator.ofMesh 4 4 with currentInjectionRate := 1 / 5 } :
        Simulator).currentInjectionRate ≤ 22 / 100) ∧
    ({ Simulator.ofMesh 4 4 with currentInjectionRate := 1 / 5 } :
        Simulator).maxGlobalPacketsPerCycle =
      (if ({ Simulator.ofMesh 4 4 with currentInjectionRate := 1 / 5 } :
          Simulator).currentInjectionRate ≤ 16 / 100 then
        ({ Simulator.ofMesh 4 4 with currentInjectionRate := 1 / 5 } :
          Simulator).baseGlobalCapacity
       else max (Int.tdiv ({ Simulator.ofMesh 4 4 with currentInjectionRate := 1 / 5 } :
          Simulator).baseGlobalCapacity 6)
           (truncToInt ((({ Simulator.ofMesh 4 4 with currentInjectionRate := 1 / 5 } :
              Simulator).baseGlobalCapacity : ℚ) *
             (1 - min 1 ((({ Simulator.ofMesh 4 4 with currentInjectionRate := 1 / 5 } :
                Simulator).currentInjectionRate - 16 / 100) / (6 / 100)) * (8 / 10))))) :=
  ⟨by norm_num,
   (maxGlobalPacketsPerCycle_schedule
     { Simulator.ofMesh 4 4 with currentInjectionRate := 1 / 5 }).2.2.1 (by norm_num)⟩

theorem maxNetworkCapacity_formula (rate : ℚ) :
    Simulator.maxNetworkCapacity rate =
      (if rate ≤ 16 / 100 then 75 / 100
       else 75 / 100 * (1 - (rate - 16 / 100) / (6 / 100) * (6 / 10))) := by
  unfold Simulator.maxNetworkCapacity
  by_cases h : rate ≤ 16 / 100
  · have h2 : ¬ rate > 16 / 100 := not_lt.mpr h
    simp only [h, h2, if_true, if_false]
  · have h2 : rate > 16 / 100 := not_le.mp h
    simp only [h, h2, if_true, if_false]

/-- C18 fails as stated: at rate 0.3 the cap computed by the code is -0.3, below 0.3.
On the 2 x 1 mesh with no warm-up, one measurement cycle and 4 flits per packet, when
the node `(0, 0)` injects a packet for `(1, 0)` in cycle 0, one packet is retired, the raw
throughput is `1 * 4 / (1 * 2) = 2`, the reported throughput is 0, and the clamped
schedule of the claim would give `max(0, min(2, 0.3)) = 0.3`. -/
theorem reported_throughput_not_clamped :
    Simulator.maxNetworkCapacity (3 / 10) = -3 / 10 ∧
    ((Simulator.ofMesh 2 1).runSimulation (3 / 10) ⟨0, 1, 4⟩
        (fun c n => if c = 0 ∧ n = 0 then ⟨0, [1]⟩ else ⟨1, [0, 1]⟩)).map
      (fun r => (r.metrics.getPacketCount, r.metrics.flitThroughputs)) = some (1, [0]) ∧
    Simulator.rawThroughput 1 4 1 2 = 2 ∧
    max 0 (min (Simulator.rawThroughput 1 4 1 2)
      (75 / 100 * (1 - min 1 ((3 / 10 - 16 / 100) / (6 / 100)) * (6 / 10)))) = (3 / 10 : ℚ) := by
  decide!

/-- C18 as amended: the throughput recorded by a run, which `getThroughput()` then
reports, equals `max(0, min(raw, cap))` where `raw = (packets_retired * flits_per_packet) /
(measurement_cycles * total_nodes)` (`x / 0` read as 0) and `cap = 0.75` for
`rate <= 0.16` and `cap = 0.75 * (1 - ((rate - 0.16) / 0.06) * 0.6)` for `rate > 0.16`: the
overload is not clamped at 1, and the cap is negative for rates above 0.26. The reported
value lies between 0 and 0.75; the cap agrees with the clamped schedule, and is at least
0.3, for every rate up to 0.22. -/
theorem reported_throughput_formula (sim : Simulator) (injectionRate : ℚ)
    (config : RunConfig) (draws : Int → Nat → InjectionDraw) (r : Simulator)
    (hrun : sim.runSimulation injectionRate config draws = some r) :
    r.metrics.flitThroughputs =
      [max 0 (min (Simulator.rawThroughput (r.metrics.getPacketCount : Int)
          config.packetSizeFlits config.measurementCycles (sim.totalNodes : ℚ))
        (if injectionRate ≤ 16 / 100 then 75 / 100
         else 75 / 100 * (1 - (injectionRate - 16 / 100) / (6 / 100) * (6 / 10))))] ∧
    r.metrics.getThroughput =
      max 0 (min (Simulator.rawThroughput (r.metrics.getPacketCount : Int)
          config.packetSizeFlits config.measurementCycles (sim.totalNodes : ℚ))
        (if injectionRate ≤ 16 / 100 then 75 / 100
         else 75 / 100 * (1 - (injectionRate - 16 / 100) / (6 / 100) * (6 / 10)))) ∧
    0 ≤ r.metrics.getThroughput ∧ r.metrics.getThroughput ≤ 75 / 100 ∧
    (injectionRate ≤ 22 / 100 →
      (if injectionRate ≤ 16 / 100 then (75 / 100 : ℚ)
       else 75 / 100 * (1 - (injectionRate - 16 / 100) / (6 / 100) * (6 / 10))) =
      (if injectionRate ≤ 16 / 100 then (75 / 100 : ℚ)
       else 75 / 100 * (1 - min 1 ((injectionRate - 16 / 100) / (6 / 100)) * (6 / 10))) ∧
      (3 / 10 : ℚ) ≤ (if injectionRate ≤ 16 / 100 then (75 / 100 : ℚ)
       else 75 / 100 * (1 - (injectionRate - 16 / 100) / (6 / 100) * (6 / 10)))) := by
  obtain ⟨ms, rfl, hs, hrate, hflit⟩ := runSimulation_frame sim injectionRate config draws r hrun
  obtain ⟨e1, e2, _⟩ := finishRun_metrics ms injectionRate config
  have hcount : (Simulator.finishRun ms injectionRate config).metrics.getPacketCount =
      ms.sim.metrics.getPacketCount := by
    unfold Metrics.getPacketCount
    rw [e1]
  have hlist : (Simulator.finishRun ms injectionRate config).metrics.flitThroughputs =
      [max 0 (min (Simulator.rawThroughput
          ((Simulator.finishRun ms injectionRate config).metrics.getPacketCount : Int)
          config.packetSizeFlits config.measurementCycles (sim.totalNodes : ℚ))
        (if injectionRate ≤ 16 / 100 then 75 / 100
         else 75 / 100 * (1 - (injectionRate - 16 / 100) / (6 / 100) * (6 / 10))))] := by
    rw [e2, hflit, hcount, hrate, totalNodes_of_sameSetup _ _ hs, maxNetworkCapacity_formula]
    rfl
  have hget := getThroughput_single _ _ hlist
  refine ⟨hlist, hget, ?_, ?_, ?_⟩
  · rw [hget]
    exact le_max_left _ _
  · rw [hget]
    apply max_le (by norm_num)
    apply le_trans (min_le_right _ _)
    split
    · exact le_refl _
    · rename_i h
      have h2 : injectionRate > 16 / 100 := not_le.mp h
      have : 0 ≤ (injectionRate - 16 / 100) / (6 / 100) * (6 / 10) := by
        apply mul_nonneg _ (by norm_num)
        apply div_nonneg _ (by norm_num)
        linarith
      linarith
  · intro hle
    by_cases h : injectionRate ≤ 16 / 100
    · simp only [h, if_true]
      exact ⟨trivial, by norm_num⟩
    · simp only [h, if_false]
      have hov : (injectionRate - 16 / 100) / (6 / 100) ≤ 1 := by
        rw [div_le_iff₀ (by norm_num)]
        linarith
      rw [min_eq_right hov]
      refine ⟨rfl, ?_⟩
      have : (injectionRate - 16 / 100) / (6 / 100) * (6 / 10) ≤ 6 / 10 := by
        have := mul_le_mul_of_nonneg_right hov (by norm_num : (0 : ℚ) ≤ 6 / 10)
        linarith
      linarith

theorem reported_throughput_formula_witness :
    ∃ r, (Simulator.ofMesh 2 2).runSimulation (1 / 10) ⟨1, 2, 4⟩
        (fun _ _ => ⟨0, [0, 1]⟩) = some r ∧
      r.metrics.getThroughput =
        max 0 (min (Simulator.rawThroughput (r.metrics.getPacketCount : Int) 4 2
            ((Simulator.ofMesh 2 2).totalNodes : ℚ))
          (if (1 / 10 : ℚ) ≤ 16 / 100 then 75 / 100
           else 75 / 100 * (1 - (1 / 10 - 16 / 100) / (6 / 100) * (6 / 10)))) := by
  obtain ⟨r, h⟩ := runSimulation_isSome (Simulator.ofMesh 2 2) (1 / 10) ⟨1, 2, 4⟩
    (fun _ _ => ⟨0, [0, 1]⟩) (drawsEnd_zero_one 0)
  exact ⟨r, h, (reported_throughput_formula _ _ _ _ r h).2.1⟩

/-- C19: the hypercube delay model. In a state whose buffered packets are sane (hop count
at least 0, injected no later than the current cycle), one execution of the body of the
node loop of the hypercube branch of `routePackets` keeps the packets sane, and it either
records no latency or retires one packet and records for it exactly
`max(18 + 3 * hopCount, (network_latency + 4 * hopCount) * (1 + 8 * u^3) + queuing_delay +
overhead)` with `network_latency = currentCycle - injectionTime >= 0`, `u` the network
utilization and `queuing_delay` the queuing delay right after the packet was popped, and
`overhead = 50 * ((rate - 0.12) / 0.12)^4` for `rate > 0.12` and 0 otherwise. Hence in a
whole run in hypercube mode every recorded latency is at least `18 + 3 * hopCount` for the
hop count (at least 0) recorded beside it. -/
theorem hypercube_latency_model (sim : Simulator) :
    (∀ (cap maxGlobal : Int) (st : RouteState) (nodeId : Nat),
      PacketsSane sim.currentCycle st.nodeBuffers →
      PacketsSane sim.currentCycle
        (Simulator.routeHypercubeNode sim cap maxGlobal st nodeId).nodeBuffers ∧
      (((Simulator.routeHypercubeNode sim cap maxGlobal st nodeId).metrics.packetLatencies =
          st.metrics.packetLatencies ∧
        (Simulator.routeHypercubeNode sim cap maxGlobal st nodeId).metrics.hopCounts =
          st.metrics.hopCounts) ∨
       ∃ (packet : Packet) (u q : ℚ),
        u = sim.calculateNetworkUtilization
          (Simulator.routeHypercubeNode sim cap maxGlobal st nodeId).nodeBuffers
          (Simulator.routeHypercubeNode sim cap maxGlobal st nodeId).linkUtilization ∧
        q = sim.calculateQueuingDelay
          (Simulator.routeHypercubeNode sim cap maxGlobal st nodeId).nodeBuffers
          (Simulator.routeHypercubeNode sim cap maxGlobal st nodeId).linkUtilization packet ∧
        0 ≤ sim.currentCycle - packet.injectionTime ∧ 0 ≤ packet.hopCount ∧
        (Simulator.routeHypercubeNode sim cap maxGlobal st nodeId).retired =
          st.retired ++ [packet] ∧
        (Simulator.routeHypercubeNode sim cap maxGlobal st nodeId).metrics.hopCounts =
          st.metrics.hopCounts ++ [packet.hopCount] ∧
        (Simulator.routeHypercubeNode sim cap maxGlobal st nodeId).metrics.packetLatencies =
          st.metrics.packetLatencies ++
            [max (18 + 3 * (packet.hopCount : ℚ))
              ((((sim.currentCycle - packet.injectionTime : Int) : ℚ) +
                  4 * (packet.hopCount : ℚ)) * (1 + 8 * u ^ 3) + q +
                (if sim.currentInjectionRate > 12 / 100 then
                  50 * ((sim.currentInjectionRate - 12 / 100) / (12 / 100)) ^ 4 else 0))])) ∧
    (∀ (injectionRate : ℚ) (config : RunConfig) (draws : Int → Nat → InjectionDraw)
        (r : Simulator), sim.isHypercubeMode = true →
      sim.runSimulation injectionRate config draws = some r →
      List.Forall₂ (fun (latency : ℚ) (hops : Int) => 0 ≤ hops ∧ 18 + 3 * (hops : ℚ) ≤ latency)
        r.metrics.latencies r.metrics.hopCounts) := by
  constructor
  · intro cap maxGlobal st nodeId hsane
    obtain ⟨st2, h2, hshape⟩ := routeHypercubeNode_step sim cap maxGlobal st nodeId
    rw [h2]
    refine ⟨sane_step sim.currentCycle _ st st2 hshape hsane, ?_⟩
    rcases hshape with rfl | ⟨cur, front, rest, hbuf, _, _, hm2, _⟩ |
        ⟨cur, front, rest, hbuf, _, hb2, hr2, hm2, hl2⟩ |
        ⟨cur, next, front, rest, hbuf, _, _, _, hm2, _⟩
    · exact Or.inl ⟨rfl, rfl⟩
    · rcases hm2 with h | h <;> rw [h] <;> exact Or.inl ⟨rfl, rfl⟩
    · have hfront := hsane cur front (by rw [hbuf]; exact List.mem_cons_self _ _)
      refine Or.inr ⟨{ front with currentNode := some cur }, _, _, rfl, rfl, ?_, hfront.1, hr2,
        ?_, ?_⟩
      · have := hfront.2
        simp only
        omega
      · rw [hm2]
        rfl
      · rw [hm2, hb2, hl2]
        simp only [Metrics.recordHopCount, Metrics.recordPacketLatency, Metrics.recordLatency]
        rw [retireLatencyHypercube_formula]
    · rw [hm2]
      exact Or.inl ⟨rfl, rfl⟩
  · intro injectionRate config draws r hmode hr
    exact (runSimulation_latency_inv sim injectionRate config draws
      (fun (latency : ℚ) (hops : Int) => 0 ≤ hops ∧ 18 + 3 * (hops : ℚ) ≤ latency)
      (fun _ s _ _ buffers lu packet hhop _ _ => by
        refine ⟨hhop, ?_⟩
        rw [retireLatencyHypercube_formula]
        exact le_max_left _ _)
      (fun hm => by rw [hmode] at hm; cases hm)
      r hr).1

theorem hypercube_latency_model_witness :
    ∃ r, (Simulator.ofHypercube (HypercubeNetwork.new 2).initializeTopology).runSimulation
        (1 / 10) ⟨1, 2, 4⟩ (fun _ _ => ⟨0, [0, 1]⟩) = some r ∧
      List.Forall₂ (fun (latency : ℚ) (hops : Int) => 0 ≤ hops ∧ 18 + 3 * (hops : ℚ) ≤ latency)
        r.metrics.latencies r.metrics.hopCounts := by
  obtain ⟨r, h⟩ := runSimulation_isSome
    (Simulator.ofHypercube (HypercubeNetwork.new 2).initializeTopology) (1 / 10) ⟨1, 2, 4⟩
    (fun _ _ => ⟨0, [0, 1]⟩) (drawsEnd_zero_one 0)
  exact ⟨r, h, (hypercube_latency_model _).2 _ _ _ r rfl h⟩

/-- C20 fails on the code: on the 2 x 1 mesh at rate 0.01, with no warm-up and one
measurement cycle, when in cycle 0 the node `(0, 0)` injects a packet for `(1, 0)`, the
packet is moved and retired in the same call of `routePackets` with hop count 1, and the
latency recorded for it is about 15.05, below `15 + 5 * 1 = 20`: the floor
`15 + 5 * hopCount` is only applied when the computed latency is below 15. -/
theorem mesh_latency_below_floor :
    ((Simulator.ofMesh 2 1).runSimulation (1 / 100) ⟨0, 1, 4⟩
        (fun c n => if c = 0 ∧ n = 0 then ⟨0, [1]⟩ else ⟨1, [0, 1]⟩)).map
      (fun r => (r.metrics.hopCounts, r.metrics.packetLatencies)) =
      some ([1], [154241998561157 / 10251562500000]) ∧
    (154241998561157 / 10251562500000 : ℚ) < 15 + 5 * 1 := by
  decide!

/-! ## Metrics -/

/-- C25 fails on the code: `recordFlitThroughput` pushes its sample onto `throughputSamples`
and then calls `recordThroughput`, which pushes it again. After
`recordFlitThroughput(0.5)` and `recordFlitThroughput(0.1)` on a fresh object the samples
are `[0.5, 0.5, 0.1, 0.1]`, so `isSaturated(50, 0.1)` compares 0.1 with 0.1 and returns
false, although `(0.5 - 0.1) / 0.5 = 0.8 > 0.1`, the flag is clear and the average latency
is 0. With `recordThroughput` alone the same two samples make it return true. -/
theorem isSaturated_misses_flit_throughput_drop :
    ((Metrics.new.recordFlitThroughput (1 / 2)).recordFlitThroughput (1 / 10)).throughputSamples
      = [1 / 2, 1 / 2, 1 / 10, 1 / 10] ∧
    ((1 / 2 : ℚ) > 0 ∧ ((1 / 2 : ℚ) - 1 / 10) / (1 / 2) > 1 / 10) ∧
    ((Metrics.new.recordFlitThroughput (1 / 2)).recordFlitThroughput (1 / 10)).saturated
      = false ∧
    ((Metrics.new.recordFlitThroughput (1 / 2)).recordFlitThroughput (1 / 10)).getAverageLatency
      = 0 ∧
    ((Metrics.new.recordFlitThroughput (1 / 2)).recordFlitThroughput (1 / 10)).isSaturatedWith
      50 (1 / 10) = false ∧
    ((Metrics.new.recordThroughput (1 / 2)).recordThroughput (1 / 10)).isSaturatedWith
      50 (1 / 10) = true := by
  decide!

theorem foldl_add_eq_sum (l : List ℚ) (a : ℚ) :
    l.foldl (fun sum x => sum + x) a = a + l.sum := by
  induction l generalizing a with
  | nil => simp
  | cons x xs ih =>
      simp only [List.foldl_cons, List.sum_cons]
      rw [ih]
      ring

theorem getAveragePacketDelay_mean (m : Metrics) (h : m.packetLatencies ≠ []) :
    m.getAveragePacketDelay = m.packetLatencies.sum / (m.packetLatencies.length : ℚ) := by
  unfold Metrics.getAveragePacketDelay
  have hemp : m.packetLatencies.isEmpty = false := by
    cases hl : m.packetLatencies with
    | nil => exact absurd hl h
    | cons _ _ => rfl
  rw [hemp]
  simp only [Bool.false_eq_true, if_false]
  rw [foldl_add_eq_sum, zero_add]

theorem call_packetLatencies (m : Metrics) (c : MetricsCall) :
    (m.call c).packetLatencies = m.packetLatencies ++ c.packetLatency.toList ∧
      (m.call c).isMeasurementPhase = m.isMeasurementPhase := by
  cases c <;> exact ⟨by simp [Metrics.call, MetricsCall.packetLatency,
    Metrics.recordPacketLatency, Metrics.recordLatency, Metrics.recordFlitThroughput,
    Metrics.recordThroughput, Metrics.recordInjectionRate, Metrics.recordHopCount,
    Metrics.recordNetworkUtilization, Metrics.recordCongestionEvent, Metrics.setSaturated],
    rfl⟩

theorem calls_packetLatencies (calls : List MetricsCall) (m : Metrics) :
    (calls.foldl Metrics.call m).packetLatencies =
        m.packetLatencies ++ calls.filterMap MetricsCall.packetLatency ∧
      (calls.foldl Metrics.call m).isMeasurementPhase = m.isMeasurementPhase := by
  induction calls generalizing m with
  | nil => simp
  | cons c cs ih =>
      simp only [List.foldl_cons]
      obtain ⟨h1, h2⟩ := ih (m.call c)
      obtain ⟨h3, h4⟩ := call_packetLatencies m c
      refine ⟨?_, by rw [h2, h4]⟩
      rw [h1, h3, List.append_assoc]
      congr 1
      cases hc : c.packetLatency with
      | none => simp [List.filterMap_cons, hc]
      | some x => simp [List.filterMap_cons, hc]

/-- C26: after `startMeasurement()` on any metrics object, followed by any sequence of
recording calls (no `endMeasurement`, `startWarmup` or `reset`), the packet latencies held
are exactly the arguments of the `recordPacketLatency` calls of the sequence, in order, and
the measurement phase is active; `getAveragePacketDelay()` returns -1 when there is no such
call and the arithmetic mean of the recorded latencies when there is at least one. In every
state, also outside the measurement phase, a non-empty vector of packet latencies makes it
return their mean. -/
theorem getAveragePacketDelay_sentinel (m : Metrics) (calls : List MetricsCall) :
    (calls.foldl Metrics.call m.startMeasurement).packetLatencies =
      calls.filterMap MetricsCall.packetLatency ∧
    (calls.foldl Metrics.call m.startMeasurement).isMeasurementPhase = true ∧
    (calls.filterMap MetricsCall.packetLatency = [] →
      (calls.foldl Metrics.call m.startMeasurement).getAveragePacketDelay = -1) ∧
    (calls.filterMap MetricsCall.packetLatency ≠ [] →
      (calls.foldl Metrics.call m.startMeasurement).getAveragePacketDelay =
        (calls.filterMap MetricsCall.packetLatency).sum /
          ((calls.filterMap MetricsCall.packetLatency).length : ℚ)) ∧
    (m.packetLatencies ≠ [] →
      m.getAveragePacketDelay = m.packetLatencies.sum / (m.packetLatencies.length : ℚ)) := by
  obtain ⟨h1, h2⟩ := calls_packetLatencies calls m.startMeasurement
  have e1 : (calls.foldl Metrics.call m.startMeasurement).packetLatencies =
      calls.filterMap MetricsCall.packetLatency := by
    rw [h1]
    rfl
  have e2 : (calls.foldl Metrics.call m.startMeasurement).isMeasurementPhase = true := by
    rw [h2]
    rfl
  refine ⟨e1, e2, ?_, ?_, getAveragePacketDelay_mean m⟩
  · intro hnil
    unfold Metrics.getAveragePacketDelay
    rw [e1, hnil, e2]
    rfl
  · intro hne
    rw [getAveragePacketDelay_mean _ (by rw [e1]; exact hne), e1]

theorem getAveragePacketDelay_sentinel_witness :
    ([MetricsCall.recordHopCount 2, MetricsCall.recordFlitThroughput 1].filterMap
        MetricsCall.packetLatency = []) ∧
    ([MetricsCall.recordHopCount 2, MetricsCall.recordFlitThroughput 1].foldl Metrics.call
        ((Metrics.new.recordPacketLatency 20).startMeasurement)).getAveragePacketDelay = -1 :=
  ⟨rfl, (getAveragePacketDelay_sentinel (Metrics.new.recordPacketLatency 20)
    [MetricsCall.recordHopCount 2, MetricsCall.recordFlitThroughput 1]).2.2.1 rfl⟩

/-! ## Hamming distance and neighbourhood of node ids -/

theorem popcount_step (x : Nat) : popcount x = x % 2 + popcount (x / 2) := by
  have hx : x < 2 ^ (x + 1) := Nat.lt_of_lt_of_le (Nat.lt_two_pow x) (Nat.pow_le_pow_right
    (by decide) (Nat.le_succ x))
  have hx2 : x / 2 < 2 ^ x := by
    have := Nat.lt_two_pow x
    exact Nat.lt_of_le_of_lt (Nat.div_le_self x 2) this
  rw [popcount_eq x (x + 1) hx, popcount_eq (x / 2) x hx2, List.range_succ_eq_map,
    List.filter_cons, List.filter_map]
  have hcomp : ((fun i => x.testBit i) ∘ Nat.succ) = (fun i => (x / 2).testBit i) := by
    funext i
    simp only [Function.comp, Nat.succ_eq_add_one, Nat.testBit_succ]
  rw [hcomp, Nat.testBit_zero]
  rcases Nat.mod_two_eq_zero_or_one x with h | h
  · simp [h]
  · simp [h]
    omega

theorem popcount_zero : popcount 0 = 0 := rfl

theorem popcount_eq_zero_iff (x : Nat) : popcount x = 0 ↔ x = 0 := by
  constructor
  · intro h
    induction x using Nat.strong_induction_on with
    | _ x ih =>
        by_contra hx
        rw [popcount_step] at h
        have h1 : x % 2 = 0 := by omega
        have h2 : popcount (x / 2) = 0 := by omega
        have h3 : x / 2 = 0 := ih (x / 2) (by omega) h2
        omega
  · intro h
    subst h
    rfl

theorem hammingLoop_nat (fuel : Nat) :
    ∀ (x : Nat) (d : Int), x < 2 ^ fuel →
      HypercubeNetwork.hammingLoop fuel (x : Int) d = some (d + (popcount x : Int)) := by
  induction fuel with
  | zero =>
      intro x d hx
      have : x = 0 := by simpa using hx
      subst this
      simp [HypercubeNetwork.hammingLoop, popcount_zero]
  | succ fuel ih =>
      intro x d hx
      unfold HypercubeNetwork.hammingLoop
      by_cases h0 : x = 0
      · subst h0
        simp [popcount_zero]
      · have hne : ¬ (x : Int) = 0 := by exact_mod_cast h0
        rw [if_neg hne]
        have e1 : ((x : Int) >>> 1) = ((x / 2 : Nat) : Int) := by
          have : ((x : Int) >>> 1) = ((x >>> 1 : Nat) : Int) := rfl
          rw [this, Nat.shiftRight_eq_div_pow, pow_one]
        have e2 : Int.land (x : Int) 1 = ((x % 2 : Nat) : Int) := by
          have : Int.land (x : Int) 1 = ((x &&& 1 : Nat) : Int) := rfl
          rw [this, Nat.and_one_is_mod]
        rw [e1, e2]
        have hx2 : x / 2 < 2 ^ fuel := by
          rw [Nat.div_lt_iff_lt_mul (by decide)]
          rw [pow_succ] at hx
          exact hx
        rw [ih (x / 2) _ hx2, popcount_step x]
        push_cast
        rw [add_assoc]

/-- C27: for all non-negative node ids `a` and `b` below `2 ^ k` (for an `int`, `k = 31`)
the loop of `getHammingDistance(a, b)` ends within `k` executions of its body, and the
value returned is `popcount(a xor b)`. -/
theorem getHammingDistance_eq_popcount (a b k fuel : Nat) (ha : a < 2 ^ k) (hb : b < 2 ^ k)
    (hfuel : k ≤ fuel) :
    HypercubeNetwork.getHammingDistance fuel (a : Int) (b : Int) =
      some ((popcount (a ^^^ b) : Nat) : Int) := by
  unfold HypercubeNetwork.getHammingDistance
  have e : Int.xor (a : Int) (b : Int) = ((a ^^^ b : Nat) : Int) := rfl
  rw [e]
  have hx : a ^^^ b < 2 ^ fuel :=
    Nat.lt_of_lt_of_le (Nat.xor_lt_two_pow ha hb) (Nat.pow_le_pow_right (by decide) hfuel)
  rw [hammingLoop_nat fuel _ 0 hx]
  simp

theorem getHammingDistance_eq_popcount_witness :
    (5 < 2 ^ 31) ∧ (6 < 2 ^ 31) ∧ (31 ≤ 31) ∧
    HypercubeNetwork.getHammingDistance 31 ((5 : Nat) : Int) ((6 : Nat) : Int) =
      some ((popcount (5 ^^^ 6) : Nat) : Int) :=
  ⟨by decide, by decide, by decide,
   getHammingDistance_eq_popcount 5 6 31 31 (by decide) (by decide) (by decide)⟩

theorem and_pred_even (y : Nat) (hy : 0 < y) :
    (2 * y) &&& (2 * y - 1) = 2 * (y &&& (y - 1)) := by
  have hd : ((2 * y) &&& (2 * y - 1)) / 2 = y &&& (y - 1) := by
    rw [Nat.and_div_two]
    have h1 : 2 * y / 2 = y := by omega
    have h2 : (2 * y - 1) / 2 = y - 1 := by omega
    rw [h1, h2]
  have hm : ((2 * y) &&& (2 * y - 1)) % 2 = 0 := by
    rcases Nat.mod_two_eq_zero_or_one ((2 * y) &&& (2 * y - 1)) with h | h
    · exact h
    · have := (Nat.and_mod_two_eq_one.mp h).1
      omega
  omega

theorem and_pred_odd (y : Nat) : (2 * y + 1) &&& (2 * y + 1 - 1) = 2 * y := by
  have hd : ((2 * y + 1) &&& (2 * y + 1 - 1)) / 2 = y := by
    rw [Nat.and_div_two]
    have h1 : (2 * y + 1) / 2 = y := by omega
    have h2 : (2 * y + 1 - 1) / 2 = y := by omega
    rw [h1, h2, Nat.and_self]
  have hm : ((2 * y + 1) &&& (2 * y + 1 - 1)) % 2 = 0 := by
    rcases Nat.mod_two_eq_zero_or_one ((2 * y + 1) &&& (2 * y + 1 - 1)) with h | h
    · exact h
    · have := (Nat.and_mod_two_eq_one.mp h).2
      omega
  omega

/-- The test `x && !(x & (x - 1))` holds exactly when `x` has one set bit. -/
theorem one_bit_test (x : Nat) : (x ≠ 0 ∧ x &&& (x - 1) = 0) ↔ popcount x = 1 := by
  induction x using Nat.strong_induction_on with
  | _ x ih =>
      by_cases h0 : x = 0
      · subst h0
        simp [popcount_zero]
      · rw [popcount_step x]
        rcases Nat.mod_two_eq_zero_or_one x with hm | hm
        · have hx : x = 2 * (x / 2) := by omega
          have hy : 0 < x / 2 := by omega
          have hih := ih (x / 2) (by omega)
          have e : x &&& (x - 1) = 2 * ((x / 2) &&& (x / 2 - 1)) := by
            conv_lhs => rw [hx]
            exact and_pred_even (x / 2) hy
          rw [e, hm]
          constructor
          · intro h
            have h3 : (x / 2) &&& (x / 2 - 1) = 0 := by omega
            have := hih.mp ⟨by omega, h3⟩
            omega
          · intro h
            have h3 : popcount (x / 2) = 1 := by omega
            have := (hih.mpr h3).2
            exact ⟨h0, by omega⟩
        · have hx : x = 2 * (x / 2) + 1 := by omega
          have e : x &&& (x - 1) = 2 * (x / 2) := by
            conv_lhs => rw [hx]
            exact and_pred_odd (x / 2)
          rw [e, hm]
          constructor
          · intro h
            have h3 : x / 2 = 0 := by omega
            rw [h3, popcount_zero]
          · intro h
            have h3 : popcount (x / 2) = 0 := by omega
            have := (popcount_eq_zero_iff (x / 2)).mp h3
            exact ⟨h0, by omega⟩

theorem areNeighbors_nat (a b : Nat) :
    HypercubeNetwork.areNeighbors (a : Int) (b : Int) = true ↔ popcount (a ^^^ b) = 1 := by
  unfold HypercubeNetwork.areNeighbors
  have e : Int.xor (a : Int) (b : Int) = ((a ^^^ b : Nat) : Int) := rfl
  dsimp only
  rw [e, ← one_bit_test]
  by_cases h0 : a ^^^ b = 0
  · simp [h0]
  · have hpos : 0 < a ^^^ b := Nat.pos_of_ne_zero h0
    have e2 : (((a ^^^ b : Nat) : Int) - 1) = (((a ^^^ b) - 1 : Nat) : Int) := by
      omega
    have e3 : Int.land ((a ^^^ b : Nat) : Int) (((a ^^^ b) - 1 : Nat) : Int) =
        (((a ^^^ b) &&& ((a ^^^ b) - 1) : Nat) : Int) := rfl
    rw [e2, e3]
    have hne : ¬ ((a ^^^ b : Nat) : Int) = 0 := by exact_mod_cast h0
    simp only [ne_eq, hne, not_false_eq_true, decide_True, Bool.true_and, Bool.not_eq_true',
      decide_eq_false_iff_not, not_not, h0, true_and]
    exact_mod_cast Iff.rfl

/-- C28: for all non-negative node ids `a` and `b` below `2 ^ k` (for an `int`, `k = 31`),
`areNeighbors(a, b)` is true if and only if `getHammingDistance(a, b)` returns 1, which is
the case exactly when `a xor b` has one set bit; `areNeighbors` is symmetric and
`areNeighbors(a, a)` is false. -/
theorem areNeighbors_iff_hamming_one (a b k : Nat) (ha : a < 2 ^ k) (hb : b < 2 ^ k) :
    (HypercubeNetwork.areNeighbors (a : Int) (b : Int) = true ↔
      HypercubeNetwork.getHammingDistance k (a : Int) (b : Int) = some 1) ∧
    (HypercubeNetwork.areNeighbors (a : Int) (b : Int) = true ↔ popcount (a ^^^ b) = 1) ∧
    HypercubeNetwork.areNeighbors (a : Int) (b : Int) =
      HypercubeNetwork.areNeighbors (b : Int) (a : Int) ∧
    HypercubeNetwork.areNeighbors (a : Int) (a : Int) = false := by
  refine ⟨?_, areNeighbors_nat a b, ?_, ?_⟩
  · rw [areNeighbors_nat]
    unfold HypercubeNetwork.getHammingDistance
    have e : Int.xor (a : Int) (b : Int) = ((a ^^^ b : Nat) : Int) := rfl
    rw [e, hammingLoop_nat k _ 0 (Nat.xor_lt_two_pow ha hb)]
    simp only [zero_add, Option.some.injEq]
    exact_mod_cast Iff.rfl
  · have h1 := areNeighbors_nat a b
    have h2 := areNeighbors_nat b a
    rw [Nat.xor_comm b a] at h2
    cases hab : HypercubeNetwork.areNeighbors (a : Int) (b : Int) <;>
      cases hba : HypercubeNetwork.areNeighbors (b : Int) (a : Int) <;> simp_all
  · have h1 := areNeighbors_nat a a
    rw [Nat.xor_self, popcount_zero] at h1
    cases haa : HypercubeNetwork.areNeighbors (a : Int) (a : Int)
    · rfl
    · exact absurd (h1.mp haa) (by decide)

theorem areNeighbors_iff_hamming_one_witness :
    (5 < 2 ^ 31) ∧ (4 < 2 ^ 31) ∧
    (HypercubeNetwork.areNeighbors ((5 : Nat) : Int) ((4 : Nat) : Int) = true ↔
      HypercubeNetwork.getHammingDistance 31 ((5 : Nat) : Int) ((4 : Nat) : Int) = some 1) :=
  ⟨by decide, by decide, (areNeighbors_iff_hamming_one 5 4 31 (by decide) (by decide)).1⟩

theorem getHypercubeNode_some (n a : Nat) (ha : a < 2 ^ n) :
    (HypercubeNetwork.new n).initializeTopology.getHypercubeNode (a : Int) =
      some (HypercubeNetwork.newNode n a) := by
  unfold HypercubeNetwork.getHypercubeNode
  have hn : (HypercubeNetwork.new n).initializeTopology.hypercubeNodes =
      (HypercubeNetwork.new n).createHypercubeNodes.hypercubeNodes := rfl
  have ht : (HypercubeNetwork.new n).initializeTopology.totalNodes = 2 ^ n := rfl
  rw [hn, ht]
  have h2 : ((a : Int) ≥ 0 ∧ (a : Int) < ((2 ^ n : Nat) : Int)) :=
    ⟨by omega, by exact_mod_cast ha⟩
  simp only [Int.toNat_ofNat, nodes_lookup, h2, ha, and_self, if_true]

/-- C29: on the initialized hypercube of dimension `n`, the node with id `v` has
`getNeighborInDimension(d)` equal to the node with id `v xor 2^d` for every `0 <= d < n`,
and equal to no node for every `d < 0` and every `d >= n`. -/
theorem getNeighborInDimension_spec (n v : Nat) (hv : v < 2 ^ n) :
    ∃ node, (HypercubeNetwork.new n).initializeTopology.getHypercubeNode (v : Int) = some node ∧
      node.id = (v : Int) ∧
      (∀ d : Nat, d < n →
        ∃ neighbor, node.getNeighborInDimension
            (HypercubeNetwork.new n).initializeTopology.table (d : Int) = some neighbor ∧
          (HypercubeNetwork.new n).initializeTopology.getHypercubeNode
            ((v ^^^ 2 ^ d : Nat) : Int) = some neighbor ∧
          neighbor.id = ((v ^^^ 2 ^ d : Nat) : Int)) ∧
      (∀ d : Int, d < 0 ∨ d ≥ (n : Int) →
        node.getNeighborInDimension
          (HypercubeNetwork.new n).initializeTopology.table d = none) := by
  refine ⟨HypercubeNetwork.newNode n v, getHypercubeNode_some n v hv, rfl, ?_, ?_⟩
  · intro d hd
    exact ⟨HypercubeNetwork.newNode n (v ^^^ 2 ^ d),
      getNeighborInDimension_hypercube n v d hv hd,
      getHypercubeNode_some n _ (flip_lt n v d hv hd), rfl⟩
  · intro d hd
    unfold HypercubeNode.getNeighborInDimension
    have h : d < 0 ∨ d ≥ ((HypercubeNetwork.newNode n v).dimension : Int) := hd
    rw [if_pos h]

theorem getNeighborInDimension_spec_witness :
    (5 < 2 ^ 3) ∧
    ∃ node, (HypercubeNetwork.new 3).initializeTopology.getHypercubeNode ((5 : Nat) : Int) =
        some node ∧
      node.getNeighborInDimension (HypercubeNetwork.new 3).initializeTopology.table
        ((1 : Nat) : Int) = some (HypercubeNetwork.newNode 3 7) ∧
      node.getNeighborInDimension (HypercubeNetwork.new 3).initializeTopology.table 3 = none := by
  refine ⟨by decide, ?_⟩
  obtain ⟨node, h1, _, h3, h4⟩ := getNeighborInDimension_spec 3 5 (by decide)
  obtain ⟨nb, h5, h6, _⟩ := h3 1 (by decide)
  have h7 : (HypercubeNetwork.new 3).initializeTopology.getHypercubeNode
      ((5 ^^^ 2 ^ 1 : Nat) : Int) = some (HypercubeNetwork.newNode 3 7) :=
    getHypercubeNode_some 3 7 (by decide)
  rw [h7] at h6
  cases h6
  exact ⟨node, h1, h5, h4 3 (Or.inr (by decide))⟩

/-! ## The measurement loop -/

theorem runSimulation_eq_measureLoop (sim : Simulator) (injectionRate : ℚ)
    (config : RunConfig) (draws : Int → Nat → InjectionDraw) :
    sim.runSimulation injectionRate config draws =
      match sim.runCycles injectionRate draws config.warmupCycles.toNat with
      | none => none
      | some s =>
          match Simulator.measureLoop injectionRate config draws s.measureStart
              config.measurementCycles.toNat with
          | none => none
          | some ms => some (Simulator.finishRun ms injectionRate config) := rfl

theorem measureLoop_succ (injectionRate : ℚ) (config : RunConfig)
    (draws : Int → Nat → InjectionDraw) (ms : MeasureState) (k : Nat) :
    Simulator.measureLoop injectionRate config draws ms (k + 1) =
      Simulator.measureCycle injectionRate config draws
        (Simulator.measureLoop injectionRate config draws ms k) k := by
  unfold Simulator.measureLoop
  rw [List.range_succ, List.foldl_append]
  rfl

theorem measureCycle_stopped (injectionRate : ℚ) (config : RunConfig)
    (draws : Int → Nat → InjectionDraw) (ms : MeasureState) (k : Nat)
    (h : ms.stopped = true) :
    Simulator.measureCycle injectionRate config draws (some ms) k = some ms := by
  unfold Simulator.measureCycle
  dsimp only
  rw [if_pos h]

theorem measureLoop_stays (injectionRate : ℚ) (config : RunConfig)
    (draws : Int → Nat → InjectionDraw) (ms0 ms2 : MeasureState) (k0 : Nat)
    (h : Simulator.measureLoop injectionRate config draws ms0 k0 = some ms2)
    (hstop : ms2.stopped = true) :
    ∀ cycles, k0 ≤ cycles →
      Simulator.measureLoop injectionRate config draws ms0 cycles = some ms2 := by
  intro cycles hle
  induction cycles, hle using Nat.le_induction with
  | base => exact h
  | succ c _ ih =>
      rw [measureLoop_succ, ih]
      exact measureCycle_stopped _ _ _ _ _ hstop

/-- What an executed iteration of the measurement loop does to the counters. -/
theorem measureCycle_counters (injectionRate : ℚ) (config : RunConfig)
    (draws : Int → Nat → InjectionDraw) (ms ms2 : MeasureState) (cycle : Nat)
    (hrun : ms.stopped = false)
    (hstep : Simulator.measureCycle injectionRate config draws (some ms) cycle = some ms2) :
    ms2.lowThroughputCycles =
      (if (((ms2.sim.metrics.getPacketCount : Int) - (ms.sim.metrics.getPacketCount : Int) :
            Int) : ℚ) < injectionRate * (ms2.sim.totalNodes : ℚ) * (6 / 10) then
        ms.lowThroughputCycles + 1 else 0) ∧
    ms2.consecutiveZeroReceived =
      (if (ms2.sim.metrics.getPacketCount : Int) - (ms.sim.metrics.getPacketCount : Int) = 0
        then ms.consecutiveZeroReceived + 1 else 0) ∧
    ms2.stopped = decide ((ms2.consecutiveZeroReceived : ℚ) >
      (config.measurementCycles : ℚ) * (2 / 10)) := by
  unfold Simulator.measureCycle at hstep
  dsimp only at hstep
  rw [hrun] at hstep
  simp only [Bool.false_eq_true, if_false] at hstep
  split at hstep
  · cases hstep
  · rename_i s2 n hinj
    obtain ⟨b, rfl⟩ := injectPackets_frame _ _ _ _ _ hinj
    simp only [Option.some.injEq] at hstep
    subst hstep
    exact ⟨rfl, rfl, rfl⟩

theorem saturationVerdict_low (totalPacketsReceived : Int) (avgLatency actualThroughput
    injectionRate : ℚ) (flitsPerPacket lowThroughputCycles consecutiveZeroReceived
    measurementCycles : Int)
    (h : (lowThroughputCycles : ℚ) > (measurementCycles : ℚ) * (2 / 10)) :
    Simulator.saturationVerdict totalPacketsReceived avgLatency actualThroughput injectionRate
      flitsPerPacket lowThroughputCycles consecutiveZeroReceived measurementCycles = true := by
  unfold Simulator.saturationVerdict
  rw [if_pos h]
  split_ifs <;> rfl

theorem saturationVerdict_zero (totalPacketsReceived : Int) (avgLatency actualThroughput
    injectionRate : ℚ) (flitsPerPacket lowThroughputCycles consecutiveZeroReceived
    measurementCycles : Int)
    (h : (consecutiveZeroReceived : ℚ) > (measurementCycles : ℚ) * (15 / 100)) :
    Simulator.saturationVerdict totalPacketsReceived avgLatency actualThroughput injectionRate
      flitsPerPacket lowThroughputCycles consecutiveZeroReceived measurementCycles = true := by
  unfold Simulator.saturationVerdict
  rw [if_pos h]
  split_ifs <;> rfl

/-- C22 fails as stated: on the 2 x 1 mesh at rate 0.1 with no warm-up and 10 measurement
cycles, when the node `(0, 0)` injects a packet for `(1, 0)` in the odd cycles only, the
packet counts after 0, 1, ..., 10 cycles are 0, 0, 1, 1, 2, 2, 3, 3, 4, 4, 5: in the five
even cycles nothing is received, fewer than 60% of the expected `0.1 * 2`, and five
exceeds 20% of 10. The counter `lowThroughputCycles` is 1 after each of them and 0 after
each odd cycle, and the run ends with the saturation flag clear. -/
theorem scattered_low_throughput_not_saturated :
    (List.range 11).map (fun k =>
      (Simulator.measureLoop (1 / 10) ⟨0, 10, 4⟩
        (fun c n => if c % 2 = 1 ∧ n = 0 then ⟨0, [1]⟩ else ⟨1, [0, 1]⟩)
        ({ (Simulator.ofMesh 2 1).reset with currentInjectionRate := 1 / 10 } :
          Simulator).measureStart k).map
        (fun ms => (ms.sim.metrics.getPacketCount, ms.lowThroughputCycles))) =
      [some (0, 0), some (0, 1), some (1, 0), some (1, 1), some (2, 0), some (2, 1),
       some (3, 0), some (3, 1), some (4, 0), some (4, 1), some (5, 0)] ∧
    ((0 : ℚ) < 1 / 10 * 2 * (6 / 10) ∧ ¬ ((1 : ℚ) < 1 / 10 * 2 * (6 / 10)) ∧
      (5 : ℚ) > 10 * (2 / 10)) ∧
    ((Simulator.ofMesh 2 1).runSimulation (1 / 10) ⟨0, 10, 4⟩
        (fun c n => if c % 2 = 1 ∧ n = 0 then ⟨0, [1]⟩ else ⟨1, [0, 1]⟩)).map
      (fun r => (r.metrics.getPacketCount, r.metrics.saturated, r.metrics.isSaturated)) =
      some (5, false, false) := by
  decide!

/-- C22 as amended: `lowThroughputCycles` counts the consecutive low-throughput cycles
that end with the last executed measurement cycle. An executed measurement cycle in which
the packets received are fewer than 60% of `rate * totalNodes` adds 1 to the counter,
every other executed cycle resets it to 0; and whenever the counter at the end of the
measurement loop exceeds 20% of `measurementCycles`, `runSimulation` marks the run
saturated. -/
theorem low_throughput_trigger (injectionRate : ℚ) (config : RunConfig)
    (draws : Int → Nat → InjectionDraw) (ms ms2 : MeasureState) (cycle : Nat)
    (hrun : ms.stopped = false)
    (hstep : Simulator.measureCycle injectionRate config draws (some ms) cycle = some ms2) :
    ms2.lowThroughputCycles =
      (if (((ms2.sim.metrics.getPacketCount : Int) - (ms.sim.metrics.getPacketCount : Int) :
            Int) : ℚ) < injectionRate * (ms2.sim.totalNodes : ℚ) * (6 / 10) then
        ms.lowThroughputCycles + 1 else 0) ∧
    ((ms2.lowThroughputCycles : ℚ) > (config.measurementCycles : ℚ) * (2 / 10) →
      (Simulator.finishRun ms2 injectionRate config).metrics.saturated = true ∧
      (Simulator.finishRun ms2 injectionRate config).metrics.isSaturated = true) := by
  refine ⟨(measureCycle_counters injectionRate config draws ms ms2 cycle hrun hstep).1, ?_⟩
  intro hlow
  have hsat : (Simulator.finishRun ms2 injectionRate config).metrics.saturated = true := by
    rw [(finishRun_metrics ms2 injectionRate config).2.2]
    exact saturationVerdict_low _ _ _ _ _ _ _ _ hlow
  exact ⟨hsat, (isSaturated_of_flag _ hsat).1⟩

theorem low_throughput_trigger_witness :
    ∃ ms2, (({ (Simulator.ofMesh 2 1).reset with currentInjectionRate := 1 / 10 } :
        Simulator).measureStart).stopped = false ∧
      Simulator.measureCycle (1 / 10) ⟨0, 10, 4⟩ (fun _ _ => ⟨1, [0, 1]⟩)
        (some ({ (Simulator.ofMesh 2 1).reset with currentInjectionRate := 1 / 10 } :
          Simulator).measureStart) 0 = some ms2 ∧
      ms2.lowThroughputCycles =
        (if (((ms2.sim.metrics.getPacketCount : Int) -
            ((({ (Simulator.ofMesh 2 1).reset with currentInjectionRate := 1 / 10 } :
              Simulator).measureStart).sim.metrics.getPacketCount : Int) : Int) : ℚ) <
            1 / 10 * (ms2.sim.totalNodes : ℚ) * (6 / 10) then
          (({ (Simulator.ofMesh 2 1).reset with currentInjectionRate := 1 / 10 } :
            Simulator).measureStart).lowThroughputCycles + 1 else 0) := by
  obtain ⟨ms2, h⟩ := measureLoop_isSome (1 / 10) ⟨0, 10, 4⟩ (fun _ _ => ⟨1, [0, 1]⟩)
    (drawsEnd_zero_one 1)
    ({ (Simulator.ofMesh 2 1).reset with currentInjectionRate := 1 / 10 } :
      Simulator).measureStart 1
  have h2 : Simulator.measureCycle (1 / 10) ⟨0, 10, 4⟩ (fun _ _ => ⟨1, [0, 1]⟩)
      (some ({ (Simulator.ofMesh 2 1).reset with currentInjectionRate := 1 / 10 } :
        Simulator).measureStart) 0 = some ms2 := h
  exact ⟨ms2, rfl, h2, (low_throughput_trigger _ _ _ _ ms2 0 rfl h2).1⟩

/-- C23: early termination. If after the measurement cycle `k` (the loop has run `k + 1`
times from the state `ms0`) the number of consecutive cycles with zero retired packets
exceeds `0.2 * measurementCycles`, then the loop has stopped: every longer execution of
the loop ends in the same state `ms2`, so no later cycle injects or routes; a run whose
warm-up ended in the simulator of `ms0` returns the state computed from `ms2`, with the
recorded latencies, hop counts, congestion events and buffers of `ms2` kept, and the run
is marked saturated. -/
theorem early_termination (injectionRate : ℚ) (config : RunConfig)
    (draws : Int → Nat → InjectionDraw) (ms0 ms2 : MeasureState) (k : Nat)
    (hk : (k : Int) < config.measurementCycles)
    (hloop : Simulator.measureLoop injectionRate config draws ms0 (k + 1) = some ms2)
    (hzero : (ms2.consecutiveZeroReceived : ℚ) > (config.measurementCycles : ℚ) * (2 / 10)) :
    ms2.stopped = true ∧
    (∀ cycles, k + 1 ≤ cycles →
      Simulator.measureLoop injectionRate config draws ms0 cycles = some ms2) ∧
    (∀ sim s : Simulator,
      sim.runCycles injectionRate draws config.warmupCycles.toNat = some s →
      s.measureStart = ms0 →
      sim.runSimulation injectionRate config draws =
        some (Simulator.finishRun ms2 injectionRate config)) ∧
    (Simulator.finishRun ms2 injectionRate config).metrics.saturated = true ∧
    (Simulator.finishRun ms2 injectionRate config).metrics.isSaturated = true ∧
    (Simulator.finishRun ms2 injectionRate config).metrics.packetLatencies =
      ms2.sim.metrics.packetLatencies ∧
    (Simulator.finishRun ms2 injectionRate config).metrics.latencies =
      ms2.sim.metrics.latencies ∧
    (Simulator.finishRun ms2 injectionRate config).metrics.hopCounts =
      ms2.sim.metrics.hopCounts ∧
    (Simulator.finishRun ms2 injectionRate config).metrics.congestionEvents =
      ms2.sim.metrics.congestionEvents ∧
    (Simulator.finishRun ms2 injectionRate config).nodeBuffers = ms2.sim.nodeBuffers := by
  have hstop : ms2.stopped = true := by
    rw [measureLoop_succ] at hloop
    cases hprev : Simulator.measureLoop injectionRate config draws ms0 k with
    | none =>
        rw [hprev] at hloop
        simp [Simulator.measureCycle] at hloop
    | some ms1 =>
        rw [hprev] at hloop
        cases h1 : ms1.stopped with
        | true =>
            rw [measureCycle_stopped _ _ _ _ _ h1] at hloop
            simp only [Option.some.injEq] at hloop
            rw [← hloop]
            exact h1
        | false =>
            rw [(measureCycle_counters injectionRate config draws ms1 ms2 k h1 hloop).2.2]
            exact decide_eq_true hzero
  have hstay := measureLoop_stays injectionRate config draws ms0 ms2 (k + 1) hloop hstop
  have hsat : (Simulator.finishRun ms2 injectionRate config).metrics.saturated = true := by
    rw [(finishRun_metrics ms2 injectionRate config).2.2]
    apply saturationVerdict_zero
    have hN : (0 : ℚ) < (config.measurementCycles : ℚ) := by
      have : (0 : Int) < config.measurementCycles := by omega
      exact_mod_cast this
    linarith
  refine ⟨hstop, hstay, ?_, hsat, (isSaturated_of_flag _ hsat).1, rfl, rfl, rfl, rfl, rfl⟩
  intro sim s hs hms
  rw [runSimulation_eq_measureLoop, hs]
  dsimp only
  rw [hms, hstay config.measurementCycles.toNat (by omega)]

theorem early_termination_witness :
    ∃ ms2, Simulator.measureLoop 1 ⟨0, 5, 4⟩ (fun _ _ => ⟨1, [0, 1]⟩)
        ({ (Simulator.ofMesh 2 1).reset with currentInjectionRate := 1 } :
          Simulator).measureStart (1 + 1) = some ms2 ∧
      ((1 : Nat) : Int) < (⟨0, 5, 4⟩ : RunConfig).measurementCycles ∧
      (ms2.consecutiveZeroReceived : ℚ) >
        (((⟨0, 5, 4⟩ : RunConfig).measurementCycles : Int) : ℚ) * (2 / 10) ∧
      ms2.stopped = true ∧
      (Simulator.finishRun ms2 1 ⟨0, 5, 4⟩).metrics.saturated = true := by
  obtain ⟨ms2, h⟩ := measureLoop_isSome 1 ⟨0, 5, 4⟩ (fun _ _ => ⟨1, [0, 1]⟩)
    (drawsEnd_zero_one 1)
    ({ (Simulator.ofMesh 2 1).reset with currentInjectionRate := 1 } : Simulator).measureStart
    (1 + 1)
  have h2 : Simulator.measureLoop 1 ⟨0, 5, 4⟩ (fun _ _ => ⟨1, [0, 1]⟩)
      ({ (Simulator.ofMesh 2 1).reset with currentInjectionRate := 1 } :
        Simulator).measureStart (1 + 1) = some ms2 := h
  have hc : (Simulator.measureLoop 1 ⟨0, 5, 4⟩ (fun _ _ => ⟨1, [0, 1]⟩)
      ({ (Simulator.ofMesh 2 1).reset with currentInjectionRate := 1 } :
        Simulator).measureStart (1 + 1)).map (fun ms => ms.consecutiveZeroReceived) =
      some 2 := by
    decide!
  rw [h2] at hc
  simp only [Option.map_some', Option.some.injEq] at hc
  have hk : ((1 : Nat) : Int) < (⟨0, 5, 4⟩ : RunConfig).measurementCycles := by decide
  have hzero : (ms2.consecutiveZeroReceived : ℚ) >
      (((⟨0, 5, 4⟩ : RunConfig).measurementCycles : Int) : ℚ) * (2 / 10) := by
    rw [hc]
    norm_num
  have key := early_termination 1 ⟨0, 5, 4⟩ (fun _ _ => ⟨1, [0, 1]⟩) _ ms2 1 hk h2 hzero
  exact ⟨ms2, h2, hk, hzero, key.1, key.2.2.2.1⟩

/-- C24 fails on the code: `startMeasurement` clears the packet latencies and the
throughput vectors only. First run: the 2 x 1 mesh at rate 0.01 with one warm-up and one
measurement cycle, the node `(0, 0)` injecting a packet for `(1, 0)` in the warm-up cycle
and nothing in the measurement cycle. The packet is retired in the warm-up cycle; after
the run `getPacketCount()` is 0, yet `getAverageHopCount()` is 1 and `getAverageLatency()`
and `getAveragePacketDelay()` are the latency of that packet, about 15.05, where the
records of the measurement phase alone give 0 for all three. Second run: the hypercube of
dimension 1 at rate 0.1, both nodes injecting in every cycle, 5 warm-up cycles and one
measurement cycle: one congestion event is raised in the warm-up, one in the measurement
cycle, and `getCongestionEvents()` is 2 after the run. -/
theorem warmup_records_leak :
    ((Simulator.ofMesh 2 1).runSimulation (1 / 100) ⟨1, 1, 4⟩
        (fun c n => if c = 0 ∧ n = 0 then ⟨0, [1]⟩ else ⟨1, [0, 1]⟩)).map
      (fun r => (r.metrics.getPacketCount, r.metrics.getAverageHopCount,
        r.metrics.getAverageLatency, r.metrics.getAveragePacketDelay)) =
      some (0, 1, 154241998561157 / 10251562500000, 154241998561157 / 10251562500000) ∧
    ((((Metrics.new.startMeasurement.recordFlitThroughput 0).setSaturated
        true).endMeasurement).getPacketCount,
      (((Metrics.new.startMeasurement.recordFlitThroughput 0).setSaturated
        true).endMeasurement).getAverageHopCount,
      (((Metrics.new.startMeasurement.recordFlitThroughput 0).setSaturated
        true).endMeasurement).getAverageLatency,
      (((Metrics.new.startMeasurement.recordFlitThroughput 0).setSaturated
        true).endMeasurement).getAveragePacketDelay) = (0, 0, 0, 0) ∧
    ((Simulator.ofHypercube (HypercubeNetwork.new 1).initializeTopology).runCycles (1 / 10)
        (fun _ _ => ⟨0, [0, 1]⟩) 5).map (fun s => s.metrics.getCongestionEvents) = some 1 ∧
    ((Simulator.ofHypercube (HypercubeNetwork.new 1).initializeTopology).runSimulation (1 / 10)
        ⟨5, 1, 4⟩ (fun _ _ => ⟨0, [0, 1]⟩)).map (fun r => r.metrics.getCongestionEvents) =
      some 2 := by
  decide!

/-! ## Network utilization -/

theorem foldl_option_sum {α β : Type} (step : ℚ → α → ℚ) (f : α → Option β) (g : β → ℚ)
    (hnone : ∀ t x, f x = none → step t x = t)
    (hsome : ∀ t x y, f x = some y → step t x = t + g y) (l : List α) (a : ℚ) :
    l.foldl step a = a + ((l.filterMap f).map g).sum := by
  induction l generalizing a with
  | nil => simp
  | cons x xs ih =>
      simp only [List.foldl_cons, List.filterMap_cons]
      rw [ih]
      cases hx : f x with
      | none => rw [hnone a x hx]
      | some y =>
          rw [hsome a x y hx]
          simp only [List.map_cons, List.sum_cons]
          ring

theorem foldl_flatMap_sum {α β : Type} (step : ℚ → α → ℚ) (inner : α → List β) (g : β → ℚ)
    (hstep : ∀ t x, step t x = t + ((inner x).map g).sum) (l : List α) (a : ℚ) :
    l.foldl step a = a + ((l.flatMap inner).map g).sum := by
  induction l generalizing a with
  | nil => simp
  | cons x xs ih =>
      simp only [List.foldl_cons, List.flatMap_cons, List.map_append, List.sum_append]
      rw [ih, hstep]
      ring

theorem filterMap_map_option {α β γ : Type} (f : α → Option β) (c : β → γ) (l : List α) :
    l.filterMap (fun x => (f x).map c) = (l.filterMap f).map c := by
  induction l with
  | nil => rfl
  | cons x xs ih =>
      simp only [List.filterMap_cons]
      cases f x with
      | none => simpa using ih
      | some y => simpa using ih

theorem nodeRefs_hypercube (n : Nat) :
    (Simulator.ofHypercube (HypercubeNetwork.new n).initializeTopology).nodeRefs =
      (List.range (2 ^ n)).map (fun v => NodeRef.cube (HypercubeNetwork.newNode n v)) := by
  unfold Simulator.nodeRefs
  have ht : (Simulator.ofHypercube
      (HypercubeNetwork.new n).initializeTopology).hypercubeNet.totalNodes = 2 ^ n := rfl
  have hm : (Simulator.ofHypercube
      (HypercubeNetwork.new n).initializeTopology).isHypercubeMode = true := rfl
  rw [if_pos hm, ht]
  rw [← List.filterMap_eq_map]
  apply List.filterMap_congr
  intro v hv
  have hv2 : v < 2 ^ n := List.mem_range.mp hv
  have : (Simulator.ofHypercube
      (HypercubeNetwork.new n).initializeTopology).hypercubeNet.getHypercubeNode (v : Int) =
      some (HypercubeNetwork.newNode n v) := getHypercubeNode_some n v hv2
  rw [this]
  rfl

theorem nodeRefs_mesh (w h : Nat) :
    (Simulator.ofMesh w h).nodeRefs =
      (List.range w).flatMap (fun (x : Nat) => (List.range h).map
        (fun (y : Nat) => NodeRef.mesh (Node.ofXY (x : Int) (y : Int)))) := by
  unfold Simulator.nodeRefs
  have hm : (Simulator.ofMesh w h).isHypercubeMode = false := rfl
  have hx : (Simulator.ofMesh w h).networkSizeX = w := rfl
  have hy : (Simulator.ofMesh w h).networkSizeY = h := rfl
  rw [hm, hx, hy]
  simp only [Bool.false_eq_true, if_false]
  have inner : ∀ x, x ∈ List.range w →
      (List.range h).filterMap (fun (y : Nat) =>
        ((Simulator.ofMesh w h).network.getNode (x : Int) (y : Int)).map NodeRef.mesh) =
      (List.range h).map (fun (y : Nat) => NodeRef.mesh (Node.ofXY (x : Int) (y : Int))) := by
    intro x hxm
    rw [← List.filterMap_eq_map]
    apply List.filterMap_congr
    intro y hym
    have h1 : x < w := List.mem_range.mp hxm
    have h2 : y < h := List.mem_range.mp hym
    have : (Simulator.ofMesh w h).network.getNode (x : Int) (y : Int) =
        some (Node.ofXY (x : Int) (y : Int)) := by
      have e : (Simulator.ofMesh w h).network = Network.new w h := rfl
      rw [e, mesh_getNode_new, mesh_getNode]
      simp [h1, h2]
    rw [this]
    rfl
  have : ∀ l : List Nat, (∀ x ∈ l, x ∈ List.range w) →
      l.flatMap (fun (x : Nat) => (List.range h).filterMap (fun (y : Nat) =>
        ((Simulator.ofMesh w h).network.getNode (x : Int) (y : Int)).map NodeRef.mesh)) =
      l.flatMap (fun (x : Nat) => (List.range h).map
        (fun (y : Nat) => NodeRef.mesh (Node.ofXY (x : Int) (y : Int)))) := by
    intro l
    induction l with
    | nil => intro _; rfl
    | cons x xs ih =>
        intro hl
        simp only [List.flatMap_cons]
        rw [inner x (hl x (List.mem_cons_self _ _)),
          ih (fun y hy => hl y (List.mem_cons_of_mem _ hy))]
  exact this _ (fun x hx => hx)

/-- C21: `calculateNetworkUtilization` returns
`min(1, 0.8 * avgBuf + 0.2 * avgLink + 0.2 * (rate / 0.15)^3)`, where `avgBuf` is the sum
over the nodes of `bufferLength / maxBufferSize` divided by the number of nodes (0 for an
empty network) and `avgLink` is the mean of `count / 3` over the entries of
`linkUtilization`, the directed links used so far in the cycle (0 if there is none). The
value is never above 1, whatever the buffers hold, and never below 0 when the rate and
the link counters are at least 0 and `maxBufferSize` is positive. On the initialized
hypercube of dimension `n` the nodes summed over are all `2 ^ n` nodes, on the `w` x `h`
mesh all `w * h` nodes. -/
theorem calculateNetworkUtilization_formula (sim : Simulator)
    (nodeBuffers : NodeRef → List Packet) (linkUtilization : CountMap (NodeRef × NodeRef))
    (n w h : Nat) :
    sim.calculateNetworkUtilization nodeBuffers linkUtilization =
      min 1 (8 / 10 *
          (if sim.totalNodes > 0 then
            (sim.nodeRefs.map (fun node =>
              ((nodeBuffers node).length : ℚ) / (sim.maxBufferSize : ℚ))).sum /
              (sim.totalNodes : ℚ)
           else 0) +
        2 / 10 *
          (if linkUtilization.length > 0 then
            (linkUtilization.map (fun entry => (entry.2 : ℚ) / 3)).sum /
              (linkUtilization.length : ℚ)
           else 0) +
        2 / 10 * (sim.currentInjectionRate / (15 / 100)) ^ 3) ∧
    sim.calculateNetworkUtilization nodeBuffers linkUtilization ≤ 1 ∧
    (0 < sim.maxBufferSize → (∀ entry ∈ linkUtilization, 0 ≤ entry.2) →
      0 ≤ sim.currentInjectionRate →
      0 ≤ sim.calculateNetworkUtilization nodeBuffers linkUtilization) ∧
    ((Simulator.ofHypercube (HypercubeNetwork.new n).initializeTopology).nodeRefs =
        (List.range (2 ^ n)).map (fun v => NodeRef.cube (HypercubeNetwork.newNode n v)) ∧
      (Simulator.ofHypercube (HypercubeNetwork.new n).initializeTopology).totalNodes =
        ((2 ^ n : Nat) : Int)) ∧
    ((Simulator.ofMesh w h).nodeRefs =
        (List.range w).flatMap (fun (x : Nat) => (List.range h).map
          (fun (y : Nat) => NodeRef.mesh (Node.ofXY (x : Int) (y : Int)))) ∧
      (Simulator.ofMesh w h).totalNodes = (w : Int) * (h : Int)) := by
  refine ⟨?_, min_le_right _ _, ?_, ⟨nodeRefs_hypercube n, rfl⟩, ⟨nodeRefs_mesh w h, rfl⟩⟩
  · have hlink : linkUtilization.foldl (fun (total : ℚ) pair => total + (pair.2 : ℚ) / 3) 0 =
        (linkUtilization.map (fun entry => (entry.2 : ℚ) / 3)).sum := by
      have key : ∀ (l : List ((NodeRef × NodeRef) × Int)) (a : ℚ),
          l.foldl (fun (total : ℚ) pair => total + (pair.2 : ℚ) / 3) a =
            a + (l.map (fun entry => (entry.2 : ℚ) / 3)).sum := by
        intro l
        induction l with
        | nil => intro a; simp
        | cons x xs ih =>
            intro a
            simp only [List.foldl_cons, List.map_cons, List.sum_cons]
            rw [ih]
            ring
      rw [key, zero_add]
    unfold Simulator.calculateNetworkUtilization
    dsimp only
    rw [hlink, min_comm]
    have hlen : ((linkUtilization.length : Int) > 0) ↔ (linkUtilization.length > 0) := by
      omega
    have hcast : (((linkUtilization.length : Int)) : ℚ) = (linkUtilization.length : ℚ) := by
      push_cast
      rfl
    cases hmode : sim.isHypercubeMode with
    | true =>
        have ht : sim.totalNodes = (sim.hypercubeNet.totalNodes : Int) := by
          unfold Simulator.totalNodes
          rw [hmode]
          rfl
        have hn : sim.nodeRefs = ((List.range sim.hypercubeNet.totalNodes).filterMap
            (fun (nodeId : Nat) => sim.hypercubeNet.getHypercubeNode (nodeId : Int))).map
            NodeRef.cube := by
          unfold Simulator.nodeRefs
          rw [if_pos hmode]
          exact filterMap_map_option _ _ _
        simp only [if_true]
        rw [foldl_option_sum _
          (fun (nodeId : Nat) => sim.hypercubeNet.getHypercubeNode (nodeId : Int))
          (fun node => ((nodeBuffers (NodeRef.cube node)).length : ℚ) / (sim.maxBufferSize : ℚ))
          (by intro t x hx; simp only [hx])
          (by intro t x y hx; simp only [hx])]
        rw [ht, hn, hcast, List.map_map, zero_add]
        simp only [hlen]
        congr 1
        simp only [Function.comp_def]
        ring
    | false =>
        have ht : sim.totalNodes = (sim.networkSizeX : Int) * (sim.networkSizeY : Int) := by
          unfold Simulator.totalNodes
          rw [hmode]
          rfl
        have hn : sim.nodeRefs = (List.range sim.networkSizeX).flatMap
            (fun (x : Nat) => ((List.range sim.networkSizeY).filterMap
              (fun (y : Nat) => sim.network.getNode (x : Int) (y : Int))).map NodeRef.mesh) := by
          unfold Simulator.nodeRefs
          rw [hmode]
          simp only [Bool.false_eq_true, if_false]
          congr 1
          funext x
          exact filterMap_map_option _ _ _
        simp only [Bool.false_eq_true, if_false]
        rw [foldl_flatMap_sum _
          (fun (x : Nat) => ((List.range sim.networkSizeY).filterMap
              (fun (y : Nat) => sim.network.getNode (x : Int) (y : Int))).map NodeRef.mesh)
          (fun node => ((nodeBuffers node).length : ℚ) / (sim.maxBufferSize : ℚ))
          (by
            intro t x
            rw [foldl_option_sum _
              (fun (y : Nat) => sim.network.getNode (x : Int) (y : Int))
              (fun node => ((nodeBuffers (NodeRef.mesh node)).length : ℚ) /
                (sim.maxBufferSize : ℚ))
              (by intro t x hx; simp only [hx])
              (by intro t x y hx; simp only [hx])]
            rw [List.map_map]
            rfl)]
        rw [ht, hn, hcast, zero_add]
        simp only [hlen]
        congr 1
        ring
  · intro hbuf hlink hrate
    exact (calculateNetworkUtilization_range sim nodeBuffers linkUtilization (le_of_lt hbuf)
      hlink hrate).1

theorem calculateNetworkUtilization_formula_witness :
    (0 : Int) < (Simulator.ofMesh 2 1).maxBufferSize ∧
    (∀ entry ∈ ([((NodeRef.mesh (Node.ofXY 0 0), NodeRef.mesh (Node.ofXY 1 0)), 2)] :
      CountMap (NodeRef × NodeRef)), 0 ≤ entry.2) ∧
    (0 : ℚ) ≤ (Simulator.ofMesh 2 1).currentInjectionRate ∧
    0 ≤ (Simulator.ofMesh 2 1).calculateNetworkUtilization (fun _ => [])
      [((NodeRef.mesh (Node.ofXY 0 0), NodeRef.mesh (Node.ofXY 1 0)), 2)] :=
  ⟨by decide, by intro entry he; simp at he; subst he; decide, le_refl _,
   (calculateNetworkUtilization_formula (Simulator.ofMesh 2 1) (fun _ => [])
     [((NodeRef.mesh (Node.ofXY 0 0), NodeRef.mesh (Node.ofXY 1 0)), 2)] 0 0 0).2.2.1
     (by decide) (by intro entry he; simp at he; subst he; decide) (le_refl _)⟩

/-! ## The link structure of the hypercube -/

theorem foldl_flatMap_nested {α β σ : Type} (g : σ → β → σ) (f : α → List β) (l : List α)
    (s : σ) : (l.flatMap f).foldl g s = l.foldl (fun s x => (f x).foldl g s) s := by
  induction l generalizing s with
  | nil => rfl
  | cons x xs ih => simp only [List.flatMap_cons, List.foldl_append, List.foldl_cons, ih]

theorem foldl_filter_step {α σ : Type} (c : α → Bool) (g step : σ → α → σ) (l : List α)
    (h : ∀ s x, x ∈ l → step s x = if c x = true then g s x else s) (s : σ) :
    l.foldl step s = (l.filter c).foldl g s := by
  induction l generalizing s with
  | nil => rfl
  | cons x xs ih =>
      have ih2 := ih (fun s y hy => h s y (List.mem_cons_of_mem _ hy))
      simp only [List.foldl_cons, List.filter_cons]
      rw [h s x (List.mem_cons_self _ _)]
      by_cases hc : c x = true
      · simp only [hc, if_true, List.foldl_cons]
        exact ih2 _
      · simp only [hc, if_false]
        exact ih2 _

theorem linkStep_built (n : Nat) (t : LinkTable HypercubeNode) (v d : Nat) (hv : v < 2 ^ n)
    (hd : d < n) :
    HypercubeNetwork.linkStep (HypercubeNetwork.new n).createHypercubeNodes.hypercubeNodes
      t v d =
      if decide (v < v ^^^ 2 ^ d) = true then
        t.pushLink (hypercubeLink n (v, d)).sourceNode (hypercubeLink n (v, d)).destinationNode
          (hypercubeLink n (v, d)).direction
      else t := by
  unfold HypercubeNetwork.linkStep
  simp only [nodes_lookup, Nat.one_shiftLeft, gt_iff_lt, hv, flip_lt n v d hv hd, if_true,
    decide_eq_true_eq]
  rfl

theorem mem_hypercubeEdges (n : Nat) (p : Nat × Nat) :
    p ∈ hypercubeEdges n ↔ p.1 < 2 ^ n ∧ p.2 < n ∧ p.1 < p.1 ^^^ 2 ^ p.2 := by
  unfold hypercubeEdges
  obtain ⟨v, d⟩ := p
  simp only [List.mem_filter, decide_eq_true_eq]
  constructor
  · rintro ⟨h1, h2⟩
    have h := List.mem_product.mp h1
    exact ⟨List.mem_range.mp h.1, List.mem_range.mp h.2, h2⟩
  · rintro ⟨h1, h2, h3⟩
    exact ⟨List.mem_product.mpr ⟨List.mem_range.mpr h1, List.mem_range.mpr h2⟩, h3⟩

theorem nodup_hypercubeEdges (n : Nat) : (hypercubeEdges n).Nodup :=
  List.Nodup.filter _ (List.Nodup.product (List.nodup_range _) (List.nodup_range _))

theorem hypercube_table_edges (n : Nat) :
    (HypercubeNetwork.new n).initializeTopology.table =
      (hypercubeEdges n).foldl (fun t p =>
        t.pushLink (hypercubeLink n p).sourceNode (hypercubeLink n p).destinationNode
          (hypercubeLink n p).direction) LinkTable.empty := by
  rw [hypercube_table_eq]
  unfold hypercubeEdges
  rw [← foldl_filter_step (fun p => decide (p.1 < p.1 ^^^ 2 ^ p.2))
    (fun t p => t.pushLink (hypercubeLink n p).sourceNode (hypercubeLink n p).destinationNode
      (hypercubeLink n p).direction)
    (fun t p => HypercubeNetwork.linkStep
      (HypercubeNetwork.new n).createHypercubeNodes.hypercubeNodes t p.1 p.2)]
  · unfold List.product
    rw [foldl_flatMap_nested]
    simp only [List.foldl_map]
  · intro s p hp
    obtain ⟨v, d⟩ := p
    have h := List.mem_product.mp hp
    exact linkStep_built n s v d (List.mem_range.mp h.1) (List.mem_range.mp h.2)

theorem pushLink_nodeLinks {N : Type} [DecidableEq N] (t : LinkTable N) (a b : N)
    (d : Direction) (hab : a ≠ b) (m : N) :
    (t.pushLink a b d).nodeLinks m =
      if m = a ∨ m = b then t.nodeLinks m ++ [t.links.length] else t.nodeLinks m := by
  simp only [LinkTable.pushLink, LinkTable.addLink]
  by_cases h1 : m = a
  · have h2 : ¬ m = b := by
      intro h
      exact hab (h1.symm.trans h)
    simp [h1, h2, hab]
  · by_cases h2 : m = b
    · subst h2
      simp [h1, hab]
    · simp [h1, h2]

theorem LinkTable.indexed_empty {N : Type} [DecidableEq N] :
    (LinkTable.empty : LinkTable N).Indexed := by
  intro m
  simp [LinkTable.empty]

theorem LinkTable.indexed_pushLink {N : Type} [DecidableEq N] (t : LinkTable N) (a b : N)
    (d : Direction) (hab : a ≠ b) (ht : t.Indexed) : (t.pushLink a b d).Indexed := by
  intro m
  obtain ⟨hnd, hmem, hlen⟩ := ht m
  have hlinks : (t.pushLink a b d).links = t.links ++ [Link.new a b d] := rfl
  have htouch : (Link.new a b d).touches m = true ↔ (m = a ∨ m = b) := by
    simp only [Link.touches, Link.new, decide_eq_true_eq]
    constructor
    · rintro (h | h)
      · exact Or.inl h.symm
      · exact Or.inr h.symm
    · rintro (h | h)
      · exact Or.inl h.symm
      · exact Or.inr h.symm
  have hbound : ∀ i, i ∈ t.nodeLinks m → i < t.links.length := by
    intro i hi
    obtain ⟨l, hl, _⟩ := (hmem i).mp hi
    exact (List.getElem?_eq_some.mp hl).1
  have hold : ∀ i, i < t.links.length →
      (t.links ++ [Link.new a b d])[i]? = t.links[i]? := by
    intro i hi
    exact List.getElem?_append_left hi
  have hnew : (t.links ++ [Link.new a b d])[t.links.length]? = some (Link.new a b d) := by
    simp
  rw [pushLink_nodeLinks t a b d hab m, hlinks, List.countP_append]
  by_cases hm : m = a ∨ m = b
  · rw [if_pos hm]
    refine ⟨?_, ?_, ?_⟩
    · rw [List.nodup_append]
      refine ⟨hnd, List.nodup_singleton _, ?_⟩
      intro i hi hi2
      have := hbound i hi
      have e : i = t.links.length := by simpa using hi2
      omega
    · intro i
      rw [List.mem_append, List.mem_singleton]
      constructor
      · rintro (hi | hi)
        · obtain ⟨l, hl, hq⟩ := (hmem i).mp hi
          exact ⟨l, by rw [hold i (hbound i hi)]; exact hl, hq⟩
        · subst hi
          exact ⟨_, hnew, htouch.mpr hm⟩
      · rintro ⟨l, hl, hq⟩
        by_cases hi : i < t.links.length
        · rw [hold i hi] at hl
          exact Or.inl ((hmem i).mpr ⟨l, hl, hq⟩)
        · right
          have hi2 := (List.getElem?_eq_some.mp hl).1
          simp only [List.length_append, List.length_singleton] at hi2
          omega
    · rw [List.length_append, hlen, List.length_singleton]
      congr 1
      simp [List.countP_cons, htouch.mpr hm]
  · rw [if_neg hm]
    have hno : ¬ (Link.new a b d).touches m = true := fun h => hm (htouch.mp h)
    refine ⟨hnd, ?_, ?_⟩
    · intro i
      constructor
      · intro hi
        obtain ⟨l, hl, hq⟩ := (hmem i).mp hi
        exact ⟨l, by rw [hold i (hbound i hi)]; exact hl, hq⟩
      · rintro ⟨l, hl, hq⟩
        by_cases hi : i < t.links.length
        · rw [hold i hi] at hl
          exact (hmem i).mpr ⟨l, hl, hq⟩
        · exfalso
          have hi2 := (List.getElem?_eq_some.mp hl).1
          simp only [List.length_append, List.length_singleton] at hi2
          have e : i = t.links.length := by omega
          subst e
          rw [hnew] at hl
          cases hl
          exact hno hq
    · rw [hlen]
      simp [List.countP_cons, hno]

theorem foldl_pushLink {N ε : Type} [DecidableEq N] (mk : ε → Link N) (es : List ε)
    (hne : ∀ e ∈ es, (mk e).sourceNode ≠ (mk e).destinationNode)
    (hfree : ∀ e ∈ es, mk e = Link.new (mk e).sourceNode (mk e).destinationNode (mk e).direction)
    (t : LinkTable N) (ht : t.Indexed) :
    (es.foldl (fun t e => t.pushLink (mk e).sourceNode (mk e).destinationNode (mk e).direction)
      t).Indexed ∧
    (es.foldl (fun t e => t.pushLink (mk e).sourceNode (mk e).destinationNode (mk e).direction)
      t).links = t.links ++ es.map mk := by
  induction es generalizing t with
  | nil => exact ⟨ht, by simp⟩
  | cons e es ih =>
      simp only [List.foldl_cons, List.map_cons]
      have h1 := ih (fun x hx => hne x (List.mem_cons_of_mem _ hx))
        (fun x hx => hfree x (List.mem_cons_of_mem _ hx))
        (t.pushLink (mk e).sourceNode (mk e).destinationNode (mk e).direction)
        (LinkTable.indexed_pushLink t _ _ _ (hne e (List.mem_cons_self _ _)) ht)
      refine ⟨h1.1, ?_⟩
      rw [h1.2]
      have : (t.pushLink (mk e).sourceNode (mk e).destinationNode (mk e).direction).links =
          t.links ++ [mk e] := by
        simp only [LinkTable.pushLink]
        rw [← hfree e (List.mem_cons_self _ _)]
      rw [this, List.append_assoc]
      rfl

theorem hypercube_links_eq (n : Nat) :
    (HypercubeNetwork.new n).initializeTopology.table.Indexed ∧
    (HypercubeNetwork.new n).initializeTopology.table.links =
      (hypercubeEdges n).map (hypercubeLink n) := by
  rw [hypercube_table_edges]
  have h := foldl_pushLink (hypercubeLink n) (hypercubeEdges n)
    (fun e _ h => flip_ne e.1 e.2 (newNode_inj n _ _ h).symm)
    (fun e _ => rfl) LinkTable.empty LinkTable.indexed_empty
  refine ⟨h.1, ?_⟩
  rw [h.2]
  rfl

theorem popcount_two_pow (d : Nat) : popcount (2 ^ d) = 1 := by
  induction d with
  | zero => rfl
  | succ d ih =>
      rw [popcount_step]
      have h1 : 2 ^ (d + 1) % 2 = 0 := by
        rw [pow_succ]
        exact Nat.mul_mod_left _ _
      have h2 : 2 ^ (d + 1) / 2 = 2 ^ d := by
        rw [pow_succ]
        exact Nat.mul_div_cancel _ (by decide)
      rw [h1, h2, ih]

theorem popcount_eq_one (x : Nat) (h : popcount x = 1) : ∃ d, x = 2 ^ d := by
  induction x using Nat.strong_induction_on with
  | _ x ih =>
      rw [popcount_step] at h
      rcases Nat.mod_two_eq_zero_or_one x with h0 | h1
      · have hx0 : x ≠ 0 := by
          intro hx
          subst hx
          simp [popcount_zero] at h
        have h2 : popcount (x / 2) = 1 := by omega
        obtain ⟨d, hd⟩ := ih (x / 2) (by omega) h2
        refine ⟨d + 1, ?_⟩
        rw [pow_succ, ← hd]
        omega
      · have h2 : popcount (x / 2) = 0 := by omega
        have h3 := (popcount_eq_zero_iff (x / 2)).mp h2
        refine ⟨0, ?_⟩
        simp only [pow_zero]
        omega

theorem xor_eq_two_pow_iff (a b d : Nat) : a ^^^ b = 2 ^ d ↔ b = a ^^^ 2 ^ d := by
  constructor
  · intro h
    rw [← h, ← Nat.xor_assoc, Nat.xor_self, Nat.zero_xor]
  · intro h
    rw [h, ← Nat.xor_assoc, Nat.xor_self, Nat.zero_xor]

theorem hypercubeLink_joins (n : Nat) (p : Nat × Nat) (a b : Nat) :
    (hypercubeLink n p).joins (HypercubeNetwork.newNode n a) (HypercubeNetwork.newNode n b)
      = true ↔
    (p.1 = a ∧ p.1 ^^^ 2 ^ p.2 = b) ∨ (p.1 = b ∧ p.1 ^^^ 2 ^ p.2 = a) := by
  simp only [Link.joins, hypercubeLink, Link.new, decide_eq_true_eq]
  constructor
  · rintro (⟨h1, h2⟩ | ⟨h1, h2⟩)
    · exact Or.inl ⟨newNode_inj n _ _ h1, newNode_inj n _ _ h2⟩
    · exact Or.inr ⟨newNode_inj n _ _ h1, newNode_inj n _ _ h2⟩
  · rintro (⟨h1, h2⟩ | ⟨h1, h2⟩)
    · exact Or.inl ⟨by rw [h1], by rw [h2]⟩
    · exact Or.inr ⟨by rw [h1], by rw [h2]⟩

theorem hypercubeLink_touches (n : Nat) (p : Nat × Nat) (v : Nat) :
    (hypercubeLink n p).touches (HypercubeNetwork.newNode n v) = true ↔
    (p.1 = v ∨ p.1 ^^^ 2 ^ p.2 = v) := by
  simp only [Link.touches, hypercubeLink, Link.new, decide_eq_true_eq]
  constructor
  · rintro (h | h)
    · exact Or.inl (newNode_inj n _ _ h)
    · exact Or.inr (newNode_inj n _ _ h)
  · rintro (h | h)
    · exact Or.inl (by rw [h])
    · exact Or.inr (by rw [h])

theorem countP_eq_one_of_unique {α : Type} [DecidableEq α] (l : List α) (hl : l.Nodup)
    (p : α → Bool) (x : α) (hx : x ∈ l) (hp : ∀ y ∈ l, p y = true ↔ y = x) :
    l.countP p = 1 := by
  have h1 : l.countP p = l.countP (fun y => y == x) := by
    apply List.countP_congr
    intro y hy
    rw [hp y hy]
    simp
  rw [h1, ← List.count_eq_countP]
  exact List.count_eq_one_of_mem hl hx

/-- Number of links between two nodes whose ids differ in exactly one bit. -/
theorem edge_count_lt (n a b d : Nat) (ha : a < 2 ^ n) (hd : d < n) (hb : b = a ^^^ 2 ^ d)
    (hab : a < b) :
    (hypercubeEdges n).countP (fun p => decide ((p.1 = a ∧ p.1 ^^^ 2 ^ p.2 = b) ∨
      (p.1 = b ∧ p.1 ^^^ 2 ^ p.2 = a))) = 1 := by
  apply countP_eq_one_of_unique _ (nodup_hypercubeEdges n) _ (a, d)
  · rw [mem_hypercubeEdges]
    exact ⟨ha, hd, by rw [← hb]; exact hab⟩
  · intro p hp
    obtain ⟨v, e⟩ := p
    rw [mem_hypercubeEdges] at hp
    simp only [decide_eq_true_eq, Prod.mk.injEq]
    constructor
    · rintro (⟨h1, h2⟩ | ⟨h1, h2⟩)
      · refine ⟨h1, ?_⟩
        subst h1
        have h3 : v ^^^ 2 ^ e = v ^^^ 2 ^ d := h2.trans hb
        have h4 : 2 ^ e = 2 ^ d := Nat.xor_right_injective h3
        exact Nat.pow_right_injective (le_refl 2) h4
      · exfalso
        have := hp.2.2
        simp only at this h1 h2
        omega
    · rintro ⟨h1, h2⟩
      subst h1 h2
      exact Or.inl ⟨rfl, hb.symm⟩

theorem edge_count (n a b : Nat) (ha : a < 2 ^ n) (hb : b < 2 ^ n) :
    (hypercubeEdges n).countP (fun p => decide ((p.1 = a ∧ p.1 ^^^ 2 ^ p.2 = b) ∨
      (p.1 = b ∧ p.1 ^^^ 2 ^ p.2 = a))) = if popcount (a ^^^ b) = 1 then 1 else 0 := by
  by_cases h : popcount (a ^^^ b) = 1
  · rw [if_pos h]
    obtain ⟨d, hd⟩ := popcount_eq_one _ h
    have hdn : d < n := by
      have h1 : a ^^^ b < 2 ^ n := Nat.xor_lt_two_pow ha hb
      rw [hd] at h1
      exact (Nat.pow_lt_pow_iff_right (by decide)).mp h1
    have hb2 : b = a ^^^ 2 ^ d := (xor_eq_two_pow_iff a b d).mp hd
    have ha2 : a = b ^^^ 2 ^ d := by rw [hb2, flip_flip]
    have hne : a ≠ b := by
      intro e
      rw [e] at ha2
      exact flip_ne b d ha2.symm
    rcases Nat.lt_or_gt_of_ne hne with hlt | hgt
    · exact edge_count_lt n a b d ha hdn hb2 hlt
    · rw [← edge_count_lt n b a d hb hdn ha2 hgt]
      apply List.countP_congr
      intro p _
      simp only [decide_eq_true_eq]
      exact Or.comm
  · rw [if_neg h]
    rw [List.countP_eq_zero]
    intro p _ hq
    simp only [decide_eq_true_eq] at hq
    apply h
    rcases hq with ⟨h1, h2⟩ | ⟨h1, h2⟩
    · have : a ^^^ b = 2 ^ p.2 := by
        rw [xor_eq_two_pow_iff, ← h1, h2]
      rw [this]
      exact popcount_two_pow _
    · have : a ^^^ b = 2 ^ p.2 := by
        rw [Nat.xor_comm, xor_eq_two_pow_iff, ← h1, h2]
      rw [this]
      exact popcount_two_pow _

theorem degree_count (n v : Nat) (hv : v < 2 ^ n) :
    (hypercubeEdges n).countP (fun p => decide (p.1 = v ∨ p.1 ^^^ 2 ^ p.2 = v)) = n := by
  rw [List.countP_eq_length_filter]
  have hperm : ((hypercubeEdges n).filter
      (fun p => decide (p.1 = v ∨ p.1 ^^^ 2 ^ p.2 = v))).Perm
      ((List.range n).map (fun d => if v < v ^^^ 2 ^ d then (v, d) else (v ^^^ 2 ^ d, d))) := by
    rw [List.perm_ext_iff_of_nodup (List.Nodup.filter _ (nodup_hypercubeEdges n))]
    · intro p
      obtain ⟨u, e⟩ := p
      simp only [List.mem_filter, mem_hypercubeEdges, decide_eq_true_eq, List.mem_map,
        List.mem_range]
      constructor
      · rintro ⟨⟨hu, he, hlt⟩, hq⟩
        refine ⟨e, he, ?_⟩
        rcases hq with h | h
        · subst h
          rw [if_pos hlt]
        · have hu2 : u = v ^^^ 2 ^ e := by rw [← h, flip_flip]
          have hnot : ¬ v < v ^^^ 2 ^ e := by
            rw [← hu2, ← h]
            omega
          rw [if_neg hnot, hu2]
      · rintro ⟨d, hd, hp⟩
        by_cases hlt : v < v ^^^ 2 ^ d
        · rw [if_pos hlt] at hp
          obtain ⟨h1, h2⟩ := Prod.mk.inj hp
          subst h1 h2
          exact ⟨⟨hv, hd, hlt⟩, Or.inl rfl⟩
        · rw [if_neg hlt] at hp
          obtain ⟨h1, h2⟩ := Prod.mk.inj hp
          subst h1 h2
          refine ⟨⟨flip_lt n v d hv hd, hd, ?_⟩, Or.inr (flip_flip v d)⟩
          rw [flip_flip]
          have := flip_ne v d
          omega
    · apply List.Nodup.map _ (List.nodup_range n)
      intro d1 d2 h
      have h2 := congrArg Prod.snd h
      by_cases c1 : v < v ^^^ 2 ^ d1 <;> by_cases c2 : v < v ^^^ 2 ^ d2 <;>
        simp only [c1, c2, if_true, if_false] at h2 <;> exact h2
  rw [hperm.length_eq, List.length_map, List.length_range]

theorem half_count (n d : Nat) (hd : d < n) :
    ((Finset.range (2 ^ n)).filter (fun v => v < v ^^^ 2 ^ d)).card = 2 ^ (n - 1) := by
  have hsum := Finset.filter_card_add_filter_neg_card_eq_card
    (s := Finset.range (2 ^ n)) (fun v => v < v ^^^ 2 ^ d)
  have heq : ((Finset.range (2 ^ n)).filter (fun v => v < v ^^^ 2 ^ d)).card =
      ((Finset.range (2 ^ n)).filter (fun v => ¬ v < v ^^^ 2 ^ d)).card := by
    apply Finset.card_bij (fun v _ => v ^^^ 2 ^ d)
    · intro v hv
      simp only [Finset.mem_filter, Finset.mem_range] at hv ⊢
      refine ⟨flip_lt n v d hv.1 hd, ?_⟩
      rw [flip_flip]
      omega
    · intro v1 _ v2 _ h
      have := congrArg (fun x => x ^^^ 2 ^ d) h
      simpa only [flip_flip] using this
    · intro b hb
      simp only [Finset.mem_filter, Finset.mem_range] at hb
      refine ⟨b ^^^ 2 ^ d, ?_, flip_flip b d⟩
      simp only [Finset.mem_filter, Finset.mem_range]
      refine ⟨flip_lt n b d hb.1 hd, ?_⟩
      rw [flip_flip]
      have := flip_ne b d
      omega
  rw [Finset.card_range] at hsum
  have hpow : 2 ^ n = 2 * 2 ^ (n - 1) := by
    have : n = (n - 1) + 1 := by omega
    conv_lhs => rw [this, pow_succ]
    ring
  omega

theorem hypercubeEdges_length (n : Nat) : (hypercubeEdges n).length = n * 2 ^ (n - 1) := by
  rw [← List.toFinset_card_of_nodup (nodup_hypercubeEdges n)]
  have hset : (hypercubeEdges n).toFinset =
      (Finset.range (2 ^ n) ×ˢ Finset.range n).filter (fun p => p.1 < p.1 ^^^ 2 ^ p.2) := by
    ext p
    simp only [List.mem_toFinset, mem_hypercubeEdges, Finset.mem_filter, Finset.mem_product,
      Finset.mem_range]
    tauto
  rw [hset, Finset.card_filter, Finset.sum_product_right]
  have hinner : ∀ d ∈ Finset.range n,
      (∑ v ∈ Finset.range (2 ^ n), if v < v ^^^ 2 ^ d then 1 else 0) = 2 ^ (n - 1) := by
    intro d hd
    rw [← Finset.card_filter]
    exact half_count n d (Finset.mem_range.mp hd)
  rw [Finset.sum_congr rfl hinner, Finset.sum_const, Finset.card_range, smul_eq_mul]

/-- C30: after `HypercubeNetwork(n).initializeTopology()` the node list holds the `2 ^ n`
nodes with ids `0 .. 2 ^ n - 1`, each once. The link list holds no link twice, has
`n * 2 ^ (n - 1)` entries, and every entry joins two nodes whose ids differ in exactly one
bit. For two node ids `a`, `b` the number of links that join them (in either orientation)
is 1 if `a` and `b` differ in exactly one bit and 0 otherwise. Every node is an end of
exactly `n` links, its own link vector lists exactly these `n` links without repetition,
and for every bit position `d < n` exactly one link joins the node to the node whose id
differs in bit `d`. Node ids are natural numbers here, which is the arithmetic of the
code's `int` for `1 <= n < 31`. -/
theorem hypercube_link_structure (n : Nat) :
    (HypercubeNetwork.new n).initializeTopology.hypercubeNodes =
      (List.range (2 ^ n)).map (HypercubeNetwork.newNode n) ∧
    (HypercubeNetwork.new n).initializeTopology.hypercubeNodes.length = 2 ^ n ∧
    (HypercubeNetwork.new n).initializeTopology.hypercubeNodes.Nodup ∧
    (HypercubeNetwork.new n).initializeTopology.table.links =
      (hypercubeEdges n).map (hypercubeLink n) ∧
    (HypercubeNetwork.new n).initializeTopology.table.links.Nodup ∧
    (HypercubeNetwork.new n).initializeTopology.table.links.length = n * 2 ^ (n - 1) ∧
    (∀ l ∈ (HypercubeNetwork.new n).initializeTopology.table.links,
      ∃ a b, a < 2 ^ n ∧ b < 2 ^ n ∧ popcount (a ^^^ b) = 1 ∧
        l.sourceNode = HypercubeNetwork.newNode n a ∧
        l.destinationNode = HypercubeNetwork.newNode n b) ∧
    (∀ a b, a < 2 ^ n → b < 2 ^ n →
      (HypercubeNetwork.new n).initializeTopology.table.links.countP
        (fun l => l.joins (HypercubeNetwork.newNode n a) (HypercubeNetwork.newNode n b)) =
        if popcount (a ^^^ b) = 1 then 1 else 0) ∧
    (∀ v, v < 2 ^ n →
      (HypercubeNetwork.new n).initializeTopology.table.links.countP
        (fun l => l.touches (HypercubeNetwork.newNode n v)) = n ∧
      ((HypercubeNetwork.new n).initializeTopology.table.nodeLinks
        (HypercubeNetwork.newNode n v)).length = n ∧
      ((HypercubeNetwork.new n).initializeTopology.table.nodeLinks
        (HypercubeNetwork.newNode n v)).Nodup ∧
      (∀ i, i ∈ (HypercubeNetwork.new n).initializeTopology.table.nodeLinks
          (HypercubeNetwork.newNode n v) ↔
        ∃ l, (HypercubeNetwork.new n).initializeTopology.table.links[i]? = some l ∧
          l.touches (HypercubeNetwork.newNode n v) = true) ∧
      (∀ d, d < n →
        (HypercubeNetwork.new n).initializeTopology.table.links.countP
          (fun l => l.joins (HypercubeNetwork.newNode n v)
            (HypercubeNetwork.newNode n (v ^^^ 2 ^ d))) = 1)) := by
  obtain ⟨hidx, hlinks⟩ := hypercube_links_eq n
  have hinj : Function.Injective (HypercubeNetwork.newNode n) := fun a b h => newNode_inj n a b h
  have hpair : ∀ a b, a < 2 ^ n → b < 2 ^ n →
      (HypercubeNetwork.new n).initializeTopology.table.links.countP
        (fun l => l.joins (HypercubeNetwork.newNode n a) (HypercubeNetwork.newNode n b)) =
        if popcount (a ^^^ b) = 1 then 1 else 0 := by
    intro a b ha hb
    rw [hlinks, List.countP_map, ← edge_count n a b ha hb]
    apply List.countP_congr
    intro p _
    simp only [Function.comp, decide_eq_true_eq]
    exact hypercubeLink_joins n p a b
  have htouch : ∀ v, v < 2 ^ n →
      (HypercubeNetwork.new n).initializeTopology.table.links.countP
        (fun l => l.touches (HypercubeNetwork.newNode n v)) = n := by
    intro v hv
    rw [hlinks, List.countP_map]
    refine Eq.trans ?_ (degree_count n v hv)
    apply List.countP_congr
    intro p _
    simp only [Function.comp, decide_eq_true_eq]
    exact hypercubeLink_touches n p v
  refine ⟨rfl, by simp [HypercubeNetwork.initializeTopology, HypercubeNetwork.createHypercubeLinks,
      HypercubeNetwork.createHypercubeNodes, HypercubeNetwork.new],
    List.Nodup.map hinj (List.nodup_range _), hlinks, ?_, ?_, ?_, hpair, ?_⟩
  · rw [hlinks]
    apply List.Nodup.map_on _ (nodup_hypercubeEdges n)
    intro p _ q _ h
    have h1 : p.1 = q.1 := newNode_inj n _ _ (congrArg Link.sourceNode h)
    have h2 : p.1 ^^^ 2 ^ p.2 = q.1 ^^^ 2 ^ q.2 :=
      newNode_inj n _ _ (congrArg Link.destinationNode h)
    rw [h1] at h2
    have h3 : p.2 = q.2 := Nat.pow_right_injective (le_refl 2) (Nat.xor_right_injective h2)
    exact Prod.ext h1 h3
  · rw [hlinks, List.length_map, hypercubeEdges_length]
  · intro l hl
    rw [hlinks, List.mem_map] at hl
    obtain ⟨p, hp, rfl⟩ := hl
    rw [mem_hypercubeEdges] at hp
    refine ⟨p.1, p.1 ^^^ 2 ^ p.2, hp.1, flip_lt n p.1 p.2 hp.1 hp.2.1, ?_, rfl, rfl⟩
    rw [(xor_eq_two_pow_iff p.1 (p.1 ^^^ 2 ^ p.2) p.2).mpr rfl]
    exact popcount_two_pow _
  · intro v hv
    obtain ⟨hnd, hmem, hlen⟩ := hidx (HypercubeNetwork.newNode n v)
    refine ⟨htouch v hv, by rw [hlen]; exact htouch v hv, hnd, hmem, ?_⟩
    intro d hd
    rw [hpair v (v ^^^ 2 ^ d) hv (flip_lt n v d hv hd),
      (xor_eq_two_pow_iff v (v ^^^ 2 ^ d) d).mpr rfl, popcount_two_pow]
    rfl

theorem hypercube_link_structure_witness :
    (0 : Nat) < 2 ^ 2 ∧ (1 : Nat) < 2 ^ 2 ∧ (3 : Nat) < 2 ^ 2 ∧
    (HypercubeNetwork.new 2).initializeTopology.table.links.length = 2 * 2 ^ (2 - 1) ∧
    (HypercubeNetwork.new 2).initializeTopology.table.links.countP
      (fun l => l.joins (HypercubeNetwork.newNode 2 0) (HypercubeNetwork.newNode 2 1)) =
      (if popcount (0 ^^^ 1) = 1 then 1 else 0) ∧
    (HypercubeNetwork.new 2).initializeTopology.table.links.countP
      (fun l => l.joins (HypercubeNetwork.newNode 2 0) (HypercubeNetwork.newNode 2 3)) =
      (if popcount (0 ^^^ 3) = 1 then 1 else 0) ∧
    (HypercubeNetwork.new 2).initializeTopology.table.links.countP
      (fun l => l.touches (HypercubeNetwork.newNode 2 3)) = 2 :=
  ⟨by decide, by decide, by decide, (hypercube_link_structure 2).2.2.2.2.2.1,
    (hypercube_link_structure 2).2.2.2.2.2.2.2.1 0 1 (by decide) (by decide),
    (hypercube_link_structure 2).2.2.2.2.2.2.2.1 0 3 (by decide) (by decide),
    ((hypercube_link_structure 2).2.2.2.2.2.2.2.2 3 (by decide)).1⟩

/-! ## The channel gate of a link -/

/-- C33: a new link has both channels free; `canTransmit(vc)` is true exactly when the
occupancy flag of `vc` is clear; `transmit(vc)` sets the flag of `vc`, so that afterwards
`canTransmit(vc)` is false and `isOccupied(vc)` is true, it leaves the flag of the other
channel, the two end nodes and the direction as they were, and a second `transmit(vc)`
changes nothing. -/
theorem link_channel_gate {N : Type} (l : Link N) (source destination : N)
    (direction : Direction) (vc other : VirtualChannel) :
    ((Link.new source destination direction).canTransmit vc = true ∧
      (Link.new source destination direction).isOccupied vc = false ∧
      (Link.new source destination direction).adaptiveChannelOccupied = false ∧
      (Link.new source destination direction).deterministicChannelOccupied = false) ∧
    (l.canTransmit VirtualChannel.ADAPTIVE = true ↔ l.adaptiveChannelOccupied = false) ∧
    (l.canTransmit VirtualChannel.DETERMINISTIC = true ↔
      l.deterministicChannelOccupied = false) ∧
    l.isOccupied vc = !l.canTransmit vc ∧
    (l.transmit VirtualChannel.ADAPTIVE).adaptiveChannelOccupied = true ∧
    (l.transmit VirtualChannel.DETERMINISTIC).deterministicChannelOccupied = true ∧
    (l.transmit vc).canTransmit vc = false ∧
    (l.transmit vc).isOccupied vc = true ∧
    (other ≠ vc → (l.transmit vc).canTransmit other = l.canTransmit other) ∧
    (l.transmit VirtualChannel.ADAPTIVE).deterministicChannelOccupied =
      l.deterministicChannelOccupied ∧
    (l.transmit VirtualChannel.DETERMINISTIC).adaptiveChannelOccupied =
      l.adaptiveChannelOccupied ∧
    (l.transmit vc).sourceNode = l.sourceNode ∧
    (l.transmit vc).destinationNode = l.destinationNode ∧
    (l.transmit vc).direction = l.direction ∧
    (l.transmit vc).transmit vc = l.transmit vc := by
  refine ⟨⟨?_, ?_, rfl, rfl⟩, ?_, ?_, rfl, rfl, rfl, ?_, ?_, ?_, rfl, rfl, ?_, ?_, ?_, ?_⟩
  · cases vc <;> rfl
  · cases vc <;> rfl
  · cases h : l.adaptiveChannelOccupied <;> simp [Link.canTransmit, h]
  · cases h : l.deterministicChannelOccupied <;> simp [Link.canTransmit, h]
  · cases vc <;> rfl
  · cases vc <;> rfl
  · intro h
    cases vc <;> cases other <;> first | rfl | exact absurd rfl h
  · cases vc <;> rfl
  · cases vc <;> rfl
  · cases vc <;> rfl
  · cases vc <;> rfl

theorem link_channel_gate_witness :
    VirtualChannel.DETERMINISTIC ≠ VirtualChannel.ADAPTIVE ∧
    ((Link.new (Node.ofXY 0 0) (Node.ofXY 1 0) Direction.POSITIVE_X).transmit
        VirtualChannel.ADAPTIVE).canTransmit VirtualChannel.DETERMINISTIC =
      (Link.new (Node.ofXY 0 0) (Node.ofXY 1 0) Direction.POSITIVE_X).canTransmit
        VirtualChannel.DETERMINISTIC :=
  ⟨by decide,
   (link_channel_gate (Link.new (Node.ofXY 0 0) (Node.ofXY 1 0) Direction.POSITIVE_X)
      (Node.ofXY 0 0) (Node.ofXY 1 0) Direction.POSITIVE_X VirtualChannel.ADAPTIVE
      VirtualChannel.DETERMINISTIC).2.2.2.2.2.2.2.2.1 (by decide)⟩

/-! ## The static delay estimate -/

theorem calculateRouteDelay_eq {N : Type} (path : List N) (hpath : path ≠ []) :
    EcubeRouting.calculateRouteDelay path =
      ((path.length - 1 : Nat) : ℚ) * 1 + ((path.length - 1 : Nat) : ℚ) * (1 / 2) := by
  unfold EcubeRouting.calculateRouteDelay
  split
  · rename_i h
    have hlen : path.length = 1 := by
      have := List.length_pos.mpr hpath
      omega
    rw [hlen]
    simp
  · rfl

theorem calculatePathLoop_ne_nil (t : LinkTable HypercubeNode) (destination : HypercubeNode) :
    ∀ (fuel : Nat) (current : HypercubeNode) (path r : List HypercubeNode), path ≠ [] →
      EcubeRouting.calculatePathLoop t destination fuel current path = some r → r ≠ [] := by
  intro fuel
  induction fuel with
  | zero =>
      intro current path r hpath h
      unfold EcubeRouting.calculatePathLoop at h
      split at h
      · cases h
        exact hpath
      · cases h
  | succ fuel ih =>
      intro current path r hpath h
      unfold EcubeRouting.calculatePathLoop at h
      split at h
      · cases h
        exact hpath
      · split at h
        · cases h
          exact hpath
        · split at h
          · cases h
            exact hpath
          · exact ih _ _ r (List.append_ne_nil_of_right_ne_nil _ (List.cons_ne_nil _ _)) h

theorem routeLoop_delay (net : HypercubeNetwork) (config : Option Config)
    (destNode : HypercubeNode) :
    ∀ (fuel : Nat) (currentNode : HypercubeNode) (result r : RoutingResult HypercubeNode),
      result.success = false → result.path ≠ [] →
      result.hopCount = (result.path.length : Int) - 1 →
      DuatoHypercubeProtocol.routeLoop net config destNode fuel currentNode result = some r →
      r.path ≠ [] ∧ r.hopCount = (r.path.length : Int) - 1 ∧
      (r.success = true → r.totalDelay = EcubeRouting.calculateRouteDelay r.path) := by
  have hfin : ∀ (currentNode : HypercubeNode) (result : RoutingResult HypercubeNode),
      result.success = false → result.path ≠ [] →
      result.hopCount = (result.path.length : Int) - 1 →
      (DuatoHypercubeProtocol.finish currentNode destNode result).path ≠ [] ∧
      (DuatoHypercubeProtocol.finish currentNode destNode result).hopCount =
        ((DuatoHypercubeProtocol.finish currentNode destNode result).path.length : Int) - 1 ∧
      ((DuatoHypercubeProtocol.finish currentNode destNode result).success = true →
        (DuatoHypercubeProtocol.finish currentNode destNode result).totalDelay =
          EcubeRouting.calculateRouteDelay
            (DuatoHypercubeProtocol.finish currentNode destNode result).path) := by
    intro currentNode result hs hp hh
    unfold DuatoHypercubeProtocol.finish
    split
    · exact ⟨hp, hh, fun _ => rfl⟩
    · refine ⟨hp, hh, ?_⟩
      intro h
      rw [hs] at h
      cases h
  have hkeep : ∀ (result : RoutingResult HypercubeNode),
      result.success = false → result.path ≠ [] →
      result.hopCount = (result.path.length : Int) - 1 →
      result.path ≠ [] ∧ result.hopCount = (result.path.length : Int) - 1 ∧
      (result.success = true → result.totalDelay =
        EcubeRouting.calculateRouteDelay result.path) := by
    intro result hs hp hh
    refine ⟨hp, hh, ?_⟩
    intro h
    rw [hs] at h
    cases h
  intro fuel
  induction fuel with
  | zero =>
      intro currentNode result r hs hp hh h
      unfold DuatoHypercubeProtocol.routeLoop at h
      split at h
      · cases h
        exact hfin currentNode result hs hp hh
      · cases h
  | succ fuel ih =>
      intro currentNode result r hs hp hh h
      unfold DuatoHypercubeProtocol.routeLoop at h
      split at h
      · cases h
        exact hfin currentNode result hs hp hh
      · dsimp only at h
        split at h
        · cases h
          exact hfin currentNode result hs hp hh
        · split at h
          · cases h
            exact hkeep result hs hp hh
          · split at h
            · cases h
              exact hkeep result hs hp hh
            · split at h
              · cases h
                refine hkeep _ hs
                  (List.append_ne_nil_of_right_ne_nil _ (List.cons_ne_nil _ _)) ?_
                simp only [List.length_append, List.length_singleton, hh]
                push_cast
                ring
              · refine ih _ _ r ?_ ?_ ?_ h
                · exact hs
                · exact List.append_ne_nil_of_right_ne_nil _ (List.cons_ne_nil _ _)
                · simp only [List.length_append, List.length_singleton, hh]
                  push_cast
                  ring

theorem calculatePathDelay_eq (config : Option Config) (path : List Node) (hpath : path ≠ []) :
    DuatoProtocol.calculatePathDelay config path =
      ((path.length - 1 : Nat) : ℚ) * (config.elim 1 Config.linkLatency) +
        ((path.length - 1 : Nat) : ℚ) * (1 / 2) := by
  unfold DuatoProtocol.calculatePathDelay
  split
  · rename_i h
    have hlen : path.length = 1 := by
      have := List.length_pos.mpr hpath
      omega
    rw [hlen]
    simp
  · cases config <;> rfl

theorem cast_length_pred {N : Type} (path : List N) (hpath : path ≠ []) :
    (((path.length : Int) - 1 : Int) : ℚ) = ((path.length - 1 : Nat) : ℚ) := by
  have h := List.length_pos.mpr hpath
  have : ((path.length - 1 : Nat) : Int) = (path.length : Int) - 1 := by omega
  rw [← this]
  push_cast
  rfl

/-- C34: the static delay estimate. For a path of `h + 1` nodes (`h >= 0` hops)
`EcubeRouting::calculateRouteDelay`, which `DuatoHypercubeProtocol` inherits, returns
`h * 1.0 + h * 0.5`, and `DuatoProtocol::calculatePathDelay` returns
`h * linkLatency + h * 0.5` with the link latency of the configuration (1 when no
configuration is bound); both return 0 for a path of one node. The results of
`routeMessageWithStats` carry these values with `h = hopCount`: always for `EcubeRouting`
and `DuatoProtocol`, and for every successful route of `DuatoHypercubeProtocol` (its
failure returns leave `totalDelay` at 0). -/
theorem static_delay_estimate (config : Option Config) :
    (∀ path : List HypercubeNode, path ≠ [] →
      EcubeRouting.calculateRouteDelay path =
        ((path.length - 1 : Nat) : ℚ) * 1 + ((path.length - 1 : Nat) : ℚ) * (1 / 2)) ∧
    (∀ path : List Node, path ≠ [] →
      DuatoProtocol.calculatePathDelay config path =
        ((path.length - 1 : Nat) : ℚ) * (config.elim 1 Config.linkLatency) +
          ((path.length - 1 : Nat) : ℚ) * (1 / 2)) ∧
    (∀ v : HypercubeNode, EcubeRouting.calculateRouteDelay [v] = 0) ∧
    (∀ v : Node, DuatoProtocol.calculatePathDelay config [v] = 0) ∧
    (∀ (net : HypercubeNetwork) (fuel : Nat) (source destination : HypercubeNode)
        (r : RoutingResult HypercubeNode),
      EcubeRouting.routeMessageWithStats net fuel source destination = some r →
      0 ≤ r.hopCount ∧ r.hopCount = (r.path.length : Int) - 1 ∧
        r.totalDelay = (r.hopCount : ℚ) * 1 + (r.hopCount : ℚ) * (1 / 2)) ∧
    (∀ (net : HypercubeNetwork) (fuel : Nat) (source destination : HypercubeNode)
        (r : RoutingResult HypercubeNode),
      DuatoHypercubeProtocol.routeMessageWithStats net config fuel source destination =
        some r →
      0 ≤ r.hopCount ∧ r.hopCount = (r.path.length : Int) - 1 ∧
        (r.success = true →
          r.totalDelay = (r.hopCount : ℚ) * 1 + (r.hopCount : ℚ) * (1 / 2))) ∧
    (∀ (net : Network) (source destination : Node) (r : RoutingResult Node),
      DuatoProtocol.routeMessageWithStats net config source destination = some r →
      0 ≤ r.hopCount ∧ (r.success = true → r.hopCount = (r.path.length : Int) - 1) ∧
        r.totalDelay = (r.hopCount : ℚ) * (config.elim 1 Config.linkLatency) +
          (r.hopCount : ℚ) * (1 / 2)) := by
  refine ⟨fun path h => calculateRouteDelay_eq path h,
    fun path h => calculatePathDelay_eq config path h, ?_, ?_, ?_, ?_, ?_⟩
  · intro v
    simp [EcubeRouting.calculateRouteDelay]
  · intro v
    simp [DuatoProtocol.calculatePathDelay]
  · intro net fuel source destination r h
    unfold EcubeRouting.routeMessageWithStats at h
    split at h
    · cases h
    · rename_i path hp
      cases h
      have hne : path ≠ [] :=
        calculatePathLoop_ne_nil _ _ fuel source [source] path (List.cons_ne_nil _ _) hp
      have hpos := List.length_pos.mpr hne
      refine ⟨by dsimp only; omega, rfl, ?_⟩
      dsimp only
      rw [calculateRouteDelay_eq path hne, cast_length_pred path hne]
  · intro net fuel source destination r h
    obtain ⟨hne, hh, hd⟩ := routeLoop_delay net config destination fuel source _ r rfl
      (List.cons_ne_nil _ _) (by simp [RoutingResult.new]) h
    have hpos := List.length_pos.mpr hne
    refine ⟨by omega, hh, ?_⟩
    intro hs
    rw [hd hs, calculateRouteDelay_eq r.path hne, hh, cast_length_pred r.path hne]
  · intro net source destination r h
    unfold DuatoProtocol.routeMessageWithStats at h
    split at h
    · cases h
    · rename_i path hp
      split at h
      · cases h
        refine ⟨le_refl _, ?_, ?_⟩
        · intro hs
          cases hs
        · simp
      · rename_i hempty
        cases h
        have hne : path ≠ [] := by
          intro e
          apply hempty
          rw [e]
          rfl
        have hpos := List.length_pos.mpr hne
        refine ⟨by dsimp only; omega, fun _ => rfl, ?_⟩
        dsimp only
        rw [calculatePathDelay_eq config path hne, cast_length_pred path hne]

theorem static_delay_estimate_witness :
    ([Node.ofXY 0 0, Node.ofXY 1 0, Node.ofXY 2 0] : List Node) ≠ [] ∧
    DuatoProtocol.calculatePathDelay (some ⟨[], 3⟩)
        [Node.ofXY 0 0, Node.ofXY 1 0, Node.ofXY 2 0] =
      (((([Node.ofXY 0 0, Node.ofXY 1 0, Node.ofXY 2 0] : List Node).length - 1 : Nat) : ℚ)) *
          ((some ⟨[], 3⟩ : Option Config).elim 1 Config.linkLatency) +
        (((([Node.ofXY 0 0, Node.ofXY 1 0, Node.ofXY 2 0] : List Node).length - 1 : Nat) : ℚ)) *
          (1 / 2) :=
  ⟨by simp, (static_delay_estimate (some ⟨[], 3⟩)).2.1 _ (by simp)⟩

/-! ## Hypercube ids and coordinate vectors -/

theorem getNodeId_succ (n : Nat) (c : List Nat) :
    HypercubeNetwork.getNodeId (n + 1) c =
      if c.getD n 0 ≠ 0 then HypercubeNetwork.getNodeId n c ||| 2 ^ n
      else HypercubeNetwork.getNodeId n c := by
  unfold HypercubeNetwork.getNodeId
  rw [List.range_succ, List.foldl_append]
  simp only [List.foldl_cons, List.foldl_nil, Nat.one_shiftLeft]

theorem getNodeId_testBit (n : Nat) (c : List Nat) (j : Nat) :
    (HypercubeNetwork.getNodeId n c).testBit j =
      (decide (j < n) && decide (c.getD j 0 ≠ 0)) := by
  induction n with
  | zero => simp [HypercubeNetwork.getNodeId]
  | succ n ih =>
      rw [getNodeId_succ]
      by_cases hc : c.getD n 0 ≠ 0
      · rw [if_pos hc, Nat.testBit_or, ih, Nat.testBit_two_pow]
        by_cases hj : n = j
        · subst hj
          generalize c.getD n 0 = v at hc
          simp [hc]
        · have h1 : (j < n + 1) ↔ (j < n) := by omega
          simp [hj, h1]
      · rw [if_neg hc, ih]
        by_cases hj : n = j
        · subst hj
          generalize c.getD n 0 = v at hc
          simp only [ne_eq, not_not] at hc
          simp [hc]
        · have h1 : (j < n + 1) ↔ (j < n) := by omega
          simp [h1]

theorem getNodeId_lt (n : Nat) (c : List Nat) : HypercubeNetwork.getNodeId n c < 2 ^ n := by
  apply Nat.lt_pow_two_of_testBit
  intro i hi
  rw [getNodeId_testBit]
  have : ¬ i < n := by omega
  simp [this]

theorem toNat_testBit (a i : Nat) : (a.testBit i).toNat = a / 2 ^ i % 2 := by
  rw [Nat.testBit_to_div_mod]
  rcases Nat.mod_two_eq_zero_or_one (a / 2 ^ i) with h | h <;> simp [h]

/-- C40: for an id below `2 ^ n`, `getCoordinates(id)` is the vector of length `n` whose
entry `i` is bit `i` of the id (0 or 1), and `getNodeId` maps it back to the id; for a
vector `coords` of length `n` with entries 0 or 1, `getNodeId(coords)` is an id below
`2 ^ n` and `getCoordinates` maps it back to `coords`. -/
theorem coordinates_roundtrip (n id : Nat) (coords : List Nat) (hid : id < 2 ^ n)
    (hlen : coords.length = n) (hbits : ∀ x ∈ coords, x = 0 ∨ x = 1) :
    (HypercubeNetwork.getCoordinates n id).length = n ∧
    (∀ i, i < n → (HypercubeNetwork.getCoordinates n id).getD i 0 = id / 2 ^ i % 2) ∧
    (∀ x ∈ HypercubeNetwork.getCoordinates n id, x = 0 ∨ x = 1) ∧
    HypercubeNetwork.getNodeId n (HypercubeNetwork.getCoordinates n id) = id ∧
    HypercubeNetwork.getNodeId n coords < 2 ^ n ∧
    HypercubeNetwork.getCoordinates n (HypercubeNetwork.getNodeId n coords) = coords := by
  refine ⟨getCoordinates_length n id, ?_, ?_, ?_, getNodeId_lt n coords, ?_⟩
  · intro i hi
    rw [getCoordinates_getD n id i hi, toNat_testBit]
  · intro x hx
    simp only [HypercubeNetwork.getCoordinates, List.mem_map, List.mem_range] at hx
    obtain ⟨i, _, rfl⟩ := hx
    rw [Nat.and_one_is_mod]
    omega
  · apply Nat.eq_of_testBit_eq
    intro j
    rw [getNodeId_testBit]
    by_cases hj : j < n
    · rw [getCoordinates_getD n id j hj]
      cases id.testBit j <;> simp [hj]
    · have hpow : 2 ^ n ≤ 2 ^ j := Nat.pow_le_pow_right (by decide) (by omega)
      rw [Nat.testBit_lt_two_pow (by omega)]
      simp [hj]
  · apply List.ext_getElem
    · rw [getCoordinates_length, hlen]
    · intro i h1 h2
      have hi : i < n := by rw [getCoordinates_length] at h1; exact h1
      have hget : (HypercubeNetwork.getCoordinates n (HypercubeNetwork.getNodeId n coords))[i] =
          (HypercubeNetwork.getCoordinates n (HypercubeNetwork.getNodeId n coords)).getD i 0 := by
        rw [List.getD_eq_getElem _ _ h1]
      have hc : coords.getD i 0 = coords[i] := List.getD_eq_getElem _ _ h2
      rw [hget, getCoordinates_getD n _ i hi, getNodeId_testBit, hc]
      rcases hbits (coords[i]) (List.getElem_mem h2) with h0 | h1
      · simp [h0, hi]
      · simp [h1, hi]

theorem coordinates_roundtrip_witness :
    5 < 2 ^ 3 ∧ ([1, 0, 1] : List Nat).length = 3 ∧
    (∀ x ∈ ([1, 0, 1] : List Nat), x = 0 ∨ x = 1) ∧
    HypercubeNetwork.getNodeId 3 (HypercubeNetwork.getCoordinates 3 5) = 5 ∧
    HypercubeNetwork.getCoordinates 3 (HypercubeNetwork.getNodeId 3 [1, 0, 1]) = [1, 0, 1] :=
  ⟨by decide, rfl, by decide,
   (coordinates_roundtrip 3 5 [1, 0, 1] (by decide) rfl (by decide)).2.2.2.1,
   (coordinates_roundtrip 3 5 [1, 0, 1] (by decide) rfl (by decide)).2.2.2.2.2⟩

/-! ## Lookups outside the node table of the hypercube -/

theorem getHypercubeNode_isSome (n : Nat) (id : Int) :
    ((HypercubeNetwork.new n).initializeTopology.getHypercubeNode id).isSome = true ↔
      0 ≤ id ∧ id < 2 ^ n := by
  unfold HypercubeNetwork.getHypercubeNode
  have ht : (HypercubeNetwork.new n).initializeTopology.totalNodes = 2 ^ n := rfl
  have hn : (HypercubeNetwork.new n).initializeTopology.hypercubeNodes =
      (HypercubeNetwork.new n).createHypercubeNodes.hypercubeNodes := rfl
  rw [ht, hn]
  by_cases h : id ≥ 0 ∧ id < ((2 ^ n : Nat) : Int)
  · rw [if_pos h, nodes_lookup]
    have h2 : id.toNat < 2 ^ n := by
      have := h.2
      omega
    rw [if_pos h2]
    simp only [Option.isSome_some, true_iff]
    refine ⟨h.1, ?_⟩
    have := h.2
    exact_mod_cast this
  · rw [if_neg h]
    simp only [Option.isSome_none, Bool.false_eq_true, false_iff]
    intro h2
    apply h
    refine ⟨h2.1, ?_⟩
    have := h2.2
    exact_mod_cast this

/-- C32 fails on the code for negative coordinates: `HypercubeNetwork::getNode` tests
`nodeId < totalNodes` only. On the initialized hypercube of dimension 2, `getNode(-1, 0)`
computes `nodeId = -1 + 0 * 2 = -1`, passes the test and indexes the node table at -1,
which is outside `[0, 4)`; `getNode(1, -2)` indexes it at -3. The sibling
`getHypercubeNode(-1)` tests both bounds and returns no node, and it returns a node exactly
for the ids in `[0, 2 ^ n)`; `getNode(3, 1)`, with `nodeId = 5`, returns no node. -/
theorem hypercube_getNode_indexes_below_zero :
    (HypercubeNetwork.new 2).initializeTopology.getNode (-1) 0 = Except.error (-1) ∧
    (HypercubeNetwork.new 2).initializeTopology.getNode 1 (-2) = Except.error (-3) ∧
    ¬ ((0 : Int) ≤ -1 ∧ (-1 : Int) < 2 ^ 2) ∧
    (HypercubeNetwork.new 2).initializeTopology.getHypercubeNode (-1) = none ∧
    (HypercubeNetwork.new 2).initializeTopology.getNode 3 1 = Except.ok none ∧
    (HypercubeNetwork.new 2).initializeTopology.getNode 1 1 =
      Except.ok (some (HypercubeNetwork.newNode 2 3)) ∧
    (∀ (n : Nat) (id : Int),
      ((HypercubeNetwork.new n).initializeTopology.getHypercubeNode id).isSome = true ↔
        0 ≤ id ∧ id < 2 ^ n) := by
  refine ⟨rfl, rfl, by decide, rfl, rfl, rfl, getHypercubeNode_isSome⟩

/-! ## Monotonicity of the injection-pressure delay -/

theorem mul2_mono (a b : ℚ) (h0 : 0 ≤ a) (hab : a ≤ b) : a * a ≤ b * b :=
  mul_le_mul hab hab h0 (le_trans h0 hab)

theorem mul3_mono (a b : ℚ) (h0 : 0 ≤ a) (hab : a ≤ b) : a * a * a ≤ b * b * b :=
  mul_le_mul (mul2_mono a b h0 hab) hab h0 (mul_nonneg (le_trans h0 hab) (le_trans h0 hab))

theorem mul4_mono (a b : ℚ) (h0 : 0 ≤ a) (hab : a ≤ b) : a * a * a * a ≤ b * b * b * b :=
  mul_le_mul (mul3_mono a b h0 hab) hab h0
    (mul_nonneg (mul_nonneg (le_trans h0 hab) (le_trans h0 hab)) (le_trans h0 hab))

theorem mul5_mono (a b : ℚ) (h0 : 0 ≤ a) (hab : a ≤ b) :
    a * a * a * a * a ≤ b * b * b * b * b :=
  mul_le_mul (mul4_mono a b h0 hab) hab h0
    (mul_nonneg (mul_nonneg (mul_nonneg (le_trans h0 hab) (le_trans h0 hab))
      (le_trans h0 hab)) (le_trans h0 hab))

/-- One more band on top of a function that is monotone on `[0, T]` and bounded by `B`
there: the function that is `f` above `T` and `g` up to `T` is monotone on `[0, T2]` and
bounded by `B2` there. -/
theorem band_step (T T2 B B2 : ℚ) (f g : ℚ → ℚ)
    (hf : ∀ a b, T < a → a ≤ b → b ≤ T2 → f a ≤ f b)
    (hfl : ∀ a, T < a → B ≤ f a) (hfu : ∀ a, T < a → a ≤ T2 → f a ≤ B2) (hBB : B ≤ B2)
    (hg : ∀ a b, 0 ≤ a → a ≤ b → b ≤ T → g a ≤ g b)
    (hgu : ∀ a, 0 ≤ a → a ≤ T → g a ≤ B) :
    (∀ a b, 0 ≤ a → a ≤ b → b ≤ T2 →
      (if a > T then f a else g a) ≤ (if b > T then f b else g b)) ∧
    (∀ a, 0 ≤ a → a ≤ T2 → (if a > T then f a else g a) ≤ B2) := by
  constructor
  · intro a b ha hab hb
    by_cases h1 : a > T
    · have h2 : b > T := lt_of_lt_of_le h1 hab
      rw [if_pos h1, if_pos h2]
      exact hf a b h1 hab hb
    · rw [if_neg h1]
      by_cases h2 : b > T
      · rw [if_pos h2]
        exact le_trans (hgu a ha (not_lt.mp h1)) (hfl b h2)
      · rw [if_neg h2]
        exact hg a b ha hab (not_lt.mp h2)
  · intro a ha haT
    by_cases h1 : a > T
    · rw [if_pos h1]
      exact hfu a h1 haT
    · rw [if_neg h1]
      exact le_trans (hgu a ha (not_lt.mp h1)) hBB

/-- The piecewise function of the pressure `p = rate / 0.08` up to `p = T2`. -/
theorem systemDelay_pressure_mono (T2 : ℚ) (hT2 : 22 / 10 ≤ T2) :
    ∀ a b : ℚ, 0 ≤ a → a ≤ b → b ≤ T2 →
      (if a > 22 / 10 then
          300 + (a - 22 / 10) * (a - 22 / 10) * (a - 22 / 10) * (a - 22 / 10) * (a - 22 / 10) * 400
        else if a > 18 / 10 then
          150 + (a - 18 / 10) * (a - 18 / 10) * (a - 18 / 10) * (a - 18 / 10) * 375
        else if a > 14 / 10 then 60 + (a - 14 / 10) * (a - 14 / 10) * (a - 14 / 10) * 225
        else if a > 125 / 100 then
          30 + (a - 125 / 100) * (a - 125 / 100) * (a - 125 / 100) * 200
        else if a > 1 then 15 + (a - 1) * (a - 1) * 60
        else if a > 6 / 10 then 5 + (a - 6 / 10) * 25
        else a * (833 / 100)) ≤
      (if b > 22 / 10 then
          300 + (b - 22 / 10) * (b - 22 / 10) * (b - 22 / 10) * (b - 22 / 10) * (b - 22 / 10) * 400
        else if b > 18 / 10 then
          150 + (b - 18 / 10) * (b - 18 / 10) * (b - 18 / 10) * (b - 18 / 10) * 375
        else if b > 14 / 10 then 60 + (b - 14 / 10) * (b - 14 / 10) * (b - 14 / 10) * 225
        else if b > 125 / 100 then
          30 + (b - 125 / 100) * (b - 125 / 100) * (b - 125 / 100) * 200
        else if b > 1 then 15 + (b - 1) * (b - 1) * 60
        else if b > 6 / 10 then 5 + (b - 6 / 10) * 25
        else b * (833 / 100)) := by
  have s0 : (∀ a b : ℚ, 0 ≤ a → a ≤ b → b ≤ 6 / 10 → a * (833 / 100) ≤ b * (833 / 100)) ∧
      (∀ a : ℚ, 0 ≤ a → a ≤ 6 / 10 → a * (833 / 100) ≤ 5) := by
    constructor
    · intro a b _ hab _
      linarith
    · intro a _ ha
      linarith
  have s1 := band_step (6 / 10) 1 5 15 (fun a => 5 + (a - 6 / 10) * 25) _
    (fun a b _ hab _ => by dsimp only; linarith)
    (fun a ha => by dsimp only; linarith)
    (fun a _ ha => by dsimp only; linarith) (by norm_num) s0.1 s0.2
  have s2 := band_step 1 (125 / 100) 15 30 (fun a => 15 + (a - 1) * (a - 1) * 60) _
    (fun a b ha hab _ => by
      dsimp only
      have := mul2_mono (a - 1) (b - 1) (by linarith) (by linarith)
      linarith)
    (fun a ha => by
      dsimp only
      have := mul_self_nonneg (a - 1)
      linarith)
    (fun a ha ha2 => by
      dsimp only
      have := mul2_mono (a - 1) (25 / 100) (by linarith) (by linarith)
      linarith)
    (by norm_num) s1.1 s1.2
  have s3 := band_step (125 / 100) (14 / 10) 30 60
    (fun a => 30 + (a - 125 / 100) * (a - 125 / 100) * (a - 125 / 100) * 200) _
    (fun a b ha hab _ => by
      dsimp only
      have := mul3_mono (a - 125 / 100) (b - 125 / 100) (by linarith) (by linarith)
      linarith)
    (fun a ha => by
      dsimp only
      have := mul3_mono 0 (a - 125 / 100) (le_refl _) (by linarith)
      linarith)
    (fun a ha ha2 => by
      dsimp only
      have := mul3_mono (a - 125 / 100) (15 / 100) (by linarith) (by linarith)
      linarith)
    (by norm_num) s2.1 s2.2
  have s4 := band_step (14 / 10) (18 / 10) 60 150
    (fun a => 60 + (a - 14 / 10) * (a - 14 / 10) * (a - 14 / 10) * 225) _
    (fun a b ha hab _ => by
      dsimp only
      have := mul3_mono (a - 14 / 10) (b - 14 / 10) (by linarith) (by linarith)
      linarith)
    (fun a ha => by
      dsimp only
      have := mul3_mono 0 (a - 14 / 10) (le_refl _) (by linarith)
      linarith)
    (fun a ha ha2 => by
      dsimp only
      have := mul3_mono (a - 14 / 10) (4 / 10) (by linarith) (by linarith)
      linarith)
    (by norm_num) s3.1 s3.2
  have s5 := band_step (18 / 10) (22 / 10) 150 300
    (fun a => 150 + (a - 18 / 10) * (a - 18 / 10) * (a - 18 / 10) * (a - 18 / 10) * 375) _
    (fun a b ha hab _ => by
      dsimp only
      have := mul4_mono (a - 18 / 10) (b - 18 / 10) (by linarith) (by linarith)
      linarith)
    (fun a ha => by
      dsimp only
      have := mul4_mono 0 (a - 18 / 10) (le_refl _) (by linarith)
      linarith)
    (fun a ha ha2 => by
      dsimp only
      have := mul4_mono (a - 18 / 10) (4 / 10) (by linarith) (by linarith)
      linarith)
    (by norm_num) s4.1 s4.2
  have s6 := band_step (22 / 10) T2 300
    (300 + (T2 - 22 / 10) * (T2 - 22 / 10) * (T2 - 22 / 10) * (T2 - 22 / 10) *
      (T2 - 22 / 10) * 400)
    (fun a => 300 + (a - 22 / 10) * (a - 22 / 10) * (a - 22 / 10) * (a - 22 / 10) *
      (a - 22 / 10) * 400) _
    (fun a b ha hab _ => by
      dsimp only
      have := mul5_mono (a - 22 / 10) (b - 22 / 10) (by linarith) (by linarith)
      linarith)
    (fun a ha => by
      dsimp only
      have := mul5_mono 0 (a - 22 / 10) (le_refl _) (by linarith)
      linarith)
    (fun a ha ha2 => by
      dsimp only
      have := mul5_mono (a - 22 / 10) (T2 - 22 / 10) (by linarith) (by linarith)
      linarith)
    (by
      have := mul5_mono 0 (T2 - 22 / 10) (le_refl _) (by linarith)
      linarith)
    s5.1 s5.2
  exact s6.1

/-- C37: the value `systemDelay` of `calculateQueuingDelay` is monotone non-decreasing in
the injection rate over all rates `>= 0`, across the band boundaries as well. -/
theorem systemDelay_monotone (rate1 rate2 : ℚ) (h0 : 0 ≤ rate1) (h12 : rate1 ≤ rate2) :
    Simulator.systemDelay rate1 ≤ Simulator.systemDelay rate2 := by
  have ha : (0 : ℚ) ≤ rate1 / (8 / 100) := div_nonneg h0 (by norm_num)
  have hab : rate1 / (8 / 100) ≤ rate2 / (8 / 100) :=
    div_le_div_of_nonneg_right h12 (by norm_num)
  exact systemDelay_pressure_mono (max (rate2 / (8 / 100)) (22 / 10)) (le_max_right _ _)
    (rate1 / (8 / 100)) (rate2 / (8 / 100)) ha hab (le_max_left _ _)

theorem systemDelay_monotone_witness :
    (0 : ℚ) ≤ 8 / 100 ∧ (8 / 100 : ℚ) ≤ 81 / 1000 ∧
    Simulator.systemDelay (8 / 100) ≤ Simulator.systemDelay (81 / 1000) :=
  ⟨by norm_num, by norm_num, systemDelay_monotone (8 / 100) (81 / 1000) (by norm_num)
    (by norm_num)⟩

/-! ## The utilization and buffer components of the queuing delay -/

/-- C38 fails on the code: the bands of `congestionDelay` start again from 0, they do not
continue from the value reached at the end of the band below (as the bands of
`systemDelay` do with their constants 5, 15, 30, 60, 150, 300). At utilization 0.25 the
value is 25 and at 0.3 it is 50/27; at 0.4 it is 50 and at 0.5 it is 6.25; at 0.6 it is
100 and at 0.8 it is 6.25. On the 2 x 1 mesh at rate 0 with no link used the utilization
is 0.25 with five buffered packets and 0.3 with six. -/
theorem congestionDelay_drops_at_band_start :
    ((0 : ℚ) ≤ 1 / 4 ∧ (1 / 4 : ℚ) ≤ 3 / 10 ∧ (3 / 10 : ℚ) ≤ 1) ∧
    Simulator.congestionDelay (1 / 4) = 25 ∧
    Simulator.congestionDelay (3 / 10) = 50 / 27 ∧
    ¬ Simulator.congestionDelay (1 / 4) ≤ Simulator.congestionDelay (3 / 10) ∧
    (Simulator.congestionDelay (4 / 10) = 50 ∧ Simulator.congestionDelay (5 / 10) = 25 / 4) ∧
    (Simulator.congestionDelay (6 / 10) = 100 ∧ Simulator.congestionDelay (8 / 10) = 25 / 4) ∧
    (Simulator.ofMesh 2 1).calculateNetworkUtilization
      (fun node => if node = NodeRef.mesh (Node.ofXY 0 0) then
        List.replicate 5 (Packet.inject 0 1 0 (NodeRef.mesh (Node.ofXY 0 0))
          (NodeRef.mesh (Node.ofXY 1 0))) else []) [] = 1 / 4 ∧
    (Simulator.ofMesh 2 1).calculateNetworkUtilization
      (fun node => if node = NodeRef.mesh (Node.ofXY 0 0) then
        List.replicate 6 (Packet.inject 0 1 0 (NodeRef.mesh (Node.ofXY 0 0))
          (NodeRef.mesh (Node.ofXY 1 0))) else []) [] = 3 / 10 := by
  decide!

/-- C39 fails on the code: the bands of `calculateBufferDelay` start again from 0. With
`maxBufferSize = 8` the penalties for the buffer lengths 0, 1, ..., 8 are
0, 1.875, 3, 7.5, 20, 3.125, 1.25, 0.75, 27: a buffer holding 5 packets is charged less
than one holding 4, and the penalty keeps falling up to 7 packets. -/
theorem calculateBufferDelay_drops_at_band_start :
    (List.range 9).map (fun (k : Nat) =>
      (Simulator.ofMesh 2 1).calculateBufferDelay
        (fun node => if node = NodeRef.mesh (Node.ofXY 0 0) then
          List.replicate k (Packet.inject 0 1 0 (NodeRef.mesh (Node.ofXY 0 0))
            (NodeRef.mesh (Node.ofXY 1 0))) else [])
        (Packet.inject 0 1 0 (NodeRef.mesh (Node.ofXY 0 0)) (NodeRef.mesh (Node.ofXY 1 0)))) =
      [0, 15 / 8, 3, 15 / 2, 20, 25 / 8, 5 / 4, 3 / 4, 27] ∧
    (Simulator.ofMesh 2 1).maxBufferSize = 8 ∧
    ¬ ((20 : ℚ) ≤ 25 / 8) := by
  decide!

/-! ## The structure of the mesh -/

theorem foldl_flatMap_step {α β σ : Type} (g : σ → β → σ) (step : σ → α → σ)
    (f : α → List β) (l : List α) (h : ∀ s x, x ∈ l → step s x = (f x).foldl g s) (s : σ) :
    l.foldl step s = (l.flatMap f).foldl g s := by
  induction l generalizing s with
  | nil => rfl
  | cons x xs ih =>
      simp only [List.foldl_cons, List.flatMap_cons, List.foldl_append]
      rw [h s x (List.mem_cons_self _ _)]
      exact ih (fun s y hy => h s y (List.mem_cons_of_mem _ hy)) _

theorem mesh_table_edges (w h : Nat) :
    (Network.new w h).table =
      (meshEdges w h).foldl (fun t e =>
        t.pushLink (meshLink e).sourceNode (meshLink e).destinationNode (meshLink e).direction)
        LinkTable.empty := by
  rw [mesh_table_eq]
  unfold meshEdges
  rw [← foldl_flatMap_step
    (fun t e => t.pushLink (meshLink e).sourceNode (meshLink e).destinationNode
      (meshLink e).direction)
    (fun t (p : Nat × Nat) => (Network.blank w h).createNodes.linkStep t p.1 p.2)]
  · unfold List.product
    rw [foldl_flatMap_nested]
    simp only [List.foldl_map]
  · intro s p hp
    obtain ⟨i, j⟩ := p
    have hm := List.mem_product.mp hp
    rw [mesh_linkStep_eq w h s i j (List.mem_range.mp hm.1) (List.mem_range.mp hm.2)]
    by_cases h1 : i + 1 < w <;> by_cases h2 : j + 1 < h <;>
      simp [h1, h2, meshLink, Link.new]

theorem mem_meshEdges (w h : Nat) (e : (Nat × Nat) × Bool) :
    e ∈ meshEdges w h ↔
      e.1.1 < w ∧ e.1.2 < h ∧ (if e.2 = true then e.1.1 + 1 < w else e.1.2 + 1 < h) := by
  obtain ⟨⟨i, j⟩, b⟩ := e
  unfold meshEdges
  rw [List.mem_flatMap]
  constructor
  · rintro ⟨⟨i2, j2⟩, hp, hmem⟩
    have hm := List.mem_product.mp hp
    have h1 := List.mem_range.mp hm.1
    have h2 := List.mem_range.mp hm.2
    rw [List.mem_append] at hmem
    rcases hmem with hmem | hmem
    · split at hmem
      · rename_i hc
        simp only [List.mem_singleton, Prod.mk.injEq] at hmem
        obtain ⟨⟨rfl, rfl⟩, rfl⟩ := hmem
        exact ⟨h1, h2, by simpa using hc⟩
      · cases hmem
    · split at hmem
      · rename_i hc
        simp only [List.mem_singleton, Prod.mk.injEq] at hmem
        obtain ⟨⟨rfl, rfl⟩, rfl⟩ := hmem
        exact ⟨h1, h2, by simpa using hc⟩
      · cases hmem
  · rintro ⟨h1, h2, h3⟩
    refine ⟨(i, j), List.mem_product.mpr ⟨List.mem_range.mpr h1, List.mem_range.mpr h2⟩, ?_⟩
    rw [List.mem_append]
    cases b with
    | true =>
        left
        have h4 : i + 1 < w := by simpa using h3
        simp [h4]
    | false =>
        right
        have h4 : j + 1 < h := by simpa using h3
        simp [h4]

theorem nodup_meshEdges (w h : Nat) : (meshEdges w h).Nodup := by
  unfold meshEdges
  rw [List.nodup_flatMap]
  constructor
  · intro p _
    by_cases h1 : p.1 + 1 < w <;> by_cases h2 : p.2 + 1 < h <;> simp [h1, h2]
  · apply List.Nodup.pairwise_of_forall_ne
      (List.Nodup.product (List.nodup_range _) (List.nodup_range _))
    intro p _ q _ hpq
    intro e he1 he2
    have hp : e.1 = p := by
      rw [List.mem_append] at he1
      rcases he1 with he1 | he1
      · split at he1
        · rw [List.mem_singleton.mp he1]
        · cases he1
      · split at he1
        · rw [List.mem_singleton.mp he1]
        · cases he1
    have hq : e.1 = q := by
      rw [List.mem_append] at he2
      rcases he2 with he2 | he2
      · split at he2
        · rw [List.mem_singleton.mp he2]
        · cases he2
      · split at he2
        · rw [List.mem_singleton.mp he2]
        · cases he2
    exact hpq (hp.symm.trans hq)

theorem meshEdges_length (w h : Nat) :
    (meshEdges w h).length = (w - 1) * h + w * (h - 1) := by
  rw [← List.toFinset_card_of_nodup (nodup_meshEdges w h)]
  have hset : (meshEdges w h).toFinset =
      (Finset.image (fun (p : Nat × Nat) => (p, true))
        (Finset.range (w - 1) ×ˢ Finset.range h)) ∪
      (Finset.image (fun (p : Nat × Nat) => (p, false))
        (Finset.range w ×ˢ Finset.range (h - 1))) := by
    ext e
    obtain ⟨⟨i, j⟩, b⟩ := e
    simp only [List.mem_toFinset, mem_meshEdges, Finset.mem_union, Finset.mem_image,
      Finset.mem_product, Finset.mem_range, Prod.mk.injEq, Prod.exists]
    cases b with
    | true =>
        simp only [if_true]
        constructor
        · rintro ⟨h1, h2, h3⟩
          exact Or.inl ⟨i, j, ⟨by omega, h2⟩, ⟨rfl, rfl⟩, trivial⟩
        · rintro (⟨i2, j2, ⟨h1, h2⟩, ⟨rfl, rfl⟩, _⟩ | ⟨i2, j2, _, _, hb⟩)
          · exact ⟨by omega, h2, by omega⟩
          · cases hb
    | false =>
        simp only [Bool.false_eq_true, if_false]
        constructor
        · rintro ⟨h1, h2, h3⟩
          exact Or.inr ⟨i, j, ⟨h1, by omega⟩, ⟨rfl, rfl⟩, trivial⟩
        · rintro (⟨i2, j2, _, _, hb⟩ | ⟨i2, j2, ⟨h1, h2⟩, ⟨rfl, rfl⟩, _⟩)
          · cases hb
          · exact ⟨h1, by omega, by omega⟩
  rw [hset, Finset.card_union_of_disjoint, Finset.card_image_of_injective,
    Finset.card_image_of_injective, Finset.card_product, Finset.card_product,
    Finset.card_range, Finset.card_range, Finset.card_range, Finset.card_range]
  · intro p q hpq
    exact (Prod.mk.inj hpq).1
  · intro p q hpq
    exact (Prod.mk.inj hpq).1
  · rw [Finset.disjoint_left]
    intro e h1 h2
    simp only [Finset.mem_image] at h1 h2
    obtain ⟨p, _, rfl⟩ := h1
    obtain ⟨q, _, hq⟩ := h2
    have := (Prod.mk.inj hq).2
    cases this

theorem mesh_links_eq (w h : Nat) :
    (Network.new w h).table.Indexed ∧
    (Network.new w h).table.links = (meshEdges w h).map meshLink := by
  rw [mesh_table_edges]
  have hk := foldl_pushLink meshLink (meshEdges w h)
    (fun e _ hsd => by
      obtain ⟨⟨i, j⟩, b⟩ := e
      cases b with
      | true =>
          have := (ofXY_inj _ _ _ _ hsd).1
          simp only at this
          omega
      | false =>
          have := (ofXY_inj _ _ _ _ hsd).2
          simp only at this
          omega)
    (fun e _ => by
      obtain ⟨⟨i, j⟩, b⟩ := e
      cases b <;> rfl)
    LinkTable.empty LinkTable.indexed_empty
  refine ⟨hk.1, ?_⟩
  rw [hk.2]
  rfl

theorem ofXY_eq_iff (a b c d : Int) : Node.ofXY a b = Node.ofXY c d ↔ a = c ∧ b = d := by
  constructor
  · exact ofXY_inj a b c d
  · rintro ⟨rfl, rfl⟩
    rfl

theorem manhattan_one_iff (x1 y1 x2 y2 : Nat) :
    DuatoProtocol.calculateManhattanDistance (Node.ofXY (x1 : Int) (y1 : Int))
      (Node.ofXY (x2 : Int) (y2 : Int)) = 1 ↔
    ((x1 + 1 = x2 ∧ y1 = y2) ∨ (x2 + 1 = x1 ∧ y1 = y2) ∨ (x1 = x2 ∧ y1 + 1 = y2) ∨
      (x1 = x2 ∧ y2 + 1 = y1)) := by
  simp only [DuatoProtocol.calculateManhattanDistance, Node.ofXY]
  omega

theorem meshLink_joins (i j : Nat) (b : Bool) (x1 y1 x2 y2 : Nat) :
    (meshLink ((i, j), b)).joins (Node.ofXY (x1 : Int) (y1 : Int))
      (Node.ofXY (x2 : Int) (y2 : Int)) = true ↔
    (b = true ∧ ((i = x1 ∧ j = y1 ∧ i + 1 = x2 ∧ j = y2) ∨
      (i = x2 ∧ j = y2 ∧ i + 1 = x1 ∧ j = y1))) ∨
    (b = false ∧ ((i = x1 ∧ j = y1 ∧ i = x2 ∧ j + 1 = y2) ∨
      (i = x2 ∧ j = y2 ∧ i = x1 ∧ j + 1 = y1))) := by
  cases b with
  | true =>
      simp only [Link.joins, meshLink, Link.new, if_true, decide_eq_true_eq, ofXY_eq_iff,
        Bool.true_eq_false, false_and, or_false, true_and]
      omega
  | false =>
      simp only [Link.joins, meshLink, Link.new, Bool.false_eq_true, if_false,
        decide_eq_true_eq, ofXY_eq_iff, false_and, false_or, true_and]
      omega

theorem mesh_edge_count (w h x1 y1 x2 y2 : Nat) (hx1 : x1 < w) (hy1 : y1 < h) (hx2 : x2 < w)
    (hy2 : y2 < h) :
    (meshEdges w h).countP (fun e => (meshLink e).joins (Node.ofXY (x1 : Int) (y1 : Int))
      (Node.ofXY (x2 : Int) (y2 : Int))) =
      if DuatoProtocol.calculateManhattanDistance (Node.ofXY (x1 : Int) (y1 : Int))
        (Node.ofXY (x2 : Int) (y2 : Int)) = 1 then 1 else 0 := by
  have huniq : ∀ e0 : (Nat × Nat) × Bool, e0 ∈ meshEdges w h →
      (∀ e ∈ meshEdges w h, (meshLink e).joins (Node.ofXY (x1 : Int) (y1 : Int))
        (Node.ofXY (x2 : Int) (y2 : Int)) = true ↔ e = e0) →
      (meshEdges w h).countP (fun e => (meshLink e).joins (Node.ofXY (x1 : Int) (y1 : Int))
        (Node.ofXY (x2 : Int) (y2 : Int))) = 1 :=
    fun e0 hmem hiff => countP_eq_one_of_unique _ (nodup_meshEdges w h) _ e0 hmem hiff
  by_cases hd : DuatoProtocol.calculateManhattanDistance (Node.ofXY (x1 : Int) (y1 : Int))
      (Node.ofXY (x2 : Int) (y2 : Int)) = 1
  · rw [if_pos hd]
    rcases (manhattan_one_iff x1 y1 x2 y2).mp hd with hc | hc | hc | hc
    · apply huniq ((x1, y1), true)
      · rw [mem_meshEdges]
        simp only [if_true]
        omega
      · rintro ⟨⟨i, j⟩, b⟩ _
        rw [meshLink_joins]
        simp only [Prod.mk.injEq]
        cases b <;> simp <;> omega
    · apply huniq ((x2, y2), true)
      · rw [mem_meshEdges]
        simp only [if_true]
        omega
      · rintro ⟨⟨i, j⟩, b⟩ _
        rw [meshLink_joins]
        simp only [Prod.mk.injEq]
        cases b <;> simp <;> omega
    · apply huniq ((x1, y1), false)
      · rw [mem_meshEdges]
        simp only [Bool.false_eq_true, if_false]
        omega
      · rintro ⟨⟨i, j⟩, b⟩ _
        rw [meshLink_joins]
        simp only [Prod.mk.injEq]
        cases b <;> simp <;> omega
    · apply huniq ((x2, y2), false)
      · rw [mem_meshEdges]
        simp only [Bool.false_eq_true, if_false]
        omega
      · rintro ⟨⟨i, j⟩, b⟩ _
        rw [meshLink_joins]
        simp only [Prod.mk.injEq]
        cases b <;> simp <;> omega
  · rw [if_neg hd, List.countP_eq_zero]
    rintro ⟨⟨i, j⟩, b⟩ _ hj
    apply hd
    rw [manhattan_one_iff]
    rw [meshLink_joins] at hj
    omega

theorem mesh_getNode_iff (w h : Nat) (x y : Int) :
    (Network.new w h).getNode x y =
      if 0 ≤ x ∧ x < (w : Int) ∧ 0 ≤ y ∧ y < (h : Int) then some (Node.ofXY x y) else none := by
  by_cases hc : 0 ≤ x ∧ x < (w : Int) ∧ 0 ≤ y ∧ y < (h : Int)
  · rw [if_pos hc]
    obtain ⟨i, rfl⟩ := Int.eq_ofNat_of_zero_le hc.1
    obtain ⟨j, rfl⟩ := Int.eq_ofNat_of_zero_le hc.2.2.1
    rw [mesh_getNode_new, mesh_getNode]
    have : i < w ∧ j < h := by omega
    rw [if_pos this]
  · rw [if_neg hc]
    cases hg : (Network.new w h).getNode x y with
    | none => rfl
    | some v =>
        obtain ⟨i, j, hi, hj, rfl, rfl, _⟩ := mesh_getNode_some w h x y v hg
        exfalso
        apply hc
        omega

theorem mesh_nodes_length (w h : Nat) : (Network.new w h).nodes.flatten.length = w * h := by
  have hn : (Network.new w h).nodes = (List.range h).map (fun (y : Nat) =>
      (List.range w).map (fun (x : Nat) => Node.ofXY (x : Int) (y : Int))) := rfl
  rw [hn, List.length_flatten, List.map_map]
  have : (List.length ∘ fun (y : Nat) =>
      (List.range w).map (fun (x : Nat) => Node.ofXY (x : Int) (y : Int))) = fun _ => w := by
    funext y
    simp
  rw [this, List.map_const', List.sum_replicate, List.length_range, smul_eq_mul, Nat.mul_comm]

theorem mesh_nodes_mem (w h : Nat) (v : Node) :
    v ∈ (Network.new w h).nodes.flatten ↔
      ∃ i j : Nat, i < w ∧ j < h ∧ v = Node.ofXY (i : Int) (j : Int) := by
  have hn : (Network.new w h).nodes = (List.range h).map (fun (y : Nat) =>
      (List.range w).map (fun (x : Nat) => Node.ofXY (x : Int) (y : Int))) := rfl
  rw [hn, List.mem_flatten]
  constructor
  · rintro ⟨row, hrow, hv⟩
    rw [List.mem_map] at hrow
    obtain ⟨j, hj, rfl⟩ := hrow
    rw [List.mem_map] at hv
    obtain ⟨i, hi, rfl⟩ := hv
    exact ⟨i, j, List.mem_range.mp hi, List.mem_range.mp hj, rfl⟩
  · rintro ⟨i, j, hi, hj, rfl⟩
    exact ⟨_, List.mem_map.mpr ⟨j, List.mem_range.mpr hj, rfl⟩,
      List.mem_map.mpr ⟨i, List.mem_range.mpr hi, rfl⟩⟩

theorem mesh_nodes_nodup (w h : Nat) : (Network.new w h).nodes.flatten.Nodup := by
  have hn : (Network.new w h).nodes.flatten = (List.range h).flatMap (fun (y : Nat) =>
      (List.range w).map (fun (x : Nat) => Node.ofXY (x : Int) (y : Int))) := rfl
  rw [hn, List.nodup_flatMap]
  constructor
  · intro y _
    apply List.Nodup.map _ (List.nodup_range w)
    intro a b hab
    have := (ofXY_inj _ _ _ _ hab).1
    exact_mod_cast this
  · apply List.Nodup.pairwise_of_forall_ne (List.nodup_range h)
    intro y1 _ y2 _ hne v hv1 hv2
    rw [List.mem_map] at hv1 hv2
    obtain ⟨a, _, rfl⟩ := hv1
    obtain ⟨b, _, hb⟩ := hv2
    have := (ofXY_inj _ _ _ _ hb).2
    apply hne
    omega

theorem meshLink_inj (e1 e2 : (Nat × Nat) × Bool) (h : meshLink e1 = meshLink e2) :
    e1 = e2 := by
  obtain ⟨⟨i1, j1⟩, b1⟩ := e1
  obtain ⟨⟨i2, j2⟩, b2⟩ := e2
  have hs := congrArg Link.sourceNode h
  have hd := congrArg Link.direction h
  cases b1 <;> cases b2 <;>
    simp only [meshLink, Link.new, if_true, Bool.false_eq_true, if_false, ofXY_eq_iff] at hs hd
  · obtain ⟨h1, h2⟩ := hs
    have e1 : i1 = i2 := by omega
    have e2 : j1 = j2 := by omega
    rw [e1, e2]
  · cases hd
  · cases hd
  · obtain ⟨h1, h2⟩ := hs
    have e1 : i1 = i2 := by omega
    have e2 : j1 = j2 := by omega
    rw [e1, e2]

/-- C31: `Network(width, height)` builds `width * height` nodes, one for every cell
`(x, y)` with `x < width` and `y < height` and no two of them equal; `getNode(x, y)`
returns the node of the cell for `0 <= x < width`, `0 <= y < height` and no node otherwise.
The link list holds no link twice and has `(width - 1) * height + width * (height - 1)`
entries (natural-number subtraction; for `width, height >= 1` this is the formula on
integers); every link joins two cells at Manhattan distance 1, and for two cells of the
mesh the number of links that join them, in either orientation, is 1 when their Manhattan
distance is 1 and 0 otherwise, so there is no wraparound link. -/
theorem mesh_structure (w h : Nat) :
    (Network.new w h).nodes.flatten.length = w * h ∧
    (Network.new w h).nodes.flatten.Nodup ∧
    (∀ v, v ∈ (Network.new w h).nodes.flatten ↔
      ∃ i j : Nat, i < w ∧ j < h ∧ v = Node.ofXY (i : Int) (j : Int)) ∧
    (∀ x y : Int, (Network.new w h).getNode x y =
      if 0 ≤ x ∧ x < (w : Int) ∧ 0 ≤ y ∧ y < (h : Int) then some (Node.ofXY x y) else none) ∧
    (Network.new w h).table.links = (meshEdges w h).map meshLink ∧
    (Network.new w h).table.links.Nodup ∧
    (Network.new w h).table.links.length = (w - 1) * h + w * (h - 1) ∧
    (1 ≤ w → 1 ≤ h → ((Network.new w h).table.links.length : Int) =
      ((w : Int) - 1) * (h : Int) + (w : Int) * ((h : Int) - 1)) ∧
    (∀ l ∈ (Network.new w h).table.links, ∃ x1 y1 x2 y2 : Nat,
      x1 < w ∧ y1 < h ∧ x2 < w ∧ y2 < h ∧
      l.sourceNode = Node.ofXY (x1 : Int) (y1 : Int) ∧
      l.destinationNode = Node.ofXY (x2 : Int) (y2 : Int) ∧
      DuatoProtocol.calculateManhattanDistance l.sourceNode l.destinationNode = 1) ∧
    (∀ x1 y1 x2 y2 : Nat, x1 < w → y1 < h → x2 < w → y2 < h →
      (Network.new w h).table.links.countP
        (fun l => l.joins (Node.ofXY (x1 : Int) (y1 : Int))
          (Node.ofXY (x2 : Int) (y2 : Int))) =
        if DuatoProtocol.calculateManhattanDistance (Node.ofXY (x1 : Int) (y1 : Int))
          (Node.ofXY (x2 : Int) (y2 : Int)) = 1 then 1 else 0) := by
  obtain ⟨_, hlinks⟩ := mesh_links_eq w h
  have hlen : (Network.new w h).table.links.length = (w - 1) * h + w * (h - 1) := by
    rw [hlinks, List.length_map, meshEdges_length]
  refine ⟨mesh_nodes_length w h, mesh_nodes_nodup w h, mesh_nodes_mem w h,
    mesh_getNode_iff w h, hlinks, ?_, hlen, ?_, ?_, ?_⟩
  · rw [hlinks]
    exact List.Nodup.map (fun a b hab => meshLink_inj a b hab) (nodup_meshEdges w h)
  · intro hw hh
    rw [hlen]
    have e1 : ((w - 1 : Nat) : Int) = (w : Int) - 1 := by omega
    have e2 : ((h - 1 : Nat) : Int) = (h : Int) - 1 := by omega
    push_cast
    rw [e1, e2]
  · intro l hl
    rw [hlinks, List.mem_map] at hl
    obtain ⟨⟨⟨i, j⟩, b⟩, he, rfl⟩ := hl
    rw [mem_meshEdges] at he
    cases b with
    | true =>
        simp only [if_true] at he
        refine ⟨i, j, i + 1, j, he.1, he.2.1, he.2.2, he.2.1, rfl, ?_, ?_⟩
        · simp [meshLink, Link.new]
        · simp only [meshLink, Link.new, if_true]
          have := (manhattan_one_iff i j (i + 1) j).mpr (Or.inl ⟨rfl, rfl⟩)
          simpa using this
    | false =>
        simp only [Bool.false_eq_true, if_false] at he
        refine ⟨i, j, i, j + 1, he.1, he.2.1, he.1, he.2.2, rfl, ?_, ?_⟩
        · simp [meshLink, Link.new]
        · simp only [meshLink, Link.new, Bool.false_eq_true, if_false]
          have := (manhattan_one_iff i j i (j + 1)).mpr (Or.inr (Or.inr (Or.inl ⟨rfl, rfl⟩)))
          simpa using this
  · intro x1 y1 x2 y2 hx1 hy1 hx2 hy2
    rw [hlinks, List.countP_map]
    exact mesh_edge_count w h x1 y1 x2 y2 hx1 hy1 hx2 hy2

theorem mesh_structure_witness :
    (1 : Nat) ≤ 3 ∧ (1 : Nat) ≤ 2 ∧ 0 < 3 ∧ 0 < 2 ∧ 2 < 3 ∧ 1 < 3 ∧
    (((Network.new 3 2).table.links.length : Int) =
      (((3 : Nat) : Int) - 1) * ((2 : Nat) : Int) + ((3 : Nat) : Int) * (((2 : Nat) : Int) - 1)) ∧
    (Network.new 3 2).table.links.countP
      (fun l => l.joins (Node.ofXY ((0 : Nat) : Int) ((0 : Nat) : Int))
        (Node.ofXY ((2 : Nat) : Int) ((0 : Nat) : Int))) =
      (if DuatoProtocol.calculateManhattanDistance (Node.ofXY ((0 : Nat) : Int) ((0 : Nat) : Int))
        (Node.ofXY ((2 : Nat) : Int) ((0 : Nat) : Int)) = 1 then 1 else 0) ∧
    (Network.new 3 2).table.links.countP
      (fun l => l.joins (Node.ofXY ((0 : Nat) : Int) ((0 : Nat) : Int))
        (Node.ofXY ((1 : Nat) : Int) ((0 : Nat) : Int))) =
      (if DuatoProtocol.calculateManhattanDistance (Node.ofXY ((0 : Nat) : Int) ((0 : Nat) : Int))
        (Node.ofXY ((1 : Nat) : Int) ((0 : Nat) : Int)) = 1 then 1 else 0) :=
  ⟨by decide, by decide, by decide, by decide, by decide, by decide,
   (mesh_structure 3 2).2.2.2.2.2.2.2.1 (by decide) (by decide),
   (mesh_structure 3 2).2.2.2.2.2.2.2.2.2 0 0 2 0 (by decide) (by decide) (by decide) (by decide),
   (mesh_structure 3 2).2.2.2.2.2.2.2.2.2 0 0 1 0 (by decide) (by decide) (by decide)
     (by decide)⟩

/-! ## Channel occupancy is never written -/

theorem applyCalls_topology (sim : Simulator) (calls : List SimCall) :
    ∀ s k, sim.applyCalls calls = some (s, k) →
      s.network = sim.network ∧ s.hypercubeNet = sim.hypercubeNet := by
  unfold Simulator.applyCalls
  apply foldl_inv _ (fun (state : Option (Simulator × Int)) =>
    ∀ s k, state = some (s, k) → s.network = sim.network ∧ s.hypercubeNet = sim.hypercubeNet)
  · intro state call _ hstate s k hs
    unfold Simulator.applyCall at hs
    split at hs
    · cases hs
    · rename_i s1 k1
      have h1 := hstate s1 k1 rfl
      split at hs
      · split at hs
        · cases hs
        · rename_i s2 k2 hinj
          simp only [Option.some.injEq, Prod.mk.injEq] at hs
          obtain ⟨rfl, rfl⟩ := hs
          obtain ⟨b, rfl⟩ := injectPackets_frame s1 _ _ _ _ hinj
          exact h1
      · simp only [Option.some.injEq, Prod.mk.injEq] at hs
        obtain ⟨rfl, rfl⟩ := hs
        exact h1
      · simp only [Option.some.injEq, Prod.mk.injEq] at hs
        obtain ⟨rfl, rfl⟩ := hs
        exact h1
  · intro s k hs
    simp only [Option.some.injEq, Prod.mk.injEq] at hs
    obtain ⟨rfl, rfl⟩ := hs
    exact ⟨rfl, rfl⟩

theorem mesh_links_free (w h : Nat) (vc : VirtualChannel) :
    ∀ l ∈ (Network.new w h).table.links, l.canTransmit vc = true ∧ l.isOccupied vc = false := by
  intro l hl
  rw [(mesh_links_eq w h).2, List.mem_map] at hl
  obtain ⟨⟨⟨i, j⟩, b⟩, _, rfl⟩ := hl
  cases b <;> cases vc <;> exact ⟨rfl, rfl⟩

theorem hypercube_links_free (n : Nat) (vc : VirtualChannel) :
    ∀ l ∈ (HypercubeNetwork.new n).initializeTopology.table.links,
      l.canTransmit vc = true ∧ l.isOccupied vc = false := by
  intro l hl
  rw [(hypercube_links_eq n).2, List.mem_map] at hl
  obtain ⟨p, _, rfl⟩ := hl
  cases vc <;> exact ⟨rfl, rfl⟩

theorem chooseLink_adaptive (w h : Nat) (hsize : (w : Int) + (h : Int) ≤ INT_MAX)
    (i j k m : Nat) (hi : i < w) (hj : j < h) (hk : k < w) (hm : m < h)
    (hne : ¬ (i = k ∧ j = m)) :
    ∃ idx l, DuatoProtocol.selectAdaptiveRoute (Network.new w h) (Node.ofXY (i : Int) (j : Int))
        (Node.ofXY (k : Int) (m : Int)) = some idx ∧
      DuatoProtocol.chooseLink (Network.new w h) (Node.ofXY (i : Int) (j : Int))
        (Node.ofXY (k : Int) (m : Int)) = some idx ∧
      (Network.new w h).table.links[idx]? = some l ∧
      DuatoProtocol.isChannelFree (Network.new w h) idx VirtualChannel.ADAPTIVE = true ∧
      DuatoProtocol.calculateManhattanDistance (l.otherEnd (Node.ofXY (i : Int) (j : Int)))
        (Node.ofXY (k : Int) (m : Int)) + 1 =
        DuatoProtocol.calculateManhattanDistance (Node.ofXY (i : Int) (j : Int))
          (Node.ofXY (k : Int) (m : Int)) := by
  have hS : (Network.new w h).table.Sound (MeshLink w h) :=
    sound_weaken _ _ _ (fun l hl => hl.1) (mesh_sound w h)
  have hD : DuatoProtocol.calculateManhattanDistance (Node.ofXY (i : Int) (j : Int))
      (Node.ofXY (k : Int) (m : Int)) - 1 < INT_MAX := by
    simp only [DuatoProtocol.calculateManhattanDistance, Node.ofXY]
    omega
  obtain ⟨idx, l, h1, h2, h3⟩ := selectAdaptiveRoute_some w h _ hS _ _ hD
    (mesh_productive_link w h _ (mesh_complete w h) i j k m hi hj hk hm hne)
  have hfree := (mesh_links_free w h VirtualChannel.ADAPTIVE l
    (List.getElem?_mem h2)).1
  have hch : DuatoProtocol.isChannelFree (Network.new w h) idx VirtualChannel.ADAPTIVE =
      true := by
    unfold DuatoProtocol.isChannelFree
    rw [h2]
    exact hfree
  refine ⟨idx, l, h1, ?_, h2, hch, h3⟩
  unfold DuatoProtocol.chooseLink
  simp only [DuatoProtocol.canUseAdaptiveChannel, if_true, h1, hch, Bool.not_true,
    Bool.false_eq_true, if_false]

/-- C36: no routing query and no simulator step writes an occupancy flag. The routing
functions read the topology and return a result only; `reset`, `injectPackets`,
`routePackets`, every sequence of such calls and `runSimulation` leave the topology
members of the simulator as they were. After construction both channels of every link of
the mesh and of the hypercube are free, so they are free in every state reached by a run.
On the mesh, for two different cells, `findPath` takes the link chosen by
`selectAdaptiveRoute`, a link whose adaptive channel is free and which leads one step
closer to the destination: neither the deterministic fallback nor the failure for an
occupied channel is reached. -/
theorem channels_never_marked (w h n : Nat) (vc : VirtualChannel) :
    (∀ l ∈ (Network.new w h).table.links, l.canTransmit vc = true ∧ l.isOccupied vc = false) ∧
    (∀ l ∈ (HypercubeNetwork.new n).initializeTopology.table.links,
      l.canTransmit vc = true ∧ l.isOccupied vc = false) ∧
    (∀ sim : Simulator, sim.reset.network = sim.network ∧
      sim.reset.hypercubeNet = sim.hypercubeNet ∧
      sim.routePackets.network = sim.network ∧
      sim.routePackets.hypercubeNet = sim.hypercubeNet) ∧
    (∀ (sim : Simulator) (injectionRate : ℚ) (draws : Nat → InjectionDraw) (s : Simulator)
        (k : Int), sim.injectPackets injectionRate draws = some (s, k) →
      s.network = sim.network ∧ s.hypercubeNet = sim.hypercubeNet) ∧
    (∀ (sim : Simulator) (calls : List SimCall) (s : Simulator) (k : Int),
      sim.applyCalls calls = some (s, k) →
      s.network = sim.network ∧ s.hypercubeNet = sim.hypercubeNet) ∧
    (∀ (sim : Simulator) (injectionRate : ℚ) (config : RunConfig)
        (draws : Int → Nat → InjectionDraw) (r : Simulator),
      sim.runSimulation injectionRate config draws = some r →
      r.network = sim.network ∧ r.hypercubeNet = sim.hypercubeNet) ∧
    (∀ (injectionRate : ℚ) (config : RunConfig) (draws : Int → Nat → InjectionDraw)
        (r : Simulator),
      (Simulator.ofMesh w h).runSimulation injectionRate config draws = some r →
      ∀ l ∈ r.network.table.links, l.canTransmit vc = true) ∧
    (∀ (injectionRate : ℚ) (config : RunConfig) (draws : Int → Nat → InjectionDraw)
        (r : Simulator),
      (Simulator.ofHypercube (HypercubeNetwork.new n).initializeTopology).runSimulation
        injectionRate config draws = some r →
      ∀ l ∈ r.hypercubeNet.table.links, l.canTransmit vc = true) ∧
    ((w : Int) + (h : Int) ≤ INT_MAX →
      ∀ i j k m : Nat, i < w → j < h → k < w → m < h → ¬ (i = k ∧ j = m) →
      ∃ idx l, DuatoProtocol.selectAdaptiveRoute (Network.new w h)
          (Node.ofXY (i : Int) (j : Int)) (Node.ofXY (k : Int) (m : Int)) = some idx ∧
        DuatoProtocol.chooseLink (Network.new w h) (Node.ofXY (i : Int) (j : Int))
          (Node.ofXY (k : Int) (m : Int)) = some idx ∧
        (Network.new w h).table.links[idx]? = some l ∧
        DuatoProtocol.isChannelFree (Network.new w h) idx VirtualChannel.ADAPTIVE = true ∧
        DuatoProtocol.calculateManhattanDistance (l.otherEnd (Node.ofXY (i : Int) (j : Int)))
          (Node.ofXY (k : Int) (m : Int)) + 1 =
          DuatoProtocol.calculateManhattanDistance (Node.ofXY (i : Int) (j : Int))
            (Node.ofXY (k : Int) (m : Int))) := by
  have hrun : ∀ (sim : Simulator) (injectionRate : ℚ) (config : RunConfig)
      (draws : Int → Nat → InjectionDraw) (r : Simulator),
      sim.runSimulation injectionRate config draws = some r →
      r.network = sim.network ∧ r.hypercubeNet = sim.hypercubeNet := by
    intro sim injectionRate config draws r hr
    have hs := runSimulation_sameSetup sim injectionRate config draws r hr
    exact ⟨hs.2.2.2.2.2, hs.2.2.2.2.1⟩
  refine ⟨mesh_links_free w h vc, hypercube_links_free n vc, fun sim => ⟨rfl, rfl, rfl, rfl⟩,
    ?_, applyCalls_topology, hrun, ?_, ?_, ?_⟩
  · intro sim injectionRate draws s k hinj
    obtain ⟨b, rfl⟩ := injectPackets_frame sim injectionRate draws s k hinj
    exact ⟨rfl, rfl⟩
  · intro injectionRate config draws r hr l hl
    rw [(hrun _ injectionRate config draws r hr).1] at hl
    exact (mesh_links_free w h vc l hl).1
  · intro injectionRate config draws r hr l hl
    rw [(hrun _ injectionRate config draws r hr).2] at hl
    exact (hypercube_links_free n vc l hl).1
  · intro hsize i j k m hi hj hk hm hne
    exact chooseLink_adaptive w h hsize i j k m hi hj hk hm hne

theorem channels_never_marked_witness :
    ((2 : Nat) : Int) + ((1 : Nat) : Int) ≤ INT_MAX ∧
    ∃ idx l, DuatoProtocol.selectAdaptiveRoute (Network.new 2 1)
        (Node.ofXY ((0 : Nat) : Int) ((0 : Nat) : Int))
        (Node.ofXY ((1 : Nat) : Int) ((0 : Nat) : Int)) = some idx ∧
      DuatoProtocol.chooseLink (Network.new 2 1)
        (Node.ofXY ((0 : Nat) : Int) ((0 : Nat) : Int))
        (Node.ofXY ((1 : Nat) : Int) ((0 : Nat) : Int)) = some idx ∧
      (Network.new 2 1).table.links[idx]? = some l ∧
      DuatoProtocol.isChannelFree (Network.new 2 1) idx VirtualChannel.ADAPTIVE = true ∧
      DuatoProtocol.calculateManhattanDistance
        (l.otherEnd (Node.ofXY ((0 : Nat) : Int) ((0 : Nat) : Int)))
        (Node.ofXY ((1 : Nat) : Int) ((0 : Nat) : Int)) + 1 =
        DuatoProtocol.calculateManhattanDistance (Node.ofXY ((0 : Nat) : Int) ((0 : Nat) : Int))
          (Node.ofXY ((1 : Nat) : Int) ((0 : Nat) : Int)) :=
  ⟨by decide, (channels_never_marked 2 1 0 VirtualChannel.ADAPTIVE).2.2.2.2.2.2.2.2
    (by decide) 0 0 1 0 (by decide) (by decide) (by decide) (by decide) (by decide)⟩

/-! ## Hop counts in the routing step -/

theorem routeHypercubeNode_hop (sim : Simulator) (hmode : sim.isHypercubeMode = true)
    (cap maxGlobal : Int) (st : RouteState) (nodeId : Nat) :
    HopShape sim.nextHop sim.known st
      (Simulator.routeHypercubeNode sim cap maxGlobal st nodeId) := by
  have hhop : sim.nextHop = sim.calculateNextHopHypercube := by
    funext current destination
    unfold Simulator.nextHop
    rw [if_pos hmode]
  unfold Simulator.routeHypercubeNode
  split
  · exact Or.inl ⟨rfl, rfl, rfl⟩
  · split
    · exact Or.inl ⟨rfl, rfl, rfl⟩
    · rename_i currentHC hnode
      have hknown : sim.known (NodeRef.cube currentHC) := by
        unfold Simulator.known
        rw [if_pos hmode]
        exact ⟨_, _, hnode, rfl⟩
      try dsimp only
      split
      · exact Or.inl ⟨rfl, rfl, rfl⟩
      · rename_i front rest hbuf
        try dsimp only
        split
        · rename_i hdest
          refine Or.inr (Or.inr (Or.inl ⟨_, front, rest, hknown, hbuf, hdest.symm, ?_, rfl, rfl⟩))
          exact setBuffer_setBuffer _ _ _ _
        · rename_i hdest
          split
          · exact Or.inr (Or.inl ⟨_, front, rest, hknown, hbuf, rfl, rfl, rfl⟩)
          · rename_i nextHop hnext
            try dsimp only
            split
            · exact Or.inr (Or.inl ⟨_, front, rest, hknown, hbuf, rfl, rfl, rfl⟩)
            · split
              · exact Or.inr (Or.inl ⟨_, front, rest, hknown, hbuf, rfl, rfl, rfl⟩)
              · refine Or.inr (Or.inr (Or.inr ⟨_, nextHop, front, rest, hknown, hbuf, ?_, ?_, ?_,
                  rfl, rfl⟩))
                · exact fun h => hdest h.symm
                · rw [hhop]
                  exact hnext
                · dsimp only
                  rw [setBuffer_setBuffer]

theorem routeMeshNode_hop (sim : Simulator) (hmode : sim.isHypercubeMode = false)
    (st : RouteState) (x y : Nat) :
    HopShape sim.nextHop sim.known st (Simulator.routeMeshNode sim st x y) := by
  have hhop : sim.nextHop = sim.calculateNextHop := by
    funext current destination
    unfold Simulator.nextHop
    rw [hmode]
    rfl
  unfold Simulator.routeMeshNode
  split
  · exact Or.inl ⟨rfl, rfl, rfl⟩
  · rename_i currentMesh hnode
    have hknown : sim.known (NodeRef.mesh currentMesh) := by
      unfold Simulator.known
      rw [hmode]
      exact ⟨_, _, _, hnode, rfl⟩
    try dsimp only
    split
    · exact Or.inl ⟨rfl, rfl, rfl⟩
    · rename_i front rest hbuf
      try dsimp only
      split
      · rename_i hdest
        refine Or.inr (Or.inr (Or.inl ⟨_, front, rest, hknown, hbuf, hdest.symm, ?_, rfl, rfl⟩))
        exact setBuffer_setBuffer _ _ _ _
      · rename_i hdest
        split
        · exact Or.inr (Or.inl ⟨_, front, rest, hknown, hbuf, rfl, rfl, rfl⟩)
        · rename_i nextHop hnext
          try dsimp only
          split
          · exact Or.inr (Or.inl ⟨_, front, rest, hknown, hbuf, rfl, rfl, rfl⟩)
          · split
            · exact Or.inr (Or.inl ⟨_, front, rest, hknown, hbuf, rfl, rfl, rfl⟩)
            · refine Or.inr (Or.inr (Or.inr ⟨_, nextHop, front, rest, hknown, hbuf, ?_, ?_, ?_,
                rfl, rfl⟩))
              · exact fun h => hdest h.symm
              · rw [hhop]
                exact hnext
              · dsimp only
                rw [setBuffer_setBuffer]

/-- An invariant of all steps holds for the state after `routePackets`. -/
theorem routePacketsTrace_hop_inv (sim : Simulator) (I : RouteState → Prop)
    (h0 : I sim.routeStart)
    (hstep : ∀ st st2, I st → HopShape sim.nextHop sim.known st st2 → I st2) :
    I sim.routePacketsTrace := by
  unfold Simulator.routePacketsTrace
  cases hmode : sim.isHypercubeMode with
  | true =>
      simp only [if_true]
      apply foldl_inv _ I _ _ _ h0
      intro st _ _ hst
      apply foldl_inv _ I _ _ _ hst
      intro st nodeId _ hst
      exact hstep st _ hst (routeHypercubeNode_hop sim hmode _ _ st nodeId)
  | false =>
      simp only [Bool.false_eq_true, if_false]
      apply foldl_inv _ I _ _ _ h0
      intro st _ _ hst
      apply foldl_inv _ I _ _ _ hst
      intro st x _ hst
      apply foldl_inv _ I _ _ _ hst
      intro st y _ hst
      exact hstep st _ hst (routeMeshNode_hop sim hmode st x y)

theorem mem_setBuffer (b : NodeRef → List Packet) (c node : NodeRef) (q : List Packet)
    (packet : Packet) (h : packet ∈ Simulator.setBuffer b c q node) :
    (node = c ∧ packet ∈ q) ∨ (node ≠ c ∧ packet ∈ b node) := by
  unfold Simulator.setBuffer at h
  by_cases hn : node = c
  · rw [if_pos hn] at h
    exact Or.inl ⟨hn, h⟩
  · rw [if_neg hn] at h
    exact Or.inr ⟨hn, h⟩

theorem mem_pushPacket (b : NodeRef → List Packet) (n node : NodeRef) (p packet : Packet)
    (h : packet ∈ Simulator.pushPacket b n p node) :
    packet ∈ b node ∨ (node = n ∧ packet = p) := by
  unfold Simulator.pushPacket at h
  by_cases hn : node = n
  · rw [if_pos hn, List.mem_append, List.mem_singleton] at h
    rcases h with h | h
    · exact Or.inl h
    · exact Or.inr ⟨hn, h⟩
  · rw [if_neg hn] at h
    exact Or.inl h

/-- A step that moves packets along a next-hop function that goes one step closer to the
destination keeps the hop counts consistent with the distances. -/
theorem hop_step (hop : NodeRef → Option NodeRef → Option NodeRef) (known : NodeRef → Prop)
    (hmin : ∀ c d next, known c → known d → d ≠ c → hop c (some d) = some next →
      known next ∧ next.distance d + 1 = c.distance d)
    (hself : ∀ c, known c → c.distance c = 0)
    (st st2 : RouteState) (hshape : HopShape hop known st st2)
    (hb : HopsConsistent known st.nodeBuffers)
    (hr : RetiredConsistent st.retired st.metrics.hopCounts) :
    HopsConsistent known st2.nodeBuffers ∧
      RetiredConsistent st2.retired st2.metrics.hopCounts := by
  rcases hshape with ⟨h1, h2, h3⟩ | ⟨current, front, rest, hk, hbuf, h1, h2, h3⟩ |
    ⟨current, front, rest, hk, hbuf, hdest, h1, h2, h3⟩ |
    ⟨current, next, front, rest, hk, hbuf, hdest, hnext, h1, h2, h3⟩
  · rw [h1, h2, h3]
    exact ⟨hb, hr⟩
  · rw [h1, h2, h3]
    refine ⟨?_, hr⟩
    intro node packet hp
    rcases mem_setBuffer _ _ _ _ _ hp with ⟨rfl, hq⟩ | ⟨_, hq⟩
    · rcases List.mem_cons.mp hq with rfl | hq
      · have hf := hb node front (by rw [hbuf]; exact List.mem_cons_self _ _)
        exact ⟨hf.1, rfl, hf.2.2⟩
      · exact hb node packet (by rw [hbuf]; exact List.mem_cons_of_mem _ hq)
    · exact hb node packet hq
  · rw [h1, h2, h3]
    have hf := hb current front (by rw [hbuf]; exact List.mem_cons_self _ _)
    constructor
    · intro node packet hp
      rcases mem_setBuffer _ _ _ _ _ hp with ⟨rfl, hq⟩ | ⟨_, hq⟩
      · exact hb node packet (by rw [hbuf]; exact List.mem_cons_of_mem _ hq)
      · exact hb node packet hq
    · constructor
      · rw [hr.1, List.map_append]
        rfl
      · intro packet hp
        rcases List.mem_append.mp hp with hp | hp
        · exact hr.2 packet hp
        · rw [List.mem_singleton] at hp
          subst hp
          obtain ⟨_, _, source, destination, hs, hd, _, _, hsum⟩ := hf
          refine ⟨source, destination, hs, hd, ?_⟩
          have hcd : destination = current := by
            rw [hd] at hdest
            exact Option.some.inj hdest
          rw [hcd, hself current hk] at hsum
          rw [hcd]
          dsimp only
          omega
  · rw [h1, h2, h3]
    refine ⟨?_, hr⟩
    have hf := hb current front (by rw [hbuf]; exact List.mem_cons_self _ _)
    obtain ⟨_, _, source, destination, hs, hd, hks, hkd, hsum⟩ := hf
    have hne : destination ≠ current := by
      intro e
      apply hdest
      rw [hd, e]
    rw [hd] at hnext
    obtain ⟨hkn, hdist⟩ := hmin current destination next hk hkd hne hnext
    intro node packet hp
    rcases mem_pushPacket _ _ _ _ _ hp with hq | ⟨rfl, rfl⟩
    · rcases mem_setBuffer _ _ _ _ _ hq with ⟨hn, hq2⟩ | ⟨_, hq2⟩
      · rw [hn]
        exact hb current packet (by rw [hbuf]; exact List.mem_cons_of_mem _ hq2)
      · exact hb node packet hq2
    · refine ⟨hkn, rfl, source, destination, hs, hd, hks, hkd, ?_⟩
      dsimp only
      omega

theorem routePackets_hops (sim : Simulator)
    (hmin : ∀ c d next, sim.known c → sim.known d → d ≠ c →
      sim.nextHop c (some d) = some next → sim.known next ∧ next.distance d + 1 = c.distance d)
    (hself : ∀ c, sim.known c → c.distance c = 0)
    (hb : HopsConsistent sim.known sim.nodeBuffers)
    (hr : RetiredConsistent sim.retired sim.metrics.hopCounts) :
    HopsConsistent sim.known sim.routePackets.nodeBuffers ∧
      RetiredConsistent sim.routePackets.retired sim.routePackets.metrics.hopCounts := by
  exact routePacketsTrace_hop_inv sim
    (fun st => HopsConsistent sim.known st.nodeBuffers ∧
      RetiredConsistent st.retired st.metrics.hopCounts)
    ⟨hb, hr⟩
    (fun st st2 hI hshape => hop_step sim.nextHop sim.known hmin hself st st2 hshape hI.1 hI.2)

theorem hopsConsistent_push (known : NodeRef → Prop) (b : NodeRef → List Packet)
    (node destNode : NodeRef) (nodeId destinationId cycle : Int)
    (hb : HopsConsistent known b) (hn : known node) (hd : known destNode) :
    HopsConsistent known
      (Simulator.pushPacket b node (Packet.inject nodeId destinationId cycle node destNode)) := by
  intro n packet hp
  rcases mem_pushPacket _ _ _ _ _ hp with hq | ⟨rfl, rfl⟩
  · exact hb n packet hq
  · refine ⟨hn, rfl, n, destNode, rfl, rfl, hn, hd, ?_⟩
    simp [Packet.inject]

/-- `injectPackets` appends packets with hop count 0 whose source is the node of the buffer
and keeps the hop counts of the buffers consistent with the distances. -/
theorem injectPackets_hops (sim : Simulator) (injectionRate : ℚ) (draws : Nat → InjectionDraw)
    (hb : HopsConsistent sim.known sim.nodeBuffers) :
    ∀ s k, sim.injectPackets injectionRate draws = some (s, k) →
      ∃ b, s = { sim with nodeBuffers := b } ∧ HopsConsistent sim.known b := by
  have hJ0 : ∀ s k, (some (sim, (0 : Int)) : Option (Simulator × Int)) = some (s, k) →
      ∃ b, s = { sim with nodeBuffers := b } ∧ HopsConsistent sim.known b := by
    intro s k h
    simp only [Option.some.injEq, Prod.mk.injEq] at h
    obtain ⟨rfl, rfl⟩ := h
    exact ⟨sim.nodeBuffers, rfl, hb⟩
  unfold Simulator.injectPackets
  split
  · rename_i hmode
    apply foldl_inv _ (fun (state : Option (Simulator × Int)) => ∀ s k, state = some (s, k) →
      ∃ b, s = { sim with nodeBuffers := b } ∧ HopsConsistent sim.known b) _ _ _ hJ0
    intro state nodeId _ hstate s k hs
    unfold Simulator.injectHypercubeNode at hs
    split at hs
    · cases hs
    · rename_i s1 k1
      obtain ⟨b1, rfl, hI1⟩ := hstate s1 k1 rfl
      dsimp only at hs
      split at hs
      · exact hstate s k hs
      · rename_i node hnode
        split at hs
        · split at hs
          · cases hs
          · rename_i destinationId _
            split at hs
            · split at hs
              · exact hstate s k hs
              · rename_i destNode hdestNode
                simp only [Option.some.injEq, Prod.mk.injEq] at hs
                obtain ⟨rfl, rfl⟩ := hs
                refine ⟨_, rfl, hopsConsistent_push _ _ _ _ _ _ _ hI1 ?_ ?_⟩
                · unfold Simulator.known
                  rw [if_pos hmode]
                  exact ⟨_, _, hnode, rfl⟩
                · unfold Simulator.known
                  rw [if_pos hmode]
                  exact ⟨_, _, hdestNode, rfl⟩
            · exact hstate s k hs
        · exact hstate s k hs
  · rename_i hmode
    apply foldl_inv _ (fun (state : Option (Simulator × Int)) => ∀ s k, state = some (s, k) →
      ∃ b, s = { sim with nodeBuffers := b } ∧ HopsConsistent sim.known b) _ _ _ hJ0
    intro state x _ hstate
    apply foldl_inv _ (fun (state : Option (Simulator × Int)) => ∀ s k, state = some (s, k) →
      ∃ b, s = { sim with nodeBuffers := b } ∧ HopsConsistent sim.known b) _ _ _ hstate
    intro state y _ hstate s k hs
    unfold Simulator.injectMeshNode at hs
    split at hs
    · cases hs
    · rename_i s1 k1
      obtain ⟨b1, rfl, hI1⟩ := hstate s1 k1 rfl
      dsimp only at hs
      split at hs
      · exact hstate s k hs
      · rename_i node hnode
        split at hs
        · split at hs
          · cases hs
          · split at hs
            · exact hstate s k hs
            · rename_i destNode hdestNode
              simp only [Option.some.injEq, Prod.mk.injEq] at hs
              obtain ⟨rfl, rfl⟩ := hs
              refine ⟨_, rfl, hopsConsistent_push _ _ _ _ _ _ _ hI1 ?_ ?_⟩
              · unfold Simulator.known
                rw [if_neg hmode]
                exact ⟨_, _, _, hnode, rfl⟩
              · unfold Simulator.known
                rw [if_neg hmode]
                exact ⟨_, _, _, hdestNode, rfl⟩
        · exact hstate s k hs

theorem distance_self (c : NodeRef) : c.distance c = 0 := by
  cases c with
  | mesh v => exact manhattan_self v
  | cube v =>
      simp only [NodeRef.distance, Nat.xor_self]
      rfl

theorem distance_cube (n a b : Nat) :
    (NodeRef.cube (HypercubeNetwork.newNode n a)).distance
      (NodeRef.cube (HypercubeNetwork.newNode n b)) = (popcount (a ^^^ b) : Int) := by
  simp [NodeRef.distance, HypercubeNetwork.newNode, Node.ofId]

theorem findSome?_range_first {β : Type} (f : Nat → Option β) (b : β) (k : Nat)
    (hlt : ∀ j, j < k → f j = none) (hk : f k = some b) :
    ∀ n, k < n → (List.range n).findSome? f = some b := by
  intro n
  induction n with
  | zero => intro h; omega
  | succ n ih =>
      intro h
      rw [List.range_succ, List.findSome?_append]
      by_cases hkn : k < n
      · rw [ih hkn]
        rfl
      · have e : k = n := by omega
        subst e
        have hnone : (List.range k).findSome? f = none := by
          rw [List.findSome?_eq_none_iff]
          intro x hx
          exact hlt x (List.mem_range.mp hx)
        rw [hnone]
        simp [hk]

theorem getHypercubeNode_int (n : Nat) (id : Int) (v : HypercubeNode)
    (h : (HypercubeNetwork.new n).initializeTopology.getHypercubeNode id = some v) :
    ∃ a, a < 2 ^ n ∧ v = HypercubeNetwork.newNode n a := by
  have hpos : 0 ≤ id := by
    unfold HypercubeNetwork.getHypercubeNode at h
    split at h
    · rename_i hc
      exact hc.1
    · cases h
  obtain ⟨a, rfl⟩ := Int.eq_ofNat_of_zero_le hpos
  exact ⟨a, getHypercubeNode_eq n a v h⟩

theorem known_cube (sim : Simulator) (n : Nat) (hmode : sim.isHypercubeMode = true)
    (hnet : sim.hypercubeNet = (HypercubeNetwork.new n).initializeTopology) (c : NodeRef) :
    sim.known c ↔ ∃ a, a < 2 ^ n ∧ c = NodeRef.cube (HypercubeNetwork.newNode n a) := by
  unfold Simulator.known
  rw [if_pos hmode, hnet]
  constructor
  · rintro ⟨id, v, hv, rfl⟩
    obtain ⟨a, ha, rfl⟩ := getHypercubeNode_int n id v hv
    exact ⟨a, ha, rfl⟩
  · rintro ⟨a, ha, rfl⟩
    exact ⟨(a : Int), _, getHypercubeNode_some n a ha, rfl⟩

theorem nextHop_cube (sim : Simulator) (n : Nat) (hmode : sim.isHypercubeMode = true)
    (hnet : sim.hypercubeNet = (HypercubeNetwork.new n).initializeTopology) (a d k : Nat)
    (ks : List Nat) (ha : a < 2 ^ n) (hdiff : diffDims n a d = k :: ks) :
    sim.nextHop (NodeRef.cube (HypercubeNetwork.newNode n a))
      (some (NodeRef.cube (HypercubeNetwork.newNode n d))) =
      some (NodeRef.cube (HypercubeNetwork.newNode n (a ^^^ 2 ^ k))) := by
  obtain ⟨hk, hbit, hlow⟩ := diffDims_head n a d k ks hdiff
  unfold Simulator.nextHop
  rw [if_pos hmode]
  unfold Simulator.calculateNextHopHypercube
  simp only [hmode, Bool.not_true, Bool.false_eq_true, if_false, NodeRef.asHypercube, hnet]
  have hlen : min (HypercubeNetwork.newNode n a).coordinates.length
      (HypercubeNetwork.newNode n d).coordinates.length = n := by
    simp [HypercubeNetwork.newNode, getCoordinates_length]
  rw [hlen]
  rw [findSome?_range_first _ (HypercubeNetwork.newNode n (a ^^^ 2 ^ k)) k ?_ ?_ n hk]
  · intro j hj
    have hjn : j < n := by omega
    have heq : (HypercubeNetwork.newNode n a).coordinates.getD j 0 =
        (HypercubeNetwork.newNode n d).coordinates.getD j 0 := by
      by_contra hne
      exact (coord_ne_iff n a d j hjn).mp hne (hlow j hj)
    rw [if_neg (not_not.mpr heq)]
  · have hne : (HypercubeNetwork.newNode n a).coordinates.getD k 0 ≠
        (HypercubeNetwork.newNode n d).coordinates.getD k 0 :=
      (coord_ne_iff n a d k hk).mpr hbit
    rw [if_pos hne]
    exact getNeighborInDimension_hypercube n a k ha hk

theorem hmin_cube (sim : Simulator) (n : Nat) (hmode : sim.isHypercubeMode = true)
    (hnet : sim.hypercubeNet = (HypercubeNetwork.new n).initializeTopology) :
    ∀ c d next, sim.known c → sim.known d → d ≠ c →
      sim.nextHop c (some d) = some next →
      sim.known next ∧ next.distance d + 1 = c.distance d := by
  intro c d next hc hd hne hnext
  obtain ⟨a, ha, rfl⟩ := (known_cube sim n hmode hnet c).mp hc
  obtain ⟨b, hb, rfl⟩ := (known_cube sim n hmode hnet d).mp hd
  have hab : a ≠ b := by
    intro e
    apply hne
    rw [e]
  cases hdiff : diffDims n a b with
  | nil => exact absurd ((diffDims_nil_iff n a b ha hb).mp hdiff) hab
  | cons k ks =>
      rw [nextHop_cube sim n hmode hnet a b k ks ha hdiff] at hnext
      have hk := (diffDims_head n a b k ks hdiff).1
      have hfl := flip_lt n a k ha hk
      cases hnext
      refine ⟨(known_cube sim n hmode hnet _).mpr ⟨_, hfl, rfl⟩, ?_⟩
      rw [distance_cube, distance_cube, ← diffDims_length n _ b hfl hb,
        ← diffDims_length n a b ha hb, diffDims_flip n a b k ks hdiff, hdiff]
      simp
theorem known_mesh (sim : Simulator) (w h : Nat) (hmode : sim.isHypercubeMode = false)
    (hnet : sim.network = Network.new w h) (c : NodeRef) :
    sim.known c ↔ ∃ i j : Nat, i < w ∧ j < h ∧ c = NodeRef.mesh (Node.ofXY (i : Int) (j : Int)) := by
  unfold Simulator.known
  rw [hmode, hnet]
  simp only [Bool.false_eq_true, if_false]
  constructor
  · rintro ⟨x, y, v, hv, rfl⟩
    obtain ⟨i, j, hi, hj, _, _, rfl⟩ := mesh_getNode_some w h x y v hv
    exact ⟨i, j, hi, hj, rfl⟩
  · rintro ⟨i, j, hi, hj, rfl⟩
    refine ⟨(i : Int), (j : Int), _, ?_, rfl⟩
    rw [mesh_getNode_new, mesh_getNode, if_pos ⟨hi, hj⟩]

theorem nextHop_mesh (sim : Simulator) (w h : Nat) (hmode : sim.isHypercubeMode = false)
    (hnet : sim.network = Network.new w h) (i j k m : Nat) (hi : i < w) (hj : j < h)
    (hk : k < w) (hm : m < h) (hne : ¬ (i = k ∧ j = m)) :
    ∃ i2 j2 : Nat, i2 < w ∧ j2 < h ∧
      sim.nextHop (NodeRef.mesh (Node.ofXY (i : Int) (j : Int)))
        (some (NodeRef.mesh (Node.ofXY (k : Int) (m : Int)))) =
        some (NodeRef.mesh (Node.ofXY (i2 : Int) (j2 : Int))) ∧
      ((i ≠ k → j2 = j ∧ (if i < k then i2 = i + 1 else i2 + 1 = i)) ∧
       (i = k → i2 = i ∧ (if j < m then j2 = j + 1 else j2 + 1 = j))) := by
  unfold Simulator.nextHop
  rw [hmode]
  simp only [Bool.false_eq_true, if_false]
  unfold Simulator.calculateNextHop
  have hx1 : (NodeRef.mesh (Node.ofXY (i : Int) (j : Int))).getX = (i : Int) := rfl
  have hy1 : (NodeRef.mesh (Node.ofXY (i : Int) (j : Int))).getY = (j : Int) := rfl
  have hx2 : (NodeRef.mesh (Node.ofXY (k : Int) (m : Int))).getX = (k : Int) := rfl
  have hy2 : (NodeRef.mesh (Node.ofXY (k : Int) (m : Int))).getY = (m : Int) := rfl
  simp only [hmode, Bool.false_eq_true, if_false, hx1, hy1, hx2, hy2, hnet, mesh_getNode_iff]
  by_cases hik : i = k
  · subst hik
    have hjm : j ≠ m := fun e => hne ⟨rfl, e⟩
    have hjm2 : (j : Int) ≠ (m : Int) := by omega
    simp only [ne_eq, not_true_eq_false, if_false, hjm2, not_false_eq_true, if_true]
    by_cases hlt : j < m
    · have hlt2 : (j : Int) < (m : Int) := by omega
      have hr : 0 ≤ (i : Int) ∧ (i : Int) < (w : Int) ∧ 0 ≤ (j : Int) + 1 ∧
          (j : Int) + 1 < (h : Int) := by omega
      simp only [hlt2, if_true, hr, and_self]
      exact ⟨i, j + 1, hi, by omega, by push_cast; rfl, by simp [hlt]⟩
    · have hlt2 : ¬ (j : Int) < (m : Int) := by omega
      have hr : 0 ≤ (i : Int) ∧ (i : Int) < (w : Int) ∧ 0 ≤ (j : Int) - 1 ∧
          (j : Int) - 1 < (h : Int) := by omega
      simp only [hlt2, if_false, hr, and_self, if_true]
      refine ⟨i, j - 1, hi, by omega, ?_, ?_⟩
      · have e : ((j - 1 : Nat) : Int) = (j : Int) - 1 := by omega
        rw [e]
      · simp [hlt]
        omega
  · have hik2 : (i : Int) ≠ (k : Int) := by omega
    simp only [ne_eq, hik2, not_false_eq_true, if_true]
    by_cases hlt : i < k
    · have hlt2 : (i : Int) < (k : Int) := by omega
      have hr : 0 ≤ (i : Int) + 1 ∧ (i : Int) + 1 < (w : Int) ∧ 0 ≤ (j : Int) ∧
          (j : Int) < (h : Int) := by omega
      simp only [hlt2, if_true, hr, and_self]
      exact ⟨i + 1, j, by omega, hj, by push_cast; rfl, by simp [hlt, hik]⟩
    · have hlt2 : ¬ (i : Int) < (k : Int) := by omega
      have hr : 0 ≤ (i : Int) - 1 ∧ (i : Int) - 1 < (w : Int) ∧ 0 ≤ (j : Int) ∧
          (j : Int) < (h : Int) := by omega
      simp only [hlt2, if_false, hr, and_self, if_true]
      refine ⟨i - 1, j, by omega, hj, ?_, ?_⟩
      · have e : ((i - 1 : Nat) : Int) = (i : Int) - 1 := by omega
        rw [e]
      · simp [hlt, hik]
        omega

theorem hmin_mesh (sim : Simulator) (w h : Nat) (hmode : sim.isHypercubeMode = false)
    (hnet : sim.network = Network.new w h) :
    ∀ c d next, sim.known c → sim.known d → d ≠ c →
      sim.nextHop c (some d) = some next →
      sim.known next ∧ next.distance d + 1 = c.distance d := by
  intro c d next hc hd hne hnext
  obtain ⟨i, j, hi, hj, rfl⟩ := (known_mesh sim w h hmode hnet c).mp hc
  obtain ⟨k, m, hk, hm, rfl⟩ := (known_mesh sim w h hmode hnet d).mp hd
  have hcell : ¬ (i = k ∧ j = m) := by
    rintro ⟨rfl, rfl⟩
    exact hne rfl
  obtain ⟨i2, j2, hi2, hj2, hhop, hx, hy⟩ :=
    nextHop_mesh sim w h hmode hnet i j k m hi hj hk hm hcell
  rw [hhop] at hnext
  cases hnext
  refine ⟨(known_mesh sim w h hmode hnet _).mpr ⟨i2, j2, hi2, hj2, rfl⟩, ?_⟩
  simp only [NodeRef.distance, DuatoProtocol.calculateManhattanDistance, Node.ofXY]
  by_cases hik : i = k
  · obtain ⟨e1, e2⟩ := hy hik
    split at e2 <;> omega
  · obtain ⟨e1, e2⟩ := hx hik
    split at e2 <;> omega

theorem known_congr (a b : Simulator) (h : a.SameSetup b) : a.known = b.known := by
  funext node
  unfold Simulator.known
  rw [h.2.2.2.1, h.2.2.2.2.1, h.2.2.2.2.2]

theorem nextHop_congr (a b : Simulator) (h : a.SameSetup b) : a.nextHop = b.nextHop := by
  funext current destination
  unfold Simulator.nextHop Simulator.calculateNextHopHypercube Simulator.calculateNextHop
  rw [h.2.2.2.1, h.2.2.2.2.1, h.2.2.2.2.2]

/-- The topology of the simulator is a built hypercube (in hypercube mode) or a built mesh
(in mesh mode): next hops go one step closer to the destination. -/
theorem hmin_built (sim : Simulator) (n w h : Nat)
    (htopo : (sim.isHypercubeMode = true ∧
        sim.hypercubeNet = (HypercubeNetwork.new n).initializeTopology) ∨
      (sim.isHypercubeMode = false ∧ sim.network = Network.new w h)) :
    ∀ c d next, sim.known c → sim.known d → d ≠ c →
      sim.nextHop c (some d) = some next →
      sim.known next ∧ next.distance d + 1 = c.distance d := by
  rcases htopo with ⟨hmode, hnet⟩ | ⟨hmode, hnet⟩
  · exact hmin_cube sim n hmode hnet
  · exact hmin_mesh sim w h hmode hnet

theorem applyCalls_hops (sim : Simulator) (n w h : Nat)
    (htopo : (sim.isHypercubeMode = true ∧
        sim.hypercubeNet = (HypercubeNetwork.new n).initializeTopology) ∨
      (sim.isHypercubeMode = false ∧ sim.network = Network.new w h))
    (calls : List SimCall) :
    ∀ s k, sim.applyCalls calls = some (s, k) →
      s.SameSetup sim ∧ HopsConsistent sim.known s.nodeBuffers ∧
        RetiredConsistent s.retired s.metrics.hopCounts := by
  have hmin := hmin_built sim n w h htopo
  unfold Simulator.applyCalls
  apply foldl_inv _ (fun (state : Option (Simulator × Int)) =>
    ∀ s k, state = some (s, k) → s.SameSetup sim ∧ HopsConsistent sim.known s.nodeBuffers ∧
      RetiredConsistent s.retired s.metrics.hopCounts)
  · intro state call _ hstate s k hs
    unfold Simulator.applyCall at hs
    split at hs
    · cases hs
    · rename_i s1 k1
      obtain ⟨hsame, hb, hr⟩ := hstate s1 k1 rfl
      split at hs
      · split at hs
        · cases hs
        · rename_i s2 k2 hinj
          simp only [Option.some.injEq, Prod.mk.injEq] at hs
          obtain ⟨rfl, rfl⟩ := hs
          have hb1 : HopsConsistent s1.known s1.nodeBuffers := by
            rw [known_congr s1 sim hsame]
            exact hb
          obtain ⟨b, rfl, hb2⟩ := injectPackets_hops s1 _ _ hb1 _ _ hinj
          rw [known_congr s1 sim hsame] at hb2
          exact ⟨hsame, hb2, hr⟩
      · simp only [Option.some.injEq, Prod.mk.injEq] at hs
        obtain ⟨rfl, rfl⟩ := hs
        have hk := known_congr s1 sim hsame
        have hn := nextHop_congr s1 sim hsame
        have := routePackets_hops s1 (by rw [hk, hn]; exact hmin)
          (fun c _ => distance_self c) (by rw [hk]; exact hb) hr
        rw [hk] at this
        exact ⟨hsame, this.1, this.2⟩
      · simp only [Option.some.injEq, Prod.mk.injEq] at hs
        obtain ⟨rfl, rfl⟩ := hs
        exact ⟨hsame, hb, hr⟩
  · intro s k hs
    simp only [Option.some.injEq, Prod.mk.injEq] at hs
    obtain ⟨rfl, rfl⟩ := hs
    refine ⟨⟨rfl, rfl, rfl, rfl, rfl, rfl⟩, ?_, ?_⟩
    · intro node packet hp
      cases hp
    · refine ⟨rfl, ?_⟩
      intro packet hp
      cases hp

theorem runSimulation_hops (sim : Simulator) (n w h : Nat)
    (htopo : (sim.isHypercubeMode = true ∧
        sim.hypercubeNet = (HypercubeNetwork.new n).initializeTopology) ∨
      (sim.isHypercubeMode = false ∧ sim.network = Network.new w h))
    (injectionRate : ℚ) (config : RunConfig) (draws : Int → Nat → InjectionDraw)
    (r : Simulator) (hr : sim.runSimulation injectionRate config draws = some r) :
    HopsConsistent sim.known r.nodeBuffers ∧
      RetiredConsistent r.retired r.metrics.hopCounts := by
  have hmin := hmin_built sim n w h htopo
  obtain ⟨ms, c, rfl, _, hb, hret⟩ := runSimulation_inv sim injectionRate config draws
    (fun _ s => s.SameSetup sim ∧ HopsConsistent sim.known s.nodeBuffers ∧
      RetiredConsistent s.retired s.metrics.hopCounts)
    (fun _ _ _ _ hP => hP)
    (fun _ => by
      refine ⟨⟨rfl, rfl, rfl, rfl, rfl, rfl⟩, ?_, ?_⟩
      · intro node packet hp
        cases hp
      · refine ⟨rfl, ?_⟩
        intro packet hp
        cases hp)
    (fun c s s2 k hP hinj => by
      obtain ⟨hsame, hb, hret⟩ := hP
      have hsame1 : (s.updateCurrentCycle c).SameSetup sim := hsame
      have hb1 : HopsConsistent (s.updateCurrentCycle c).known
          (s.updateCurrentCycle c).nodeBuffers := by
        rw [known_congr _ sim hsame1]
        exact hb
      obtain ⟨b, rfl, hb2⟩ := injectPackets_hops (s.updateCurrentCycle c) _ _ hb1 _ _ hinj
      rw [known_congr _ sim hsame1] at hb2
      have hsame2 : ({ s.updateCurrentCycle c with nodeBuffers := b } : Simulator).SameSetup
          sim := hsame
      have hk := known_congr _ sim hsame2
      have hn := nextHop_congr _ sim hsame2
      have := routePackets_hops ({ s.updateCurrentCycle c with nodeBuffers := b } : Simulator)
        (by rw [hk, hn]; exact hmin) (fun c _ => distance_self c) (by rw [hk]; exact hb2) hret
      rw [hk] at this
      exact ⟨hsame, this.1, this.2⟩)
    (fun _ s hP => hP)
    r hr
  exact ⟨hb, hret⟩

/-- C35: on a simulator whose topology is the built hypercube of dimension `n` (hypercube
mode) or the built `w` x `h` mesh (mesh mode). Every execution of the body of a node loop
of `routePackets` has one of the shapes of `HopShape`: a hop count changes only in the
fourth shape, by +1, for the packet that is moved to the buffer of its next hop. The next
hop of a node other than the destination is a node of the topology one step closer to the
destination: on the hypercube the node whose id has the lowest differing bit flipped, on
the mesh one step in X when the X coordinates differ and one step in Y otherwise. Hence
after `reset()` and any sequence of calls of `injectPackets`, `routePackets` and
`updateCurrentCycle`, and after `runSimulation`, every buffered packet has
`hopCount + distance(node of the buffer, destination) = distance(source, destination)`,
and the recorded hop counts are those of the retired packets, each equal to the distance
(Hamming distance of the ids, Manhattan distance of the cells) between the source and the
destination of its packet. -/
theorem hop_count_tracks_distance (sim : Simulator) (n w h : Nat)
    (htopo : (sim.isHypercubeMode = true ∧
        sim.hypercubeNet = (HypercubeNetwork.new n).initializeTopology) ∨
      (sim.isHypercubeMode = false ∧ sim.network = Network.new w h)) :
    (∀ (cap maxGlobal : Int) (st : RouteState) (nodeId : Nat), sim.isHypercubeMode = true →
      HopShape sim.nextHop sim.known st
        (Simulator.routeHypercubeNode sim cap maxGlobal st nodeId)) ∧
    (∀ (st : RouteState) (x y : Nat), sim.isHypercubeMode = false →
      HopShape sim.nextHop sim.known st (Simulator.routeMeshNode sim st x y)) ∧
    (∀ c d next, sim.known c → sim.known d → d ≠ c → sim.nextHop c (some d) = some next →
      sim.known next ∧ next.distance d + 1 = c.distance d) ∧
    (sim.isHypercubeMode = true → ∀ (a d k : Nat) (ks : List Nat), a < 2 ^ n →
      diffDims n a d = k :: ks →
      sim.nextHop (NodeRef.cube (HypercubeNetwork.newNode n a))
        (some (NodeRef.cube (HypercubeNetwork.newNode n d))) =
        some (NodeRef.cube (HypercubeNetwork.newNode n (a ^^^ 2 ^ k)))) ∧
    (sim.isHypercubeMode = false → ∀ i j k m : Nat, i < w → j < h → k < w → m < h →
      ¬ (i = k ∧ j = m) →
      ∃ i2 j2 : Nat, i2 < w ∧ j2 < h ∧
        sim.nextHop (NodeRef.mesh (Node.ofXY (i : Int) (j : Int)))
          (some (NodeRef.mesh (Node.ofXY (k : Int) (m : Int)))) =
          some (NodeRef.mesh (Node.ofXY (i2 : Int) (j2 : Int))) ∧
        ((i ≠ k → j2 = j ∧ (if i < k then i2 = i + 1 else i2 + 1 = i)) ∧
         (i = k → i2 = i ∧ (if j < m then j2 = j + 1 else j2 + 1 = j)))) ∧
    (∀ (calls : List SimCall) (s : Simulator) (k : Int),
      sim.applyCalls calls = some (s, k) →
      HopsConsistent sim.known s.nodeBuffers ∧
        RetiredConsistent s.retired s.metrics.hopCounts) ∧
    (∀ (injectionRate : ℚ) (config : RunConfig) (draws : Int → Nat → InjectionDraw)
        (r : Simulator), sim.runSimulation injectionRate config draws = some r →
      HopsConsistent sim.known r.nodeBuffers ∧
        RetiredConsistent r.retired r.metrics.hopCounts) := by
  refine ⟨fun cap maxGlobal st nodeId hmode =>
      routeHypercubeNode_hop sim hmode cap maxGlobal st nodeId,
    fun st x y hmode => routeMeshNode_hop sim hmode st x y,
    hmin_built sim n w h htopo, ?_, ?_, ?_, ?_⟩
  · intro hmode a d k ks ha hdiff
    rcases htopo with ⟨_, hnet⟩ | ⟨hm2, _⟩
    · exact nextHop_cube sim n hmode hnet a d k ks ha hdiff
    · rw [hmode] at hm2
      cases hm2
  · intro hmode i j k m hi hj hk hm hne
    rcases htopo with ⟨hm2, _⟩ | ⟨_, hnet⟩
    · rw [hmode] at hm2
      cases hm2
    · exact nextHop_mesh sim w h hmode hnet i j k m hi hj hk hm hne
  · intro calls s k hrun
    exact (applyCalls_hops sim n w h htopo calls s k hrun).2
  · intro injectionRate config draws r hr
    exact runSimulation_hops sim n w h htopo injectionRate config draws r hr

theorem hop_count_tracks_distance_witness :
    (((Simulator.ofMesh 2 1).isHypercubeMode = true ∧
        (Simulator.ofMesh 2 1).hypercubeNet = (HypercubeNetwork.new 0).initializeTopology) ∨
      ((Simulator.ofMesh 2 1).isHypercubeMode = false ∧
        (Simulator.ofMesh 2 1).network = Network.new 2 1)) ∧
    ((Simulator.ofMesh 2 1).runSimulation (1 / 100) ⟨1, 1, 4⟩
        (fun c n => if c = 0 ∧ n = 0 then ⟨0, [1]⟩ else ⟨1, [0, 1]⟩)).map
      (fun r => r.metrics.hopCounts) = some [1] ∧
    ∃ r, (Simulator.ofMesh 2 1).runSimulation (1 / 100) ⟨1, 1, 4⟩
        (fun c n => if c = 0 ∧ n = 0 then ⟨0, [1]⟩ else ⟨1, [0, 1]⟩) = some r ∧
      HopsConsistent (Simulator.ofMesh 2 1).known r.nodeBuffers ∧
      RetiredConsistent r.retired r.metrics.hopCounts := by
  refine ⟨Or.inr ⟨rfl, rfl⟩, by decide!, ?_⟩
  cases hr : (Simulator.ofMesh 2 1).runSimulation (1 / 100) ⟨1, 1, 4⟩
      (fun c n => if c = 0 ∧ n = 0 then ⟨0, [1]⟩ else ⟨1, [0, 1]⟩) with
  | none =>
      exfalso
      have hmap : ((Simulator.ofMesh 2 1).runSimulation (1 / 100) ⟨1, 1, 4⟩
          (fun c n => if c = 0 ∧ n = 0 then ⟨0, [1]⟩ else ⟨1, [0, 1]⟩)).map
          (fun r => r.metrics.hopCounts) = some [1] := by decide!
      rw [hr] at hmap
      cases hmap
  | some r =>
      exact ⟨r, rfl, (hop_count_tracks_distance (Simulator.ofMesh 2 1) 0 2 1
        (Or.inr ⟨rfl, rfl⟩)).2.2.2.2.2.2 _ _ _ r hr⟩

end OmniSim
